import Mathlib

/-!
Scene-graph import and mesh-part construction (GPUTechniquesCode).

A shallow embedding of the import pipeline of `Code/Rendering/*/main.c`
(variants "2. FBX Loading", "3. PNG Loading" and "4. PBR  Rendering").

Conventions of the embedding.

* `D` is the type of the source parser's reals (`ufbx_real`, a C `double`) and
  `F` the type of a C `float`; the narrowing `(float)` of `conv_float` is the
  parameter `conv : D → F`.  Equality in `F` is bit-equality of the float.
  Where a claim is about exact matrix arithmetic `F` is a commutative ring.
* Nodes live in a heap: a `struct Node*` is a natural number, an index into
  `Heap.nodes`, and `NULL` is `none`.  `calloc` appends a zeroed record.  Texture tables are arrays in
  `Heap.textures`.
* A C failure (null dereference, access outside an allocation, failed
  `assert`, overflow of an `int` product) is an `Except.error`.
* `size_t` and `uint32_t` counters of the importer are natural numbers; the
  byte sizes of the texture upload are computed modulo `2 ^ 64`.
-/

namespace GPU

/-! ## HandmadeMath records -/

/-- Record `Vec2`: two components. -/
structure Vec2 (F : Type) where
  X : F
  Y : F
deriving DecidableEq, Repr

/-- Record `Vec3`: three components. -/
structure Vec3 (F : Type) where
  X : F
  Y : F
  Z : F
deriving DecidableEq, Repr

/-- Record `Vec4`: four components (also the layout of `Quat`). -/
structure Vec4 (F : Type) where
  X : F
  Y : F
  Z : F
  W : F
deriving DecidableEq, Repr

/-- Quaternion `Quat`: components X, Y, Z, W. -/
abbrev Quat (F : Type) := Vec4 F

/-- The 4x4 matrix type `Mat4`, over exact arithmetic. -/
abbrev Mat4 (F : Type) := Matrix (Fin 4) (Fin 4) F

/-- Macro `conv_float` on a two-component vector: component-wise narrowing. -/
def Vec2.conv_float {D F : Type} (conv : D → F) (v : Vec2 D) : Vec2 F :=
  ⟨conv v.X, conv v.Y⟩

/-- Macro `conv_float` on a three-component vector. -/
def Vec3.conv_float {D F : Type} (conv : D → F) (v : Vec3 D) : Vec3 F :=
  ⟨conv v.X, conv v.Y, conv v.Z⟩

/-- Macro `conv_float` on a four-component vector or quaternion. -/
def Vec4.conv_float {D F : Type} (conv : D → F) (v : Vec4 D) : Vec4 F :=
  ⟨conv v.X, conv v.Y, conv v.Z, conv v.W⟩

/-- Constructor `V4(x, y, z, w)`. -/
def V4 {F : Type} (x y z w : F) : Vec4 F := ⟨x, y, z, w⟩

/-! ## Failures -/

/-- The ways the C code can fail. -/
inductive Failure where
  | null_deref
  | out_of_range
  | assert_failed
  | signed_overflow
deriving DecidableEq, Repr

/-! ## The source scene, as the parser (ufbx) hands it over -/

/-- A face of the polygon soup: a run of corners. -/
structure ufbx_face where
  index_begin : Nat
  num_indices : Nat
deriving DecidableEq, Repr

/-- A vertex attribute stream (`ufbx_vertex_vec2/3/4`): the presence flag and
the accessor `ufbx_get_vertex_*(&attrib, index)` of the parser. -/
structure ufbx_vertex_attrib (α : Type) where
  exists_ : Bool
  get : Nat → α

/-- A material partition: the faces of a mesh that use one material.
`num_faces` is the count of `face_indices`. -/
structure ufbx_mesh_part where
  num_triangles : Nat
  face_indices : List Nat
deriving DecidableEq, Repr

/-- Count `part->num_faces`. -/
def ufbx_mesh_part.num_faces (part : ufbx_mesh_part) : Nat := part.face_indices.length

/-- A texture of the source scene. -/
structure ufbx_texture where
  filename : String
  relative_filename : String
deriving DecidableEq, Repr

/-- A material; `base_color_texture` is `pbr.base_color.texture` (may be null). -/
structure ufbx_material where
  base_color_texture : Option ufbx_texture
deriving DecidableEq, Repr

/-- A source mesh. -/
structure ufbx_mesh (D : Type) where
  faces : List ufbx_face
  max_face_triangles : Nat
  vertex_position : ufbx_vertex_attrib (Vec3 D)
  vertex_color : ufbx_vertex_attrib (Vec4 D)
  vertex_normal : ufbx_vertex_attrib (Vec3 D)
  vertex_tangent : ufbx_vertex_attrib (Vec3 D)
  vertex_bitangent : ufbx_vertex_attrib (Vec3 D)
  vertex_uv : ufbx_vertex_attrib (Vec2 D)
  materials : List ufbx_material
  material_parts : List ufbx_mesh_part

/-- Light subtypes of the parser. -/
inductive ufbx_light_type where
  | UFBX_LIGHT_POINT
  | UFBX_LIGHT_DIRECTIONAL
  | UFBX_LIGHT_SPOT
  | UFBX_LIGHT_AREA
  | UFBX_LIGHT_VOLUME
deriving DecidableEq, Repr

/-- A light payload; only its subtype is read by the importer. -/
structure ufbx_light where
  type : ufbx_light_type
deriving DecidableEq, Repr

/-- A camera payload; the importer only tests its presence. -/
structure ufbx_camera where
  mk ::
deriving DecidableEq, Repr

/-- Translation, rotation and scale of a source node. -/
structure ufbx_transform (D : Type) where
  translation : Vec3 D
  rotation : Quat D
  scale : Vec3 D

/-- A node of the source scene with its ordered children. -/
inductive ufbx_node (D : Type) where
  | mk (name : String) (local_transform : ufbx_transform D)
      (geometry_transform : ufbx_transform D) (mesh : Option (ufbx_mesh D))
      (light : Option ufbx_light) (camera : Option ufbx_camera) (is_root : Bool)
      (children : List (ufbx_node D))

/-- The parsed scene: its root node and its texture list. -/
structure ufbx_scene (D : Type) where
  root_node : ufbx_node D
  textures : List ufbx_texture

/-- The collaborators the importer calls and that live outside `main.c`:
the narrowing cast of `conv_float`, the parser's `ufbx_triangulate_face`
(given the capacity `num_tri_indices`, the mesh and a face it returns the
number of triangles and the contents of `tri_indices` it wrote), and
`get_asset_path` of `util.h`. -/
structure Ext (D F : Type) where
  conv : D → F
  ufbx_triangulate_face : Nat → ufbx_mesh D → ufbx_face → Nat × (Nat → Nat)
  get_asset_path : String → String

/-- Modelled from the spec: `ufbx_generate_indices` (declared in `ufbx.h`, not
part of `main.c`).  One step of the scan of section 4.2 step 3: a corner that
is bit-identical to an entry of the compacted sequence gets that entry's
position, any other corner is appended and gets the new position. -/
def generate_indices_step {V : Type} [DecidableEq V] (st : List V × List Nat) (v : V) :
    List V × List Nat :=
  if st.1.indexOf v < st.1.length then (st.1, st.2 ++ [st.1.indexOf v])
  else (st.1 ++ [v], st.2 ++ [st.1.length])

/-- Modelled from the spec: the scan of `ufbx_generate_indices` over the whole
unwelded stream, from the empty compacted sequence. -/
def generate_indices_scan {V : Type} [DecidableEq V] (stream : List V) : List V × List Nat :=
  stream.foldl generate_indices_step ([], [])

/-- Modelled from the spec: `ufbx_generate_indices(streams, 1, indices,
num_indices, NULL, NULL)` on the single vertex stream.  It returns the vertex
buffer after compaction in place (the compacted sequence followed by the
untouched tail of the buffer), the index array, and the number of compacted
vertices. -/
def ufbx_generate_indices {V : Type} [DecidableEq V] (stream : List V) :
    List V × List Nat × Nat :=
  let r := generate_indices_scan stream
  (r.1 ++ stream.drop r.1.length, r.2, r.1.length)

/-- The HandmadeMath constructors used by the transform functions and not
modelled further: `Translate`, `QToM4` and `Scale`. -/
structure HandmadeMath (F : Type) where
  Translate : Vec3 F → Mat4 F
  QToM4 : Quat F → Mat4 F
  Scale : Vec3 F → Mat4 F

/-- Modelled from the spec: `MulM4(Left, Right)` of `HandmadeMath.h`, the
product of two 4x4 matrices, `Left` on the left. -/
def MulM4 {F : Type} [CommRing F] (Left Right : Mat4 F) : Mat4 F := Left * Right

/-- Modelled from the spec: `M4D(Diagonal)` of `HandmadeMath.h`, the matrix with
`Diagonal` on the diagonal and zero elsewhere; `M4D(1.0f)` is the identity. -/
def M4D {F : Type} [CommRing F] (Diagonal : F) : Mat4 F := Matrix.diagonal fun _ => Diagonal

/-- Record `struct Texture` restricted to what the importer writes: the path.
The GPU handles are filled in later by the upload step. -/
structure Texture where
  path : String
deriving DecidableEq, Repr

/-- Enumeration `enum NODE_TYPE`; `NODE_TYPE_EMPTY` is the value 0. -/
inductive NODE_TYPE where
  | NODE_TYPE_EMPTY
  | NODE_TYPE_MESH
  | NODE_TYPE_LIGHT_POINT
  | NODE_TYPE_LIGHT_SPOT
  | NODE_TYPE_LIGHT_DIRECTIONAL
  | NODE_TYPE_CAMERA
deriving DecidableEq, Repr

/-! ## Variant "4. PBR  Rendering" -/

namespace PBR

/-- Record `struct Vertex` (packed): the unit of bit-wise comparison. -/
structure Vertex (F : Type) where
  pos : Vec3 F
  color : Vec4 F
  normal : Vec3 F
  tangent : Vec3 F
  bitangent : Vec3 F
  uv : Vec2 F
deriving DecidableEq, Repr

/-- A `calloc`-ed vertex: every component is zero. -/
def Vertex.zero {F : Type} [Zero F] : Vertex F :=
  ⟨⟨0, 0, 0⟩, ⟨0, 0, 0, 0⟩, ⟨0, 0, 0⟩, ⟨0, 0, 0⟩, ⟨0, 0, 0⟩, ⟨0, 0⟩⟩

/-- Record `struct Mesh_Part` restricted to what the importer writes.
`color_texture` points at an element of a texture array: the array and the
position in it. -/
structure Mesh_Part (F : Type) where
  vertex_array : List (Vertex F)
  vertex_count : Nat
  index_array : List Nat
  index_count : Nat
  color_texture : Option (Nat × Nat)
deriving DecidableEq, Repr

/-- Record `struct Node`.  Of the anonymous union only the `mesh` member is
ever written.  `child_array` holds the child pointers stored so far. -/
structure Node (F : Type) where
  type : NODE_TYPE
  mesh_parts : List (Mesh_Part F)
  mesh_parts_count : Nat
  name : String
  local_position : Vec3 F
  local_rotation : Quat F
  local_scale : Vec3 F
  geometry_position : Vec3 F
  geometry_rotation : Quat F
  geometry_scale : Vec3 F
  parent : Option Nat
  child_array : List Nat
  child_count : Nat
  texture_array : Option Nat
  texture_count : Nat
deriving DecidableEq, Repr

/-- A zero-filled `struct Node`, as `calloc` returns it. -/
def Node.zero {F : Type} [Zero F] : Node F where
  type := NODE_TYPE.NODE_TYPE_EMPTY
  mesh_parts := []
  mesh_parts_count := 0
  name := ""
  local_position := ⟨0, 0, 0⟩
  local_rotation := ⟨0, 0, 0, 0⟩
  local_scale := ⟨0, 0, 0⟩
  geometry_position := ⟨0, 0, 0⟩
  geometry_rotation := ⟨0, 0, 0, 0⟩
  geometry_scale := ⟨0, 0, 0⟩
  parent := none
  child_array := []
  child_count := 0
  texture_array := none
  texture_count := 0

/-- The heap: the allocated nodes and the allocated texture arrays. -/
structure Heap (F : Type) where
  nodes : List (Node F)
  textures : List (List Texture)
deriving DecidableEq, Repr

/-- The empty heap. -/
def Heap.empty {F : Type} : Heap F := ⟨[], []⟩

/-- Read `*p` for a node pointer.  The importer only reads through pointers it
has allocated; a pointer outside the heap reads as a zeroed node. -/
def Heap.node {F : Type} [Zero F] (h : Heap F) (p : Nat) : Node F :=
  h.nodes.getD p Node.zero

/-- Write through a node pointer: `*p = f(*p)`. -/
def Heap.update {F : Type} (h : Heap F) (p : Nat) (f : Node F → Node F) : Heap F :=
  { h with nodes := h.nodes.modify f p }

/-- Function `node_create`: `calloc` of one node; returns its address. -/
def node_create {F : Type} [Zero F] (h : Heap F) : Nat × Heap F :=
  (h.nodes.length, { h with nodes := h.nodes ++ [Node.zero] })

/-- The body of the corner loop of `load_mesh_part` (lines 198-234): the record
written into the zeroed slot `vertices[num_vertices]` for corner `index`. -/
def load_corner {D F : Type} [Zero F] [One F] (ext : Ext D F) (mesh : ufbx_mesh D)
    (index : Nat) : Vertex F :=
  let v : Vertex F := Vertex.zero
  let v := if mesh.vertex_position.exists_ then
      { v with pos := (mesh.vertex_position.get index).conv_float ext.conv } else v
  let v := if mesh.vertex_color.exists_ then
      { v with color := (mesh.vertex_color.get index).conv_float ext.conv }
    else { v with color := V4 1 1 1 1 }
  let v := if mesh.vertex_normal.exists_ then
      { v with normal := (mesh.vertex_normal.get index).conv_float ext.conv } else v
  let v := if mesh.vertex_tangent.exists_ then
      { v with tangent := (mesh.vertex_tangent.get index).conv_float ext.conv } else v
  let v := if mesh.vertex_bitangent.exists_ then
      { v with bitangent := (mesh.vertex_bitangent.get index).conv_float ext.conv } else v
  let v := if mesh.vertex_uv.exists_ then
      { v with uv := (mesh.vertex_uv.get index).conv_float ext.conv } else v
  v

/-- The inner loop `for (i = 0; i < num_tris * 3; i++)` over the remaining
values of `i`.  `vertices` holds the records written so far (`num_vertices`
is its length) in a buffer of `cap` slots; `tri_indices` has
`num_tri_indices` slots. -/
def corner_loop {D F : Type} [Zero F] [One F] (ext : Ext D F) (mesh : ufbx_mesh D)
    (cap num_tri_indices : Nat) (tri_indices : Nat → Nat) :
    List Nat → List (Vertex F) → Except Failure (List (Vertex F))
  | [], vertices => .ok vertices
  | i :: rest, vertices =>
    if num_tri_indices ≤ i then .error Failure.out_of_range
    else if cap ≤ vertices.length then .error Failure.out_of_range
    else corner_loop ext mesh cap num_tri_indices tri_indices rest
      (vertices ++ [load_corner ext mesh (tri_indices i)])

/-- The outer loop over the faces of the partition (lines 190-236).  The read
`mesh->faces.data[part->face_indices.data[face_ix]]` (line 192) has no bound
check: a face index that names no face of the mesh is a read out of range. -/
def face_loop {D F : Type} [Zero F] [One F] (ext : Ext D F) (mesh : ufbx_mesh D)
    (cap : Nat) : List Nat → List (Vertex F) → Except Failure (List (Vertex F))
  | [], vertices => .ok vertices
  | face_ix :: rest, vertices =>
    match mesh.faces[face_ix]? with
    | none => .error Failure.out_of_range
    | some face =>
      let num_tri_indices := mesh.max_face_triangles * 3
      let r := ext.ufbx_triangulate_face num_tri_indices mesh face
      match corner_loop ext mesh cap num_tri_indices r.2 (List.range (r.1 * 3)) vertices with
      | .error e => .error e
      | .ok vertices => face_loop ext mesh cap rest vertices

/-- The unwelded corner stream: the contents of `vertices` when
`assert(num_vertices == num_triangles * 3)` has passed (lines 183-239). -/
def unwelded_vertices {D F : Type} [Zero F] [One F] (ext : Ext D F) (mesh : ufbx_mesh D)
    (part : ufbx_mesh_part) : Except Failure (List (Vertex F)) :=
  match face_loop ext mesh (part.num_triangles * 3) part.face_indices [] with
  | .error e => .error e
  | .ok vertices =>
    if vertices.length = part.num_triangles * 3 then .ok vertices
    else .error Failure.assert_failed

/-- The texture loop of `load_mesh_part` (lines 256-262) over the remaining
values of `i`; `node` is the dereferenced fourth argument. -/
def texture_loop {F : Type} (materials : List ufbx_material) (material_index : Nat)
    (node : Node F) (h : Heap F) :
    List Nat → Option (Nat × Nat) → Except Failure (Option (Nat × Nat))
  | [], color_texture => .ok color_texture
  | i :: rest, color_texture =>
    match materials.get? material_index with
    | none => .error Failure.out_of_range
    | some material =>
      match material.base_color_texture with
      | none => texture_loop materials material_index node h rest color_texture
      | some texture =>
        match node.texture_array with
        | none => .error Failure.null_deref
        | some arr =>
          match (h.textures.getD arr []).get? i with
          | none => .error Failure.out_of_range
          | some entry =>
            if texture.filename = entry.path then
              texture_loop materials material_index node h rest (some (arr, i))
            else texture_loop materials material_index node h rest color_texture

/-- Function `load_mesh_part(mesh, part, material_index, node)`.  The statement
`mesh->materials.data[0]->pbr.base_color.texture;` ahead of the texture loop
discards its value and has no effect; it is not modelled. -/
def load_mesh_part {D F : Type} [Zero F] [One F] [DecidableEq F] (ext : Ext D F)
    (mesh : ufbx_mesh D) (part : ufbx_mesh_part) (material_index : Nat)
    (node : Option Nat) (h : Heap F) : Except Failure (Mesh_Part F) :=
  match unwelded_vertices ext mesh part with
  | .error e => .error e
  | .ok vertices =>
    let num_indices := part.num_triangles * 3
    let g := ufbx_generate_indices vertices
    match node with
    | none => .error Failure.null_deref
    | some p =>
      match texture_loop mesh.materials material_index (h.node p) h
          (List.range (h.node p).texture_count) none with
      | .error e => .error e
      | .ok color_texture =>
        .ok { index_array := g.2.1, index_count := num_indices,
              vertex_array := g.1, vertex_count := g.2.2,
              color_texture := color_texture }

/-- The loop over the material partitions of a mesh node (lines 290-293):
entry `i` of `mesh_parts` is `load_mesh_part(mesh, &material_parts.data[i], i, root)`. -/
def mesh_parts_loop {D F : Type} [Zero F] [One F] [DecidableEq F] (ext : Ext D F)
    (mesh : ufbx_mesh D) (root : Option Nat) (h : Heap F) :
    List ufbx_mesh_part → Nat → Except Failure (List (Mesh_Part F))
  | [], _ => .ok []
  | part :: rest, i =>
    match load_mesh_part ext mesh part i root h with
    | .error e => .error e
    | .ok mesh_part =>
      match mesh_parts_loop ext mesh root h rest (i + 1) with
      | .error e => .error e
      | .ok mesh_parts => .ok (mesh_part :: mesh_parts)

/-- The texture table built at the root (lines 310-319): one entry per texture
of the source scene, in order, with `path = get_asset_path(relative_filename)`. -/
def texture_table {D F : Type} (ext : Ext D F) (fbx_scene : ufbx_scene D) : List Texture :=
  fbx_scene.textures.map fun fbx_texture => ⟨ext.get_asset_path fbx_texture.relative_filename⟩

/-- The classification of `load_node` (lines 282-322) for the node at address
`node`.  Returns the value of the local variable `root` afterwards and the heap.
The `calloc` of the texture table is taken to return an array also when the
scene has no texture. -/
def load_payload {D F : Type} [Zero F] [One F] [DecidableEq F] (ext : Ext D F)
    (fbx_scene : ufbx_scene D) (mesh : Option (ufbx_mesh D)) (light : Option ufbx_light)
    (camera : Option ufbx_camera) (is_root : Bool) (node : Nat) (root : Option Nat)
    (h : Heap F) : Except Failure (Option Nat × Heap F) :=
  match mesh with
  | some mesh =>
    match mesh_parts_loop ext mesh root h mesh.material_parts 0 with
    | .error e => .error e
    | .ok mesh_parts =>
      .ok (root, h.update node fun n =>
        { n with type := NODE_TYPE.NODE_TYPE_MESH,
                 mesh_parts_count := mesh.material_parts.length,
                 mesh_parts := mesh_parts })
  | none =>
    if light.any (fun l => l.type = ufbx_light_type.UFBX_LIGHT_POINT) then .ok (root, h)
    else if light.any (fun l => l.type = ufbx_light_type.UFBX_LIGHT_SPOT) then .ok (root, h)
    else if light.any (fun l => l.type = ufbx_light_type.UFBX_LIGHT_DIRECTIONAL) then
      .ok (root, h)
    else if camera.isSome then
      .ok (root, h.update node fun n => { n with type := NODE_TYPE.NODE_TYPE_CAMERA })
    else
      let h := h.update node fun n => { n with type := NODE_TYPE.NODE_TYPE_EMPTY }
      if is_root then
        let texture_array := h.textures.length
        let h : Heap F := { h with textures := h.textures ++ [texture_table ext fbx_scene] }
        .ok (some node, h.update node fun n =>
          { n with texture_count := fbx_scene.textures.length,
                   texture_array := some texture_array })
      else .ok (root, h)

/-- The head of `load_node` (lines 270-280): `node_create`, then the name and
the local and geometry transforms converted with `conv_float`. -/
def load_header {D F : Type} [Zero F] (ext : Ext D F) (name : String)
    (local_transform geometry_transform : ufbx_transform D) (h : Heap F) : Nat × Heap F :=
  let (node, h) := node_create h
  (node, h.update node fun n =>
    { n with name := name,
             local_position := local_transform.translation.conv_float ext.conv,
             local_rotation := local_transform.rotation.conv_float ext.conv,
             local_scale := local_transform.scale.conv_float ext.conv,
             geometry_position := geometry_transform.translation.conv_float ext.conv,
             geometry_rotation := geometry_transform.rotation.conv_float ext.conv,
             geometry_scale := geometry_transform.scale.conv_float ext.conv })

mutual
/-- Function `load_node(fbx_node, root, fbx_scene)`: returns the address of the
new node and the heap after the call. -/
def load_node {D F : Type} [Zero F] [One F] [DecidableEq F] (ext : Ext D F)
    (fbx_scene : ufbx_scene D) :
    ufbx_node D → Option Nat → Heap F → Except Failure (Nat × Heap F)
  | .mk name local_transform geometry_transform mesh light camera is_root children, root, h =>
    let (node, h) := load_header ext name local_transform geometry_transform h
    match load_payload ext fbx_scene mesh light camera is_root node root h with
    | .error e => .error e
    | .ok (root, h) =>
      let h := h.update node fun n =>
        { n with child_array := [], child_count := children.length }
      match load_children ext fbx_scene children node root h with
      | .error e => .error e
      | .ok h => .ok (node, h)
termination_by structural fbx_node => fbx_node
/-- The child loop of `load_node` (lines 326-332) over the remaining children. -/
def load_children {D F : Type} [Zero F] [One F] [DecidableEq F] (ext : Ext D F)
    (fbx_scene : ufbx_scene D) :
    List (ufbx_node D) → Nat → Option Nat → Heap F → Except Failure (Heap F)
  | [], _, _, h => .ok h
  | fbx_child :: rest, node, root, h =>
    match load_node ext fbx_scene fbx_child root h with
    | .error e => .error e
    | .ok (child, h) =>
      let h := h.update node fun n => { n with child_array := n.child_array ++ [child] }
      let h := h.update child fun n => { n with parent := some node }
      let h := h.update child fun n => { n with texture_array := (h.node node).texture_array }
      let h := h.update child fun n => { n with texture_count := (h.node node).texture_count }
      load_children ext fbx_scene rest node root h
termination_by structural fbx_children => fbx_children
end

/-- Function `load_fbx` once `ufbx_load_file` has returned the scene:
`load_node(fbx_scene->root_node, 0, fbx_scene)` on a fresh heap. -/
def load_fbx {D F : Type} [Zero F] [One F] [DecidableEq F] (ext : Ext D F)
    (fbx_scene : ufbx_scene D) : Except Failure (Nat × Heap F) :=
  load_node ext fbx_scene fbx_scene.root_node none Heap.empty

/-- Function `node_local_transform`. -/
def node_local_transform {F : Type} [CommRing F] (hm : HandmadeMath F) (node : Node F) :
    Mat4 F :=
  let translation := hm.Translate node.local_position
  let rotation := hm.QToM4 node.local_rotation
  let scale := hm.Scale node.local_scale
  MulM4 translation (MulM4 rotation scale)

/-- Function `node_geometry_transform`. -/
def node_geometry_transform {F : Type} [CommRing F] (hm : HandmadeMath F) (node : Node F) :
    Mat4 F :=
  let translation := hm.Translate node.geometry_position
  let rotation := hm.QToM4 node.geometry_rotation
  let scale := hm.Scale node.geometry_scale
  MulM4 translation (MulM4 rotation scale)

/-- Function `node_global_transform` with a bound on the depth of the
recursion along `parent`.  `none` stands for a call that does not return a
matrix: a dangling pointer, or a parent chain longer than the bound. -/
def node_global_transform_fuel {F : Type} [CommRing F] (hm : HandmadeMath F) (h : Heap F) :
    Nat → Nat → Option (Mat4 F)
  | 0, _ => none
  | fuel + 1, node =>
    match h.nodes.get? node with
    | none => none
    | some n =>
      match n.parent with
      | none => some (MulM4 (M4D 1) (node_local_transform hm n))
      | some parent_ptr =>
        match node_global_transform_fuel hm h fuel parent_ptr with
        | none => none
        | some parent => some (MulM4 parent (node_local_transform hm n))

/-- Function `node_global_transform`: a parent chain without a cycle is no
longer than the number of allocated nodes. -/
def node_global_transform {F : Type} [CommRing F] (hm : HandmadeMath F) (h : Heap F)
    (node : Nat) : Option (Mat4 F) :=
  node_global_transform_fuel hm h h.nodes.length node

/-- Function `node_global_transform_geometry`. -/
def node_global_transform_geometry {F : Type} [CommRing F] (hm : HandmadeMath F)
    (h : Heap F) (node : Nat) : Option (Mat4 F) :=
  match node_global_transform hm h node, h.nodes.get? node with
  | some g, some n => some (MulM4 g (node_geometry_transform hm n))
  | _, _ => none

/-- What `upload_node_buffers` hands to the device, in program order: for a
mesh part the node, the part number and the `model_to_world` constant; for a
texture its array and position. -/
inductive Upload (F : Type) where
  | mesh_part (node : Nat) (i : Nat) (model_to_world : Mat4 F)
  | texture (texture_array : Nat) (i : Nat)

/-- The node and part number of a mesh-part upload; nothing for a texture
upload. -/
def Upload.part {F : Type} : Upload F → Option (Nat × Nat)
  | .mesh_part node i _ => some (node, i)
  | .texture _ _ => none

/-- The mesh-part loop of `upload_node_buffers` (lines 360-429) over the
remaining values of `i`; `n` is `*node`. -/
def upload_mesh_parts {F : Type} [CommRing F] (hm : HandmadeMath F) (h : Heap F)
    (node : Nat) (n : Node F) : List Nat → Option (List (Upload F))
  | [] => some []
  | i :: rest =>
    match n.mesh_parts.get? i with
    | none => none
    | some mesh_part =>
      if mesh_part.vertex_count = 0 ∨ mesh_part.index_count = 0 then
        upload_mesh_parts hm h node n rest
      else
        match node_global_transform_geometry hm h node with
        | none => none
        | some model_to_world =>
          match upload_mesh_parts hm h node n rest with
          | none => none
          | some uploads => some (Upload.mesh_part node i model_to_world :: uploads)

/-- The texture loop of `upload_node_buffers` (lines 439-486) over the
remaining values of `i`. -/
def upload_textures {F : Type} (h : Heap F) (n : Node F) : List Nat → Option (List (Upload F))
  | [] => some []
  | i :: rest =>
    match n.texture_array with
    | none => none
    | some arr =>
      match (h.textures.getD arr []).get? i with
      | none => none
      | some _ =>
        match upload_textures h n rest with
        | none => none
        | some uploads => some (Upload.texture arr i :: uploads)

/-- Function `upload_node_buffers` with a bound on the depth of the recursion
along `child_array`. -/
def upload_node_buffers_fuel {F : Type} [CommRing F] (hm : HandmadeMath F) (h : Heap F) :
    Nat → Nat → Option (List (Upload F))
  | 0, _ => none
  | fuel + 1, node =>
    match h.nodes.get? node with
    | none => none
    | some n =>
      match (if n.type = NODE_TYPE.NODE_TYPE_MESH then
          upload_mesh_parts hm h node n (List.range n.mesh_parts_count) else some []) with
      | none => none
      | some parts =>
        match (List.range n.child_count).mapM (fun i =>
            match n.child_array.get? i with
            | none => none
            | some child => upload_node_buffers_fuel hm h fuel child) with
        | none => none
        | some children =>
          match (if n.parent = none then
              upload_textures h n (List.range n.texture_count) else some []) with
          | none => none
          | some textures => some (parts ++ children.flatten ++ textures)

/-- Function `upload_node_buffers`. -/
def upload_node_buffers {F : Type} [CommRing F] (hm : HandmadeMath F) (h : Heap F)
    (node : Nat) : Option (List (Upload F)) :=
  upload_node_buffers_fuel hm h h.nodes.length node

/-- What `draw_node` issues for a mesh part, in program order: the node, the
part number, the texture bound (if any), the `vertex_count` of the vertex
buffer bound and the `index_count` drawn. -/
structure Draw where
  node : Nat
  i : Nat
  color_texture : Option (Nat × Nat)
  vertex_count : Nat
  index_count : Nat
deriving DecidableEq, Repr

/-- The mesh-part loop of `draw_node` (lines 494-507) over the remaining values
of `i`; `n` is `*node`. -/
def draw_mesh_parts {F : Type} (node : Nat) (n : Node F) : List Nat → Option (List Draw)
  | [] => some []
  | i :: rest =>
    match n.mesh_parts.get? i with
    | none => none
    | some mesh_part =>
      if mesh_part.vertex_count = 0 ∨ mesh_part.index_count = 0 then
        draw_mesh_parts node n rest
      else
        match draw_mesh_parts node n rest with
        | none => none
        | some draws =>
          some (⟨node, i, mesh_part.color_texture, mesh_part.vertex_count,
            mesh_part.index_count⟩ :: draws)

/-- Function `draw_node` with a bound on the depth of the recursion along
`child_array`. -/
def draw_node_fuel {F : Type} (h : Heap F) : Nat → Nat → Option (List Draw)
  | 0, _ => none
  | fuel + 1, node =>
    match h.nodes.get? node with
    | none => none
    | some n =>
      match (if n.type = NODE_TYPE.NODE_TYPE_MESH then
          draw_mesh_parts node n (List.range n.mesh_parts_count) else some []) with
      | none => none
      | some parts =>
        match (List.range n.child_count).mapM (fun i =>
            match n.child_array.get? i with
            | none => none
            | some child => draw_node_fuel h fuel child) with
        | none => none
        | some children => some (parts ++ children.flatten)

/-- Function `draw_node`. -/
def draw_node {F : Type} (h : Heap F) (node : Nat) : Option (List Draw) :=
  draw_node_fuel h h.nodes.length node

end PBR

/-! ## Variant "2. FBX Loading" -/

namespace FBX

/-- Enumeration `enum NODE_TYPE` of this variant: it has no camera type. -/
inductive NODE_TYPE where
  | NODE_TYPE_EMPTY
  | NODE_TYPE_MESH
  | NODE_TYPE_LIGHT_POINT
  | NODE_TYPE_LIGHT_SPOT
  | NODE_TYPE_LIGHT_DIRECTIONAL
deriving DecidableEq, Repr

/-- Record `struct Vertex` (packed) of this variant. -/
structure Vertex (F : Type) where
  pos : Vec3 F
  color : Vec4 F
  normal : Vec3 F
  uv : Vec2 F
deriving DecidableEq, Repr

/-- A `calloc`-ed vertex. -/
def Vertex.zero {F : Type} [Zero F] : Vertex F :=
  ⟨⟨0, 0, 0⟩, ⟨0, 0, 0, 0⟩, ⟨0, 0, 0⟩, ⟨0, 0⟩⟩

/-- Record `struct Mesh_Part` restricted to what the importer writes. -/
structure Mesh_Part (F : Type) where
  vertex_array : List (Vertex F)
  vertex_count : Nat
  index_array : List Nat
  index_count : Nat
deriving DecidableEq, Repr

/-- Record `struct Node` of this variant: it has no texture table. -/
structure Node (F : Type) where
  type : NODE_TYPE
  mesh_parts : List (Mesh_Part F)
  mesh_parts_count : Nat
  name : String
  local_position : Vec3 F
  local_rotation : Quat F
  local_scale : Vec3 F
  geometry_position : Vec3 F
  geometry_rotation : Quat F
  geometry_scale : Vec3 F
  parent : Option Nat
  child_array : List Nat
  child_count : Nat
deriving DecidableEq, Repr

/-- A zero-filled `struct Node`. -/
def Node.zero {F : Type} [Zero F] : Node F where
  type := NODE_TYPE.NODE_TYPE_EMPTY
  mesh_parts := []
  mesh_parts_count := 0
  name := ""
  local_position := ⟨0, 0, 0⟩
  local_rotation := ⟨0, 0, 0, 0⟩
  local_scale := ⟨0, 0, 0⟩
  geometry_position := ⟨0, 0, 0⟩
  geometry_rotation := ⟨0, 0, 0, 0⟩
  geometry_scale := ⟨0, 0, 0⟩
  parent := none
  child_array := []
  child_count := 0

/-- The heap: the allocated nodes. -/
structure Heap (F : Type) where
  nodes : List (Node F)
deriving DecidableEq, Repr

/-- The empty heap. -/
def Heap.empty {F : Type} : Heap F := ⟨[]⟩

/-- Read `*p` for a node pointer. -/
def Heap.node {F : Type} [Zero F] (h : Heap F) (p : Nat) : Node F :=
  h.nodes.getD p Node.zero

/-- Write through a node pointer. -/
def Heap.update {F : Type} (h : Heap F) (p : Nat) (f : Node F → Node F) : Heap F :=
  { h with nodes := h.nodes.modify f p }

/-- Function `node_create`. -/
def node_create {F : Type} [Zero F] (h : Heap F) : Nat × Heap F :=
  (h.nodes.length, { h with nodes := h.nodes ++ [Node.zero] })

/-- The body of the corner loop of `load_mesh_part` (lines 183-209). -/
def load_corner {D F : Type} [Zero F] [One F] (ext : Ext D F) (mesh : ufbx_mesh D)
    (index : Nat) : Vertex F :=
  let v : Vertex F := Vertex.zero
  let v := if mesh.vertex_position.exists_ then
      { v with pos := (mesh.vertex_position.get index).conv_float ext.conv } else v
  let v := if mesh.vertex_color.exists_ then
      { v with color := (mesh.vertex_color.get index).conv_float ext.conv }
    else { v with color := V4 1 1 1 1 }
  let v := if mesh.vertex_normal.exists_ then
      { v with normal := (mesh.vertex_normal.get index).conv_float ext.conv } else v
  let v := if mesh.vertex_uv.exists_ then
      { v with uv := (mesh.vertex_uv.get index).conv_float ext.conv } else v
  v

/-- The inner loop `for (i = 0; i < num_tris * 3; i++)` (lines 181-210). -/
def corner_loop {D F : Type} [Zero F] [One F] (ext : Ext D F) (mesh : ufbx_mesh D)
    (cap num_tri_indices : Nat) (tri_indices : Nat → Nat) :
    List Nat → List (Vertex F) → Except Failure (List (Vertex F))
  | [], vertices => .ok vertices
  | i :: rest, vertices =>
    if num_tri_indices ≤ i then .error Failure.out_of_range
    else if cap ≤ vertices.length then .error Failure.out_of_range
    else corner_loop ext mesh cap num_tri_indices tri_indices rest
      (vertices ++ [load_corner ext mesh (tri_indices i)])

/-- The outer loop over the faces of the partition (lines 175-211); the read
of `mesh->faces.data[...]` (line 177) out of range is a failure. -/
def face_loop {D F : Type} [Zero F] [One F] (ext : Ext D F) (mesh : ufbx_mesh D)
    (cap : Nat) : List Nat → List (Vertex F) → Except Failure (List (Vertex F))
  | [], vertices => .ok vertices
  | face_ix :: rest, vertices =>
    match mesh.faces[face_ix]? with
    | none => .error Failure.out_of_range
    | some face =>
      let num_tri_indices := mesh.max_face_triangles * 3
      let r := ext.ufbx_triangulate_face num_tri_indices mesh face
      match corner_loop ext mesh cap num_tri_indices r.2 (List.range (r.1 * 3)) vertices with
      | .error e => .error e
      | .ok vertices => face_loop ext mesh cap rest vertices

/-- The unwelded corner stream once the `assert` has passed (lines 168-214). -/
def unwelded_vertices {D F : Type} [Zero F] [One F] (ext : Ext D F) (mesh : ufbx_mesh D)
    (part : ufbx_mesh_part) : Except Failure (List (Vertex F)) :=
  match face_loop ext mesh (part.num_triangles * 3) part.face_indices [] with
  | .error e => .error e
  | .ok vertices =>
    if vertices.length = part.num_triangles * 3 then .ok vertices
    else .error Failure.assert_failed

/-- Function `load_mesh_part(mesh, part)`. -/
def load_mesh_part {D F : Type} [Zero F] [One F] [DecidableEq F] (ext : Ext D F)
    (mesh : ufbx_mesh D) (part : ufbx_mesh_part) : Except Failure (Mesh_Part F) :=
  match unwelded_vertices ext mesh part with
  | .error e => .error e
  | .ok vertices =>
    let num_indices := part.num_triangles * 3
    let g := ufbx_generate_indices vertices
    .ok { index_array := g.2.1, index_count := num_indices,
          vertex_array := g.1, vertex_count := g.2.2 }

/-- The loop over the material partitions of a mesh node (lines 255-258). -/
def mesh_parts_loop {D F : Type} [Zero F] [One F] [DecidableEq F] (ext : Ext D F)
    (mesh : ufbx_mesh D) : List ufbx_mesh_part → Except Failure (List (Mesh_Part F))
  | [] => .ok []
  | part :: rest =>
    match load_mesh_part ext mesh part with
    | .error e => .error e
    | .ok mesh_part =>
      match mesh_parts_loop ext mesh rest with
      | .error e => .error e
      | .ok mesh_parts => .ok (mesh_part :: mesh_parts)

/-- The classification of `load_node` (lines 248-266) for the node at `node`. -/
def load_payload {D F : Type} [Zero F] [One F] [DecidableEq F] (ext : Ext D F)
    (mesh : Option (ufbx_mesh D)) (light : Option ufbx_light) (node : Nat) (h : Heap F) :
    Except Failure (Heap F) :=
  match mesh with
  | some mesh =>
    match mesh_parts_loop ext mesh mesh.material_parts with
    | .error e => .error e
    | .ok mesh_parts =>
      .ok (h.update node fun n =>
        { n with type := NODE_TYPE.NODE_TYPE_MESH,
                 mesh_parts_count := mesh.material_parts.length,
                 mesh_parts := mesh_parts })
  | none =>
    if light.any (fun l => l.type = ufbx_light_type.UFBX_LIGHT_POINT) then .ok h
    else if light.any (fun l => l.type = ufbx_light_type.UFBX_LIGHT_SPOT) then .ok h
    else if light.any (fun l => l.type = ufbx_light_type.UFBX_LIGHT_DIRECTIONAL) then .ok h
    else .ok (h.update node fun n => { n with type := NODE_TYPE.NODE_TYPE_EMPTY })

/-- The head of `load_node` (lines 236-246). -/
def load_header {D F : Type} [Zero F] (ext : Ext D F) (name : String)
    (local_transform geometry_transform : ufbx_transform D) (h : Heap F) : Nat × Heap F :=
  let (node, h) := node_create h
  (node, h.update node fun n =>
    { n with name := name,
             local_position := local_transform.translation.conv_float ext.conv,
             local_rotation := local_transform.rotation.conv_float ext.conv,
             local_scale := local_transform.scale.conv_float ext.conv,
             geometry_position := geometry_transform.translation.conv_float ext.conv,
             geometry_rotation := geometry_transform.rotation.conv_float ext.conv,
             geometry_scale := geometry_transform.scale.conv_float ext.conv })

mutual
/-- Function `load_node(fbx_node)` of this variant. -/
def load_node {D F : Type} [Zero F] [One F] [DecidableEq F] (ext : Ext D F) :
    ufbx_node D → Heap F → Except Failure (Nat × Heap F)
  | .mk name local_transform geometry_transform mesh light _ _ children, h =>
    let (node, h) := load_header ext name local_transform geometry_transform h
    match load_payload ext mesh light node h with
    | .error e => .error e
    | .ok h =>
      let h := h.update node fun n =>
        { n with child_array := [], child_count := children.length }
      match load_children ext children node h with
      | .error e => .error e
      | .ok h => .ok (node, h)
termination_by structural fbx_node => fbx_node
/-- The child loop of `load_node` (lines 270-274). -/
def load_children {D F : Type} [Zero F] [One F] [DecidableEq F] (ext : Ext D F) :
    List (ufbx_node D) → Nat → Heap F → Except Failure (Heap F)
  | [], _, h => .ok h
  | fbx_child :: rest, node, h =>
    match load_node ext fbx_child h with
    | .error e => .error e
    | .ok (child, h) =>
      let h := h.update node fun n => { n with child_array := n.child_array ++ [child] }
      let h := h.update child fun n => { n with parent := some node }
      load_children ext rest node h
termination_by structural fbx_children => fbx_children
end

/-- Function `load_fbx` once the parser has returned the scene. -/
def load_fbx {D F : Type} [Zero F] [One F] [DecidableEq F] (ext : Ext D F)
    (fbx_scene : ufbx_scene D) : Except Failure (Nat × Heap F) :=
  load_node ext fbx_scene.root_node Heap.empty

/-- Function `node_local_transform`. -/
def node_local_transform {F : Type} [CommRing F] (hm : HandmadeMath F) (node : Node F) :
    Mat4 F :=
  let translation := hm.Translate node.local_position
  let rotation := hm.QToM4 node.local_rotation
  let scale := hm.Scale node.local_scale
  MulM4 translation (MulM4 rotation scale)

/-- Function `node_geometry_transform`. -/
def node_geometry_transform {F : Type} [CommRing F] (hm : HandmadeMath F) (node : Node F) :
    Mat4 F :=
  let translation := hm.Translate node.geometry_position
  let rotation := hm.QToM4 node.geometry_rotation
  let scale := hm.Scale node.geometry_scale
  MulM4 translation (MulM4 rotation scale)

/-- Function `node_global_transform` with a bound on the depth of the
recursion along `parent`. -/
def node_global_transform_fuel {F : Type} [CommRing F] (hm : HandmadeMath F) (h : Heap F) :
    Nat → Nat → Option (Mat4 F)
  | 0, _ => none
  | fuel + 1, node =>
    match h.nodes.get? node with
    | none => none
    | some n =>
      match n.parent with
      | none => some (MulM4 (M4D 1) (node_local_transform hm n))
      | some parent_ptr =>
        match node_global_transform_fuel hm h fuel parent_ptr with
        | none => none
        | some parent => some (MulM4 parent (node_local_transform hm n))

/-- Function `node_global_transform`. -/
def node_global_transform {F : Type} [CommRing F] (hm : HandmadeMath F) (h : Heap F)
    (node : Nat) : Option (Mat4 F) :=
  node_global_transform_fuel hm h h.nodes.length node

/-- Function `node_global_transform_geometry`. -/
def node_global_transform_geometry {F : Type} [CommRing F] (hm : HandmadeMath F)
    (h : Heap F) (node : Nat) : Option (Mat4 F) :=
  match node_global_transform hm h node, h.nodes.get? node with
  | some g, some n => some (MulM4 g (node_geometry_transform hm n))
  | _, _ => none

/-- What `upload_node_buffers` hands to the device for a mesh part: the node,
the part number and the `model_to_world` constant. -/
inductive Upload (F : Type) where
  | mesh_part (node : Nat) (i : Nat) (model_to_world : Mat4 F)

/-- The mesh-part loop of `upload_node_buffers` (lines 299-368). -/
def upload_mesh_parts {F : Type} [CommRing F] (hm : HandmadeMath F) (h : Heap F)
    (node : Nat) (n : Node F) : List Nat → Option (List (Upload F))
  | [] => some []
  | i :: rest =>
    match n.mesh_parts.get? i with
    | none => none
    | some mesh_part =>
      if mesh_part.vertex_count = 0 ∨ mesh_part.index_count = 0 then
        upload_mesh_parts hm h node n rest
      else
        match node_global_transform_geometry hm h node with
        | none => none
        | some model_to_world =>
          match upload_mesh_parts hm h node n rest with
          | none => none
          | some uploads => some (Upload.mesh_part node i model_to_world :: uploads)

/-- Function `upload_node_buffers` with a bound on the depth of the recursion
along `child_array`. -/
def upload_node_buffers_fuel {F : Type} [CommRing F] (hm : HandmadeMath F) (h : Heap F) :
    Nat → Nat → Option (List (Upload F))
  | 0, _ => none
  | fuel + 1, node =>
    match h.nodes.get? node with
    | none => none
    | some n =>
      match (if n.type = NODE_TYPE.NODE_TYPE_MESH then
          upload_mesh_parts hm h node n (List.range n.mesh_parts_count) else some []) with
      | none => none
      | some parts =>
        match (List.range n.child_count).mapM (fun i =>
            match n.child_array.get? i with
            | none => none
            | some child => upload_node_buffers_fuel hm h fuel child) with
        | none => none
        | some children => some (parts ++ children.flatten)

/-- Function `upload_node_buffers`. -/
def upload_node_buffers {F : Type} [CommRing F] (hm : HandmadeMath F) (h : Heap F)
    (node : Nat) : Option (List (Upload F)) :=
  upload_node_buffers_fuel hm h h.nodes.length node

/-- The node and part number of a mesh-part upload. -/
def Upload.part {F : Type} : Upload F → Nat × Nat
  | .mesh_part node i _ => (node, i)

/-- What `draw_node` issues for a mesh part, in program order: the node, the
part number, the `vertex_count` of the vertex buffer bound and the
`index_count` drawn. -/
structure Draw where
  node : Nat
  i : Nat
  vertex_count : Nat
  index_count : Nat
deriving DecidableEq, Repr

/-- The mesh-part loop of `draw_node` (lines 381-392) over the remaining values
of `i`; `n` is `*node`. -/
def draw_mesh_parts {F : Type} (node : Nat) (n : Node F) : List Nat → Option (List Draw)
  | [] => some []
  | i :: rest =>
    match n.mesh_parts.get? i with
    | none => none
    | some mesh_part =>
      if mesh_part.vertex_count = 0 ∨ mesh_part.index_count = 0 then
        draw_mesh_parts node n rest
      else
        match draw_mesh_parts node n rest with
        | none => none
        | some draws =>
          some (⟨node, i, mesh_part.vertex_count, mesh_part.index_count⟩ :: draws)

/-- Function `draw_node` with a bound on the depth of the recursion along
`child_array`. -/
def draw_node_fuel {F : Type} (h : Heap F) : Nat → Nat → Option (List Draw)
  | 0, _ => none
  | fuel + 1, node =>
    match h.nodes.get? node with
    | none => none
    | some n =>
      match (if n.type = NODE_TYPE.NODE_TYPE_MESH then
          draw_mesh_parts node n (List.range n.mesh_parts_count) else some []) with
      | none => none
      | some parts =>
        match (List.range n.child_count).mapM (fun i =>
            match n.child_array.get? i with
            | none => none
            | some child => draw_node_fuel h fuel child) with
        | none => none
        | some children => some (parts ++ children.flatten)

/-- Function `draw_node`. -/
def draw_node {F : Type} (h : Heap F) (node : Nat) : Option (List Draw) :=
  draw_node_fuel h h.nodes.length node

end FBX

/-! ## Variant "3. PNG Loading" -/

namespace PNG

/-- Record `struct Vertex` (packed) of this variant. -/
structure Vertex (F : Type) where
  pos : Vec3 F
  color : Vec4 F
  normal : Vec3 F
  uv : Vec2 F
deriving DecidableEq, Repr

/-- A `calloc`-ed vertex. -/
def Vertex.zero {F : Type} [Zero F] : Vertex F :=
  ⟨⟨0, 0, 0⟩, ⟨0, 0, 0, 0⟩, ⟨0, 0, 0⟩, ⟨0, 0⟩⟩

/-- Record `struct Mesh_Part` restricted to what the importer writes. -/
structure Mesh_Part (F : Type) where
  vertex_array : List (Vertex F)
  vertex_count : Nat
  index_array : List Nat
  index_count : Nat
  color_texture : Option (Nat × Nat)
deriving DecidableEq, Repr

/-- Record `struct Node` of this variant: it has no geometry transform. -/
structure Node (F : Type) where
  type : NODE_TYPE
  mesh_parts : List (Mesh_Part F)
  mesh_parts_count : Nat
  name : String
  position : Vec3 F
  rotation : Quat F
  scale : Vec3 F
  parent : Option Nat
  child_array : List Nat
  child_count : Nat
  texture_array : Option Nat
  texture_count : Nat
deriving DecidableEq, Repr

/-- A zero-filled `struct Node`. -/
def Node.zero {F : Type} [Zero F] : Node F where
  type := NODE_TYPE.NODE_TYPE_EMPTY
  mesh_parts := []
  mesh_parts_count := 0
  name := ""
  position := ⟨0, 0, 0⟩
  rotation := ⟨0, 0, 0, 0⟩
  scale := ⟨0, 0, 0⟩
  parent := none
  child_array := []
  child_count := 0
  texture_array := none
  texture_count := 0

/-- The heap: the allocated nodes and the allocated texture arrays. -/
structure Heap (F : Type) where
  nodes : List (Node F)
  textures : List (List Texture)
deriving DecidableEq, Repr

/-- The empty heap. -/
def Heap.empty {F : Type} : Heap F := ⟨[], []⟩

/-- Read `*p` for a node pointer. -/
def Heap.node {F : Type} [Zero F] (h : Heap F) (p : Nat) : Node F :=
  h.nodes.getD p Node.zero

/-- Write through a node pointer. -/
def Heap.update {F : Type} (h : Heap F) (p : Nat) (f : Node F → Node F) : Heap F :=
  { h with nodes := h.nodes.modify f p }

/-- Function `node_create`. -/
def node_create {F : Type} [Zero F] (h : Heap F) : Nat × Heap F :=
  (h.nodes.length, { h with nodes := h.nodes ++ [Node.zero] })

/-- The body of the corner loop of `load_mesh_part` (lines 195-221). -/
def load_corner {D F : Type} [Zero F] [One F] (ext : Ext D F) (mesh : ufbx_mesh D)
    (index : Nat) : Vertex F :=
  let v : Vertex F := Vertex.zero
  let v := if mesh.vertex_position.exists_ then
      { v with pos := (mesh.vertex_position.get index).conv_float ext.conv } else v
  let v := if mesh.vertex_color.exists_ then
      { v with color := (mesh.vertex_color.get index).conv_float ext.conv }
    else { v with color := V4 1 1 1 1 }
  let v := if mesh.vertex_normal.exists_ then
      { v with normal := (mesh.vertex_normal.get index).conv_float ext.conv } else v
  let v := if mesh.vertex_uv.exists_ then
      { v with uv := (mesh.vertex_uv.get index).conv_float ext.conv } else v
  v

/-- The inner loop `for (i = 0; i < num_tris * 3; i++)` (lines 193-222). -/
def corner_loop {D F : Type} [Zero F] [One F] (ext : Ext D F) (mesh : ufbx_mesh D)
    (cap num_tri_indices : Nat) (tri_indices : Nat → Nat) :
    List Nat → List (Vertex F) → Except Failure (List (Vertex F))
  | [], vertices => .ok vertices
  | i :: rest, vertices =>
    if num_tri_indices ≤ i then .error Failure.out_of_range
    else if cap ≤ vertices.length then .error Failure.out_of_range
    else corner_loop ext mesh cap num_tri_indices tri_indices rest
      (vertices ++ [load_corner ext mesh (tri_indices i)])

/-- The outer loop over the faces of the partition (lines 187-223); the read
of `mesh->faces.data[...]` (line 189) out of range is a failure. -/
def face_loop {D F : Type} [Zero F] [One F] (ext : Ext D F) (mesh : ufbx_mesh D)
    (cap : Nat) : List Nat → List (Vertex F) → Except Failure (List (Vertex F))
  | [], vertices => .ok vertices
  | face_ix :: rest, vertices =>
    match mesh.faces[face_ix]? with
    | none => .error Failure.out_of_range
    | some face =>
      let num_tri_indices := mesh.max_face_triangles * 3
      let r := ext.ufbx_triangulate_face num_tri_indices mesh face
      match corner_loop ext mesh cap num_tri_indices r.2 (List.range (r.1 * 3)) vertices with
      | .error e => .error e
      | .ok vertices => face_loop ext mesh cap rest vertices

/-- The unwelded corner stream once the `assert` has passed (lines 180-226). -/
def unwelded_vertices {D F : Type} [Zero F] [One F] (ext : Ext D F) (mesh : ufbx_mesh D)
    (part : ufbx_mesh_part) : Except Failure (List (Vertex F)) :=
  match face_loop ext mesh (part.num_triangles * 3) part.face_indices [] with
  | .error e => .error e
  | .ok vertices =>
    if vertices.length = part.num_triangles * 3 then .ok vertices
    else .error Failure.assert_failed

/-- The texture loop of `load_mesh_part` (lines 243-249). -/
def texture_loop {F : Type} (materials : List ufbx_material) (material_index : Nat)
    (node : Node F) (h : Heap F) :
    List Nat → Option (Nat × Nat) → Except Failure (Option (Nat × Nat))
  | [], color_texture => .ok color_texture
  | i :: rest, color_texture =>
    match materials.get? material_index with
    | none => .error Failure.out_of_range
    | some material =>
      match material.base_color_texture with
      | none => texture_loop materials material_index node h rest color_texture
      | some texture =>
        match node.texture_array with
        | none => .error Failure.null_deref
        | some arr =>
          match (h.textures.getD arr []).get? i with
          | none => .error Failure.out_of_range
          | some entry =>
            if texture.filename = entry.path then
              texture_loop materials material_index node h rest (some (arr, i))
            else texture_loop materials material_index node h rest color_texture

/-- Function `load_mesh_part(mesh, part, material_index, node)`.  The statement
`mesh->materials.data[0]->pbr.base_color.texture;` ahead of the texture loop
discards its value and has no effect; it is not modelled. -/
def load_mesh_part {D F : Type} [Zero F] [One F] [DecidableEq F] (ext : Ext D F)
    (mesh : ufbx_mesh D) (part : ufbx_mesh_part) (material_index : Nat)
    (node : Option Nat) (h : Heap F) : Except Failure (Mesh_Part F) :=
  match unwelded_vertices ext mesh part with
  | .error e => .error e
  | .ok vertices =>
    let num_indices := part.num_triangles * 3
    let g := ufbx_generate_indices vertices
    match node with
    | none => .error Failure.null_deref
    | some p =>
      match texture_loop mesh.materials material_index (h.node p) h
          (List.range (h.node p).texture_count) none with
      | .error e => .error e
      | .ok color_texture =>
        .ok { index_array := g.2.1, index_count := num_indices,
              vertex_array := g.1, vertex_count := g.2.2,
              color_texture := color_texture }

/-- The loop over the material partitions of a mesh node (lines 275-278). -/
def mesh_parts_loop {D F : Type} [Zero F] [One F] [DecidableEq F] (ext : Ext D F)
    (mesh : ufbx_mesh D) (root : Option Nat) (h : Heap F) :
    List ufbx_mesh_part → Nat → Except Failure (List (Mesh_Part F))
  | [], _ => .ok []
  | part :: rest, i =>
    match load_mesh_part ext mesh part i root h with
    | .error e => .error e
    | .ok mesh_part =>
      match mesh_parts_loop ext mesh root h rest (i + 1) with
      | .error e => .error e
      | .ok mesh_parts => .ok (mesh_part :: mesh_parts)

/-- The texture table built at the root (lines 295-305): the path is a copy of
`relative_filename`. -/
def texture_table {D : Type} (fbx_scene : ufbx_scene D) : List Texture :=
  fbx_scene.textures.map fun fbx_texture => ⟨fbx_texture.relative_filename⟩

/-- The classification of `load_node` (lines 267-308) for the node at `node`. -/
def load_payload {D F : Type} [Zero F] [One F] [DecidableEq F] (ext : Ext D F)
    (fbx_scene : ufbx_scene D) (mesh : Option (ufbx_mesh D)) (light : Option ufbx_light)
    (camera : Option ufbx_camera) (is_root : Bool) (node : Nat) (root : Option Nat)
    (h : Heap F) : Except Failure (Option Nat × Heap F) :=
  match mesh with
  | some mesh =>
    match mesh_parts_loop ext mesh root h mesh.material_parts 0 with
    | .error e => .error e
    | .ok mesh_parts =>
      .ok (root, h.update node fun n =>
        { n with type := NODE_TYPE.NODE_TYPE_MESH,
                 mesh_parts_count := mesh.material_parts.length,
                 mesh_parts := mesh_parts })
  | none =>
    if light.any (fun l => l.type = ufbx_light_type.UFBX_LIGHT_POINT) then .ok (root, h)
    else if light.any (fun l => l.type = ufbx_light_type.UFBX_LIGHT_SPOT) then .ok (root, h)
    else if light.any (fun l => l.type = ufbx_light_type.UFBX_LIGHT_DIRECTIONAL) then
      .ok (root, h)
    else if camera.isSome then
      .ok (root, h.update node fun n => { n with type := NODE_TYPE.NODE_TYPE_CAMERA })
    else
      let h := h.update node fun n => { n with type := NODE_TYPE.NODE_TYPE_EMPTY }
      if is_root then
        let texture_array := h.textures.length
        let h : Heap F := { h with textures := h.textures ++ [texture_table fbx_scene] }
        .ok (some node, h.update node fun n =>
          { n with texture_count := fbx_scene.textures.length,
                   texture_array := some texture_array })
      else .ok (root, h)

/-- The head of `load_node` (lines 257-263): this variant converts the local
transform only. -/
def load_header {D F : Type} [Zero F] (ext : Ext D F) (name : String)
    (local_transform : ufbx_transform D) (h : Heap F) : Nat × Heap F :=
  let (node, h) := node_create h
  (node, h.update node fun n =>
    { n with name := name,
             position := local_transform.translation.conv_float ext.conv,
             rotation := local_transform.rotation.conv_float ext.conv,
             scale := local_transform.scale.conv_float ext.conv })

mutual
/-- Function `load_node(fbx_node, root, fbx_scene)` of this variant. -/
def load_node {D F : Type} [Zero F] [One F] [DecidableEq F] (ext : Ext D F)
    (fbx_scene : ufbx_scene D) :
    ufbx_node D → Option Nat → Heap F → Except Failure (Nat × Heap F)
  | .mk name local_transform _ mesh light camera is_root children, root, h =>
    let (node, h) := load_header ext name local_transform h
    match load_payload ext fbx_scene mesh light camera is_root node root h with
    | .error e => .error e
    | .ok (root, h) =>
      let h := h.update node fun n =>
        { n with child_array := [], child_count := children.length }
      match load_children ext fbx_scene children node root h with
      | .error e => .error e
      | .ok h => .ok (node, h)
termination_by structural fbx_node => fbx_node
/-- The child loop of `load_node` (lines 312-318). -/
def load_children {D F : Type} [Zero F] [One F] [DecidableEq F] (ext : Ext D F)
    (fbx_scene : ufbx_scene D) :
    List (ufbx_node D) → Nat → Option Nat → Heap F → Except Failure (Heap F)
  | [], _, _, h => .ok h
  | fbx_child :: rest, node, root, h =>
    match load_node ext fbx_scene fbx_child root h with
    | .error e => .error e
    | .ok (child, h) =>
      let h := h.update node fun n => { n with child_array := n.child_array ++ [child] }
      let h := h.update child fun n => { n with parent := some node }
      let h := h.update child fun n => { n with texture_array := (h.node node).texture_array }
      let h := h.update child fun n => { n with texture_count := (h.node node).texture_count }
      load_children ext fbx_scene rest node root h
termination_by structural fbx_children => fbx_children
end

/-- Function `load_fbx` once the parser has returned the scene. -/
def load_fbx {D F : Type} [Zero F] [One F] [DecidableEq F] (ext : Ext D F)
    (fbx_scene : ufbx_scene D) : Except Failure (Nat × Heap F) :=
  load_node ext fbx_scene fbx_scene.root_node none Heap.empty

/-- Function `node_local_transform`. -/
def node_local_transform {F : Type} [CommRing F] (hm : HandmadeMath F) (node : Node F) :
    Mat4 F :=
  let translation := hm.Translate node.position
  let rotation := hm.QToM4 node.rotation
  let scale := hm.Scale node.scale
  MulM4 translation (MulM4 rotation scale)

/-- Function `node_global_transform` with a bound on the depth of the
recursion along `parent`. -/
def node_global_transform_fuel {F : Type} [CommRing F] (hm : HandmadeMath F) (h : Heap F) :
    Nat → Nat → Option (Mat4 F)
  | 0, _ => none
  | fuel + 1, node =>
    match h.nodes.get? node with
    | none => none
    | some n =>
      match n.parent with
      | none => some (MulM4 (M4D 1) (node_local_transform hm n))
      | some parent_ptr =>
        match node_global_transform_fuel hm h fuel parent_ptr with
        | none => none
        | some parent => some (MulM4 parent (node_local_transform hm n))

/-- Function `node_global_transform`. -/
def node_global_transform {F : Type} [CommRing F] (hm : HandmadeMath F) (h : Heap F)
    (node : Nat) : Option (Mat4 F) :=
  node_global_transform_fuel hm h h.nodes.length node

/-- What `upload_node_buffers` hands to the device, in program order. -/
inductive Upload (F : Type) where
  | mesh_part (node : Nat) (i : Nat) (model_to_world : Mat4 F)
  | texture (texture_array : Nat) (i : Nat)

/-- The mesh-part loop of `upload_node_buffers` (lines 344-431): the constant
is `node_global_transform(node)`. -/
def upload_mesh_parts {F : Type} [CommRing F] (hm : HandmadeMath F) (h : Heap F)
    (node : Nat) (n : Node F) : List Nat → Option (List (Upload F))
  | [] => some []
  | i :: rest =>
    match n.mesh_parts.get? i with
    | none => none
    | some mesh_part =>
      if mesh_part.vertex_count = 0 ∨ mesh_part.index_count = 0 then
        upload_mesh_parts hm h node n rest
      else
        match node_global_transform hm h node with
        | none => none
        | some model_to_world =>
          match upload_mesh_parts hm h node n rest with
          | none => none
          | some uploads => some (Upload.mesh_part node i model_to_world :: uploads)

/-- The texture loop of `upload_node_buffers` (lines 441-530). -/
def upload_textures {F : Type} (h : Heap F) (n : Node F) : List Nat → Option (List (Upload F))
  | [] => some []
  | i :: rest =>
    match n.texture_array with
    | none => none
    | some arr =>
      match (h.textures.getD arr []).get? i with
      | none => none
      | some _ =>
        match upload_textures h n rest with
        | none => none
        | some uploads => some (Upload.texture arr i :: uploads)

/-- Function `upload_node_buffers` with a bound on the depth of the recursion
along `child_array`. -/
def upload_node_buffers_fuel {F : Type} [CommRing F] (hm : HandmadeMath F) (h : Heap F) :
    Nat → Nat → Option (List (Upload F))
  | 0, _ => none
  | fuel + 1, node =>
    match h.nodes.get? node with
    | none => none
    | some n =>
      match (if n.type = NODE_TYPE.NODE_TYPE_MESH then
          upload_mesh_parts hm h node n (List.range n.mesh_parts_count) else some []) with
      | none => none
      | some parts =>
        match (List.range n.child_count).mapM (fun i =>
            match n.child_array.get? i with
            | none => none
            | some child => upload_node_buffers_fuel hm h fuel child) with
        | none => none
        | some children =>
          match (if n.parent = none then
              upload_textures h n (List.range n.texture_count) else some []) with
          | none => none
          | some textures => some (parts ++ children.flatten ++ textures)

/-- Function `upload_node_buffers`. -/
def upload_node_buffers {F : Type} [CommRing F] (hm : HandmadeMath F) (h : Heap F)
    (node : Nat) : Option (List (Upload F)) :=
  upload_node_buffers_fuel hm h h.nodes.length node

/-- The child loop of `node_search_type` (lines 123-129) over the remaining
values of `i`; `n` is `*search_node` and `search` the recursive call.  The
outer `none` stands for a call that does not return; `some none` is the null
pointer. -/
def node_search_children {F : Type} (search : Nat → Option (Option Nat)) (n : Node F) :
    List Nat → Option (Option Nat)
  | [] => some none
  | i :: rest =>
    match n.child_array.get? i with
    | none => none
    | some child =>
      match search child with
      | none => none
      | some (some node) => some (some node)
      | some none => node_search_children search n rest

/-- Function `node_search_type` with a bound on the depth of the recursion
along `child_array`. -/
def node_search_type_fuel {F : Type} (h : Heap F) (type : NODE_TYPE) :
    Nat → Nat → Option (Option Nat)
  | 0, _ => none
  | fuel + 1, search_node =>
    match h.nodes.get? search_node with
    | none => none
    | some n =>
      if n.type = type then some (some search_node)
      else node_search_children (node_search_type_fuel h type fuel) n
        (List.range n.child_count)

/-- Function `node_search_type(search_node, type)`: a tree of allocated nodes
is no deeper than the number of allocated nodes. -/
def node_search_type {F : Type} (h : Heap F) (search_node : Nat) (type : NODE_TYPE) :
    Option (Option Nat) :=
  node_search_type_fuel h type h.nodes.length search_node

end PNG

/-- What the scan of `ufbx_generate_indices` has established after reading the
prefix `l` of the stream: the compacted sequence has no repetition, holds
exactly the records of `l`, and every position read so far has an index that
points at its own record. -/
structure Scan_Inv {V : Type} (l : List V) (st : List V × List Nat) : Prop where
  nodup : st.1.Nodup
  mem : ∀ v, v ∈ st.1 ↔ v ∈ l
  len : st.2.length = l.length
  pos : ∀ k, k < l.length → ∃ i, st.2[k]? = some i ∧ st.1[i]? = l[k]?

namespace PBR

/-- What `load_payload` leaves behind: only the node at `node` is written, its
`parent` and `child_array` are not, and texture arrays are only added. -/
structure Payload_Post {F : Type} [Zero F] (node : Nat) (h h' : Heap F) : Prop where
  length : h'.nodes.length = h.nodes.length
  frame : ∀ q, q ≠ node → h'.node q = h.node q
  parent : (h'.node node).parent = (h.node node).parent
  child_array : (h'.node node).child_array = (h.node node).child_array
  tex : ∃ t, h'.textures = h.textures ++ t

/-- What a successful `load_node` leaves behind: the new node is allocated at
the end of the old heap, older nodes are untouched, the new node has no parent
yet, every other node allocated by the call has its parent among the nodes
allocated by the call and before it, and child pointers point at later nodes
allocated by the call. -/
structure Node_Post {F : Type} [Zero F] (h h' : Heap F) (p : Nat) : Prop where
  ptr : p = h.nodes.length
  grow : h.nodes.length < h'.nodes.length
  frame : ∀ q, q < h.nodes.length → h'.node q = h.node q
  tex : ∃ t, h'.textures = h.textures ++ t
  top_parent : (h'.node p).parent = none
  parents : ∀ q, p < q → q < h'.nodes.length →
    ∃ r, (h'.node q).parent = some r ∧ p ≤ r ∧ r < q
  children : ∀ q, p ≤ q → q < h'.nodes.length →
    ∀ c ∈ (h'.node q).child_array, q < c ∧ c < h'.nodes.length

/-- What a successful child loop leaves behind for the parent at `node`. -/
structure Children_Post {F : Type} [Zero F] (node : Nat) (h h' : Heap F) : Prop where
  grow : h.nodes.length ≤ h'.nodes.length
  frame : ∀ q, q < h.nodes.length → q ≠ node → h'.node q = h.node q
  tex : ∃ t, h'.textures = h.textures ++ t
  node_eq : ∃ cs, h'.node node =
      { h.node node with child_array := (h.node node).child_array ++ cs } ∧
    ∀ c ∈ cs, h.nodes.length ≤ c ∧ c < h'.nodes.length
  parents : ∀ q, h.nodes.length ≤ q → q < h'.nodes.length →
    ∃ r, (h'.node q).parent = some r ∧ node ≤ r ∧ r < q
  children : ∀ q, h.nodes.length ≤ q → q < h'.nodes.length →
    ∀ c ∈ (h'.node q).child_array, q < c ∧ c < h'.nodes.length

end PBR

/-- The test of the three light branches of `load_node`, which have an empty
body: the node has a light whose subtype is point, spot or directional. -/
def light_is_point_spot_or_directional (light : Option ufbx_light) : Bool :=
  light.any (fun l => l.type = ufbx_light_type.UFBX_LIGHT_POINT) ||
  light.any (fun l => l.type = ufbx_light_type.UFBX_LIGHT_SPOT) ||
  light.any (fun l => l.type = ufbx_light_type.UFBX_LIGHT_DIRECTIONAL)

/-! ## Notions used to state the properties of the mesh part builder -/

namespace PBR

/-- The number of triangles `ufbx_triangulate_face` returns for the face
`face_ix` of the mesh, as called by `load_mesh_part`.  An index that names no
face of the mesh is counted as the empty face; `face_loop` fails on such an
index, so the notion is about the code only for indices below the face
count. -/
def face_triangles {D F : Type} (ext : Ext D F) (mesh : ufbx_mesh D) (face_ix : Nat) : Nat :=
  (ext.ufbx_triangulate_face (mesh.max_face_triangles * 3) mesh
    (mesh.faces.getD face_ix ⟨0, 0⟩)).1

/-- The triangle index stream `ufbx_triangulate_face` returns for the face
`face_ix`: the corner index at each position of `tri_indices`. -/
def face_tri_indices {D F : Type} (ext : Ext D F) (mesh : ufbx_mesh D) (face_ix : Nat) :
    Nat → Nat :=
  (ext.ufbx_triangulate_face (mesh.max_face_triangles * 3) mesh
    (mesh.faces.getD face_ix ⟨0, 0⟩)).2

/-- The corner records of one face: one `load_corner` per triangle corner, in
the order of the triangle index stream. -/
def face_corners {D F : Type} [Zero F] [One F] (ext : Ext D F) (mesh : ufbx_mesh D)
    (face_ix : Nat) : List (Vertex F) :=
  (List.range (face_triangles ext mesh face_ix * 3)).map fun i =>
    load_corner ext mesh (face_tri_indices ext mesh face_ix i)

/-- Entry `i` of the texture table that node `n` points at exists and its
path is the string `filename`. -/
def table_entry_matches {F : Type} (h : Heap F) (n : Node F) (filename : String) (i : Nat) :
    Prop :=
  ∃ arr entry, n.texture_array = some arr ∧ (h.textures.getD arr []).get? i = some entry ∧
    filename = entry.path

mutual
/-- The node at address `q` of heap `h` is the import of the source node: it
carries the source's name and its local and geometry transforms narrowed by
`conv_float`, its `child_count` is the source's child count, and its children
are, in order, the imports of the source's children
(`Imported_children`). -/
def Imported {D F : Type} [Zero F] (ext : Ext D F) (h : Heap F) : ufbx_node D → Nat → Prop
  | .mk name local_transform geometry_transform _ _ _ _ children, q =>
    q < h.nodes.length ∧
    (h.node q).name = name ∧
    (h.node q).local_position = local_transform.translation.conv_float ext.conv ∧
    (h.node q).local_rotation = local_transform.rotation.conv_float ext.conv ∧
    (h.node q).local_scale = local_transform.scale.conv_float ext.conv ∧
    (h.node q).geometry_position = geometry_transform.translation.conv_float ext.conv ∧
    (h.node q).geometry_rotation = geometry_transform.rotation.conv_float ext.conv ∧
    (h.node q).geometry_scale = geometry_transform.scale.conv_float ext.conv ∧
    (h.node q).child_count = children.length ∧
    Imported_children ext h children q (h.node q).child_array
termination_by structural fbx_node => fbx_node
/-- The pointers `cs` are, position by position, the imports of the source
nodes, each a node allocated after `q` whose `parent` is `q`. -/
def Imported_children {D F : Type} [Zero F] (ext : Ext D F) (h : Heap F) :
    List (ufbx_node D) → Nat → List Nat → Prop
  | [], _, cs => cs = []
  | fbx_child :: rest, q, cs =>
    ∃ c cs', cs = c :: cs' ∧ q < c ∧ (h.node c).parent = some q ∧
      Imported ext h fbx_child c ∧ Imported_children ext h rest q cs'
termination_by structural fbx_children => fbx_children
end

end PBR

namespace PNG

/-- Entry `i` of the texture table that node `n` points at exists and its
path is the string `filename` (PNG-loading variant). -/
def table_entry_matches {F : Type} (h : Heap F) (n : Node F) (filename : String) (i : Nat) :
    Prop :=
  ∃ arr entry, n.texture_array = some arr ∧ (h.textures.getD arr []).get? i = some entry ∧
    filename = entry.path

/-- The nodes of the subtree rooted at `node` in depth-first pre-order,
children in array order, down to the depth `fuel`; `none` when a pointer of
the subtree dangles or the subtree is deeper than that. -/
def preorder_fuel {F : Type} (h : Heap F) : Nat → Nat → Option (List Nat)
  | 0, _ => none
  | fuel + 1, node =>
    match h.nodes.get? node with
    | none => none
    | some n =>
      match (List.range n.child_count).mapM (fun i =>
          match n.child_array.get? i with
          | none => none
          | some child => preorder_fuel h fuel child) with
      | none => none
      | some subtrees => some (node :: subtrees.flatten)

/-- The nodes of the subtree rooted at `node` in depth-first pre-order. -/
def preorder {F : Type} (h : Heap F) (node : Nat) : Option (List Nat) :=
  preorder_fuel h h.nodes.length node

end PNG

/-! ## The same notions for the other two variants -/

namespace PNG

/-- What `load_payload` leaves behind: only the node at `node` is written, its
`parent` and `child_array` are not, and texture arrays are only added. -/
structure Payload_Post {F : Type} [Zero F] (node : Nat) (h h' : Heap F) : Prop where
  length : h'.nodes.length = h.nodes.length
  frame : ∀ q, q ≠ node → h'.node q = h.node q
  parent : (h'.node node).parent = (h.node node).parent
  child_array : (h'.node node).child_array = (h.node node).child_array
  tex : ∃ t, h'.textures = h.textures ++ t

/-- What a successful `load_node` leaves behind: the new node is allocated at
the end of the old heap, older nodes are untouched, the new node has no parent
yet, every other node allocated by the call has its parent among the nodes
allocated by the call and before it, and child pointers point at later nodes
allocated by the call. -/
structure Node_Post {F : Type} [Zero F] (h h' : Heap F) (p : Nat) : Prop where
  ptr : p = h.nodes.length
  grow : h.nodes.length < h'.nodes.length
  frame : ∀ q, q < h.nodes.length → h'.node q = h.node q
  tex : ∃ t, h'.textures = h.textures ++ t
  top_parent : (h'.node p).parent = none
  parents : ∀ q, p < q → q < h'.nodes.length →
    ∃ r, (h'.node q).parent = some r ∧ p ≤ r ∧ r < q
  children : ∀ q, p ≤ q → q < h'.nodes.length →
    ∀ c ∈ (h'.node q).child_array, q < c ∧ c < h'.nodes.length

/-- What a successful child loop leaves behind for the parent at `node`. -/
structure Children_Post {F : Type} [Zero F] (node : Nat) (h h' : Heap F) : Prop where
  grow : h.nodes.length ≤ h'.nodes.length
  frame : ∀ q, q < h.nodes.length → q ≠ node → h'.node q = h.node q
  tex : ∃ t, h'.textures = h.textures ++ t
  node_eq : ∃ cs, h'.node node =
      { h.node node with child_array := (h.node node).child_array ++ cs } ∧
    ∀ c ∈ cs, h.nodes.length ≤ c ∧ c < h'.nodes.length
  parents : ∀ q, h.nodes.length ≤ q → q < h'.nodes.length →
    ∃ r, (h'.node q).parent = some r ∧ node ≤ r ∧ r < q
  children : ∀ q, h.nodes.length ≤ q → q < h'.nodes.length →
    ∀ c ∈ (h'.node q).child_array, q < c ∧ c < h'.nodes.length

end PNG

namespace FBX

/-- The corner records of one face in this variant: one `load_corner` per
triangle corner, in the order of the triangle index stream. -/
def face_corners {D F : Type} [Zero F] [One F] (ext : Ext D F) (mesh : ufbx_mesh D)
    (face_ix : Nat) : List (Vertex F) :=
  (List.range (PBR.face_triangles ext mesh face_ix * 3)).map fun i =>
    load_corner ext mesh (PBR.face_tri_indices ext mesh face_ix i)

/-- What `load_payload` leaves behind: only the node at `node` is written, its
`parent` and `child_array` are not. -/
structure Payload_Post {F : Type} [Zero F] (node : Nat) (h h' : Heap F) : Prop where
  length : h'.nodes.length = h.nodes.length
  frame : ∀ q, q ≠ node → h'.node q = h.node q
  parent : (h'.node node).parent = (h.node node).parent
  child_array : (h'.node node).child_array = (h.node node).child_array

/-- What a successful `load_node` leaves behind: the new node is allocated at
the end of the old heap, older nodes are untouched, the new node has no parent
yet, every other node allocated by the call has its parent among the nodes
allocated by the call and before it, and child pointers point at later nodes
allocated by the call. -/
structure Node_Post {F : Type} [Zero F] (h h' : Heap F) (p : Nat) : Prop where
  ptr : p = h.nodes.length
  grow : h.nodes.length < h'.nodes.length
  frame : ∀ q, q < h.nodes.length → h'.node q = h.node q
  top_parent : (h'.node p).parent = none
  parents : ∀ q, p < q → q < h'.nodes.length →
    ∃ r, (h'.node q).parent = some r ∧ p ≤ r ∧ r < q
  children : ∀ q, p ≤ q → q < h'.nodes.length →
    ∀ c ∈ (h'.node q).child_array, q < c ∧ c < h'.nodes.length

/-- What a successful child loop leaves behind for the parent at `node`. -/
structure Children_Post {F : Type} [Zero F] (node : Nat) (h h' : Heap F) : Prop where
  grow : h.nodes.length ≤ h'.nodes.length
  frame : ∀ q, q < h.nodes.length → q ≠ node → h'.node q = h.node q
  node_eq : ∃ cs, h'.node node =
      { h.node node with child_array := (h.node node).child_array ++ cs } ∧
    ∀ c ∈ cs, h.nodes.length ≤ c ∧ c < h'.nodes.length
  parents : ∀ q, h.nodes.length ≤ q → q < h'.nodes.length →
    ∃ r, (h'.node q).parent = some r ∧ node ≤ r ∧ r < q
  children : ∀ q, h.nodes.length ≤ q → q < h'.nodes.length →
    ∀ c ∈ (h'.node q).child_array, q < c ∧ c < h'.nodes.length

mutual
/-- The node at address `q` of heap `h` is the import of the source node: it
carries the source's name and its local and geometry transforms narrowed by
`conv_float`, its `child_count` is the source's child count, and its children
are, in order, the imports of the source's children
(`Imported_children`). -/
def Imported {D F : Type} [Zero F] (ext : Ext D F) (h : Heap F) : ufbx_node D → Nat → Prop
  | .mk name local_transform geometry_transform _ _ _ _ children, q =>
    q < h.nodes.length ∧
    (h.node q).name = name ∧
    (h.node q).local_position = local_transform.translation.conv_float ext.conv ∧
    (h.node q).local_rotation = local_transform.rotation.conv_float ext.conv ∧
    (h.node q).local_scale = local_transform.scale.conv_float ext.conv ∧
    (h.node q).geometry_position = geometry_transform.translation.conv_float ext.conv ∧
    (h.node q).geometry_rotation = geometry_transform.rotation.conv_float ext.conv ∧
    (h.node q).geometry_scale = geometry_transform.scale.conv_float ext.conv ∧
    (h.node q).child_count = children.length ∧
    Imported_children ext h children q (h.node q).child_array
termination_by structural fbx_node => fbx_node
/-- The pointers `cs` are, position by position, the imports of the source
nodes, each a node allocated after `q` whose `parent` is `q`. -/
def Imported_children {D F : Type} [Zero F] (ext : Ext D F) (h : Heap F) :
    List (ufbx_node D) → Nat → List Nat → Prop
  | [], _, cs => cs = []
  | fbx_child :: rest, q, cs =>
    ∃ c cs', cs = c :: cs' ∧ q < c ∧ (h.node c).parent = some q ∧
      Imported ext h fbx_child c ∧ Imported_children ext h rest q cs'
termination_by structural fbx_children => fbx_children
end

end FBX

/-! ## The vertex record of the FBX-loading variant read as that of the PNG-loading variant -/

/-- The two variants declare the same packed `struct Vertex`; a record of one
read as a record of the other, field by field. -/
def FBX.Vertex.to_png {F : Type} (v : FBX.Vertex F) : PNG.Vertex F :=
  ⟨v.pos, v.color, v.normal, v.uv⟩

/-! ## The preconditions under which the import is safe -/

namespace PBR

/-- The counts of a mesh agree: the `num_triangles` of every material
partition is the sum of the triangle counts `ufbx_triangulate_face` returns for
its faces, every face of a partition yields at most `max_face_triangles`
triangles, and the mesh has at least as many materials as material
partitions.  Nothing is said of the face indices themselves. -/
def mesh_counts_agree {D F : Type} (ext : Ext D F) (mesh : ufbx_mesh D) : Prop :=
  (∀ part ∈ mesh.material_parts,
    part.num_triangles = (part.face_indices.map (face_triangles ext mesh)).sum) ∧
  (∀ part ∈ mesh.material_parts, ∀ face_ix ∈ part.face_indices,
    face_triangles ext mesh face_ix ≤ mesh.max_face_triangles) ∧
  mesh.material_parts.length ≤ mesh.materials.length

/-- The parser's guarantees for a mesh: every face index of every material
partition is below the number of faces of the mesh (the read
`mesh->faces.data[part->face_indices.data[face_ix]]` of line 192 is in range),
and the counts of the mesh agree (`mesh_counts_agree`). -/
def mesh_is_safe {D F : Type} (ext : Ext D F) (mesh : ufbx_mesh D) : Prop :=
  (∀ part ∈ mesh.material_parts, ∀ face_ix ∈ part.face_indices,
    face_ix < mesh.faces.length) ∧
  mesh_counts_agree ext mesh

mutual
/-- Every mesh of the subtree of the source node satisfies `mesh_is_safe`. -/
def meshes_are_safe {D F : Type} (ext : Ext D F) : ufbx_node D → Prop
  | .mk _ _ _ mesh _ _ _ children =>
    (∀ m, mesh = some m → mesh_is_safe ext m) ∧ children_meshes_are_safe ext children
termination_by structural fbx_node => fbx_node
/-- Every mesh below the listed source nodes satisfies `mesh_is_safe`. -/
def children_meshes_are_safe {D F : Type} (ext : Ext D F) : List (ufbx_node D) → Prop
  | [] => True
  | fbx_child :: rest => meshes_are_safe ext fbx_child ∧ children_meshes_are_safe ext rest
termination_by structural fbx_children => fbx_children
end

/-- The pointer `root` handed to `load_mesh_part` is not null, the node it
points at was allocated, its `texture_array` is not null and holds at least
`texture_count` entries. -/
def Table_OK {F : Type} [Zero F] (h : Heap F) (root : Option Nat) : Prop :=
  ∃ r arr, root = some r ∧ r < h.nodes.length ∧ (h.node r).texture_array = some arr ∧
    (h.node r).texture_count ≤ (h.textures.getD arr []).length

end PBR

/-! ## Node Models that are equal up to addresses -/

namespace PBR

/-- What a Mesh Part holds apart from addresses: the vertex and index content
and the position in the texture table that `color_texture` points at. -/
def Mesh_Part.content {F : Type} (mesh_part : Mesh_Part F) :
    List (Vertex F) × Nat × List Nat × Nat × Option Nat :=
  (mesh_part.vertex_array, mesh_part.vertex_count, mesh_part.index_array,
    mesh_part.index_count, mesh_part.color_texture.map Prod.snd)

/-- Two node records agree in everything but addresses: type, name,
transforms, the content of every Mesh Part, the counts, and whether `parent`
and `texture_array` are set. -/
structure Same_Node {F : Type} (n1 n2 : Node F) : Prop where
  type : n1.type = n2.type
  name : n1.name = n2.name
  local_position : n1.local_position = n2.local_position
  local_rotation : n1.local_rotation = n2.local_rotation
  local_scale : n1.local_scale = n2.local_scale
  geometry_position : n1.geometry_position = n2.geometry_position
  geometry_rotation : n1.geometry_rotation = n2.geometry_rotation
  geometry_scale : n1.geometry_scale = n2.geometry_scale
  mesh_parts_count : n1.mesh_parts_count = n2.mesh_parts_count
  mesh_parts : n1.mesh_parts.map Mesh_Part.content = n2.mesh_parts.map Mesh_Part.content
  child_count : n1.child_count = n2.child_count
  parent : n1.parent.isSome = n2.parent.isSome
  texture_count : n1.texture_count = n2.texture_count
  texture_array : n1.texture_array.isSome = n2.texture_array.isSome

/-- The texture tables that the node at `q1` of `h1` and the node at `q2` of
`h2` point at have the same entries in the same order (or both pointers are
null), the two `texture_count` are equal, and the pointers lie inside the
heaps. -/
structure Same_Table {F : Type} [Zero F] (h1 : Heap F) (q1 : Nat) (h2 : Heap F) (q2 : Nat) :
    Prop where
  in_range1 : ∀ a, (h1.node q1).texture_array = some a → a < h1.textures.length
  in_range2 : ∀ a, (h2.node q2).texture_array = some a → a < h2.textures.length
  table : (h1.node q1).texture_array.map (fun a => h1.textures.getD a []) =
    (h2.node q2).texture_array.map (fun a => h2.textures.getD a [])
  count : (h1.node q1).texture_count = (h2.node q2).texture_count

/-- The `root` arguments of two runs are both null, or point at allocated
nodes with the same texture table. -/
def Same_Root {F : Type} [Zero F] (h1 : Heap F) (root1 : Option Nat) (h2 : Heap F)
    (root2 : Option Nat) : Prop :=
  (root1 = none ∧ root2 = none) ∨
  ∃ r1 r2, root1 = some r1 ∧ root2 = some r2 ∧ r1 < h1.nodes.length ∧ r2 < h2.nodes.length ∧
    Same_Table h1 r1 h2 r2

mutual
/-- The trees at `q1` in `h1` and at `q2` in `h2` have the shape of the source
node and agree node by node up to addresses (`Same_Node`), children in array
order (`Same_Children`). -/
def Same_Model {D F : Type} [Zero F] (h1 h2 : Heap F) : ufbx_node D → Nat → Nat → Prop
  | .mk _ _ _ _ _ _ _ children, q1, q2 =>
    q1 < h1.nodes.length ∧ q2 < h2.nodes.length ∧
    Same_Node (h1.node q1) (h2.node q2) ∧
    Same_Children h1 h2 children q1 q2 (h1.node q1).child_array (h2.node q2).child_array
termination_by structural fbx_node => fbx_node
/-- The pointer lists `cs1` and `cs2` have one entry per listed source node,
each a later node whose `parent` is `q1` (in `h1`) or `q2` (in `h2`), and
entry by entry the trees below them agree (`Same_Model`). -/
def Same_Children {D F : Type} [Zero F] (h1 h2 : Heap F) :
    List (ufbx_node D) → Nat → Nat → List Nat → List Nat → Prop
  | [], _, _, cs1, cs2 => cs1 = [] ∧ cs2 = []
  | fbx_child :: rest, q1, q2, cs1, cs2 =>
    ∃ c1 cs1' c2 cs2', cs1 = c1 :: cs1' ∧ cs2 = c2 :: cs2' ∧ q1 < c1 ∧ q2 < c2 ∧
      (h1.node c1).parent = some q1 ∧ (h2.node c2).parent = some q2 ∧
      Same_Model h1 h2 fbx_child c1 c2 ∧ Same_Children h1 h2 rest q1 q2 cs1' cs2'
termination_by structural fbx_children => fbx_children
end

/-- The writes of one iteration of the child loop of `load_node` after the
recursive call has returned `child` (lines 328-331). -/
def child_step {F : Type} [Zero F] (h : Heap F) (node child : Nat) : Heap F :=
  let h := h.update node fun n => { n with child_array := n.child_array ++ [child] }
  let h := h.update child fun n => { n with parent := some node }
  let h := h.update child fun n => { n with texture_array := (h.node node).texture_array }
  let h := h.update child fun n => { n with texture_count := (h.node node).texture_count }
  h

end PBR

/-! ## The order in which a Node Model is walked -/

namespace PBR

/-- The nodes of the subtree rooted at `node` in depth-first pre-order,
children in array order, down to the depth `fuel`; `none` when a pointer of
the subtree dangles or the subtree is deeper than that. -/
def preorder_fuel {F : Type} (h : Heap F) : Nat → Nat → Option (List Nat)
  | 0, _ => none
  | fuel + 1, node =>
    match h.nodes.get? node with
    | none => none
    | some n =>
      match (List.range n.child_count).mapM (fun i =>
          match n.child_array.get? i with
          | none => none
          | some child => preorder_fuel h fuel child) with
      | none => none
      | some subtrees => some (node :: subtrees.flatten)

/-- The nodes of the subtree rooted at `node` in depth-first pre-order. -/
def preorder {F : Type} (h : Heap F) (node : Nat) : Option (List Nat) :=
  preorder_fuel h h.nodes.length node

/-- Part `i` of the record `n` exists and neither its `vertex_count` nor its
`index_count` is 0. -/
def part_is_drawable {F : Type} (n : Node F) (i : Nat) : Bool :=
  match n.mesh_parts.get? i with
  | none => false
  | some mesh_part => decide (¬ (mesh_part.vertex_count = 0 ∨ mesh_part.index_count = 0))

/-- The (node, part) pairs of the node at `q` that are not skipped, in array
order: none unless the node is a mesh node. -/
def drawable_parts {F : Type} [Zero F] (h : Heap F) (q : Nat) : List (Nat × Nat) :=
  if (h.node q).type = NODE_TYPE.NODE_TYPE_MESH then
    ((List.range (h.node q).mesh_parts_count).filter (part_is_drawable (h.node q))).map
      fun i => (q, i)
  else []

end PBR

/-! ## The scenario of the geometry transform -/

namespace PBR

/-- The scenario of the geometry transform: `r` is a parentless node at local
position `(0, 0, 10)` with identity rotation and unit scale; `c` is a child of
`r` with identity local transform and a geometry transform of scale one half,
zero translation and identity rotation. -/
structure Scenario (h : Heap ℚ) (r c : Nat) : Prop where
  root_allocated : r < h.nodes.length
  child_allocated : c < h.nodes.length
  root_parent : (h.node r).parent = none
  root_position : (h.node r).local_position = ⟨0, 0, 10⟩
  root_rotation : (h.node r).local_rotation = ⟨0, 0, 0, 1⟩
  root_scale : (h.node r).local_scale = ⟨1, 1, 1⟩
  child_parent : (h.node c).parent = some r
  child_position : (h.node c).local_position = ⟨0, 0, 0⟩
  child_rotation : (h.node c).local_rotation = ⟨0, 0, 0, 1⟩
  child_scale : (h.node c).local_scale = ⟨1, 1, 1⟩
  geometry_position : (h.node c).geometry_position = ⟨0, 0, 0⟩
  geometry_rotation : (h.node c).geometry_rotation = ⟨0, 0, 0, 1⟩
  geometry_scale : (h.node c).geometry_scale = ⟨1 / 2, 1 / 2, 1 / 2⟩

end PBR

namespace FBX

/-- The scenario of the geometry transform: `r` is a parentless node at local
position `(0, 0, 10)` with identity rotation and unit scale; `c` is a child of
`r` with identity local transform and a geometry transform of scale one half,
zero translation and identity rotation. -/
structure Scenario (h : Heap ℚ) (r c : Nat) : Prop where
  root_allocated : r < h.nodes.length
  child_allocated : c < h.nodes.length
  root_parent : (h.node r).parent = none
  root_position : (h.node r).local_position = ⟨0, 0, 10⟩
  root_rotation : (h.node r).local_rotation = ⟨0, 0, 0, 1⟩
  root_scale : (h.node r).local_scale = ⟨1, 1, 1⟩
  child_parent : (h.node c).parent = some r
  child_position : (h.node c).local_position = ⟨0, 0, 0⟩
  child_rotation : (h.node c).local_rotation = ⟨0, 0, 0, 1⟩
  child_scale : (h.node c).local_scale = ⟨1, 1, 1⟩
  geometry_position : (h.node c).geometry_position = ⟨0, 0, 0⟩
  geometry_rotation : (h.node c).geometry_rotation = ⟨0, 0, 0, 1⟩
  geometry_scale : (h.node c).geometry_scale = ⟨1 / 2, 1 / 2, 1 / 2⟩

end FBX

/-! ## The texture upload step of `upload_node_buffers` -/

/-- The values of `enum FORMAT` named in the table `formats`. -/
inductive FORMAT where
  | FORMAT_UNKNOWN
  | FORMAT_R8_UNORM
  | FORMAT_R8G8_UNORM
  | FORMAT_R8G8B8A8_UNORM
deriving DecidableEq, Repr

/-- The table `formats[]` of the texture loop, indexed by `component_count`. -/
def formats : List FORMAT :=
  [FORMAT.FORMAT_UNKNOWN, FORMAT.FORMAT_R8_UNORM, FORMAT.FORMAT_R8G8_UNORM,
    FORMAT.FORMAT_R8G8B8A8_UNORM, FORMAT.FORMAT_R8G8B8A8_UNORM]

/-- What a successful `stbi_load` hands back: the out-parameters `x`, `y` and
`component_count` (positive `int`s) and the bytes behind the returned pointer. -/
structure Image where
  x : Nat
  y : Nat
  component_count : Nat
  image_data : List Nat
deriving DecidableEq, Repr

/-- The `int` product `x * y`: outside the range of `int` it is undefined. -/
def int_mul (x y : Nat) : Except Failure Nat :=
  if x * y < 2 ^ 31 then .ok (x * y) else .error Failure.signed_overflow

/-- The `size_t` product of two values. -/
def size_t_mul (a b : Nat) : Nat := a * b % 2 ^ 64

/-- What the texture loop hands to the device for one texture: the dimensions
and format of the texture buffer, the byte size the upload buffer is created
with, and the bytes `memcpy` writes into the mapped upload buffer. -/
structure Texture_Upload where
  width : Nat
  height : Nat
  format : FORMAT
  upload_buffer_size : Nat
  copied : List Nat
deriving DecidableEq, Repr

namespace PNG

/-- The pixel loop of the expansion (lines 455-478) over the remaining values
of `pixel_i`: it reads `((struct Pixel3*)image_data)[pixel_i]` and writes
`((struct Pixel4*)new_image_data)[pixel_i]`.  `new_image_data` holds the
records written so far. -/
def expand_loop (image_data : List Nat) : List Nat → List Nat → Except Failure (List Nat)
  | [], new_image_data => .ok new_image_data
  | pixel_i :: rest, new_image_data =>
    match image_data.get? (3 * pixel_i), image_data.get? (3 * pixel_i + 1),
        image_data.get? (3 * pixel_i + 2) with
    | some r, some g, some b => expand_loop image_data rest (new_image_data ++ [r, g, b, 255])
    | _, _, _ => .error Failure.out_of_range

/-- The block `if (component_count == 3)` (lines 452-481): the value of
`image_data` after it. -/
def expand_image (image : Image) : Except Failure (List Nat) :=
  if image.component_count = 3 then
    match int_mul image.x image.y with
    | .error e => .error e
    | .ok pixels => expand_loop image.image_data (List.range pixels) []
  else .ok image.image_data

/-- The byte size handed to `device_create_upload_buffer` (line 512):
`x * y * sizeof(unsigned char) * component_count`, where `pixels` is the `int`
product `x * y`. -/
def upload_buffer_size (pixels component_count : Nat) : Nat :=
  size_t_mul (size_t_mul pixels 1) component_count

/-- The byte count of the `memcpy` into the mapped upload buffer (lines
516-519). -/
def memcpy_size (image : Image) : Nat :=
  if image.component_count = 3 then
    size_t_mul (size_t_mul (size_t_mul 1 4) image.x) image.y
  else size_t_mul (size_t_mul (size_t_mul 1 image.component_count) image.x) image.y

/-- The body of the texture loop of `upload_node_buffers` (lines 446-529) for
the image `stbi_load` has returned.  A `memcpy` that reads beyond `image_data`
or writes beyond the upload buffer is a failure. -/
def upload_texture (image : Image) : Except Failure Texture_Upload :=
  match expand_image image with
  | .error e => .error e
  | .ok image_data =>
    match formats.get? image.component_count with
    | none => .error Failure.out_of_range
    | some format =>
      match int_mul image.x image.y with
      | .error e => .error e
      | .ok pixels =>
        if upload_buffer_size pixels image.component_count < memcpy_size image then
          .error Failure.out_of_range
        else if image_data.length < memcpy_size image then .error Failure.out_of_range
        else
          .ok { width := image.x, height := image.y, format := format,
                upload_buffer_size := upload_buffer_size pixels image.component_count,
                copied := image_data.take (memcpy_size image) }

end PNG

namespace PBR

/-- The argument `desired_channels` of `stbi_load` (line 451). -/
def desired_channels (expected_component_count : Nat) : Nat :=
  if expected_component_count = 3 then 4 else 0

/-- The byte size handed to `device_create_upload_buffer` (line 475). -/
def upload_buffer_size (pixels component_count : Nat) : Nat :=
  size_t_mul (size_t_mul pixels 1) component_count

/-- The byte count of the `memcpy` into the mapped upload buffer (line 479). -/
def memcpy_size (x y component_count : Nat) : Nat :=
  size_t_mul (size_t_mul (size_t_mul 1 component_count) x) y

/-- The body of the texture loop of `upload_node_buffers` (lines 441-485).
`expected_component_count` is what `stbi_info` has stored and `stbi_load`
maps the number of desired channels to the result of the decoder for the
path of the texture (`none` when it returns a null pointer). -/
def upload_texture (expected_component_count : Nat) (stbi_load : Nat → Option Image) :
    Except Failure Texture_Upload :=
  match stbi_load (desired_channels expected_component_count) with
  | none => .error Failure.null_deref
  | some image =>
    let component_count :=
      if expected_component_count = 3 then 4 else image.component_count
    match formats.get? component_count with
    | none => .error Failure.out_of_range
    | some format =>
      match int_mul image.x image.y with
      | .error e => .error e
      | .ok pixels =>
        if upload_buffer_size pixels component_count
            < memcpy_size image.x image.y component_count then
          .error Failure.out_of_range
        else if image.image_data.length < memcpy_size image.x image.y component_count then
          .error Failure.out_of_range
        else
          .ok { width := image.x, height := image.y, format := format,
                upload_buffer_size := upload_buffer_size pixels component_count,
                copied := image.image_data.take (memcpy_size image.x image.y component_count) }

end PBR

/-! ## The whole of `load_fbx`, parser included -/

/-- How a call of `load_fbx(path)` ends: it returns a value to its caller, or
the process ends inside the call with `exit(status)` after writing `stderr`,
or the call runs into a C failure. -/
inductive Outcome (α : Type) where
  | returned (value : α)
  | exited (status : Nat) (stderr : String)
  | failed (e : Failure)

/-- Function `load_fbx(path)` of the PBR variant (lines 336-354).
`ufbx_load_file` gives the parsed scene, or the description of the error when
it returns a null scene.  The line printed to `stdout` on success and
`ufbx_free_scene` are not modelled. -/
def PBR.load_fbx_path {D F : Type} [Zero F] [One F] [DecidableEq F] (ext : Ext D F)
    (ufbx_load_file : String → Except String (ufbx_scene D)) (path : String) :
    Outcome (Nat × PBR.Heap F) :=
  match ufbx_load_file path with
  | .error description => .exited 1 ("Failed to load: " ++ description ++ "\n")
  | .ok fbx_scene =>
    match PBR.load_node ext fbx_scene fbx_scene.root_node none PBR.Heap.empty with
    | .error e => .failed e
    | .ok scene => .returned scene

/-- Function `load_fbx(path)` of the FBX-loading variant (lines 278-293). -/
def FBX.load_fbx_path {D F : Type} [Zero F] [One F] [DecidableEq F] (ext : Ext D F)
    (ufbx_load_file : String → Except String (ufbx_scene D)) (path : String) :
    Outcome (Nat × FBX.Heap F) :=
  match ufbx_load_file path with
  | .error description => .exited 1 ("Failed to load: " ++ description ++ "\n")
  | .ok fbx_scene =>
    match FBX.load_node ext fbx_scene.root_node FBX.Heap.empty with
    | .error e => .failed e
    | .ok scene => .returned scene

/-! ## Concrete inputs used to exercise the theorems -/

/-- Collaborators over the integers: the cast is the identity, faces are
triangulated as fans, asset paths are returned unchanged. -/
def fan_ext : Ext Int Int where
  conv := id
  ufbx_triangulate_face := fun _ _ face =>
    (face.num_indices - 2,
     fun i => face.index_begin + (if i % 3 = 0 then 0 else i / 3 + i % 3))
  get_asset_path := id

/-- An absent attribute stream. -/
def absent_attrib {α : Type} (a : α) : ufbx_vertex_attrib α := ⟨false, fun _ => a⟩

/-- One quad whose corner `i` sits at `(i, 0, 0)`; one material, one partition. -/
def quad_mesh : ufbx_mesh Int where
  faces := [⟨0, 4⟩]
  max_face_triangles := 2
  vertex_position := ⟨true, fun i => ⟨i, 0, 0⟩⟩
  vertex_color := absent_attrib ⟨0, 0, 0, 0⟩
  vertex_normal := absent_attrib ⟨0, 0, 0⟩
  vertex_tangent := absent_attrib ⟨0, 0, 0⟩
  vertex_bitangent := absent_attrib ⟨0, 0, 0⟩
  vertex_uv := absent_attrib ⟨0, 0⟩
  materials := [⟨some ⟨"a.png", "a.png"⟩⟩]
  material_parts := [⟨2, [0]⟩]

/-- The only partition of `quad_mesh`. -/
def quad_part : ufbx_mesh_part := ⟨2, [0]⟩

/-- A heap holding one empty root node that owns a one-entry texture table. -/
def table_heap : PBR.Heap Int where
  nodes := [{ (PBR.Node.zero : PBR.Node Int) with texture_array := some 0, texture_count := 1 }]
  textures := [[⟨"a.png"⟩]]

/-- The vertex of `quad_mesh` at `(x, 0, 0)`: white, every other field zero. -/
def quad_vertex (x : Int) : PBR.Vertex Int :=
  { (PBR.Vertex.zero : PBR.Vertex Int) with pos := ⟨x, 0, 0⟩, color := ⟨1, 1, 1, 1⟩ }

/-- The mesh part `load_mesh_part` builds for `quad_part`. -/
def quad_mesh_part : PBR.Mesh_Part Int where
  vertex_array := [quad_vertex 0, quad_vertex 1, quad_vertex 2, quad_vertex 3,
    quad_vertex 2, quad_vertex 3]
  vertex_count := 4
  index_array := [0, 1, 2, 0, 2, 3]
  index_count := 6
  color_texture := some (0, 0)

/-- Modelled from the spec: the HandmadeMath constructors in exact arithmetic.
`Translate` puts the offset in the last column, `Scale` the factors on the
diagonal, and `QToM4` is the rotation matrix of a unit quaternion (on which
the normalisation done by HandmadeMath is the identity). -/
def exact_math {F : Type} [CommRing F] : HandmadeMath F where
  Translate := fun t => !![1, 0, 0, t.X; 0, 1, 0, t.Y; 0, 0, 1, t.Z; 0, 0, 0, 1]
  QToM4 := fun q =>
    !![1 - 2 * (q.Y * q.Y + q.Z * q.Z), 2 * (q.X * q.Y - q.W * q.Z),
        2 * (q.X * q.Z + q.W * q.Y), 0;
       2 * (q.X * q.Y + q.W * q.Z), 1 - 2 * (q.X * q.X + q.Z * q.Z),
        2 * (q.Y * q.Z - q.W * q.X), 0;
       2 * (q.X * q.Z - q.W * q.Y), 2 * (q.Y * q.Z + q.W * q.X),
        1 - 2 * (q.X * q.X + q.Y * q.Y), 0;
       0, 0, 0, 1]
  Scale := fun s => !![s.X, 0, 0, 0; 0, s.Y, 0, 0; 0, 0, s.Z, 0; 0, 0, 0, 1]

/-- A transform with the given translation and scale and no rotation. -/
def transform_of (t s : Vec3 Int) : ufbx_transform Int := ⟨t, ⟨0, 0, 0, 1⟩, s⟩

/-- The identity transform. -/
def identity_transform : ufbx_transform Int := transform_of ⟨0, 0, 0⟩ ⟨1, 1, 1⟩

/-- A scene of three nested nodes: an empty root at `(0, 0, 10)`, its child
`a` carrying `quad_mesh` with a geometry scale of 2, and below it an empty
node `b` at `(1, 0, 0)`.  The scene has one texture. -/
def chain_scene : ufbx_scene Int where
  root_node :=
    .mk "root" (transform_of ⟨0, 0, 10⟩ ⟨1, 1, 1⟩) identity_transform none none none true
      [.mk "a" identity_transform (transform_of ⟨0, 0, 0⟩ ⟨2, 2, 2⟩) (some quad_mesh) none none
        false
        [.mk "b" (transform_of ⟨1, 0, 0⟩ ⟨1, 1, 1⟩) identity_transform none none none false []]]
  textures := [⟨"a.png", "a.png"⟩]

/-- The heap `load_fbx` builds for `chain_scene`. -/
def chain_heap : PBR.Heap Int :=
  match PBR.load_fbx fan_ext chain_scene with
  | .ok (_, h) => h
  | .error _ => PBR.Heap.empty

/-- The heap the FBX-loading variant builds for `chain_scene`. -/
def fbx_chain_heap : FBX.Heap Int :=
  match FBX.load_fbx fan_ext chain_scene with
  | .ok (_, h) => h
  | .error _ => FBX.Heap.empty

/-- The heap the PNG-loading variant builds for `chain_scene`. -/
def png_chain_heap : PNG.Heap Int :=
  match PNG.load_fbx fan_ext chain_scene with
  | .ok (_, h) => h
  | .error _ => PNG.Heap.empty

/-- What the PBR variant uploads for `chain_scene`. -/
def chain_uploads : List (PBR.Upload Int) :=
  (PBR.upload_node_buffers exact_math chain_heap 0).getD []

/-- What the FBX-loading variant uploads for `chain_scene`. -/
def fbx_chain_uploads : List (FBX.Upload Int) :=
  (FBX.upload_node_buffers exact_math fbx_chain_heap 0).getD []

/-- What the PNG-loading variant uploads for `chain_scene`. -/
def png_chain_uploads : List (PNG.Upload Int) :=
  (PNG.upload_node_buffers exact_math png_chain_heap 0).getD []

/-- A source node with a point light and no children. -/
def lamp_node : ufbx_node Int :=
  .mk "lamp" identity_transform identity_transform none
    (some ⟨ufbx_light_type.UFBX_LIGHT_POINT⟩) none false []

/-- A source node with a camera and no children. -/
def camera_node : ufbx_node Int :=
  .mk "cam" identity_transform identity_transform none none (some ufbx_camera.mk) false []

/-- A scene whose empty root has a point-light child and a camera child. -/
def light_scene : ufbx_scene Int where
  root_node := .mk "root" identity_transform identity_transform none none none true
    [lamp_node, camera_node]
  textures := []

/-- The heap the PBR variant builds for `light_scene`. -/
def light_heap : PBR.Heap Int :=
  match PBR.load_fbx fan_ext light_scene with
  | .ok (_, h) => h
  | .error _ => PBR.Heap.empty

/-- The heap the FBX-loading variant builds for `light_scene`. -/
def fbx_light_heap : FBX.Heap Int :=
  match FBX.load_fbx fan_ext light_scene with
  | .ok (_, h) => h
  | .error _ => FBX.Heap.empty

/-- The heap the PBR variant builds for `camera_node` alone. -/
def camera_heap : PBR.Heap Int :=
  match PBR.load_node fan_ext light_scene camera_node none PBR.Heap.empty with
  | .ok (_, h) => h
  | .error _ => PBR.Heap.empty

/-- The heap the FBX-loading variant builds for `camera_node` alone. -/
def fbx_camera_heap : FBX.Heap Int :=
  match FBX.load_node fan_ext camera_node FBX.Heap.empty with
  | .ok (_, h) => h
  | .error _ => FBX.Heap.empty

/-- A mesh with one material partition of zero faces and no material. -/
def bare_mesh : ufbx_mesh Int where
  faces := []
  max_face_triangles := 0
  vertex_position := absent_attrib ⟨0, 0, 0⟩
  vertex_color := absent_attrib ⟨0, 0, 0, 0⟩
  vertex_normal := absent_attrib ⟨0, 0, 0⟩
  vertex_tangent := absent_attrib ⟨0, 0, 0⟩
  vertex_bitangent := absent_attrib ⟨0, 0, 0⟩
  vertex_uv := absent_attrib ⟨0, 0⟩
  materials := []
  material_parts := [⟨0, []⟩]

/-- A scene with one texture whose empty root has one child, a node carrying
`bare_mesh`. -/
def bare_mesh_scene : ufbx_scene Int where
  root_node := .mk "root" identity_transform identity_transform none none none true
    [.mk "m" identity_transform identity_transform (some bare_mesh) none none false []]
  textures := [⟨"a.png", "a.png"⟩]

/-- A scene whose root node itself carries `quad_mesh`. -/
def root_mesh_scene : ufbx_scene Int where
  root_node := .mk "root" identity_transform identity_transform (some quad_mesh) none none true []
  textures := [⟨"a.png", "a.png"⟩]

/-- A scene with one texture whose root node carries a camera and has one
empty child. -/
def camera_root_scene : ufbx_scene Int where
  root_node := .mk "root" identity_transform identity_transform none none
    (some ufbx_camera.mk) true
    [.mk "e" identity_transform identity_transform none none none false []]
  textures := [⟨"a.png", "a.png"⟩]

/-- The heap the PBR variant builds for `camera_root_scene`. -/
def camera_root_heap : PBR.Heap Int :=
  match PBR.load_fbx fan_ext camera_root_scene with
  | .ok (_, h) => h
  | .error _ => PBR.Heap.empty

/-- One triangle whose three corners differ only in their UV coordinate
`(i, 0)`; no other attribute stream exists. -/
def uv_triangle_mesh : ufbx_mesh Int where
  faces := [⟨0, 3⟩]
  max_face_triangles := 1
  vertex_position := absent_attrib ⟨0, 0, 0⟩
  vertex_color := absent_attrib ⟨0, 0, 0, 0⟩
  vertex_normal := absent_attrib ⟨0, 0, 0⟩
  vertex_tangent := absent_attrib ⟨0, 0, 0⟩
  vertex_bitangent := absent_attrib ⟨0, 0, 0⟩
  vertex_uv := ⟨true, fun i => ⟨i, 0⟩⟩
  materials := [⟨none⟩]
  material_parts := [⟨1, [0]⟩]

/-- The only partition of `uv_triangle_mesh`. -/
def uv_triangle_part : ufbx_mesh_part := ⟨1, [0]⟩

/-- The vertex of `uv_triangle_mesh` with UV `(u, 0)`: white, all else zero. -/
def uv_vertex (u : Int) : PBR.Vertex Int :=
  { (PBR.Vertex.zero : PBR.Vertex Int) with color := ⟨1, 1, 1, 1⟩, uv := ⟨u, 0⟩ }

/-- The unwelded corner stream of `uv_triangle_part`. -/
def uv_triangle_corners : List (PBR.Vertex Int) := [uv_vertex 0, uv_vertex 1, uv_vertex 2]

/-- The mesh part `load_mesh_part` builds for `uv_triangle_part`. -/
def uv_triangle_mesh_part : PBR.Mesh_Part Int where
  vertex_array := uv_triangle_corners
  vertex_count := 3
  index_array := [0, 1, 2]
  index_count := 3
  color_texture := none

/-- The unwelded corner stream of `quad_part`. -/
def quad_corners : List (PBR.Vertex Int) :=
  [quad_vertex 0, quad_vertex 1, quad_vertex 2, quad_vertex 0, quad_vertex 2, quad_vertex 3]

/-- A material whose base-color texture has the file name `a.png`. -/
def a_png_material : ufbx_material := ⟨some ⟨"a.png", "a.png"⟩⟩

/-- Two triangles, each in its own material partition; both materials declare
a base-color texture with the file name `a.png`. -/
def twin_mesh : ufbx_mesh Int where
  faces := [⟨0, 3⟩, ⟨3, 3⟩]
  max_face_triangles := 1
  vertex_position := ⟨true, fun i => ⟨i, 0, 0⟩⟩
  vertex_color := absent_attrib ⟨0, 0, 0, 0⟩
  vertex_normal := absent_attrib ⟨0, 0, 0⟩
  vertex_tangent := absent_attrib ⟨0, 0, 0⟩
  vertex_bitangent := absent_attrib ⟨0, 0, 0⟩
  vertex_uv := absent_attrib ⟨0, 0⟩
  materials := [a_png_material, a_png_material]
  material_parts := [⟨1, [0]⟩, ⟨1, [1]⟩]

/-- A scene whose two textures both refer to the file `a.png`, with an empty
root and one child carrying `twin_mesh`. -/
def twin_scene : ufbx_scene Int where
  root_node := .mk "root" identity_transform identity_transform none none none true
    [.mk "m" identity_transform identity_transform (some twin_mesh) none none false []]
  textures := [⟨"a.png", "a.png"⟩, ⟨"a.png", "a.png"⟩]

/-- The heap the PBR variant builds for `twin_scene`. -/
def twin_heap : PBR.Heap Int :=
  match PBR.load_fbx fan_ext twin_scene with
  | .ok (_, h) => h
  | .error _ => PBR.Heap.empty

/-- The mesh part of the first partition of `twin_mesh` under `twin_heap`. -/
def twin_mesh_part_0 : PBR.Mesh_Part Int where
  vertex_array := [quad_vertex 0, quad_vertex 1, quad_vertex 2]
  vertex_count := 3
  index_array := [0, 1, 2]
  index_count := 3
  color_texture := some (0, 1)

/-- The mesh part of the second partition of `twin_mesh` under `twin_heap`. -/
def twin_mesh_part_1 : PBR.Mesh_Part Int where
  vertex_array := [quad_vertex 3, quad_vertex 4, quad_vertex 5]
  vertex_count := 3
  index_array := [0, 1, 2]
  index_count := 3
  color_texture := some (0, 1)

/-- The heap the PBR variant builds for the mesh node of `chain_scene` alone, imported
with the root of `table_heap` as `root`. -/
def quad_node_heap : PBR.Heap Int :=
  match PBR.load_node fan_ext chain_scene
    (.mk "a" identity_transform (transform_of ⟨0, 0, 0⟩ ⟨2, 2, 2⟩) (some quad_mesh) none none
      false []) (some 0) table_heap with
  | .ok (_, h) => h
  | .error _ => PBR.Heap.empty

/-- A heap over the rationals with two nodes: a parentless root at local
position `(0, 0, 10)` and its child, whose local transform is the identity
and whose geometry transform is a scale by one half. -/
def scenario_heap : PBR.Heap ℚ where
  nodes :=
    [{ (PBR.Node.zero : PBR.Node ℚ) with
        local_position := ⟨0, 0, 10⟩, local_rotation := ⟨0, 0, 0, 1⟩, local_scale := ⟨1, 1, 1⟩,
        geometry_rotation := ⟨0, 0, 0, 1⟩, geometry_scale := ⟨1, 1, 1⟩,
        child_array := [1], child_count := 1 },
     { (PBR.Node.zero : PBR.Node ℚ) with
        local_position := ⟨0, 0, 0⟩, local_rotation := ⟨0, 0, 0, 1⟩, local_scale := ⟨1, 1, 1⟩,
        geometry_position := ⟨0, 0, 0⟩, geometry_rotation := ⟨0, 0, 0, 1⟩,
        geometry_scale := ⟨1 / 2, 1 / 2, 1 / 2⟩,
        parent := some 0 }]
  textures := []

/-- The heap `scenario_heap` in the FBX-loading variant. -/
def fbx_scenario_heap : FBX.Heap ℚ where
  nodes :=
    [{ (FBX.Node.zero : FBX.Node ℚ) with
        local_position := ⟨0, 0, 10⟩, local_rotation := ⟨0, 0, 0, 1⟩, local_scale := ⟨1, 1, 1⟩,
        geometry_rotation := ⟨0, 0, 0, 1⟩, geometry_scale := ⟨1, 1, 1⟩,
        child_array := [1], child_count := 1 },
     { (FBX.Node.zero : FBX.Node ℚ) with
        local_position := ⟨0, 0, 0⟩, local_rotation := ⟨0, 0, 0, 1⟩, local_scale := ⟨1, 1, 1⟩,
        geometry_position := ⟨0, 0, 0⟩, geometry_rotation := ⟨0, 0, 0, 1⟩,
        geometry_scale := ⟨1 / 2, 1 / 2, 1 / 2⟩,
        parent := some 0 }]

/-- A mesh with one material and two partitions: the first has no face, the
second holds one triangle. -/
def degenerate_mesh : ufbx_mesh Int where
  faces := [⟨0, 3⟩]
  max_face_triangles := 1
  vertex_position := ⟨true, fun i => ⟨i, 0, 0⟩⟩
  vertex_color := absent_attrib ⟨0, 0, 0, 0⟩
  vertex_normal := absent_attrib ⟨0, 0, 0⟩
  vertex_tangent := absent_attrib ⟨0, 0, 0⟩
  vertex_bitangent := absent_attrib ⟨0, 0, 0⟩
  vertex_uv := absent_attrib ⟨0, 0⟩
  materials := [⟨none⟩, ⟨none⟩]
  material_parts := [⟨0, []⟩, ⟨1, [0]⟩]

/-- A scene with one texture: an empty root, its child carrying
`degenerate_mesh`, and below it an empty node. -/
def degenerate_scene : ufbx_scene Int where
  root_node := .mk "root" identity_transform identity_transform none none none true
    [.mk "m" identity_transform identity_transform (some degenerate_mesh) none none false
      [.mk "e" identity_transform identity_transform none none none false []]]
  textures := [⟨"a.png", "a.png"⟩]

/-- The heap the PBR variant builds for `degenerate_scene`. -/
def degenerate_heap : PBR.Heap Int :=
  match PBR.load_fbx fan_ext degenerate_scene with
  | .ok (_, h) => h
  | .error _ => PBR.Heap.empty

/-- The empty mesh part: no vertex, no index, no texture. -/
def empty_mesh_part : PBR.Mesh_Part Int where
  vertex_array := []
  vertex_count := 0
  index_array := []
  index_count := 0
  color_texture := none

/-- The heap the PNG-loading variant builds for `twin_scene`. -/
def png_twin_heap : PNG.Heap Int :=
  match PNG.load_fbx fan_ext twin_scene with
  | .ok (_, h) => h
  | .error _ => PNG.Heap.empty

/-- The mesh part the PNG-loading variant builds for the first partition of
`twin_mesh` against the root of `png_twin_heap`. -/
def png_twin_mesh_part_0 : PNG.Mesh_Part Int :=
  match PNG.load_mesh_part fan_ext twin_mesh ⟨1, [0]⟩ 0 (some 0) png_twin_heap with
  | .ok r => r
  | .error _ => ⟨[], 0, [], 0, none⟩

/-- A parser that opens only `chain.fbx`, which holds `chain_scene`. -/
def chain_file_only (path : String) : Except String (ufbx_scene Int) :=
  if path = "chain.fbx" then .ok chain_scene else .error "File not found"

/-- The heap after a second import of `chain_scene`, run on the heap that the
first one has left. -/
def chain_heap_again : PBR.Heap Int :=
  match PBR.load_node fan_ext chain_scene chain_scene.root_node none chain_heap with
  | .ok (_, h) => h
  | .error _ => PBR.Heap.empty

/-- The vertex of `quad_mesh` at `(x, 0, 0)` in the FBX-loading variant. -/
def fbx_quad_vertex (x : Int) : FBX.Vertex Int :=
  { (FBX.Vertex.zero : FBX.Vertex Int) with pos := ⟨x, 0, 0⟩, color := ⟨1, 1, 1, 1⟩ }

/-- The unwelded corner stream of `quad_part` in the FBX-loading variant. -/
def fbx_quad_corners : List (FBX.Vertex Int) :=
  [fbx_quad_vertex 0, fbx_quad_vertex 1, fbx_quad_vertex 2, fbx_quad_vertex 0,
    fbx_quad_vertex 2, fbx_quad_vertex 3]

/-- The mesh part the FBX-loading variant builds for `quad_part`. -/
def fbx_quad_mesh_part : FBX.Mesh_Part Int where
  vertex_array := [fbx_quad_vertex 0, fbx_quad_vertex 1, fbx_quad_vertex 2, fbx_quad_vertex 3,
    fbx_quad_vertex 2, fbx_quad_vertex 3]
  vertex_count := 4
  index_array := [0, 1, 2, 0, 2, 3]
  index_count := 6

/-- The collaborators of `fan_ext` with asset paths resolved below the
directory `assets/`. -/
def asset_ext : Ext Int Int :=
  { fan_ext with get_asset_path := fun relative_filename => "assets/" ++ relative_filename }

/-- The heap the PBR variant builds for `twin_scene` with `asset_ext`. -/
def asset_twin_heap : PBR.Heap Int :=
  match PBR.load_fbx asset_ext twin_scene with
  | .ok (_, h) => h
  | .error _ => PBR.Heap.empty

/-- The heap the PNG-loading variant builds for `twin_scene` with
`asset_ext`. -/
def png_asset_twin_heap : PNG.Heap Int :=
  match PNG.load_fbx asset_ext twin_scene with
  | .ok (_, h) => h
  | .error _ => PNG.Heap.empty

section generate_indices

variable {V : Type} [DecidableEq V]

theorem generate_indices_scan_nil : generate_indices_scan ([] : List V) = ([], []) := rfl

theorem generate_indices_scan_concat (l : List V) (v : V) :
    generate_indices_scan (l ++ [v]) = generate_indices_step (generate_indices_scan l) v := by
  simp [generate_indices_scan, List.foldl_append]

theorem scan_inv_step (l : List V) (st : List V × List Nat) (v : V) (hI : Scan_Inv l st) :
    Scan_Inv (l ++ [v]) (generate_indices_step st v) := by
  obtain ⟨hn, hm, hl, hp⟩ := hI
  unfold generate_indices_step
  split
  · rename_i hlt
    have hv : v ∈ st.1 := List.indexOf_lt_length.mp hlt
    refine ⟨hn, ?_, by simp [hl], ?_⟩
    · intro w
      simp only [List.mem_append, List.mem_singleton]
      constructor
      · intro hw; exact Or.inl ((hm w).mp hw)
      · rintro (hw | rfl)
        · exact (hm w).mpr hw
        · exact hv
    · intro k hk
      simp only [List.length_append, List.length_singleton] at hk
      rcases Nat.lt_succ_iff_lt_or_eq.mp hk with hk' | rfl
      · obtain ⟨i, hi, hi'⟩ := hp k hk'
        refine ⟨i, ?_, ?_⟩
        · rw [List.getElem?_append_left (by omega)]; exact hi
        · rw [List.getElem?_append_left hk']; exact hi'
      · refine ⟨st.1.indexOf v, ?_, ?_⟩
        · rw [List.getElem?_append_right (by omega)]; simp [hl]
        · rw [List.getElem?_append_right (le_refl _)]
          simp only [Nat.sub_self, List.getElem?_cons_zero]
          rw [List.getElem?_eq_getElem hlt]
          simp [List.indexOf_getElem]
  · rename_i hlt
    have hv : v ∉ st.1 := fun h => hlt (List.indexOf_lt_length.mpr h)
    refine ⟨?_, ?_, by simp [hl], ?_⟩
    · exact List.nodup_append.mpr ⟨hn, List.nodup_singleton v, by
        intro a ha hb; simp at hb; subst hb; exact hv ha⟩
    · intro w
      simp only [List.mem_append, List.mem_singleton]
      rw [hm w]
    · intro k hk
      simp only [List.length_append, List.length_singleton] at hk
      rcases Nat.lt_succ_iff_lt_or_eq.mp hk with hk' | rfl
      · obtain ⟨i, hi, hi'⟩ := hp k hk'
        have hil : i < st.1.length := by
          by_contra hc
          rw [List.getElem?_eq_none (by omega), List.getElem?_eq_getElem hk'] at hi'
          exact absurd hi' (by simp)
        refine ⟨i, ?_, ?_⟩
        · rw [List.getElem?_append_left (by omega)]; exact hi
        · rw [List.getElem?_append_left hk', List.getElem?_append_left hil]; exact hi'
      · refine ⟨st.1.length, ?_, ?_⟩
        · rw [List.getElem?_append_right (by omega)]; simp [hl]
        · rw [List.getElem?_append_right (le_refl _), List.getElem?_append_right (le_refl _)]
          simp

theorem scan_inv (l : List V) : Scan_Inv l (generate_indices_scan l) := by
  induction l using List.reverseRecOn with
  | nil => exact ⟨List.nodup_nil, by simp [generate_indices_scan], rfl, by simp⟩
  | append_singleton l v ih =>
    rw [generate_indices_scan_concat]
    exact scan_inv_step l _ v ih

end generate_indices

section generate_indices_length
variable {V : Type} [DecidableEq V]

theorem scan_index_lt (l : List V) : ∀ i ∈ (generate_indices_scan l).2,
    i < (generate_indices_scan l).1.length := by
  intro i hi
  obtain ⟨k, hk, hki⟩ := List.getElem_of_mem hi
  have hI := scan_inv l
  rw [hI.len] at hk
  obtain ⟨j, hj, hj'⟩ := hI.pos k hk
  have : j = i := by
    rw [List.getElem?_eq_getElem (by rw [hI.len]; exact hk)] at hj
    simpa [hki] using hj.symm
  subst this
  by_contra hc
  rw [List.getElem?_eq_none (by omega), List.getElem?_eq_getElem hk] at hj'
  exact absurd hj' (by simp)

theorem scan_length_eq_dedup (l : List V) :
    (generate_indices_scan l).1.length = l.dedup.length := by
  have hI := scan_inv l
  apply List.Perm.length_eq
  rw [List.perm_ext_iff_of_nodup hI.nodup (List.nodup_dedup l)]
  intro v
  rw [hI.mem v, List.mem_dedup]

theorem scan_length_le (l : List V) : (generate_indices_scan l).1.length ≤ l.length := by
  rw [scan_length_eq_dedup]
  exact (List.dedup_sublist l).length_le

theorem scan_length_eq_iff (l : List V) :
    (generate_indices_scan l).1.length = l.length ↔ l.Nodup := by
  rw [scan_length_eq_dedup]
  constructor
  · intro h
    have := (List.dedup_sublist l).eq_of_length h
    exact List.dedup_eq_self.mp this
  · intro h
    rw [List.Nodup.dedup h]

end generate_indices_length

namespace PBR
theorem unwelded_vertices_length {D F : Type} [Zero F] [One F] (ext : Ext D F) (mesh : ufbx_mesh D) (part : ufbx_mesh_part)
    (corners : List (Vertex F)) (h : unwelded_vertices ext mesh part = .ok corners) :
    corners.length = part.num_triangles * 3 := by
  unfold unwelded_vertices at h
  split at h
  · cases h
  · split at h
    · cases h; assumption
    · cases h

theorem load_mesh_part_ok {D F : Type} [Zero F] [One F] [DecidableEq F] (ext : Ext D F) (mesh : ufbx_mesh D) (part : ufbx_mesh_part)
    (material_index : Nat) (node : Option Nat) (h : Heap F) (r : Mesh_Part F)
    (hr : load_mesh_part ext mesh part material_index node h = .ok r) :
    ∃ corners, unwelded_vertices ext mesh part = .ok corners ∧
      corners.length = part.num_triangles * 3 ∧
      r.index_count = part.num_triangles * 3 ∧
      r.index_array = (generate_indices_scan corners).2 ∧
      r.vertex_count = (generate_indices_scan corners).1.length ∧
      r.vertex_array = (generate_indices_scan corners).1 ++
        corners.drop (generate_indices_scan corners).1.length := by
  unfold load_mesh_part at hr
  split at hr
  · cases hr
  · rename_i corners hc
    refine ⟨corners, hc, unwelded_vertices_length ext mesh part corners hc, ?_⟩
    split at hr
    · cases hr
    · split at hr
      · cases hr
      · cases hr
        simp [ufbx_generate_indices]

/-- In the PBR variant: the Mesh Part returned by `load_mesh_part` reproduces the unwelded
corner stream: `index_count` is the number of unwelded corners, the index array
has one entry per corner, and for every corner `k` the vertex
`vertex_array[index_array[k]]` is the `k`-th unwelded corner record. -/
theorem pbr_reproduces_corner_stream {D F : Type} [Zero F] [One F] [DecidableEq F]
    (ext : Ext D F) (mesh : ufbx_mesh D) (part : ufbx_mesh_part) (material_index : Nat)
    (node : Option Nat) (h : Heap F) (r : Mesh_Part F)
    (hr : load_mesh_part ext mesh part material_index node h = .ok r) :
    ∃ corners, unwelded_vertices ext mesh part = .ok corners ∧
      r.index_count = corners.length ∧ r.index_array.length = corners.length ∧
      ∀ k, k < corners.length →
        ∃ i, r.index_array[k]? = some i ∧ r.vertex_array[i]? = corners[k]? := by
  obtain ⟨corners, hc, hlen, hic, hia, _, hva⟩ := load_mesh_part_ok ext mesh part material_index node h r hr
  have hI := scan_inv corners
  refine ⟨corners, hc, by rw [hic, hlen], by rw [hia, hI.len], ?_⟩
  intro k hk
  obtain ⟨i, hi, hi'⟩ := hI.pos k hk
  refine ⟨i, by rw [hia]; exact hi, ?_⟩
  have hil : i < (generate_indices_scan corners).1.length := by
    by_contra hcon
    rw [List.getElem?_eq_none (by omega), List.getElem?_eq_getElem hk] at hi'
    exact absurd hi' (by simp)
  rw [hva, List.getElem?_append_left hil]
  exact hi'

/-- C2: among the first `vertex_count` entries of `vertex_array` no two are
bit-identical, and two vertices are the same exactly when every field
(position, color, normal, tangent, bitangent, uv) is equal. -/
theorem load_mesh_part_vertices_nodup {D F : Type} [Zero F] [One F] [DecidableEq F]
    (ext : Ext D F) (mesh : ufbx_mesh D) (part : ufbx_mesh_part) (material_index : Nat)
    (node : Option Nat) (h : Heap F) (r : Mesh_Part F)
    (hr : load_mesh_part ext mesh part material_index node h = .ok r) :
    (r.vertex_array.take r.vertex_count).Nodup ∧
    (∀ i j, i < j → j < r.vertex_count → r.vertex_array[i]? ≠ r.vertex_array[j]?) ∧
    ∀ a b : Vertex F, a = b ↔
      (a.pos = b.pos ∧ a.color = b.color ∧ a.normal = b.normal ∧ a.tangent = b.tangent ∧
        a.bitangent = b.bitangent ∧ a.uv = b.uv) := by
  obtain ⟨corners, _, _, _, _, hvc, hva⟩ := load_mesh_part_ok ext mesh part material_index node h r hr
  have hI := scan_inv corners
  have htake : r.vertex_array.take r.vertex_count = (generate_indices_scan corners).1 := by
    rw [hva, hvc, List.take_left']
    rfl
  have hnd : (r.vertex_array.take r.vertex_count).Nodup := by rw [htake]; exact hI.nodup
  refine ⟨hnd, ?_, ?_⟩
  · intro i j hij hj heq
    have hlen : r.vertex_count ≤ r.vertex_array.length := by
      rw [hva, hvc, List.length_append]; omega
    have hi' : i < (r.vertex_array.take r.vertex_count).length := by
      rw [List.length_take]; omega
    have hj' : j < (r.vertex_array.take r.vertex_count).length := by
      rw [List.length_take]; omega
    have h1 : (r.vertex_array.take r.vertex_count)[i] = (r.vertex_array.take r.vertex_count)[j] := by
      rw [List.getElem_take, List.getElem_take]
      rw [List.getElem?_eq_getElem (by omega), List.getElem?_eq_getElem (by omega)] at heq
      exact Option.some.inj heq
    have := (List.Nodup.getElem_inj_iff hnd).mp h1
    omega
  · intro a b
    constructor
    · rintro rfl; simp
    · intro hab
      cases a; cases b
      simp at hab ⊢
      exact hab

/-- Witness of C2 on the quad. -/
theorem load_mesh_part_vertices_nodup_witness :
    load_mesh_part fan_ext quad_mesh quad_part 0 (some 0) table_heap = .ok quad_mesh_part ∧
    (quad_mesh_part.vertex_array.take quad_mesh_part.vertex_count).Nodup ∧
    (∀ i j, i < j → j < quad_mesh_part.vertex_count →
      quad_mesh_part.vertex_array[i]? ≠ quad_mesh_part.vertex_array[j]?) ∧
    ∀ a b : Vertex Int, a = b ↔
      (a.pos = b.pos ∧ a.color = b.color ∧ a.normal = b.normal ∧ a.tangent = b.tangent ∧
        a.bitangent = b.bitangent ∧ a.uv = b.uv) :=
  ⟨rfl, load_mesh_part_vertices_nodup fan_ext quad_mesh quad_part 0 (some 0)
    table_heap quad_mesh_part rfl⟩

/-- C3: `index_count` is a multiple of 3, the index array has `index_count`
entries, and every entry of `index_array` is below `vertex_count`. -/
theorem load_mesh_part_indices_in_range {D F : Type} [Zero F] [One F] [DecidableEq F]
    (ext : Ext D F) (mesh : ufbx_mesh D) (part : ufbx_mesh_part) (material_index : Nat)
    (node : Option Nat) (h : Heap F) (r : Mesh_Part F)
    (hr : load_mesh_part ext mesh part material_index node h = .ok r) :
    3 ∣ r.index_count ∧ r.index_array.length = r.index_count ∧
      ∀ i ∈ r.index_array, i < r.vertex_count := by
  obtain ⟨corners, _, hlen, hic, hia, hvc, _⟩ := load_mesh_part_ok ext mesh part material_index node h r hr
  refine ⟨by rw [hic]; exact Dvd.intro_left _ rfl, ?_, ?_⟩
  · rw [hia, (scan_inv corners).len, hic, hlen]
  · rw [hia, hvc]
    exact scan_index_lt corners

/-- Witness of C3 on the quad. -/
theorem load_mesh_part_indices_in_range_witness :
    load_mesh_part fan_ext quad_mesh quad_part 0 (some 0) table_heap = .ok quad_mesh_part ∧
    3 ∣ quad_mesh_part.index_count ∧
    quad_mesh_part.index_array.length = quad_mesh_part.index_count ∧
    ∀ i ∈ quad_mesh_part.index_array, i < quad_mesh_part.vertex_count :=
  ⟨rfl, load_mesh_part_indices_in_range fan_ext quad_mesh quad_part 0 (some 0)
    table_heap quad_mesh_part rfl⟩

/-- C4: `vertex_count <= 3 * num_triangles`, with equality exactly when no two
unwelded corner records of the partition are bit-identical. -/
theorem load_mesh_part_vertex_count_bound {D F : Type} [Zero F] [One F] [DecidableEq F]
    (ext : Ext D F) (mesh : ufbx_mesh D) (part : ufbx_mesh_part) (material_index : Nat)
    (node : Option Nat) (h : Heap F) (r : Mesh_Part F)
    (hr : load_mesh_part ext mesh part material_index node h = .ok r) :
    ∃ corners, unwelded_vertices ext mesh part = .ok corners ∧
      r.vertex_count ≤ 3 * part.num_triangles ∧
      (r.vertex_count = 3 * part.num_triangles ↔ corners.Nodup) := by
  obtain ⟨corners, hc, hlen, _, _, hvc, _⟩ := load_mesh_part_ok ext mesh part material_index node h r hr
  have h3 : 3 * part.num_triangles = corners.length := by omega
  refine ⟨corners, hc, ?_, ?_⟩
  · rw [hvc, h3]; exact scan_length_le corners
  · rw [hvc, h3]; exact scan_length_eq_iff corners

/-- Witness of C4 on the quad: four vertices for two triangles. -/
theorem load_mesh_part_vertex_count_bound_witness :
    load_mesh_part fan_ext quad_mesh quad_part 0 (some 0) table_heap = .ok quad_mesh_part ∧
    ∃ corners, unwelded_vertices fan_ext quad_mesh quad_part = .ok corners ∧
      quad_mesh_part.vertex_count ≤ 3 * quad_part.num_triangles ∧
      (quad_mesh_part.vertex_count = 3 * quad_part.num_triangles ↔ corners.Nodup) :=
  ⟨rfl, load_mesh_part_vertex_count_bound fan_ext quad_mesh quad_part 0 (some 0)
    table_heap quad_mesh_part rfl⟩

section heap
variable {F : Type}

theorem Heap.update_length (h : Heap F) (p : Nat) (f : Node F → Node F) :
    (h.update p f).nodes.length = h.nodes.length := by
  simp [Heap.update]

theorem Heap.update_textures (h : Heap F) (p : Nat) (f : Node F → Node F) :
    (h.update p f).textures = h.textures := rfl

theorem Heap.update_node_ne [Zero F] (h : Heap F) (p q : Nat) (f : Node F → Node F)
    (hq : q ≠ p) : (h.update p f).node q = h.node q := by
  simp [Heap.update, Heap.node, List.getD_eq_getElem?_getD, List.getElem?_modify, Ne.symm hq]

theorem Heap.update_node_eq [Zero F] (h : Heap F) (p : Nat) (f : Node F → Node F)
    (hp : p < h.nodes.length) : (h.update p f).node p = f (h.node p) := by
  simp [Heap.update, Heap.node, List.getD_eq_getElem?_getD, List.getElem?_modify,
    List.getElem?_eq_getElem hp]

theorem Heap.get?_eq_node [Zero F] (h : Heap F) (p : Nat) (hp : p < h.nodes.length) :
    h.nodes.get? p = some (h.node p) := by
  simp [Heap.node, List.getD_eq_getElem?_getD, List.getElem?_eq_getElem hp]

theorem node_create_length [Zero F] (h : Heap F) :
    (node_create h).2.nodes.length = h.nodes.length + 1 := by
  simp [node_create]

theorem node_create_node_lt [Zero F] (h : Heap F) (q : Nat) (hq : q < h.nodes.length) :
    (node_create h).2.node q = h.node q := by
  simp [node_create, Heap.node, List.getD_eq_getElem?_getD, List.getElem?_append_left hq]

theorem node_create_node_new [Zero F] (h : Heap F) :
    (node_create h).2.node h.nodes.length = Node.zero := by
  simp [node_create, Heap.node, List.getD_eq_getElem?_getD]

end heap

section load_payload_frame
variable {D F : Type} [Zero F] [One F] [DecidableEq F]

theorem load_payload_post (ext : Ext D F) (fbx_scene : ufbx_scene D)
    (mesh : Option (ufbx_mesh D)) (light : Option ufbx_light) (camera : Option ufbx_camera)
    (is_root : Bool) (node : Nat) (root root' : Option Nat) (h h' : Heap F)
    (hn : node < h.nodes.length)
    (hr : load_payload ext fbx_scene mesh light camera is_root node root h = .ok (root', h')) :
    Payload_Post node h h' := by
  unfold load_payload at hr
  split at hr
  · split at hr
    · cases hr
    · cases hr
      exact ⟨Heap.update_length _ _ _, fun q hq => Heap.update_node_ne _ _ _ _ hq,
        by rw [Heap.update_node_eq _ _ _ hn], by rw [Heap.update_node_eq _ _ _ hn], ⟨[], by simp [Heap.update_textures]⟩⟩
  · split at hr
    · cases hr; exact ⟨rfl, fun _ _ => rfl, rfl, rfl, ⟨[], by simp⟩⟩
    · split at hr
      · cases hr; exact ⟨rfl, fun _ _ => rfl, rfl, rfl, ⟨[], by simp⟩⟩
      · split at hr
        · cases hr; exact ⟨rfl, fun _ _ => rfl, rfl, rfl, ⟨[], by simp⟩⟩
        · split at hr
          · cases hr
            exact ⟨Heap.update_length _ _ _, fun q hq => Heap.update_node_ne _ _ _ _ hq,
              by rw [Heap.update_node_eq _ _ _ hn], by rw [Heap.update_node_eq _ _ _ hn], ⟨[], by simp [Heap.update_textures]⟩⟩
          · split at hr
            · cases hr
              refine ⟨?_, ?_, ?_, ?_, ?_⟩
              · simp [Heap.update]
              · intro q hq
                rw [Heap.update_node_ne _ _ _ _ hq]
                show Heap.node (Heap.update h node _) q = _
                exact Heap.update_node_ne _ _ _ _ hq
              · rw [Heap.update_node_eq _ _ _ (by simpa [Heap.update] using hn)]
                show (Heap.node (Heap.update h node _) node).parent = _
                rw [Heap.update_node_eq _ _ _ hn]
              · rw [Heap.update_node_eq _ _ _ (by simpa [Heap.update] using hn)]
                show (Heap.node (Heap.update h node _) node).child_array = _
                rw [Heap.update_node_eq _ _ _ hn]
              · exact ⟨_, rfl⟩
            · cases hr
              exact ⟨Heap.update_length _ _ _, fun q hq => Heap.update_node_ne _ _ _ _ hq,
                by rw [Heap.update_node_eq _ _ _ hn], by rw [Heap.update_node_eq _ _ _ hn], ⟨[], by simp [Heap.update_textures]⟩⟩

end load_payload_frame
section load_node_invariants
variable {D F : Type} [Zero F]

theorem load_header_ptr (ext : Ext D F) (name : String) (lt gt : ufbx_transform D)
    (h : Heap F) : (load_header ext name lt gt h).1 = h.nodes.length := rfl

theorem load_header_length (ext : Ext D F) (name : String) (lt gt : ufbx_transform D)
    (h : Heap F) : (load_header ext name lt gt h).2.nodes.length = h.nodes.length + 1 := by
  simp [load_header, node_create, Heap.update]

theorem load_header_textures (ext : Ext D F) (name : String) (lt gt : ufbx_transform D)
    (h : Heap F) : (load_header ext name lt gt h).2.textures = h.textures := rfl

theorem load_header_node_lt (ext : Ext D F) (name : String) (lt gt : ufbx_transform D)
    (h : Heap F) (q : Nat) (hq : q < h.nodes.length) :
    (load_header ext name lt gt h).2.node q = h.node q := by
  show Heap.node (Heap.update (node_create h).2 _ _) q = _
  rw [Heap.update_node_ne _ _ _ _ (by show q ≠ h.nodes.length; omega), node_create_node_lt h q hq]

theorem load_header_node_new (ext : Ext D F) (name : String) (lt gt : ufbx_transform D)
    (h : Heap F) :
    (load_header ext name lt gt h).2.node h.nodes.length =
      { (Node.zero : Node F) with
        name := name,
        local_position := lt.translation.conv_float ext.conv,
        local_rotation := lt.rotation.conv_float ext.conv,
        local_scale := lt.scale.conv_float ext.conv,
        geometry_position := gt.translation.conv_float ext.conv,
        geometry_rotation := gt.rotation.conv_float ext.conv,
        geometry_scale := gt.scale.conv_float ext.conv } := by
  show Heap.node (Heap.update (node_create h).2 h.nodes.length _) h.nodes.length = _
  rw [Heap.update_node_eq _ _ _ (by rw [node_create_length]; omega), node_create_node_new]

variable [One F] [DecidableEq F]

/-- The anatomy of a successful `load_node`: the header, the classification and
the child loop, and what the new node holds at the end. -/
theorem load_node_ok (ext : Ext D F) (fbx_scene : ufbx_scene D) (name : String)
    (lt gt : ufbx_transform D) (mesh : Option (ufbx_mesh D)) (light : Option ufbx_light)
    (camera : Option ufbx_camera) (is_root : Bool) (children : List (ufbx_node D))
    (root : Option Nat) (h : Heap F) (p : Nat) (h' : Heap F)
    (hr : load_node ext fbx_scene (.mk name lt gt mesh light camera is_root children) root h
      = .ok (p, h')) :
    p = h.nodes.length ∧ ∃ root1 h1,
      load_payload ext fbx_scene mesh light camera is_root p root
        (load_header ext name lt gt h).2 = .ok (root1, h1) ∧
      load_children ext fbx_scene children p root1
        (h1.update p fun n => { n with child_array := [], child_count := children.length })
        = .ok h' := by
  rw [load_node] at hr
  simp only [load_header_ptr] at hr
  split at hr
  · cases hr
  · rename_i root1 h1 hpay
    split at hr
    · cases hr
    · rename_i h2 hch
      cases hr
      exact ⟨rfl, root1, h1, hpay, hch⟩

mutual
theorem load_node_post (ext : Ext D F) (fbx_scene : ufbx_scene D) :
    (fbx_node : ufbx_node D) → (root : Option Nat) → (h : Heap F) → (p : Nat) → (h' : Heap F) →
    load_node ext fbx_scene fbx_node root h = .ok (p, h') → Node_Post h h' p
  | .mk name lt gt mesh light camera is_root children, root, h, p, h', hr => by
    obtain ⟨rfl, root1, h1, hpay, hch⟩ :=
      load_node_ok ext fbx_scene name lt gt mesh light camera is_root children root h p h' hr
    have hlen0 := load_header_length ext name lt gt h
    have hP := load_payload_post ext fbx_scene mesh light camera is_root _ root root1 _ h1
      (by omega) hpay
    have hlen1 : h1.nodes.length = h.nodes.length + 1 := by rw [hP.length, hlen0]
    have hC := load_children_post ext fbx_scene children h.nodes.length root1 _ h'
      (by rw [Heap.update_length]; omega) hch
    have hCg := hC.grow
    rw [Heap.update_length] at hCg
    obtain ⟨cs, hcs, hcsr⟩ := hC.node_eq
    rw [Heap.update_length] at hcsr
    have hpar : (h'.node h.nodes.length).parent = none := by
      rw [hcs, Heap.update_node_eq _ _ _ (by omega)]
      show (h1.node h.nodes.length).parent = none
      rw [hP.parent, load_header_node_new]
      rfl
    refine ⟨rfl, by omega, ?_, ?_, hpar, ?_, ?_⟩
    · intro q hq
      rw [hC.frame q (by rw [Heap.update_length]; omega) (by omega),
        Heap.update_node_ne _ _ _ _ (by omega), hP.frame q (by omega),
        load_header_node_lt _ _ _ _ _ _ hq]
    · obtain ⟨t1, ht1⟩ := hP.tex
      obtain ⟨t2, ht2⟩ := hC.tex
      refine ⟨t1 ++ t2, ?_⟩
      rw [ht2, Heap.update_textures, ht1, load_header_textures, List.append_assoc]
    · intro q hq1 hq2
      exact hC.parents q (by rw [Heap.update_length]; omega) hq2
    · intro q hq1 hq2 c hc
      rcases Nat.eq_or_lt_of_le hq1 with hq | hq
      · subst hq
        rw [hcs, Heap.update_node_eq _ _ _ (by omega)] at hc
        simp only [List.nil_append] at hc
        have := hcsr c hc
        omega
      · exact hC.children q (by rw [Heap.update_length]; omega) hq2 c hc
termination_by structural fbx_node => fbx_node
theorem load_children_post (ext : Ext D F) (fbx_scene : ufbx_scene D) :
    (fbx_children : List (ufbx_node D)) → (node : Nat) → (root : Option Nat) → (h : Heap F) →
    (h' : Heap F) → node < h.nodes.length →
    load_children ext fbx_scene fbx_children node root h = .ok h' → Children_Post node h h'
  | [], node, root, h, h', hn, hr => by
    rw [load_children] at hr
    cases hr
    exact ⟨le_refl _, fun _ _ _ => rfl, ⟨[], by simp⟩, ⟨[], by simp⟩,
      fun q h1 h2 => absurd h1 (by omega), fun q h1 h2 => absurd h1 (by omega)⟩
  | fbx_child :: rest, node, root, h, h', hn, hr => by
    rw [load_children] at hr
    split at hr
    · cases hr
    · rename_i c h1 hc
      have hN := load_node_post ext fbx_scene fbx_child root h c h1 hc
      have hcptr := hN.ptr
      have hgrow := hN.grow
      have hC := load_children_post ext fbx_scene rest node root _ h'
        (by simp only [Heap.update_length]; omega) hr
      have hCg := hC.grow
      simp only [Heap.update_length] at hCg
      have hne : node ≠ c := by omega
      refine ⟨by omega, ?_, ?_, ?_, ?_, ?_⟩
      · intro q hq hqn
        rw [hC.frame q (by simp only [Heap.update_length]; omega) hqn,
          Heap.update_node_ne _ _ _ _ (by omega), Heap.update_node_ne _ _ _ _ (by omega),
          Heap.update_node_ne _ _ _ _ (by omega), Heap.update_node_ne _ _ _ _ hqn,
          hN.frame q hq]
      · obtain ⟨t1, ht1⟩ := hN.tex
        obtain ⟨t2, ht2⟩ := hC.tex
        refine ⟨t1 ++ t2, ?_⟩
        rw [ht2]
        simp only [Heap.update_textures]
        rw [ht1, List.append_assoc]
      · obtain ⟨cs, hcs, hcsr⟩ := hC.node_eq
        simp only [Heap.update_length] at hcsr
        refine ⟨c :: cs, ?_, ?_⟩
        · rw [hcs, Heap.update_node_ne _ _ _ _ hne, Heap.update_node_ne _ _ _ _ hne,
            Heap.update_node_ne _ _ _ _ hne, Heap.update_node_eq _ _ _ (by omega),
            hN.frame node hn]
          simp
        · intro c' hc'
          rcases List.mem_cons.mp hc' with hc' | hc'
          · omega
          · have := hcsr c' hc'
            omega
      · intro q hq1 hq2
        by_cases hq : q < h1.nodes.length
        · rw [hC.frame q (by simp only [Heap.update_length]; exact hq) (by omega)]
          by_cases hqc : q = c
          · subst hqc
            refine ⟨node, ?_, le_refl _, by omega⟩
            rw [Heap.update_node_eq _ _ _ (by simp only [Heap.update_length]; omega),
              Heap.update_node_eq _ _ _ (by simp only [Heap.update_length]; omega),
              Heap.update_node_eq _ _ _ (by simp only [Heap.update_length]; omega)]
          · rw [Heap.update_node_ne _ _ _ _ hqc, Heap.update_node_ne _ _ _ _ hqc,
              Heap.update_node_ne _ _ _ _ hqc, Heap.update_node_ne _ _ _ _ (by omega)]
            obtain ⟨r, hr1, hr2, hr3⟩ := hN.parents q (by omega) hq
            exact ⟨r, hr1, by omega, hr3⟩
        · exact hC.parents q (by simp only [Heap.update_length]; omega) hq2
      · intro q hq1 hq2 c' hc'
        by_cases hq : q < h1.nodes.length
        · rw [hC.frame q (by simp only [Heap.update_length]; exact hq) (by omega)] at hc'
          have hc'' : c' ∈ (h1.node q).child_array := by
            by_cases hqc : q = c
            · subst hqc
              rw [Heap.update_node_eq _ _ _ (by simp only [Heap.update_length]; omega),
                Heap.update_node_eq _ _ _ (by simp only [Heap.update_length]; omega),
                Heap.update_node_eq _ _ _ (by simp only [Heap.update_length]; omega),
                Heap.update_node_ne _ _ _ _ (by omega)] at hc'
              exact hc'
            · rw [Heap.update_node_ne _ _ _ _ hqc, Heap.update_node_ne _ _ _ _ hqc,
                Heap.update_node_ne _ _ _ _ hqc, Heap.update_node_ne _ _ _ _ (by omega)] at hc'
              exact hc'
          have := hN.children q (by omega) hq c' hc''
          omega
        · exact hC.children q (by simp only [Heap.update_length]; omega) hq2 c' hc'
termination_by structural fbx_children => fbx_children
end

end load_node_invariants
section transforms
variable {F : Type} [CommRing F]

theorem node_global_transform_fuel_succ (hm : HandmadeMath F) (h : Heap F) :
    ∀ (fuel : Nat) (q : Nat) (M : Mat4 F),
      node_global_transform_fuel hm h fuel q = some M →
      node_global_transform_fuel hm h (fuel + 1) q = some M := by
  intro fuel
  induction fuel with
  | zero => intro q M hq; simp [node_global_transform_fuel] at hq
  | succ k ih =>
    intro q M hq
    rw [node_global_transform_fuel] at hq ⊢
    split at hq
    · cases hq
    · rename_i n hn
      split at hq
      · exact hq
      · rename_i r hpar
        split at hq
        · cases hq
        · rename_i Mr hMr
          rw [ih r Mr hMr]
          exact hq

theorem node_global_transform_fuel_mono (hm : HandmadeMath F) (h : Heap F)
    (fuel fuel' : Nat) (hle : fuel ≤ fuel') (q : Nat) (M : Mat4 F)
    (hq : node_global_transform_fuel hm h fuel q = some M) :
    node_global_transform_fuel hm h fuel' q = some M := by
  induction hle with
  | refl => exact hq
  | step _ ih => exact node_global_transform_fuel_succ hm h _ q M ih

/-- On a heap whose parent pointers lead strictly downwards to `p`, the walk of
`node_global_transform` from `q` returns within `q - p + 1` steps. -/
theorem node_global_transform_fuel_total (hm : HandmadeMath F) (h : Heap F) (p : Nat)
    (htop : (h.node p).parent = none)
    (hpar : ∀ q, p < q → q < h.nodes.length → ∃ r, (h.node q).parent = some r ∧ p ≤ r ∧ r < q) :
    ∀ q, p ≤ q → q < h.nodes.length →
      ∃ M, node_global_transform_fuel hm h (q - p + 1) q = some M := by
  intro q
  induction q using Nat.strong_induction_on with
  | _ q ih =>
    intro hq1 hq2
    rw [node_global_transform_fuel, Heap.get?_eq_node h q hq2]
    simp only []
    rcases Nat.eq_or_lt_of_le hq1 with hq | hq
    · subst hq
      simp [htop]
    · obtain ⟨r, hr, hr1, hr2⟩ := hpar q hq hq2
      obtain ⟨Mr, hMr⟩ := ih r hr2 hr1 (by omega)
      have := node_global_transform_fuel_mono hm h (r - p + 1) (q - p) (by omega) r Mr hMr
      simp [hr, this]

/-- The defining step of `node_global_transform`, for any heap. -/
theorem node_global_transform_step (hm : HandmadeMath F) (h : Heap F) (q : Nat) (M : Mat4 F)
    (hM : node_global_transform hm h q = some M) :
    ((h.node q).parent = none → M = node_local_transform hm (h.node q)) ∧
    ∀ r, (h.node q).parent = some r →
      ∃ Mr, node_global_transform hm h r = some Mr ∧
        M = MulM4 Mr (node_local_transform hm (h.node q)) := by
  unfold node_global_transform at hM
  rcases hlen : h.nodes.length with _ | k
  · rw [hlen] at hM; simp [node_global_transform_fuel] at hM
  · rw [hlen, node_global_transform_fuel] at hM
    split at hM
    · cases hM
    · rename_i n hn
      have hnq : h.node q = n := by
        have hq : q < h.nodes.length := by
          by_contra hc
          rw [List.get?_eq_none.mpr (by omega)] at hn
          cases hn
        rw [Heap.get?_eq_node h q hq] at hn
        exact Option.some.inj hn
      rw [hnq]
      constructor
      · intro hnone
        rw [hnone] at hM
        simp only [Option.some.injEq] at hM
        rw [← hM]
        simp [MulM4, M4D]
      · intro r hr
        rw [hr] at hM
        simp only [] at hM
        split at hM
        · cases hM
        · rename_i Mr hMr
          refine ⟨Mr, ?_, (Option.some.inj hM).symm⟩
          unfold node_global_transform
          rw [hlen]
          exact node_global_transform_fuel_succ hm h k r Mr hMr

end transforms

/-- In the PBR variant: in a tree built by `load_node`, `node_global_transform` returns for
every node; the only node without a parent is the root of the tree, where the
result is `node_local_transform(node)`; for any other node it is
`node_global_transform(parent)` multiplied on the right by
`node_local_transform(node)`. -/
theorem pbr_global_transform_of_loaded {D F : Type} [CommRing F] [DecidableEq F]
    (hm : HandmadeMath F) (ext : Ext D F) (fbx_scene : ufbx_scene D) (fbx_node : ufbx_node D)
    (root : Option Nat) (h : Heap F) (p : Nat) (h' : Heap F)
    (hr : load_node ext fbx_scene fbx_node root h = .ok (p, h'))
    (q : Nat) (hq1 : p ≤ q) (hq2 : q < h'.nodes.length) :
    ∃ M, node_global_transform hm h' q = some M ∧
      ((h'.node q).parent = none ↔ q = p) ∧
      ((h'.node q).parent = none → M = node_local_transform hm (h'.node q)) ∧
      ∀ r, (h'.node q).parent = some r →
        ∃ Mr, node_global_transform hm h' r = some Mr ∧
          M = MulM4 Mr (node_local_transform hm (h'.node q)) := by
  have hN := load_node_post ext fbx_scene fbx_node root h p h' hr
  obtain ⟨M, hM⟩ := node_global_transform_fuel_total hm h' p hN.top_parent hN.parents q hq1 hq2
  have hM' : node_global_transform hm h' q = some M :=
    node_global_transform_fuel_mono hm h' _ _ (by omega) q M hM
  have hstep := node_global_transform_step hm h' q M hM'
  refine ⟨M, hM', ?_, hstep.1, hstep.2⟩
  constructor
  · intro hnone
    by_contra hne
    obtain ⟨r, hr', _, _⟩ := hN.parents q (by omega) hq2
    rw [hr'] at hnone
    cases hnone
  · rintro rfl
    exact hN.top_parent

end PBR

theorem mapM_option_mem {α β : Type} (f : α → Option β) :
    ∀ (l : List α) (ys : List β), l.mapM f = some ys → ∀ y ∈ ys, ∃ x ∈ l, f x = some y := by
  intro l
  induction l with
  | nil =>
    intro ys h y hy
    rw [List.mapM_nil] at h
    cases h
    cases hy
  | cons a l ih =>
    intro ys h y hy
    rw [List.mapM_cons] at h
    cases hfa : f a with
    | none => rw [hfa] at h; simp at h
    | some b =>
      rw [hfa] at h
      cases hl : l.mapM f with
      | none => rw [hl] at h; simp at h
      | some bs =>
        rw [hl] at h
        simp at h
        subst h
        rcases List.mem_cons.mp hy with rfl | hy'
        · exact ⟨a, List.mem_cons_self _ _, hfa⟩
        · obtain ⟨x, hx, hfx⟩ := ih bs hl y hy'
          exact ⟨x, List.mem_cons_of_mem _ hx, hfx⟩

namespace PBR
theorem upload_mesh_parts_sound {F : Type} [CommRing F] (hm : HandmadeMath F) (h : Heap F) (node : Nat) (n : Node F) :
    ∀ (l : List Nat) (out : List (Upload F)), upload_mesh_parts hm h node n l = some out →
      ∀ u ∈ out, ∃ i M part, u = Upload.mesh_part node i M ∧
        n.mesh_parts.get? i = some part ∧ part.vertex_count ≠ 0 ∧ part.index_count ≠ 0 ∧
        node_global_transform_geometry hm h node = some M := by
  intro l
  induction l with
  | nil =>
    intro out ho u hu
    simp [upload_mesh_parts] at ho
    subst ho
    cases hu
  | cons i rest ih =>
    intro out ho u hu
    rw [upload_mesh_parts] at ho
    split at ho
    · cases ho
    · rename_i part hpart
      split at ho
      · exact ih out ho u hu
      · rename_i hne
        split at ho
        · cases ho
        · rename_i M hM
          split at ho
          · cases ho
          · rename_i ups hups
            cases ho
            rcases List.mem_cons.mp hu with rfl | hu'
            · exact ⟨i, M, part, rfl, hpart, by tauto, by tauto, hM⟩
            · exact ih ups hups u hu'

theorem upload_textures_sound {F : Type} (h : Heap F) (n : Node F) :
    ∀ (l : List Nat) (out : List (Upload F)), upload_textures h n l = some out →
      ∀ u ∈ out, ∃ a i, u = Upload.texture a i := by
  intro l
  induction l with
  | nil =>
    intro out ho u hu
    simp [upload_textures] at ho
    subst ho
    cases hu
  | cons i rest ih =>
    intro out ho u hu
    rw [upload_textures] at ho
    split at ho
    · cases ho
    · split at ho
      · cases ho
      · split at ho
        · cases ho
        · rename_i ups hups
          cases ho
          rcases List.mem_cons.mp hu with rfl | hu'
          · exact ⟨_, _, rfl⟩
          · exact ih ups hups u hu'

theorem upload_node_buffers_fuel_sound {F : Type} [CommRing F] (hm : HandmadeMath F) (h : Heap F) :
    ∀ (fuel node : Nat) (out : List (Upload F)),
      upload_node_buffers_fuel hm h fuel node = some out →
      ∀ node' i M, Upload.mesh_part node' i M ∈ out →
        node' < h.nodes.length ∧ (h.node node').type = NODE_TYPE.NODE_TYPE_MESH ∧
        (∃ part, (h.node node').mesh_parts.get? i = some part ∧
          part.vertex_count ≠ 0 ∧ part.index_count ≠ 0) ∧
        node_global_transform_geometry hm h node' = some M := by
  intro fuel
  induction fuel with
  | zero => intro node out ho; simp [upload_node_buffers_fuel] at ho
  | succ k ih =>
    intro node out ho node' i M hmem
    rw [upload_node_buffers_fuel] at ho
    split at ho
    · cases ho
    · rename_i n hn
      have hlt : node < h.nodes.length := by
        by_contra hc
        rw [List.get?_eq_none.mpr (by omega)] at hn
        cases hn
      have hnode : h.node node = n := by
        rw [Heap.get?_eq_node h node hlt] at hn
        exact Option.some.inj hn
      split at ho
      · cases ho
      · rename_i parts hparts
        split at ho
        · cases ho
        · rename_i children hchildren
          split at ho
          · cases ho
          · rename_i textures htextures
            cases ho
            rcases List.mem_append.mp hmem with hmem | hmem
            · rcases List.mem_append.mp hmem with hmem | hmem
              · split at hparts
                · rename_i hty
                  obtain ⟨i', M', part, he, hp1, hp2, hp3, hp4⟩ :=
                    upload_mesh_parts_sound hm h node n _ parts hparts _ hmem
                  cases he
                  exact ⟨hlt, by rw [hnode]; exact hty, ⟨part, by rw [hnode]; exact hp1, hp2, hp3⟩, hp4⟩
                · cases hparts
                  cases hmem
              · obtain ⟨sub, hsub, hin⟩ := List.mem_flatten.mp hmem
                obtain ⟨j, _, hj⟩ := mapM_option_mem _ _ children hchildren sub hsub
                split at hj
                · cases hj
                · exact ih _ sub hj node' i M hin
            · split at htextures
              · obtain ⟨a, j, he⟩ := upload_textures_sound h n _ textures htextures _ hmem
                cases he
              · cases htextures
                cases hmem

end PBR

namespace FBX

theorem fbx_heap_get?_eq_node {F : Type} [Zero F] (h : Heap F) (p : Nat) (hp : p < h.nodes.length) :
    h.nodes.get? p = some (h.node p) := by
  simp [Heap.node, List.getD_eq_getElem?_getD, List.getElem?_eq_getElem hp]

theorem fbx_upload_mesh_parts_sound {F : Type} [CommRing F] (hm : HandmadeMath F) (h : Heap F) (node : Nat) (n : Node F) :
    ∀ (l : List Nat) (out : List (Upload F)), upload_mesh_parts hm h node n l = some out →
      ∀ u ∈ out, ∃ i M part, u = Upload.mesh_part node i M ∧
        n.mesh_parts.get? i = some part ∧ part.vertex_count ≠ 0 ∧ part.index_count ≠ 0 ∧
        node_global_transform_geometry hm h node = some M := by
  intro l
  induction l with
  | nil =>
    intro out ho u hu
    simp [upload_mesh_parts] at ho
    subst ho
    cases hu
  | cons i rest ih =>
    intro out ho u hu
    rw [upload_mesh_parts] at ho
    split at ho
    · cases ho
    · rename_i part hpart
      split at ho
      · exact ih out ho u hu
      · rename_i hne
        split at ho
        · cases ho
        · rename_i M hM
          split at ho
          · cases ho
          · rename_i ups hups
            cases ho
            rcases List.mem_cons.mp hu with rfl | hu'
            · exact ⟨i, M, part, rfl, hpart, by tauto, by tauto, hM⟩
            · exact ih ups hups u hu'

theorem fbx_upload_node_buffers_fuel_sound {F : Type} [CommRing F] (hm : HandmadeMath F) (h : Heap F) :
    ∀ (fuel node : Nat) (out : List (Upload F)),
      upload_node_buffers_fuel hm h fuel node = some out →
      ∀ node' i M, Upload.mesh_part node' i M ∈ out →
        node' < h.nodes.length ∧ (h.node node').type = NODE_TYPE.NODE_TYPE_MESH ∧
        (∃ part, (h.node node').mesh_parts.get? i = some part ∧
          part.vertex_count ≠ 0 ∧ part.index_count ≠ 0) ∧
        node_global_transform_geometry hm h node' = some M := by
  intro fuel
  induction fuel with
  | zero => intro node out ho; simp [upload_node_buffers_fuel] at ho
  | succ k ih =>
    intro node out ho node' i M hmem
    rw [upload_node_buffers_fuel] at ho
    split at ho
    · cases ho
    · rename_i n hn
      have hlt : node < h.nodes.length := by
        by_contra hc
        rw [List.get?_eq_none.mpr (by omega)] at hn
        cases hn
      have hnode : h.node node = n := by
        rw [fbx_heap_get?_eq_node h node hlt] at hn
        exact Option.some.inj hn
      split at ho
      · cases ho
      · rename_i parts hparts
        split at ho
        · cases ho
        · rename_i children hchildren
          cases ho
          rcases List.mem_append.mp hmem with hmem | hmem
          · split at hparts
            · rename_i hty
              obtain ⟨i', M', part, he, hp1, hp2, hp3, hp4⟩ :=
                fbx_upload_mesh_parts_sound hm h node n _ parts hparts _ hmem
              cases he
              exact ⟨hlt, by rw [hnode]; exact hty,
                ⟨part, by rw [hnode]; exact hp1, hp2, hp3⟩, hp4⟩
            · cases hparts
              cases hmem
          · obtain ⟨sub, hsub, hin⟩ := List.mem_flatten.mp hmem
            obtain ⟨j, _, hj⟩ := mapM_option_mem _ _ children hchildren sub hsub
            split at hj
            · cases hj
            · exact ih _ sub hj node' i M hin

end FBX

namespace PNG

theorem png_heap_get?_eq_node {F : Type} [Zero F] (h : Heap F) (p : Nat) (hp : p < h.nodes.length) :
    h.nodes.get? p = some (h.node p) := by
  simp [Heap.node, List.getD_eq_getElem?_getD, List.getElem?_eq_getElem hp]

theorem png_upload_mesh_parts_sound {F : Type} [CommRing F] (hm : HandmadeMath F) (h : Heap F) (node : Nat) (n : Node F) :
    ∀ (l : List Nat) (out : List (Upload F)), upload_mesh_parts hm h node n l = some out →
      ∀ u ∈ out, ∃ i M part, u = Upload.mesh_part node i M ∧
        n.mesh_parts.get? i = some part ∧ part.vertex_count ≠ 0 ∧ part.index_count ≠ 0 ∧
        node_global_transform hm h node = some M := by
  intro l
  induction l with
  | nil =>
    intro out ho u hu
    simp [upload_mesh_parts] at ho
    subst ho
    cases hu
  | cons i rest ih =>
    intro out ho u hu
    rw [upload_mesh_parts] at ho
    split at ho
    · cases ho
    · rename_i part hpart
      split at ho
      · exact ih out ho u hu
      · rename_i hne
        split at ho
        · cases ho
        · rename_i M hM
          split at ho
          · cases ho
          · rename_i ups hups
            cases ho
            rcases List.mem_cons.mp hu with rfl | hu'
            · exact ⟨i, M, part, rfl, hpart, by tauto, by tauto, hM⟩
            · exact ih ups hups u hu'

theorem png_upload_textures_sound {F : Type} (h : Heap F) (n : Node F) :
    ∀ (l : List Nat) (out : List (Upload F)), upload_textures h n l = some out →
      ∀ u ∈ out, ∃ a i, u = Upload.texture a i := by
  intro l
  induction l with
  | nil =>
    intro out ho u hu
    simp [upload_textures] at ho
    subst ho
    cases hu
  | cons i rest ih =>
    intro out ho u hu
    rw [upload_textures] at ho
    split at ho
    · cases ho
    · split at ho
      · cases ho
      · split at ho
        · cases ho
        · rename_i ups hups
          cases ho
          rcases List.mem_cons.mp hu with rfl | hu'
          · exact ⟨_, _, rfl⟩
          · exact ih ups hups u hu'

theorem png_upload_node_buffers_fuel_sound {F : Type} [CommRing F] (hm : HandmadeMath F) (h : Heap F) :
    ∀ (fuel node : Nat) (out : List (Upload F)),
      upload_node_buffers_fuel hm h fuel node = some out →
      ∀ node' i M, Upload.mesh_part node' i M ∈ out →
        node' < h.nodes.length ∧ (h.node node').type = NODE_TYPE.NODE_TYPE_MESH ∧
        (∃ part, (h.node node').mesh_parts.get? i = some part ∧
          part.vertex_count ≠ 0 ∧ part.index_count ≠ 0) ∧
        node_global_transform hm h node' = some M := by
  intro fuel
  induction fuel with
  | zero => intro node out ho; simp [upload_node_buffers_fuel] at ho
  | succ k ih =>
    intro node out ho node' i M hmem
    rw [upload_node_buffers_fuel] at ho
    split at ho
    · cases ho
    · rename_i n hn
      have hlt : node < h.nodes.length := by
        by_contra hc
        rw [List.get?_eq_none.mpr (by omega)] at hn
        cases hn
      have hnode : h.node node = n := by
        rw [png_heap_get?_eq_node h node hlt] at hn
        exact Option.some.inj hn
      split at ho
      · cases ho
      · rename_i parts hparts
        split at ho
        · cases ho
        · rename_i children hchildren
          split at ho
          · cases ho
          · rename_i textures htextures
            cases ho
            rcases List.mem_append.mp hmem with hmem | hmem
            · rcases List.mem_append.mp hmem with hmem | hmem
              · split at hparts
                · rename_i hty
                  obtain ⟨i', M', part, he, hp1, hp2, hp3, hp4⟩ :=
                    png_upload_mesh_parts_sound hm h node n _ parts hparts _ hmem
                  cases he
                  exact ⟨hlt, by rw [hnode]; exact hty, ⟨part, by rw [hnode]; exact hp1, hp2, hp3⟩, hp4⟩
                · cases hparts
                  cases hmem
              · obtain ⟨sub, hsub, hin⟩ := List.mem_flatten.mp hmem
                obtain ⟨j, _, hj⟩ := mapM_option_mem _ _ children hchildren sub hsub
                split at hj
                · cases hj
                · exact ih _ sub hj node' i M hin
            · split at htextures
              · obtain ⟨a, j, he⟩ := png_upload_textures_sound h n _ textures htextures _ hmem
                cases he
              · cases htextures
                cases hmem

end PNG

theorem pbr_global_transform_geometry_eq {F : Type} [CommRing F] (hm : HandmadeMath F)
    (h : PBR.Heap F) (node : Nat) (M : Mat4 F)
    (hM : PBR.node_global_transform_geometry hm h node = some M) :
    ∃ G, PBR.node_global_transform hm h node = some G ∧
      M = MulM4 G (MulM4 (hm.Translate (h.node node).geometry_position)
        (MulM4 (hm.QToM4 (h.node node).geometry_rotation)
          (hm.Scale (h.node node).geometry_scale))) := by
  unfold PBR.node_global_transform_geometry at hM
  split at hM
  · rename_i G n hG hn
    have hlt : node < h.nodes.length := by
      by_contra hc
      rw [List.get?_eq_none.mpr (by omega)] at hn
      cases hn
    rw [PBR.Heap.get?_eq_node h node hlt] at hn
    cases hn
    cases hM
    exact ⟨G, hG, rfl⟩
  · cases hM

theorem fbx_global_transform_geometry_eq {F : Type} [CommRing F] (hm : HandmadeMath F)
    (h : FBX.Heap F) (node : Nat) (M : Mat4 F)
    (hM : FBX.node_global_transform_geometry hm h node = some M) :
    ∃ G, FBX.node_global_transform hm h node = some G ∧
      M = MulM4 G (MulM4 (hm.Translate (h.node node).geometry_position)
        (MulM4 (hm.QToM4 (h.node node).geometry_rotation)
          (hm.Scale (h.node node).geometry_scale))) := by
  unfold FBX.node_global_transform_geometry at hM
  split at hM
  · rename_i G n hG hn
    have hlt : node < h.nodes.length := by
      by_contra hc
      rw [List.get?_eq_none.mpr (by omega)] at hn
      cases hn
    rw [FBX.fbx_heap_get?_eq_node h node hlt] at hn
    cases hn
    cases hM
    exact ⟨G, hG, rfl⟩
  · cases hM

/-- C6 (as stated, refuted): in the PNG-loading variant the matrix written for
the mesh part of node `a` of `chain_scene` is the plain
`node_global_transform(node)`, the translation by `(0, 0, 10)`, and differs
from its product with the geometry transform of `a` (a scale by 2). -/
theorem png_upload_ignores_geometry_transform :
    PNG.load_fbx fan_ext chain_scene = .ok (0, png_chain_heap) ∧
    ∃ M, PNG.upload_node_buffers exact_math png_chain_heap 0 =
        some [PNG.Upload.mesh_part 1 0 M, PNG.Upload.texture 0 0] ∧
      PNG.node_global_transform exact_math png_chain_heap 1 = some M ∧
      M = !![1, 0, 0, 0; 0, 1, 0, 0; 0, 0, 1, 10; 0, 0, 0, 1] ∧
      M ≠ MulM4 M (MulM4 (exact_math.Translate ⟨0, 0, 0⟩)
        (MulM4 (exact_math.QToM4 ⟨0, 0, 0, 1⟩) (exact_math.Scale ⟨2, 2, 2⟩))) :=
  ⟨rfl, _, rfl, rfl, by decide, by decide⟩

/-- C6 (amended): every `model_to_world` that `upload_node_buffers` writes
belongs to a non-empty mesh part of a mesh node; in the PBR and FBX-loading
variants it is `node_global_transform(node)` multiplied on the right by
`Translate(geometry_position) * QToM4(geometry_rotation) * Scale(geometry_scale)`;
in the PNG-loading variant, whose nodes have no geometry transform, it is
`node_global_transform(node)` itself. -/
theorem upload_model_to_world {F : Type} [CommRing F] (hm : HandmadeMath F)
    (hP : PBR.Heap F) (nP : Nat) (outP : List (PBR.Upload F))
    (hF : FBX.Heap F) (nF : Nat) (outF : List (FBX.Upload F))
    (hG : PNG.Heap F) (nG : Nat) (outG : List (PNG.Upload F))
    (hrP : PBR.upload_node_buffers hm hP nP = some outP)
    (hrF : FBX.upload_node_buffers hm hF nF = some outF)
    (hrG : PNG.upload_node_buffers hm hG nG = some outG) :
    (∀ node i M, PBR.Upload.mesh_part node i M ∈ outP →
      (hP.node node).type = NODE_TYPE.NODE_TYPE_MESH ∧
      (∃ part, (hP.node node).mesh_parts.get? i = some part ∧
        part.vertex_count ≠ 0 ∧ part.index_count ≠ 0) ∧
      ∃ G, PBR.node_global_transform hm hP node = some G ∧
        M = MulM4 G (MulM4 (hm.Translate (hP.node node).geometry_position)
          (MulM4 (hm.QToM4 (hP.node node).geometry_rotation)
            (hm.Scale (hP.node node).geometry_scale)))) ∧
    (∀ node i M, FBX.Upload.mesh_part node i M ∈ outF →
      (hF.node node).type = FBX.NODE_TYPE.NODE_TYPE_MESH ∧
      (∃ part, (hF.node node).mesh_parts.get? i = some part ∧
        part.vertex_count ≠ 0 ∧ part.index_count ≠ 0) ∧
      ∃ G, FBX.node_global_transform hm hF node = some G ∧
        M = MulM4 G (MulM4 (hm.Translate (hF.node node).geometry_position)
          (MulM4 (hm.QToM4 (hF.node node).geometry_rotation)
            (hm.Scale (hF.node node).geometry_scale)))) ∧
    (∀ node i M, PNG.Upload.mesh_part node i M ∈ outG →
      (hG.node node).type = NODE_TYPE.NODE_TYPE_MESH ∧
      (∃ part, (hG.node node).mesh_parts.get? i = some part ∧
        part.vertex_count ≠ 0 ∧ part.index_count ≠ 0) ∧
      PNG.node_global_transform hm hG node = some M) := by
  refine ⟨?_, ?_, ?_⟩
  · intro node i M hmem
    obtain ⟨_, hty, hpart, hM⟩ :=
      PBR.upload_node_buffers_fuel_sound hm hP _ nP outP hrP node i M hmem
    exact ⟨hty, hpart, pbr_global_transform_geometry_eq hm hP node M hM⟩
  · intro node i M hmem
    obtain ⟨_, hty, hpart, hM⟩ :=
      FBX.fbx_upload_node_buffers_fuel_sound hm hF _ nF outF hrF node i M hmem
    exact ⟨hty, hpart, fbx_global_transform_geometry_eq hm hF node M hM⟩
  · intro node i M hmem
    obtain ⟨_, hty, hpart, hM⟩ :=
      PNG.png_upload_node_buffers_fuel_sound hm hG _ nG outG hrG node i M hmem
    exact ⟨hty, hpart, hM⟩

/-- Witness of C6 on `chain_scene`, imported and uploaded by each variant. -/
theorem upload_model_to_world_witness :
    PBR.upload_node_buffers exact_math chain_heap 0 = some chain_uploads ∧
    FBX.upload_node_buffers exact_math fbx_chain_heap 0 = some fbx_chain_uploads ∧
    PNG.upload_node_buffers exact_math png_chain_heap 0 = some png_chain_uploads ∧
    chain_uploads.length = 2 ∧ fbx_chain_uploads.length = 1 ∧ png_chain_uploads.length = 2 ∧
    (∀ node i M, PBR.Upload.mesh_part node i M ∈ chain_uploads →
      (chain_heap.node node).type = NODE_TYPE.NODE_TYPE_MESH ∧
      (∃ part, (chain_heap.node node).mesh_parts.get? i = some part ∧
        part.vertex_count ≠ 0 ∧ part.index_count ≠ 0) ∧
      ∃ G, PBR.node_global_transform exact_math chain_heap node = some G ∧
        M = MulM4 G (MulM4 (exact_math.Translate (chain_heap.node node).geometry_position)
          (MulM4 (exact_math.QToM4 (chain_heap.node node).geometry_rotation)
            (exact_math.Scale (chain_heap.node node).geometry_scale)))) ∧
    (∀ node i M, FBX.Upload.mesh_part node i M ∈ fbx_chain_uploads →
      (fbx_chain_heap.node node).type = FBX.NODE_TYPE.NODE_TYPE_MESH ∧
      (∃ part, (fbx_chain_heap.node node).mesh_parts.get? i = some part ∧
        part.vertex_count ≠ 0 ∧ part.index_count ≠ 0) ∧
      ∃ G, FBX.node_global_transform exact_math fbx_chain_heap node = some G ∧
        M = MulM4 G (MulM4 (exact_math.Translate (fbx_chain_heap.node node).geometry_position)
          (MulM4 (exact_math.QToM4 (fbx_chain_heap.node node).geometry_rotation)
            (exact_math.Scale (fbx_chain_heap.node node).geometry_scale)))) ∧
    (∀ node i M, PNG.Upload.mesh_part node i M ∈ png_chain_uploads →
      (png_chain_heap.node node).type = NODE_TYPE.NODE_TYPE_MESH ∧
      (∃ part, (png_chain_heap.node node).mesh_parts.get? i = some part ∧
        part.vertex_count ≠ 0 ∧ part.index_count ≠ 0) ∧
      PNG.node_global_transform exact_math png_chain_heap node = some M) :=
  ⟨rfl, rfl, rfl, rfl, rfl, rfl,
    upload_model_to_world exact_math chain_heap 0 chain_uploads fbx_chain_heap 0
      fbx_chain_uploads png_chain_heap 0 png_chain_uploads rfl rfl rfl⟩

namespace FBX

theorem fbx_update_length {F : Type} (h : Heap F) (p : Nat) (f : Node F → Node F) :
    (h.update p f).nodes.length = h.nodes.length := by
  simp [Heap.update]

theorem fbx_update_node_ne {F : Type} [Zero F] (h : Heap F) (p q : Nat) (f : Node F → Node F)
    (hq : q ≠ p) : (h.update p f).node q = h.node q := by
  simp [Heap.update, Heap.node, List.getD_eq_getElem?_getD, List.getElem?_modify, Ne.symm hq]

theorem fbx_update_node_eq {F : Type} [Zero F] (h : Heap F) (p : Nat) (f : Node F → Node F)
    (hp : p < h.nodes.length) : (h.update p f).node p = f (h.node p) := by
  simp [Heap.update, Heap.node, List.getD_eq_getElem?_getD, List.getElem?_modify,
    List.getElem?_eq_getElem hp]

theorem fbx_load_header_length {D F : Type} [Zero F] (ext : Ext D F) (name : String)
    (lt gt : ufbx_transform D) (h : Heap F) :
    (load_header ext name lt gt h).2.nodes.length = h.nodes.length + 1 := by
  simp [load_header, node_create, Heap.update]

theorem fbx_load_header_node_lt {D F : Type} [Zero F] (ext : Ext D F) (name : String)
    (lt gt : ufbx_transform D) (h : Heap F) (q : Nat) (hq : q < h.nodes.length) :
    (load_header ext name lt gt h).2.node q = h.node q := by
  show Heap.node (Heap.update (node_create h).2 _ _) q = _
  rw [fbx_update_node_ne _ _ _ _ (by show q ≠ h.nodes.length; omega)]
  simp [node_create, Heap.node, List.getD_eq_getElem?_getD, List.getElem?_append_left hq]

theorem fbx_load_header_node_new {D F : Type} [Zero F] (ext : Ext D F) (name : String)
    (lt gt : ufbx_transform D) (h : Heap F) :
    ((load_header ext name lt gt h).2.node h.nodes.length).type =
      NODE_TYPE.NODE_TYPE_EMPTY := by
  show (Heap.node (Heap.update (node_create h).2 h.nodes.length _) h.nodes.length).type = _
  rw [fbx_update_node_eq _ _ _ (by simp [node_create])]
  simp [node_create, Heap.node, List.getD_eq_getElem?_getD, Node.zero]

theorem fbx_load_payload_post {D F : Type} [Zero F] [One F] [DecidableEq F] (ext : Ext D F)
    (mesh : Option (ufbx_mesh D)) (light : Option ufbx_light) (node : Nat) (h h' : Heap F)
    (hn : node < h.nodes.length) (hr : load_payload ext mesh light node h = .ok h') :
    h'.nodes.length = h.nodes.length ∧ (∀ q, q ≠ node → h'.node q = h.node q) ∧
    (h'.node node).type =
      (if mesh.isSome then NODE_TYPE.NODE_TYPE_MESH
       else if light_is_point_spot_or_directional light then (h.node node).type
       else NODE_TYPE.NODE_TYPE_EMPTY) := by
  unfold load_payload at hr
  split at hr
  · split at hr
    · cases hr
    · cases hr
      exact ⟨fbx_update_length _ _ _, fun q hq => fbx_update_node_ne _ _ _ _ hq,
        by rw [fbx_update_node_eq _ _ _ hn]; rfl⟩
  · split at hr
    · rename_i h1
      cases hr
      refine ⟨rfl, fun _ _ => rfl, ?_⟩
      simp [light_is_point_spot_or_directional, h1]
    · split at hr
      · rename_i h1 h2
        cases hr
        refine ⟨rfl, fun _ _ => rfl, ?_⟩
        simp [light_is_point_spot_or_directional, h2]
      · split at hr
        · rename_i h1 h2 h3
          cases hr
          refine ⟨rfl, fun _ _ => rfl, ?_⟩
          simp [light_is_point_spot_or_directional, h3]
        · rename_i h1 h2 h3
          cases hr
          refine ⟨fbx_update_length _ _ _, fun q hq => fbx_update_node_ne _ _ _ _ hq, ?_⟩
          rw [fbx_update_node_eq _ _ _ hn]
          simp [light_is_point_spot_or_directional, h1, h2, h3]

theorem fbx_load_node_ok {D F : Type} [Zero F] [One F] [DecidableEq F] (ext : Ext D F)
    (name : String) (lt gt : ufbx_transform D) (mesh : Option (ufbx_mesh D))
    (light : Option ufbx_light) (camera : Option ufbx_camera) (is_root : Bool)
    (children : List (ufbx_node D)) (h : Heap F) (p : Nat) (h' : Heap F)
    (hr : load_node ext (.mk name lt gt mesh light camera is_root children) h = .ok (p, h')) :
    p = h.nodes.length ∧ ∃ h1,
      load_payload ext mesh light p (load_header ext name lt gt h).2 = .ok h1 ∧
      load_children ext children p
        (h1.update p fun n => { n with child_array := [], child_count := children.length })
        = .ok h' := by
  rw [load_node] at hr
  have hp : (load_header ext name lt gt h).1 = h.nodes.length := rfl
  simp only [hp] at hr
  split at hr
  · cases hr
  · rename_i h1 hpay
    split at hr
    · cases hr
    · rename_i h2 hch
      cases hr
      exact ⟨rfl, h1, hpay, hch⟩

mutual
theorem fbx_load_node_frame {D F : Type} [Zero F] [One F] [DecidableEq F] (ext : Ext D F) :
    (fbx_node : ufbx_node D) → (h : Heap F) → (p : Nat) → (h' : Heap F) →
    load_node ext fbx_node h = .ok (p, h') →
    p = h.nodes.length ∧ h.nodes.length < h'.nodes.length ∧
      ∀ q, q < h.nodes.length → h'.node q = h.node q
  | .mk name lt gt mesh light camera is_root children, h, p, h', hr => by
    obtain ⟨rfl, h1, hpay, hch⟩ :=
      fbx_load_node_ok ext name lt gt mesh light camera is_root children h p h' hr
    have hlen0 := fbx_load_header_length ext name lt gt h
    obtain ⟨hl1, hf1, _⟩ := fbx_load_payload_post ext mesh light _ _ h1 (by omega) hpay
    obtain ⟨hg, hf, _⟩ := fbx_load_children_frame ext children h.nodes.length _ h'
      (by rw [fbx_update_length]; omega) hch
    rw [fbx_update_length] at hg
    refine ⟨rfl, by omega, ?_⟩
    intro q hq
    rw [hf q (by rw [fbx_update_length]; omega) (by omega),
      fbx_update_node_ne _ _ _ _ (by omega), hf1 q (by omega),
      fbx_load_header_node_lt _ _ _ _ _ _ hq]
termination_by structural fbx_node => fbx_node
theorem fbx_load_children_frame {D F : Type} [Zero F] [One F] [DecidableEq F] (ext : Ext D F) :
    (fbx_children : List (ufbx_node D)) → (node : Nat) → (h : Heap F) → (h' : Heap F) →
    node < h.nodes.length → load_children ext fbx_children node h = .ok h' →
    h.nodes.length ≤ h'.nodes.length ∧
      (∀ q, q < h.nodes.length → q ≠ node → h'.node q = h.node q) ∧
      (h'.node node).type = (h.node node).type
  | [], node, h, h', hn, hr => by
    rw [load_children] at hr
    cases hr
    exact ⟨le_refl _, fun _ _ _ => rfl, rfl⟩
  | fbx_child :: rest, node, h, h', hn, hr => by
    rw [load_children] at hr
    split at hr
    · cases hr
    · rename_i c h1 hc
      obtain ⟨hcp, hgrow, hfr⟩ := fbx_load_node_frame ext fbx_child h c h1 hc
      obtain ⟨hg, hf, hty⟩ := fbx_load_children_frame ext rest node _ h'
        (by simp only [fbx_update_length]; omega) hr
      simp only [fbx_update_length] at hg
      have hne : node ≠ c := by omega
      refine ⟨by omega, ?_, ?_⟩
      · intro q hq hqn
        rw [hf q (by simp only [fbx_update_length]; omega) hqn,
          fbx_update_node_ne _ _ _ _ (by omega), fbx_update_node_ne _ _ _ _ hqn, hfr q hq]
      · rw [hty, fbx_update_node_ne _ _ _ _ hne, fbx_update_node_eq _ _ _ (by omega),
          hfr node hn]
termination_by structural fbx_children => fbx_children
end

end FBX

theorem pbr_load_payload_type {D F : Type} [Zero F] [One F] [DecidableEq F] (ext : Ext D F)
    (fbx_scene : ufbx_scene D) (mesh : Option (ufbx_mesh D)) (light : Option ufbx_light)
    (camera : Option ufbx_camera) (is_root : Bool) (node : Nat) (root root' : Option Nat)
    (h h' : PBR.Heap F) (hn : node < h.nodes.length)
    (hr : PBR.load_payload ext fbx_scene mesh light camera is_root node root h = .ok (root', h')) :
    (h'.node node).type =
      (if mesh.isSome then NODE_TYPE.NODE_TYPE_MESH
       else if light_is_point_spot_or_directional light then (h.node node).type
       else if camera.isSome then NODE_TYPE.NODE_TYPE_CAMERA
       else NODE_TYPE.NODE_TYPE_EMPTY) := by
  unfold PBR.load_payload at hr
  split at hr
  · split at hr
    · cases hr
    · cases hr
      rw [PBR.Heap.update_node_eq _ _ _ hn]; rfl
  · split at hr
    · rename_i h1
      cases hr
      simp [light_is_point_spot_or_directional, h1]
    · split at hr
      · rename_i h1 h2
        cases hr
        simp [light_is_point_spot_or_directional, h2]
      · split at hr
        · rename_i h1 h2 h3
          cases hr
          simp [light_is_point_spot_or_directional, h3]
        · rename_i h1 h2 h3
          split at hr
          · rename_i h4
            cases hr
            rw [PBR.Heap.update_node_eq _ _ _ hn]
            simp [light_is_point_spot_or_directional, h1, h2, h3, h4]
          · rename_i h4
            split at hr
            · cases hr
              rw [PBR.Heap.update_node_eq _ _ _ (by simpa [PBR.Heap.update] using hn)]
              show (PBR.Heap.node (PBR.Heap.update h node _) node).type = _
              rw [PBR.Heap.update_node_eq _ _ _ hn]
              simp [light_is_point_spot_or_directional, h1, h2, h3, h4]
            · cases hr
              rw [PBR.Heap.update_node_eq _ _ _ hn]
              simp [light_is_point_spot_or_directional, h1, h2, h3, h4]

/-- C7 (as stated, refuted): the PBR variant leaves the point-light node of
`light_scene` with type Empty, not PointLight, and the FBX-loading variant
gives its camera node type Empty, having no Camera type. -/
theorem load_node_type_counterexample :
    PBR.load_fbx fan_ext light_scene = .ok (0, light_heap) ∧
    (light_heap.node 1).name = "lamp" ∧
    (light_heap.node 1).type = NODE_TYPE.NODE_TYPE_EMPTY ∧
    (light_heap.node 1).type ≠ NODE_TYPE.NODE_TYPE_LIGHT_POINT ∧
    FBX.load_fbx fan_ext light_scene = .ok (0, fbx_light_heap) ∧
    (fbx_light_heap.node 2).name = "cam" ∧
    (fbx_light_heap.node 2).type = FBX.NODE_TYPE.NODE_TYPE_EMPTY :=
  ⟨rfl, by decide, by decide, by decide, rfl, by decide, by decide⟩

/-- C7 (amended): the node built by `load_node` has type Mesh if the source
node has a mesh; otherwise, if the source node has a point, spot or directional
light, its type is left at the zero-initialised Empty; otherwise it is Camera
if the source node has a camera (PBR variant; the FBX-loading variant has no
Camera type and gives Empty); otherwise Empty. -/
theorem load_node_type {D F : Type} [Zero F] [One F] [DecidableEq F] (ext : Ext D F)
    (fbx_scene : ufbx_scene D) (name : String) (lt gt : ufbx_transform D)
    (mesh : Option (ufbx_mesh D)) (light : Option ufbx_light) (camera : Option ufbx_camera)
    (is_root : Bool) (children : List (ufbx_node D)) (root : Option Nat)
    (hP : PBR.Heap F) (pP : Nat) (hP' : PBR.Heap F)
    (hF : FBX.Heap F) (pF : Nat) (hF' : FBX.Heap F)
    (hrP : PBR.load_node ext fbx_scene (.mk name lt gt mesh light camera is_root children)
      root hP = .ok (pP, hP'))
    (hrF : FBX.load_node ext (.mk name lt gt mesh light camera is_root children) hF
      = .ok (pF, hF')) :
    (hP'.node pP).type =
      (if mesh.isSome then NODE_TYPE.NODE_TYPE_MESH
       else if light_is_point_spot_or_directional light then NODE_TYPE.NODE_TYPE_EMPTY
       else if camera.isSome then NODE_TYPE.NODE_TYPE_CAMERA
       else NODE_TYPE.NODE_TYPE_EMPTY) ∧
    (hF'.node pF).type =
      (if mesh.isSome then FBX.NODE_TYPE.NODE_TYPE_MESH
       else FBX.NODE_TYPE.NODE_TYPE_EMPTY) := by
  constructor
  · obtain ⟨rfl, root1, h1, hpay, hch⟩ :=
      PBR.load_node_ok ext fbx_scene name lt gt mesh light camera is_root children root hP pP
        hP' hrP
    have hlen0 := PBR.load_header_length ext name lt gt hP
    have hP1 := PBR.load_payload_post ext fbx_scene mesh light camera is_root _ root root1 _ h1
      (by omega) hpay
    have hty := pbr_load_payload_type ext fbx_scene mesh light camera is_root _ root root1 _ h1
      (by omega) hpay
    have hC := PBR.load_children_post ext fbx_scene children hP.nodes.length root1 _ hP'
      (by rw [PBR.Heap.update_length, hP1.length]; omega) hch
    obtain ⟨cs, hcs, _⟩ := hC.node_eq
    rw [hcs, PBR.Heap.update_node_eq _ _ _ (by rw [hP1.length]; omega)]
    show (h1.node hP.nodes.length).type = _
    rw [hty, PBR.load_header_node_new]
    rfl
  · obtain ⟨rfl, h1, hpay, hch⟩ :=
      FBX.fbx_load_node_ok ext name lt gt mesh light camera is_root children hF pF hF' hrF
    have hlen0 := FBX.fbx_load_header_length ext name lt gt hF
    obtain ⟨hl1, _, hty⟩ := FBX.fbx_load_payload_post ext mesh light _ _ h1 (by omega) hpay
    obtain ⟨_, _, hty2⟩ := FBX.fbx_load_children_frame ext children hF.nodes.length _ hF'
      (by rw [FBX.fbx_update_length]; omega) hch
    rw [hty2, FBX.fbx_update_node_eq _ _ _ (by omega)]
    show (h1.node hF.nodes.length).type = _
    rw [hty, FBX.fbx_load_header_node_new]
    split <;> simp

/-- Witness of C7 on the camera node. -/
theorem load_node_type_witness :
    PBR.load_node fan_ext light_scene
      (.mk "cam" identity_transform identity_transform none none (some ufbx_camera.mk) false [])
      none PBR.Heap.empty = .ok (0, camera_heap) ∧
    FBX.load_node fan_ext
      (.mk "cam" identity_transform identity_transform none none (some ufbx_camera.mk) false [])
      FBX.Heap.empty = .ok (0, fbx_camera_heap) ∧
    (camera_heap.node 0).type = NODE_TYPE.NODE_TYPE_CAMERA ∧
    (fbx_camera_heap.node 0).type = FBX.NODE_TYPE.NODE_TYPE_EMPTY :=
  ⟨rfl, rfl,
    load_node_type fan_ext light_scene "cam" identity_transform identity_transform none none
      (some ufbx_camera.mk) false [] none PBR.Heap.empty 0 camera_heap FBX.Heap.empty 0
      fbx_camera_heap rfl rfl⟩

/-- C8 (the code at the failing inputs): `load_fbx` fails on a scene that has a
texture and a mesh without materials, where `materials.data[material_index]`
is read out of range, and on a scene whose root node carries a mesh, where
`load_mesh_part` dereferences the null `root`. -/
theorem load_node_fails :
    (PBR.load_fbx fan_ext bare_mesh_scene : Except Failure (Nat × PBR.Heap Int)) =
      .error Failure.out_of_range ∧
    (PBR.load_fbx fan_ext root_mesh_scene : Except Failure (Nat × PBR.Heap Int)) =
      .error Failure.null_deref :=
  ⟨rfl, rfl⟩

/-- C10 (the code at the failing input): in the tree built for `chain_scene`
the root holds the table (one texture), its child `a` has the root's
`texture_array` and `texture_count`, but the grandchild `b` has a null
`texture_array` and `texture_count` 0. -/
theorem load_node_grandchild_table :
    PBR.load_fbx fan_ext chain_scene = .ok (0, chain_heap) ∧
    (chain_heap.node 0).child_array = [1] ∧ (chain_heap.node 1).child_array = [2] ∧
    (chain_heap.node 0).texture_array = some 0 ∧ (chain_heap.node 0).texture_count = 1 ∧
    (chain_heap.node 1).texture_array = some 0 ∧ (chain_heap.node 1).texture_count = 1 ∧
    (chain_heap.node 2).texture_array = none ∧ (chain_heap.node 2).texture_count = 0 :=
  ⟨rfl, by decide, by decide, by decide, by decide, by decide, by decide, by decide, by decide⟩

/-- C9 (as stated, refuted): for a root source node that carries a camera no
texture table is built: the root Node has a null `texture_array` and
`texture_count` 0 although the scene has one texture. -/
theorem load_node_camera_root_has_no_table :
    PBR.load_fbx fan_ext camera_root_scene = .ok (0, camera_root_heap) ∧
    camera_root_scene.textures.length = 1 ∧
    (camera_root_heap.node 0).type = NODE_TYPE.NODE_TYPE_CAMERA ∧
    (camera_root_heap.node 0).texture_array = none ∧
    (camera_root_heap.node 0).texture_count = 0 :=
  ⟨rfl, by decide, by decide, by decide, by decide⟩

theorem getD_append_length {α : Type} (l t : List α) (x d : α) :
    (l ++ x :: t).getD l.length d = x := by
  rw [List.getD_eq_getElem?_getD, List.getElem?_append_right (le_refl _)]
  simp

theorem pbr_load_payload_root_table {D F : Type} [Zero F] [One F] [DecidableEq F]
    (ext : Ext D F) (fbx_scene : ufbx_scene D) (light : Option ufbx_light) (node : Nat)
    (root root' : Option Nat) (h h' : PBR.Heap F) (hn : node < h.nodes.length)
    (hl : light_is_point_spot_or_directional light = false)
    (hr : PBR.load_payload ext fbx_scene none light none true node root h = .ok (root', h')) :
    root' = some node ∧
    (h'.node node).texture_count = fbx_scene.textures.length ∧
    (h'.node node).texture_array = some h.textures.length ∧
    h'.textures = h.textures ++ [PBR.texture_table ext fbx_scene] := by
  simp only [light_is_point_spot_or_directional, Bool.or_eq_false_iff] at hl
  obtain ⟨⟨hl1, hl2⟩, hl3⟩ := hl
  simp only [PBR.load_payload, hl1, hl2, hl3, Option.isSome_none, Bool.false_eq_true,
    if_false, if_true] at hr
  cases hr
  refine ⟨rfl, ?_, ?_, rfl⟩
  · rw [PBR.Heap.update_node_eq _ _ _ (by simpa [PBR.Heap.update] using hn)]
  · rw [PBR.Heap.update_node_eq _ _ _ (by simpa [PBR.Heap.update] using hn)]
    rfl

theorem pbr_load_payload_root_kept {D F : Type} [Zero F] [One F] [DecidableEq F]
    (ext : Ext D F) (fbx_scene : ufbx_scene D) (mesh : Option (ufbx_mesh D))
    (light : Option ufbx_light) (camera : Option ufbx_camera) (node : Nat)
    (root root' : Option Nat) (h h' : PBR.Heap F)
    (hr : PBR.load_payload ext fbx_scene mesh light camera false node root h = .ok (root', h')) :
    root' = root := by
  unfold PBR.load_payload at hr
  split at hr
  · split at hr
    · cases hr
    · cases hr; rfl
  · split at hr
    · cases hr; rfl
    · split at hr
      · cases hr; rfl
      · split at hr
        · cases hr; rfl
        · split at hr
          · cases hr; rfl
          · simp at hr
            exact hr.1.symm

/-- In the PBR variant: when the root source node is flagged `is_root` and has no
mesh, no point, spot or directional light and no camera, `load_node` builds the
scene's texture table on the resulting root Node (`texture_count` is the
number of textures of the scene, `texture_array` points at the table); the
child loop of the root is run with this Node as `root`; and every node that is
not flagged `is_root` hands the `root` it received to its own classification,
to the loop that calls `load_mesh_part`, and to its own child loop. -/
theorem pbr_load_node_root_texture_table {D F : Type} [Zero F] [One F] [DecidableEq F]
    (ext : Ext D F) (fbx_scene : ufbx_scene D) (name : String) (lt gt : ufbx_transform D)
    (light : Option ufbx_light) (children : List (ufbx_node D)) (root : Option Nat)
    (h : PBR.Heap F) (p : Nat) (h' : PBR.Heap F)
    (hl : light_is_point_spot_or_directional light = false)
    (hr : PBR.load_node ext fbx_scene (.mk name lt gt none light none true children) root h
      = .ok (p, h')) :
    (h'.node p).texture_count = fbx_scene.textures.length ∧
    (PBR.texture_table ext fbx_scene).length = fbx_scene.textures.length ∧
    (∃ a, (h'.node p).texture_array = some a ∧
      h'.textures.getD a [] = PBR.texture_table ext fbx_scene ∧
      ∃ h1, PBR.load_children ext fbx_scene children p (some p) h1 = .ok h' ∧
        (h1.node p).texture_count = fbx_scene.textures.length ∧
        (h1.node p).texture_array = some a ∧
        h1.textures.getD a [] = PBR.texture_table ext fbx_scene) ∧
    (∀ name' lt' gt' mesh' light' camera' children' root' (h0 : PBR.Heap F) p' h0',
      PBR.load_node ext fbx_scene (.mk name' lt' gt' mesh' light' camera' false children') root'
        h0 = .ok (p', h0') →
      ∃ h2, PBR.load_payload ext fbx_scene mesh' light' camera' false p' root'
          (PBR.load_header ext name' lt' gt' h0).2 = .ok (root', h2) ∧
        (∀ m, mesh' = some m → ∃ mesh_parts,
          PBR.mesh_parts_loop ext m root' (PBR.load_header ext name' lt' gt' h0).2
            m.material_parts 0 = .ok mesh_parts) ∧
        PBR.load_children ext fbx_scene children' p' root'
          (h2.update p' fun n => { n with child_array := [], child_count := children'.length })
          = .ok h0') := by
  obtain ⟨rfl, root1, h1, hpay, hch⟩ :=
    PBR.load_node_ok ext fbx_scene name lt gt none light none true children root h p h' hr
  have hlen0 := PBR.load_header_length ext name lt gt h
  have hP := PBR.load_payload_post ext fbx_scene none light none true _ root root1 _ h1
    (by omega) hpay
  obtain ⟨hroot, htc, hta, htex⟩ := pbr_load_payload_root_table ext fbx_scene light _ root root1
    _ h1 (by omega) hl hpay
  subst hroot
  rw [PBR.load_header_textures] at hta htex
  have hC := PBR.load_children_post ext fbx_scene children h.nodes.length _ _ h'
    (by rw [PBR.Heap.update_length, hP.length]; omega) hch
  obtain ⟨cs, hcs, _⟩ := hC.node_eq
  obtain ⟨t2, ht2⟩ := hC.tex
  rw [PBR.Heap.update_textures, htex] at ht2
  have hupd : ∀ g : PBR.Node F → PBR.Node F,
      (h1.update h.nodes.length g).node h.nodes.length = g (h1.node h.nodes.length) :=
    fun g => PBR.Heap.update_node_eq _ _ _ (by rw [hP.length]; omega)
  refine ⟨?_, by simp [PBR.texture_table], ⟨h.textures.length, ?_, ?_, _, hch, ?_, ?_, ?_⟩, ?_⟩
  · rw [hcs, hupd]; exact htc
  · rw [hcs, hupd]; exact hta
  · rw [ht2, List.append_assoc]
    exact getD_append_length _ _ _ _
  · rw [hupd]; exact htc
  · rw [hupd]; exact hta
  · rw [PBR.Heap.update_textures, htex]
    exact getD_append_length _ _ _ _
  · intro name' lt' gt' mesh' light' camera' children' root' h0 p' h0' hr'
    obtain ⟨rfl, root1', h1', hpay', hch'⟩ :=
      PBR.load_node_ok ext fbx_scene name' lt' gt' mesh' light' camera' false children' root' h0
        p' h0' hr'
    have := pbr_load_payload_root_kept ext fbx_scene mesh' light' camera' _ root' root1' _ h1'
      hpay'
    subst this
    refine ⟨h1', hpay', ?_, hch'⟩
    intro m hm
    subst hm
    simp only [PBR.load_payload] at hpay'
    split at hpay'
    · cases hpay'
    · rename_i mesh_parts hparts
      exact ⟨mesh_parts, hparts⟩

end GPU

namespace GPU

theorem generate_indices_scan_of_nodup {V : Type} [DecidableEq V] (l : List V) (hl : l.Nodup) :
    generate_indices_scan l = (l, List.range l.length) := by
  induction l using List.reverseRecOn with
  | nil => rfl
  | append_singleton l v ih =>
    have hnd := List.nodup_append.mp hl
    have hv : v ∉ l := fun hmem => hnd.2.2 hmem (List.mem_singleton_self v)
    rw [generate_indices_scan_concat, ih hnd.1]
    unfold generate_indices_step
    have : ¬ (l.indexOf v < l.length) := fun h => hv (List.indexOf_lt_length.mp h)
    simp only [this, if_false, List.length_append, List.length_singleton, List.range_succ]

namespace PBR

theorem corner_loop_ok {D F : Type} [Zero F] [One F] (ext : Ext D F) (mesh : ufbx_mesh D)
    (cap num_tri_indices : Nat) (tri_indices : Nat → Nat) :
    ∀ (l : List Nat) (vertices r : List (Vertex F)),
      corner_loop ext mesh cap num_tri_indices tri_indices l vertices = .ok r →
      r = vertices ++ l.map fun i => load_corner ext mesh (tri_indices i) := by
  intro l
  induction l with
  | nil =>
    intro vertices r h
    simp only [corner_loop] at h
    cases h
    simp
  | cons i rest ih =>
    intro vertices r h
    rw [corner_loop] at h
    split at h
    · cases h
    · split at h
      · cases h
      · rw [ih _ r h]
        simp

theorem face_loop_ok {D F : Type} [Zero F] [One F] (ext : Ext D F) (mesh : ufbx_mesh D)
    (cap : Nat) :
    ∀ (faces : List Nat) (vertices r : List (Vertex F)),
      face_loop ext mesh cap faces vertices = .ok r →
      r = vertices ++ faces.flatMap (face_corners ext mesh) := by
  intro faces
  induction faces with
  | nil =>
    intro vertices r h
    simp only [face_loop] at h
    cases h
    simp
  | cons face_ix rest ih =>
    intro vertices r h
    rw [face_loop] at h
    cases hf : mesh.faces[face_ix]? with
    | none => rw [hf] at h; cases h
    | some face =>
      rw [hf] at h
      simp only [] at h
      split at h
      · cases h
      · rename_i vs hvs
        rw [ih _ r h, corner_loop_ok ext mesh _ _ _ _ _ _ hvs]
        simp [face_corners, face_triangles, face_tri_indices, hf]

theorem unwelded_vertices_ok {D F : Type} [Zero F] [One F] (ext : Ext D F)
    (mesh : ufbx_mesh D) (part : ufbx_mesh_part) (corners : List (Vertex F))
    (h : unwelded_vertices ext mesh part = .ok corners) :
    corners = part.face_indices.flatMap (face_corners ext mesh) := by
  unfold unwelded_vertices at h
  split at h
  · cases h
  · rename_i vs hvs
    split at h
    · cases h
      simpa using face_loop_ok ext mesh _ _ _ _ hvs
    · cases h

end PBR
end GPU

namespace GPU
namespace PBR

theorem load_corner_fields {D F : Type} [Zero F] [One F] (ext : Ext D F) (mesh : ufbx_mesh D)
    (index : Nat) :
    (load_corner ext mesh index : Vertex F).pos =
      (if mesh.vertex_position.exists_ then
        (mesh.vertex_position.get index).conv_float ext.conv else ⟨0, 0, 0⟩) ∧
    (load_corner ext mesh index : Vertex F).color =
      (if mesh.vertex_color.exists_ then
        (mesh.vertex_color.get index).conv_float ext.conv else ⟨1, 1, 1, 1⟩) ∧
    (load_corner ext mesh index : Vertex F).normal =
      (if mesh.vertex_normal.exists_ then
        (mesh.vertex_normal.get index).conv_float ext.conv else ⟨0, 0, 0⟩) ∧
    (load_corner ext mesh index : Vertex F).tangent =
      (if mesh.vertex_tangent.exists_ then
        (mesh.vertex_tangent.get index).conv_float ext.conv else ⟨0, 0, 0⟩) ∧
    (load_corner ext mesh index : Vertex F).bitangent =
      (if mesh.vertex_bitangent.exists_ then
        (mesh.vertex_bitangent.get index).conv_float ext.conv else ⟨0, 0, 0⟩) ∧
    (load_corner ext mesh index : Vertex F).uv =
      (if mesh.vertex_uv.exists_ then
        (mesh.vertex_uv.get index).conv_float ext.conv else ⟨0, 0⟩) := by
  unfold load_corner
  cases mesh.vertex_position.exists_ <;> cases mesh.vertex_color.exists_ <;>
    cases mesh.vertex_normal.exists_ <;> cases mesh.vertex_tangent.exists_ <;>
    cases mesh.vertex_bitangent.exists_ <;> cases mesh.vertex_uv.exists_ <;>
    simp [Vertex.zero, V4]

/-- In the PBR variant: the unwelded stream is, face after face and corner after corner, the
record `load_corner` builds for the corner index returned by triangulation,
and each field of that record is the source attribute at that index narrowed
by `conv_float` when the stream exists, and otherwise the default: color
`(1, 1, 1, 1)`, and zero for position, normal, tangent, bitangent and uv. -/
theorem pbr_unwelded_vertex_fields {D F : Type} [Zero F] [One F] (ext : Ext D F)
    (mesh : ufbx_mesh D) (part : ufbx_mesh_part) (corners : List (Vertex F))
    (hc : unwelded_vertices ext mesh part = .ok corners) :
    corners = part.face_indices.flatMap (face_corners ext mesh) ∧
    (∀ v ∈ corners, ∃ face_ix i, face_ix ∈ part.face_indices ∧
      i < face_triangles ext mesh face_ix * 3 ∧
      v = load_corner ext mesh (face_tri_indices ext mesh face_ix i)) ∧
    ∀ index : Nat,
      (load_corner ext mesh index : Vertex F).pos =
        (if mesh.vertex_position.exists_ then
          (mesh.vertex_position.get index).conv_float ext.conv else ⟨0, 0, 0⟩) ∧
      (load_corner ext mesh index : Vertex F).color =
        (if mesh.vertex_color.exists_ then
          (mesh.vertex_color.get index).conv_float ext.conv else ⟨1, 1, 1, 1⟩) ∧
      (load_corner ext mesh index : Vertex F).normal =
        (if mesh.vertex_normal.exists_ then
          (mesh.vertex_normal.get index).conv_float ext.conv else ⟨0, 0, 0⟩) ∧
      (load_corner ext mesh index : Vertex F).tangent =
        (if mesh.vertex_tangent.exists_ then
          (mesh.vertex_tangent.get index).conv_float ext.conv else ⟨0, 0, 0⟩) ∧
      (load_corner ext mesh index : Vertex F).bitangent =
        (if mesh.vertex_bitangent.exists_ then
          (mesh.vertex_bitangent.get index).conv_float ext.conv else ⟨0, 0, 0⟩) ∧
      (load_corner ext mesh index : Vertex F).uv =
        (if mesh.vertex_uv.exists_ then
          (mesh.vertex_uv.get index).conv_float ext.conv else ⟨0, 0⟩) := by
  have heq := unwelded_vertices_ok ext mesh part corners hc
  refine ⟨heq, ?_, fun index => load_corner_fields ext mesh index⟩
  intro v hv
  rw [heq, List.mem_flatMap] at hv
  obtain ⟨face_ix, hf, hv⟩ := hv
  simp only [face_corners, List.mem_map, List.mem_range] at hv
  obtain ⟨i, hi, rfl⟩ := hv
  exact ⟨face_ix, i, hf, hi, rfl⟩

/-- C20: when the unwelded corner records of the partition are pairwise
distinct, `load_mesh_part` returns them in stream order, `vertex_count` is
their number `n`, and `index_array` is `[0, 1, ..., n-1]`. -/
theorem load_mesh_part_of_distinct_corners {D F : Type} [Zero F] [One F] [DecidableEq F]
    (ext : Ext D F) (mesh : ufbx_mesh D) (part : ufbx_mesh_part) (material_index : Nat)
    (node : Option Nat) (h : Heap F) (r : Mesh_Part F) (corners : List (Vertex F))
    (hc : unwelded_vertices ext mesh part = .ok corners) (hnd : corners.Nodup)
    (hr : load_mesh_part ext mesh part material_index node h = .ok r) :
    r.vertex_array = corners ∧ r.vertex_count = corners.length ∧
    r.index_array = List.range corners.length ∧ r.index_count = corners.length := by
  obtain ⟨corners', hc', hlen, hic, hia, hvc, hva⟩ :=
    load_mesh_part_ok ext mesh part material_index node h r hr
  rw [hc] at hc'
  cases hc'
  rw [generate_indices_scan_of_nodup corners hnd] at hia hvc hva
  refine ⟨?_, hvc, hia, by rw [hic, hlen]⟩
  rw [hva]
  simp

/-- Witness of C20: a single triangle with three distinct UV coordinates yields
three vertices and the indices `[0, 1, 2]`. -/
theorem load_mesh_part_of_distinct_corners_witness :
    unwelded_vertices fan_ext uv_triangle_mesh uv_triangle_part = .ok uv_triangle_corners ∧
    uv_triangle_corners.Nodup ∧
    load_mesh_part fan_ext uv_triangle_mesh uv_triangle_part 0 (some 0) table_heap
      = .ok uv_triangle_mesh_part ∧
    uv_triangle_mesh_part.vertex_count = 3 ∧ uv_triangle_mesh_part.index_array = [0, 1, 2] ∧
    uv_triangle_mesh_part.vertex_array = uv_triangle_corners ∧
    uv_triangle_mesh_part.vertex_count = uv_triangle_corners.length ∧
    uv_triangle_mesh_part.index_array = List.range uv_triangle_corners.length ∧
    uv_triangle_mesh_part.index_count = uv_triangle_corners.length :=
  ⟨rfl, by decide, rfl, rfl, rfl,
    load_mesh_part_of_distinct_corners fan_ext uv_triangle_mesh uv_triangle_part 0 (some 0)
      table_heap uv_triangle_mesh_part uv_triangle_corners rfl (by decide) rfl⟩

end PBR
end GPU

namespace GPU
namespace PBR

theorem texture_loop_no_texture {F : Type} (materials : List ufbx_material)
    (material_index : Nat) (n : Node F) (h : Heap F) (material : ufbx_material)
    (hm : materials.get? material_index = some material)
    (hb : material.base_color_texture = none) :
    ∀ (l : List Nat) (acc r : Option (Nat × Nat)),
      texture_loop materials material_index n h l acc = .ok r → r = acc := by
  intro l
  induction l with
  | nil => intro acc r hr; simp only [texture_loop] at hr; cases hr; rfl
  | cons i rest ih =>
    intro acc r hr
    rw [texture_loop] at hr
    simp only [hm, hb] at hr
    exact ih acc r hr

theorem texture_loop_material {F : Type} (materials : List ufbx_material)
    (material_index : Nat) (n : Node F) (h : Heap F) (i : Nat) (rest : List Nat)
    (acc r : Option (Nat × Nat))
    (hr : texture_loop materials material_index n h (i :: rest) acc = .ok r) :
    ∃ material, materials.get? material_index = some material := by
  rw [texture_loop] at hr
  split at hr
  · cases hr
  · rename_i material hm
    exact ⟨material, hm⟩

theorem texture_loop_texture {F : Type} (materials : List ufbx_material)
    (material_index : Nat) (n : Node F) (h : Heap F) (material : ufbx_material)
    (texture : ufbx_texture) (hm : materials.get? material_index = some material)
    (hb : material.base_color_texture = some texture) :
    ∀ (l : List Nat) (acc r : Option (Nat × Nat)),
      texture_loop materials material_index n h l acc = .ok r →
      (r = acc ∧ ∀ i ∈ l, ¬ table_entry_matches h n texture.filename i) ∨
      ∃ arr l1 i l2, l = l1 ++ i :: l2 ∧ r = some (arr, i) ∧ n.texture_array = some arr ∧
        table_entry_matches h n texture.filename i ∧
        ∀ j ∈ l2, ¬ table_entry_matches h n texture.filename j := by
  intro l
  induction l with
  | nil =>
    intro acc r hr
    simp only [texture_loop] at hr
    cases hr
    exact Or.inl ⟨rfl, fun i hi => absurd hi (List.not_mem_nil i)⟩
  | cons i rest ih =>
    intro acc r hr
    rw [texture_loop] at hr
    simp only [hm, hb] at hr
    split at hr
    · cases hr
    · rename_i arr harr
      split at hr
      · cases hr
      · rename_i entry hentry
        split at hr
        · rename_i heq
          have hM : table_entry_matches h n texture.filename i := ⟨arr, entry, harr, hentry, heq⟩
          rcases ih _ r hr with ⟨hacc, hno⟩ | ⟨arr', l1, i', l2, hl, hr', ha', hM', hno⟩
          · exact Or.inr ⟨arr, [], i, rest, rfl, hacc, harr, hM, hno⟩
          · exact Or.inr ⟨arr', i :: l1, i', l2, by rw [hl]; rfl, hr', ha', hM', hno⟩
        · rename_i hne
          have hM : ¬ table_entry_matches h n texture.filename i := by
            rintro ⟨arr', entry', ha', he', heq'⟩
            rw [harr] at ha'
            cases ha'
            rw [hentry] at he'
            cases he'
            exact hne heq'
          rcases ih _ r hr with ⟨hacc, hno⟩ | ⟨arr', l1, i', l2, hl, hr', ha', hM', hno⟩
          · refine Or.inl ⟨hacc, ?_⟩
            intro j hj
            rcases List.mem_cons.mp hj with rfl | hj
            · exact hM
            · exact hno j hj
          · exact Or.inr ⟨arr', i :: l1, i', l2, by rw [hl]; rfl, hr', ha', hM', hno⟩

theorem load_mesh_part_color_texture {D F : Type} [Zero F] [One F] [DecidableEq F]
    (ext : Ext D F) (mesh : ufbx_mesh D) (part : ufbx_mesh_part) (material_index : Nat)
    (node : Option Nat) (h : Heap F) (r : Mesh_Part F)
    (hr : load_mesh_part ext mesh part material_index node h = .ok r) :
    ∃ p, node = some p ∧
      texture_loop mesh.materials material_index (h.node p) h
        (List.range (h.node p).texture_count) none = .ok r.color_texture := by
  unfold load_mesh_part at hr
  split at hr
  · cases hr
  · split at hr
    · cases hr
    · rename_i p
      split at hr
      · cases hr
      · rename_i ct hct
        cases hr
        exact ⟨p, rfl, hct⟩

end PBR
end GPU

namespace GPU

theorem range_split_after (n : Nat) (l1 l2 : List Nat) (i : Nat)
    (hl : List.range n = l1 ++ i :: l2) :
    i < n ∧ ∀ j, i < j → j < n → j ∈ l2 := by
  have hi : i ∈ List.range n := by rw [hl]; simp
  have hs : (l1 ++ i :: l2).Pairwise (· < ·) := by rw [← hl]; exact List.pairwise_lt_range n
  obtain ⟨_, h2, h12⟩ := List.pairwise_append.mp hs
  refine ⟨List.mem_range.mp hi, ?_⟩
  intro j hij hjn
  have hj : j ∈ l1 ++ i :: l2 := by rw [← hl]; exact List.mem_range.mpr hjn
  rcases List.mem_append.mp hj with hj | hj
  · have := h12 j hj i (List.mem_cons_self _ _)
    omega
  · rcases List.mem_cons.mp hj with hj | hj
    · omega
    · exact hj

namespace PBR

/-- In the PBR variant: the Mesh Part built for material partition `material_index` has
`color_texture` set if and only if that material declares a base-color texture
whose file name equals the path of some entry of the texture table of the node
handed to `load_mesh_part`; when set, it points at an entry of that table whose
path equals the file name. -/
theorem pbr_color_texture_resolution {D F : Type} [Zero F] [One F] [DecidableEq F]
    (ext : Ext D F) (mesh : ufbx_mesh D) (part : ufbx_mesh_part) (material_index : Nat)
    (p : Nat) (h : Heap F) (r : Mesh_Part F)
    (hr : load_mesh_part ext mesh part material_index (some p) h = .ok r) :
    (r.color_texture.isSome ↔
      ∃ material texture i, mesh.materials.get? material_index = some material ∧
        material.base_color_texture = some texture ∧ i < (h.node p).texture_count ∧
        table_entry_matches h (h.node p) texture.filename i) ∧
    ∀ arr i, r.color_texture = some (arr, i) →
      (h.node p).texture_array = some arr ∧ i < (h.node p).texture_count ∧
      ∃ material texture entry, mesh.materials.get? material_index = some material ∧
        material.base_color_texture = some texture ∧
        (h.textures.getD arr []).get? i = some entry ∧ entry.path = texture.filename := by
  obtain ⟨p', hp', hloop⟩ := load_mesh_part_color_texture ext mesh part material_index _ h r hr
  cases hp'
  rcases hcount : (h.node p).texture_count with _ | k
  · rw [hcount] at hloop
    simp only [List.range_zero, texture_loop] at hloop
    have hct : r.color_texture = none := (Except.ok.inj hloop).symm
    rw [hct]
    constructor
    · constructor
      · intro hs; simp at hs
      · rintro ⟨_, _, i, _, _, hi, _⟩; omega
    · intro arr i hsome
      cases hsome
  · obtain ⟨material, hm⟩ : ∃ material, mesh.materials.get? material_index = some material := by
      rw [hcount, List.range_succ_eq_map] at hloop
      exact texture_loop_material _ _ _ _ _ _ _ _ hloop
    rw [← hcount]
    rcases hb : material.base_color_texture with _ | texture
    · have := texture_loop_no_texture _ _ _ _ material hm hb _ _ _ hloop
      rw [this]
      constructor
      · constructor
        · intro hs; simp at hs
        · rintro ⟨material', texture', i, hm', hb', _, _⟩
          rw [hm] at hm'
          cases hm'
          rw [hb] at hb'
          cases hb'
      · intro arr i hsome
        cases hsome
    · rcases texture_loop_texture _ _ _ _ material texture hm hb _ _ _ hloop with
        ⟨hacc, hno⟩ | ⟨arr, l1, i, l2, hl, hri, harr, hM, _⟩
      · rw [hacc]
        constructor
        · constructor
          · intro hs; simp at hs
          · rintro ⟨material', texture', i, hm', hb', hi, hM⟩
            rw [hm] at hm'
            cases hm'
            rw [hb] at hb'
            cases hb'
            exact absurd hM (hno i (List.mem_range.mpr hi))
        · intro arr i hsome
          cases hsome
      · have hi : i < (h.node p).texture_count := (range_split_after _ _ _ _ hl).1
        rw [hri]
        constructor
        · constructor
          · intro _
            exact ⟨material, texture, i, hm, hb, hi, hM⟩
          · intro _; rfl
        · intro arr' i' hsome
          cases hsome
          obtain ⟨arr'', entry, ha, he, heq⟩ := hM
          rw [harr] at ha
          cases ha
          exact ⟨harr, hi, material, texture, entry, hm, hb, he, heq.symm⟩

end PBR
end GPU

namespace GPU
namespace PBR

/-- The outcome of the texture loop for a material that declares a texture:
either no table entry has the file name and `color_texture` stays unset, or it
points at the last entry of the table whose path is the file name. -/
theorem load_mesh_part_color_texture_last {D F : Type} [Zero F] [One F] [DecidableEq F]
    (ext : Ext D F) (mesh : ufbx_mesh D) (part : ufbx_mesh_part) (material_index : Nat)
    (p : Nat) (h : Heap F) (r : Mesh_Part F) (material : ufbx_material) (texture : ufbx_texture)
    (hm : mesh.materials.get? material_index = some material)
    (hb : material.base_color_texture = some texture)
    (hr : load_mesh_part ext mesh part material_index (some p) h = .ok r) :
    (r.color_texture = none ∧
      ∀ k, k < (h.node p).texture_count → ¬ table_entry_matches h (h.node p) texture.filename k) ∨
    ∃ arr k, r.color_texture = some (arr, k) ∧ (h.node p).texture_array = some arr ∧
      k < (h.node p).texture_count ∧ table_entry_matches h (h.node p) texture.filename k ∧
      ∀ k', k < k' → k' < (h.node p).texture_count →
        ¬ table_entry_matches h (h.node p) texture.filename k' := by
  obtain ⟨p', hp', hloop⟩ := load_mesh_part_color_texture ext mesh part material_index _ h r hr
  cases hp'
  rcases texture_loop_texture _ _ _ _ material texture hm hb _ _ _ hloop with
    ⟨hacc, hno⟩ | ⟨arr, l1, i, l2, hl, hri, harr, hM, hno⟩
  · exact Or.inl ⟨hacc, fun k hk => hno k (List.mem_range.mpr hk)⟩
  · obtain ⟨hi, hafter⟩ := range_split_after _ _ _ _ hl
    exact Or.inr ⟨arr, i, hri, harr, hi, hM, fun k' h1 h2 => hno k' (hafter k' h1 h2)⟩

end PBR

/-- C13 (as stated, refuted): in `twin_scene` both materials of the mesh name
`a.png`, and the texture table holds two entries with the path `a.png`, not
one; both Mesh Parts point at the second of them. -/
theorem twin_table_has_two_entries :
    PBR.load_fbx fan_ext twin_scene = .ok (0, twin_heap) ∧
    twin_mesh.materials = [a_png_material, a_png_material] ∧
    (twin_heap.node 0).texture_array = some 0 ∧
    twin_heap.textures.getD 0 [] = [⟨"a.png"⟩, ⟨"a.png"⟩] ∧
    ((twin_heap.textures.getD 0 []).filter fun entry => entry.path = "a.png").length = 2 ∧
    (twin_heap.node 1).mesh_parts = [twin_mesh_part_0, twin_mesh_part_1] ∧
    twin_mesh_part_0.color_texture = some (0, 1) ∧
    twin_mesh_part_1.color_texture = some (0, 1) :=
  ⟨rfl, rfl, by decide, by decide, by decide, by decide, rfl, rfl⟩

/-- In the PBR variant: when two materials of a mesh declare base-color textures
with the same file name, the Mesh Parts built for them against the same table
have the same `color_texture`: unset exactly when no table entry has that
path, and otherwise pointing at the last table entry that has it. -/
theorem pbr_same_filename_same_color_texture {D F : Type} [Zero F] [One F] [DecidableEq F]
    (ext : Ext D F) (mesh : ufbx_mesh D) (part1 part2 : ufbx_mesh_part) (i j p : Nat)
    (h : PBR.Heap F) (r1 r2 : PBR.Mesh_Part F) (m1 m2 : ufbx_material) (t1 t2 : ufbx_texture)
    (hm1 : mesh.materials.get? i = some m1) (hm2 : mesh.materials.get? j = some m2)
    (hb1 : m1.base_color_texture = some t1) (hb2 : m2.base_color_texture = some t2)
    (hf : t1.filename = t2.filename)
    (hr1 : PBR.load_mesh_part ext mesh part1 i (some p) h = .ok r1)
    (hr2 : PBR.load_mesh_part ext mesh part2 j (some p) h = .ok r2) :
    r1.color_texture = r2.color_texture ∧
    (r1.color_texture = none ↔ ∀ k, k < (h.node p).texture_count →
      ¬ PBR.table_entry_matches h (h.node p) t1.filename k) ∧
    ∀ arr k, r1.color_texture = some (arr, k) →
      (h.node p).texture_array = some arr ∧ k < (h.node p).texture_count ∧
      PBR.table_entry_matches h (h.node p) t1.filename k ∧
      ∀ k', k < k' → k' < (h.node p).texture_count →
        ¬ PBR.table_entry_matches h (h.node p) t1.filename k' := by
  have h1 := PBR.load_mesh_part_color_texture_last ext mesh part1 i p h r1 m1 t1 hm1 hb1 hr1
  have h2 := PBR.load_mesh_part_color_texture_last ext mesh part2 j p h r2 m2 t2 hm2 hb2 hr2
  rw [← hf] at h2
  rcases h1 with ⟨hn1, hno1⟩ | ⟨a1, k1, hs1, ha1, hk1, hM1, hl1⟩
  · refine ⟨?_, ?_, ?_⟩
    · rcases h2 with ⟨hn2, _⟩ | ⟨a2, k2, _, _, hk2, hM2, _⟩
      · rw [hn1, hn2]
      · exact absurd hM2 (hno1 k2 hk2)
    · exact ⟨fun _ => hno1, fun _ => hn1⟩
    · intro arr k hs
      rw [hn1] at hs
      cases hs
  · refine ⟨?_, ?_, ?_⟩
    · rcases h2 with ⟨_, hno2⟩ | ⟨a2, k2, hs2, ha2, hk2, hM2, hl2⟩
      · exact absurd hM1 (hno2 k1 hk1)
      · have hk : k1 = k2 := by
          rcases Nat.lt_trichotomy k1 k2 with hlt | heq | hgt
          · exact absurd hM2 (hl1 k2 hlt hk2)
          · exact heq
          · exact absurd hM1 (hl2 k1 hgt hk1)
        rw [ha1] at ha2
        cases ha2
        rw [hs1, hs2, hk]
    · constructor
      · intro hn
        rw [hs1] at hn
        cases hn
      · intro hno
        exact absurd hM1 (hno k1 hk1)
    · intro arr k hs
      rw [hs1] at hs
      cases hs
      exact ⟨ha1, hk1, hM1, hl1⟩

end GPU

namespace GPU

/-- The table a root without payload ends up with: the array `texture_array`
points at is `texture_table`, and `texture_count` is the number of scene
textures. -/
theorem pbr_root_table {D F : Type} [Zero F] [One F] [DecidableEq F]
    (ext : Ext D F) (fbx_scene : ufbx_scene D) (name : String) (lt gt : ufbx_transform D)
    (light : Option ufbx_light) (children : List (ufbx_node D)) (root : Option Nat)
    (h : PBR.Heap F) (p : Nat) (h' : PBR.Heap F)
    (hl : light_is_point_spot_or_directional light = false)
    (hr : PBR.load_node ext fbx_scene (.mk name lt gt none light none true children) root h
      = .ok (p, h')) :
    (h'.node p).texture_count = fbx_scene.textures.length ∧
    ∃ a, (h'.node p).texture_array = some a ∧
      h'.textures.getD a [] = PBR.texture_table ext fbx_scene := by
  obtain ⟨rfl, root1, h1, hpay, hch⟩ :=
    PBR.load_node_ok ext fbx_scene name lt gt none light none true children root h p h' hr
  have hlen0 := PBR.load_header_length ext name lt gt h
  have hP := PBR.load_payload_post ext fbx_scene none light none true _ root root1 _ h1
    (by omega) hpay
  obtain ⟨_, htc, hta, htex⟩ := pbr_load_payload_root_table ext fbx_scene light _ root root1
    _ h1 (by omega) hl hpay
  rw [PBR.load_header_textures] at hta htex
  have hC := PBR.load_children_post ext fbx_scene children h.nodes.length _ _ h'
    (by rw [PBR.Heap.update_length, hP.length]; omega) hch
  obtain ⟨cs, hcs, _⟩ := hC.node_eq
  obtain ⟨t2, ht2⟩ := hC.tex
  rw [PBR.Heap.update_textures, htex] at ht2
  have hupd : ∀ g : PBR.Node F → PBR.Node F,
      (h1.update h.nodes.length g).node h.nodes.length = g (h1.node h.nodes.length) :=
    fun g => PBR.Heap.update_node_eq _ _ _ (by rw [hP.length]; omega)
  refine ⟨?_, h.textures.length, ?_, ?_⟩
  · rw [hcs, hupd]; exact htc
  · rw [hcs, hupd]; exact hta
  · rw [ht2, List.append_assoc]
    exact getD_append_length _ _ _ _

/-- C12 (as stated, refuted): the two textures of `twin_scene` refer to the
same file and the table built at the root has two entries with equal paths. -/
theorem texture_table_repeats_path :
    PBR.load_fbx fan_ext twin_scene = .ok (0, twin_heap) ∧
    (twin_heap.node 0).texture_array = some 0 ∧ (twin_heap.node 0).texture_count = 2 ∧
    (twin_heap.textures.getD 0 []).get? 0 = some ⟨"a.png"⟩ ∧
    (twin_heap.textures.getD 0 []).get? 1 = some ⟨"a.png"⟩ ∧
    ¬ ((twin_heap.textures.getD 0 []).map Texture.path).Nodup :=
  ⟨rfl, by decide, by decide, by decide, by decide, by decide⟩

/-- In the PBR variant: the texture table built by `load_node` at a root without
payload has one entry per texture of the source scene, in scene order, whose
path is `get_asset_path(relative_filename)`; no two entries have equal paths
exactly when no two textures of the scene have equal asset paths. -/
theorem pbr_texture_table_entries {D F : Type} [Zero F] [One F] [DecidableEq F]
    (ext : Ext D F) (fbx_scene : ufbx_scene D) (name : String) (lt gt : ufbx_transform D)
    (light : Option ufbx_light) (children : List (ufbx_node D)) (root : Option Nat)
    (h : PBR.Heap F) (p : Nat) (h' : PBR.Heap F)
    (hl : light_is_point_spot_or_directional light = false)
    (hr : PBR.load_node ext fbx_scene (.mk name lt gt none light none true children) root h
      = .ok (p, h')) :
    ∃ a table, (h'.node p).texture_array = some a ∧ h'.textures.getD a [] = table ∧
      table.length = fbx_scene.textures.length ∧
      (h'.node p).texture_count = table.length ∧
      (∀ i, table.get? i = (fbx_scene.textures.get? i).map fun fbx_texture =>
        ⟨ext.get_asset_path fbx_texture.relative_filename⟩) ∧
      ((table.map Texture.path).Nodup ↔
        (fbx_scene.textures.map fun fbx_texture =>
          ext.get_asset_path fbx_texture.relative_filename).Nodup) := by
  obtain ⟨htc, a, hta, htab⟩ :=
    pbr_root_table ext fbx_scene name lt gt light children root h p h' hl hr
  refine ⟨a, PBR.texture_table ext fbx_scene, hta, htab, ?_, ?_, ?_, ?_⟩
  · simp [PBR.texture_table]
  · rw [htc]; simp [PBR.texture_table]
  · intro i
    simp [PBR.texture_table, List.getElem?_map]
  · simp [PBR.texture_table, List.map_map, Function.comp_def]

end GPU

namespace GPU
namespace PBR

theorem mesh_parts_loop_ok {D F : Type} [Zero F] [One F] [DecidableEq F] (ext : Ext D F)
    (mesh : ufbx_mesh D) (root : Option Nat) (h : Heap F) :
    ∀ (parts : List ufbx_mesh_part) (k : Nat) (mesh_parts : List (Mesh_Part F)),
      mesh_parts_loop ext mesh root h parts k = .ok mesh_parts →
      mesh_parts.length = parts.length ∧
      ∀ i part, parts.get? i = some part →
        ∃ mesh_part, mesh_parts.get? i = some mesh_part ∧
          load_mesh_part ext mesh part (k + i) root h = .ok mesh_part := by
  intro parts
  induction parts with
  | nil =>
    intro k mps hr
    simp only [mesh_parts_loop] at hr
    cases hr
    exact ⟨rfl, fun i part hp => by simp at hp⟩
  | cons part rest ih =>
    intro k mps hr
    rw [mesh_parts_loop] at hr
    split at hr
    · cases hr
    · rename_i mp hmp
      split at hr
      · cases hr
      · rename_i mps' hmps'
        cases hr
        obtain ⟨hlen, hall⟩ := ih (k + 1) mps' hmps'
        refine ⟨by simp [hlen], ?_⟩
        intro i part' hp
        cases i with
        | zero =>
          simp only [List.get?_cons_zero, Option.some.injEq] at hp
          subst hp
          exact ⟨mp, rfl, hmp⟩
        | succ i =>
          simp only [List.get?_cons_succ] at hp
          obtain ⟨mp', h1, h2⟩ := hall i part' hp
          refine ⟨mp', by simpa using h1, ?_⟩
          rw [show k + (i + 1) = k + 1 + i by omega]
          exact h2

theorem load_mesh_part_congr {D F : Type} [Zero F] [One F] [DecidableEq F] (ext : Ext D F)
    (mesh : ufbx_mesh D) (part : ufbx_mesh_part) (material_index : Nat) (root : Option Nat)
    (h1 h2 : Heap F) (ht : h1.textures = h2.textures)
    (hn : ∀ r, root = some r → h1.node r = h2.node r) :
    load_mesh_part ext mesh part material_index root h1
      = load_mesh_part ext mesh part material_index root h2 := by
  have hloop : ∀ (n : Node F) (l : List Nat) (acc : Option (Nat × Nat)),
      texture_loop mesh.materials material_index n h1 l acc
        = texture_loop mesh.materials material_index n h2 l acc := by
    intro n l
    induction l with
    | nil => intro acc; simp [texture_loop]
    | cons i rest ih =>
      intro acc
      rw [texture_loop, texture_loop, ht]
      simp only [ih]
  cases root with
  | none => simp [load_mesh_part]
  | some r =>
    simp only [load_mesh_part, hn r rfl, hloop]

/-- C15: the Node built by `load_node` for a mesh source node has
`mesh_parts_count` equal to the number of material partitions of the source
mesh, and its `i`-th Mesh Part is the result of `load_mesh_part` on the `i`-th
material partition, with material index `i` and the `root` handed to
`load_node`. -/
theorem load_node_mesh_parts {D F : Type} [Zero F] [One F] [DecidableEq F] (ext : Ext D F)
    (fbx_scene : ufbx_scene D) (name : String) (lt gt : ufbx_transform D) (mesh : ufbx_mesh D)
    (light : Option ufbx_light) (camera : Option ufbx_camera) (is_root : Bool)
    (children : List (ufbx_node D)) (root : Option Nat) (h : Heap F) (p : Nat) (h' : Heap F)
    (hr : load_node ext fbx_scene (.mk name lt gt (some mesh) light camera is_root children)
      root h = .ok (p, h')) :
    (h'.node p).type = NODE_TYPE.NODE_TYPE_MESH ∧
    (h'.node p).mesh_parts_count = mesh.material_parts.length ∧
    (h'.node p).mesh_parts.length = mesh.material_parts.length ∧
    ∀ i part, mesh.material_parts.get? i = some part →
      ∃ mesh_part, (h'.node p).mesh_parts.get? i = some mesh_part ∧
        load_mesh_part ext mesh part i root (load_header ext name lt gt h).2 = .ok mesh_part ∧
        ((∀ r, root = some r → r < h.nodes.length) →
          load_mesh_part ext mesh part i root h = .ok mesh_part) := by
  obtain ⟨rfl, root1, h1, hpay, hch⟩ :=
    load_node_ok ext fbx_scene name lt gt (some mesh) light camera is_root children root h p
      h' hr
  have hlen0 := load_header_length ext name lt gt h
  have hP := load_payload_post ext fbx_scene (some mesh) light camera is_root _ root root1 _ h1
    (by omega) hpay
  have hC := load_children_post ext fbx_scene children h.nodes.length root1 _ h'
    (by rw [Heap.update_length, hP.length]; omega) hch
  obtain ⟨cs, hcs, _⟩ := hC.node_eq
  simp only [load_payload] at hpay
  split at hpay
  · cases hpay
  · rename_i mps hmps
    simp only [Except.ok.injEq, Prod.mk.injEq] at hpay
    obtain ⟨_, hh1⟩ := hpay
    obtain ⟨hlen, hall⟩ := mesh_parts_loop_ok ext mesh root _ _ 0 mps hmps
    have hnode : h1.node h.nodes.length =
        { (load_header ext name lt gt h).2.node h.nodes.length with
          type := NODE_TYPE.NODE_TYPE_MESH,
          mesh_parts_count := mesh.material_parts.length,
          mesh_parts := mps } := by
      rw [← hh1, Heap.update_node_eq _ _ _ (by omega)]
    rw [hcs, Heap.update_node_eq _ _ _ (by rw [hP.length]; omega)]
    simp only [hnode]
    refine ⟨trivial, trivial, hlen, ?_⟩
    intro i part hp
    obtain ⟨mp, hg, hl⟩ := hall i part hp
    rw [Nat.zero_add] at hl
    refine ⟨mp, hg, hl, ?_⟩
    intro hroot
    rw [← hl]
    apply load_mesh_part_congr
    · exact (load_header_textures ext name lt gt h).symm
    · intro r hr'
      exact (load_header_node_lt ext name lt gt h r (hroot r hr')).symm

/-- Witness of C15 on the mesh node of `chain_scene`. -/
theorem load_node_mesh_parts_witness :
    load_node fan_ext chain_scene
      (.mk "a" identity_transform (transform_of ⟨0, 0, 0⟩ ⟨2, 2, 2⟩) (some quad_mesh) none none
        false []) (some 0) table_heap = .ok (1, quad_node_heap) ∧
    (quad_node_heap.node 1).mesh_parts = [quad_mesh_part] ∧
    (quad_node_heap.node 1).type = NODE_TYPE.NODE_TYPE_MESH ∧
    (quad_node_heap.node 1).mesh_parts_count = quad_mesh.material_parts.length ∧
    (quad_node_heap.node 1).mesh_parts.length = quad_mesh.material_parts.length ∧
    ∀ i part, quad_mesh.material_parts.get? i = some part →
      ∃ mesh_part, (quad_node_heap.node 1).mesh_parts.get? i = some mesh_part ∧
        load_mesh_part fan_ext quad_mesh part i (some 0)
          (load_header fan_ext "a" identity_transform (transform_of ⟨0, 0, 0⟩ ⟨2, 2, 2⟩)
            table_heap).2 = .ok mesh_part ∧
        ((∀ r, some 0 = some r → r < table_heap.nodes.length) →
          load_mesh_part fan_ext quad_mesh part i (some 0) table_heap = .ok mesh_part) :=
  ⟨rfl, by decide,
    load_node_mesh_parts fan_ext chain_scene "a" identity_transform
      (transform_of ⟨0, 0, 0⟩ ⟨2, 2, 2⟩) quad_mesh none none false [] (some 0) table_heap 1
      quad_node_heap rfl⟩

end PBR
end GPU

namespace GPU
namespace PBR

mutual
theorem Imported_congr {D F : Type} [Zero F] (ext : Ext D F) (h h2 : Heap F)
    (hlen : h.nodes.length ≤ h2.nodes.length) :
    (fbx_node : ufbx_node D) → (q : Nat) → Imported ext h fbx_node q →
    (∀ r, q < r → r < h.nodes.length → h2.node r = h.node r) →
    (h2.node q).name = (h.node q).name →
    (h2.node q).local_position = (h.node q).local_position →
    (h2.node q).local_rotation = (h.node q).local_rotation →
    (h2.node q).local_scale = (h.node q).local_scale →
    (h2.node q).geometry_position = (h.node q).geometry_position →
    (h2.node q).geometry_rotation = (h.node q).geometry_rotation →
    (h2.node q).geometry_scale = (h.node q).geometry_scale →
    (h2.node q).child_count = (h.node q).child_count →
    (h2.node q).child_array = (h.node q).child_array →
    Imported ext h2 fbx_node q
  | .mk name lt gt mesh light camera is_root children, q, hI, hfr, e1, e2, e3, e4, e5, e6, e7,
      e8, e9 => by
    rw [Imported] at hI ⊢
    obtain ⟨hq, i1, i2, i3, i4, i5, i6, i7, i8, i9⟩ := hI
    refine ⟨by omega, by rw [e1, i1], by rw [e2, i2], by rw [e3, i3], by rw [e4, i4],
      by rw [e5, i5], by rw [e6, i6], by rw [e7, i7], by rw [e8, i8], ?_⟩
    rw [e9]
    exact Imported_children_congr ext h h2 hlen children q _ i9 hfr
termination_by structural fbx_node => fbx_node
theorem Imported_children_congr {D F : Type} [Zero F] (ext : Ext D F) (h h2 : Heap F)
    (hlen : h.nodes.length ≤ h2.nodes.length) :
    (fbx_children : List (ufbx_node D)) → (q : Nat) → (cs : List Nat) →
    Imported_children ext h fbx_children q cs →
    (∀ r, q < r → r < h.nodes.length → h2.node r = h.node r) →
    Imported_children ext h2 fbx_children q cs
  | [], q, cs, hI, _ => by
    rw [Imported_children] at hI ⊢
    exact hI
  | fbx_child :: rest, q, cs, hI, hfr => by
    rw [Imported_children] at hI ⊢
    obtain ⟨c, cs', hcs, hqc, hpar, hIc, hIrest⟩ := hI
    have hc : c < h.nodes.length := by
      cases fbx_child with
      | mk name lt gt mesh light camera is_root children =>
        rw [Imported] at hIc
        exact hIc.1
    have hnode := hfr c hqc hc
    refine ⟨c, cs', hcs, hqc, by rw [hnode]; exact hpar, ?_, ?_⟩
    · exact Imported_congr ext h h2 hlen fbx_child c hIc
        (fun r hr1 hr2 => hfr r (by omega) hr2)
        (by rw [hnode]) (by rw [hnode]) (by rw [hnode]) (by rw [hnode]) (by rw [hnode])
        (by rw [hnode]) (by rw [hnode]) (by rw [hnode]) (by rw [hnode])
    · exact Imported_children_congr ext h h2 hlen rest q cs' hIrest hfr
termination_by structural fbx_children => fbx_children
end

theorem load_payload_header_fields {D F : Type} [Zero F] [One F] [DecidableEq F]
    (ext : Ext D F) (fbx_scene : ufbx_scene D) (mesh : Option (ufbx_mesh D))
    (light : Option ufbx_light) (camera : Option ufbx_camera) (is_root : Bool) (node : Nat)
    (root root' : Option Nat) (h h' : Heap F) (hn : node < h.nodes.length)
    (hr : load_payload ext fbx_scene mesh light camera is_root node root h = .ok (root', h')) :
    (h'.node node).name = (h.node node).name ∧
    (h'.node node).local_position = (h.node node).local_position ∧
    (h'.node node).local_rotation = (h.node node).local_rotation ∧
    (h'.node node).local_scale = (h.node node).local_scale ∧
    (h'.node node).geometry_position = (h.node node).geometry_position ∧
    (h'.node node).geometry_rotation = (h.node node).geometry_rotation ∧
    (h'.node node).geometry_scale = (h.node node).geometry_scale := by
  unfold load_payload at hr
  split at hr
  · split at hr
    · cases hr
    · cases hr
      rw [Heap.update_node_eq _ _ _ hn]
      simp
  · split at hr
    · cases hr; simp
    · split at hr
      · cases hr; simp
      · split at hr
        · cases hr; simp
        · split at hr
          · cases hr
            rw [Heap.update_node_eq _ _ _ hn]
            simp
          · split at hr
            · cases hr
              simp [Heap.node, Heap.update, List.getD_eq_getElem?_getD, List.getElem?_modify,
                List.getElem?_eq_getElem hn]
            · cases hr
              rw [Heap.update_node_eq _ _ _ hn]
              simp

end PBR
end GPU

namespace GPU
namespace PBR

mutual
theorem load_node_imported {D F : Type} [Zero F] [One F] [DecidableEq F] (ext : Ext D F)
    (fbx_scene : ufbx_scene D) :
    (fbx_node : ufbx_node D) → (root : Option Nat) → (h : Heap F) → (p : Nat) → (h' : Heap F) →
    load_node ext fbx_scene fbx_node root h = .ok (p, h') → Imported ext h' fbx_node p
  | .mk name lt gt mesh light camera is_root children, root, h, p, h', hr => by
    obtain ⟨rfl, root1, h1, hpay, hch⟩ :=
      load_node_ok ext fbx_scene name lt gt mesh light camera is_root children root h p h' hr
    have hlen0 := load_header_length ext name lt gt h
    have hP := load_payload_post ext fbx_scene mesh light camera is_root _ root root1 _ h1
      (by omega) hpay
    have hF := load_payload_header_fields ext fbx_scene mesh light camera is_root _ root root1
      _ h1 (by omega) hpay
    rw [load_header_node_new] at hF
    simp only [] at hF
    obtain ⟨f1, f2, f3, f4, f5, f6, f7⟩ := hF
    have hlt : h.nodes.length < h1.nodes.length := by rw [hP.length]; omega
    have hC := load_children_post ext fbx_scene children h.nodes.length root1 _ h'
      (by rw [Heap.update_length]; exact hlt) hch
    have hCg := hC.grow
    rw [Heap.update_length] at hCg
    obtain ⟨cs, hcs, hI⟩ := load_children_imported ext fbx_scene children h.nodes.length root1
      _ h' (by rw [Heap.update_length]; exact hlt) hch
    obtain ⟨cs', hnode, _⟩ := hC.node_eq
    rw [Heap.update_node_eq _ _ _ hlt] at hcs hnode
    simp only [List.nil_append] at hcs hnode
    rw [Imported]
    rw [hcs]
    rw [hnode]
    exact ⟨by omega, f1, f2, f3, f4, f5, f6, f7, rfl, hI⟩
termination_by structural fbx_node => fbx_node
theorem load_children_imported {D F : Type} [Zero F] [One F] [DecidableEq F] (ext : Ext D F)
    (fbx_scene : ufbx_scene D) :
    (fbx_children : List (ufbx_node D)) → (node : Nat) → (root : Option Nat) → (h : Heap F) →
    (h' : Heap F) → node < h.nodes.length →
    load_children ext fbx_scene fbx_children node root h = .ok h' →
    ∃ cs, (h'.node node).child_array = (h.node node).child_array ++ cs ∧
      Imported_children ext h' fbx_children node cs
  | [], node, root, h, h', hn, hr => by
    rw [load_children] at hr
    cases hr
    refine ⟨[], by simp, ?_⟩
    rw [Imported_children]
  | fbx_child :: rest, node, root, h, h', hn, hr => by
    rw [load_children] at hr
    split at hr
    · cases hr
    · rename_i c h1 hc
      have hN := load_node_post ext fbx_scene fbx_child root h c h1 hc
      have hIc := load_node_imported ext fbx_scene fbx_child root h c h1 hc
      have hcptr := hN.ptr
      have hgrow := hN.grow
      have hne : node ≠ c := by omega
      have hC := load_children_post ext fbx_scene rest node root _ h'
        (by simp only [Heap.update_length]; omega) hr
      have hCg := hC.grow
      simp only [Heap.update_length] at hCg
      obtain ⟨cs', hcs', hIrest⟩ := load_children_imported ext fbx_scene rest node root _ h'
        (by simp only [Heap.update_length]; omega) hr
      rw [Heap.update_node_ne _ _ _ _ hne, Heap.update_node_ne _ _ _ _ hne,
        Heap.update_node_ne _ _ _ _ hne, Heap.update_node_eq _ _ _ (by omega),
        hN.frame node hn] at hcs'
      have hframe : ∀ r, c < r → r < h1.nodes.length → h'.node r = h1.node r := by
        intro r hr1 hr2
        rw [hC.frame r (by simp only [Heap.update_length]; exact hr2) (by omega),
          Heap.update_node_ne _ _ _ _ (by omega), Heap.update_node_ne _ _ _ _ (by omega),
          Heap.update_node_ne _ _ _ _ (by omega), Heap.update_node_ne _ _ _ _ (by omega)]
      have hcnode : h'.node c =
          { h1.node c with
            parent := some node,
            texture_array := (h1.node node).texture_array,
            texture_count := (h1.node node).texture_count } := by
        rw [hC.frame c (by simp only [Heap.update_length]; omega) (by omega),
          Heap.update_node_eq _ _ _ (by simp only [Heap.update_length]; omega),
          Heap.update_node_eq _ _ _ (by simp only [Heap.update_length]; omega),
          Heap.update_node_eq _ _ _ (by simp only [Heap.update_length]; omega),
          Heap.update_node_ne _ _ _ _ (by omega)]
        simp only [Heap.update_node_ne _ _ _ _ hne, Heap.update_node_eq _ _ _
          (show node < h1.nodes.length by omega)]
      refine ⟨c :: cs', by rw [hcs']; simp, ?_⟩
      rw [Imported_children]
      refine ⟨c, cs', rfl, by omega, by rw [hcnode], ?_, hIrest⟩
      exact Imported_congr ext h1 h' hCg fbx_child c hIc hframe
        (by rw [hcnode]) (by rw [hcnode]) (by rw [hcnode]) (by rw [hcnode]) (by rw [hcnode])
        (by rw [hcnode]) (by rw [hcnode]) (by rw [hcnode]) (by rw [hcnode])
termination_by structural fbx_children => fbx_children
end

theorem Imported_children_get {D F : Type} [Zero F] (ext : Ext D F) (h : Heap F) :
    ∀ (fbx_children : List (ufbx_node D)) (q : Nat) (cs : List Nat),
      Imported_children ext h fbx_children q cs →
      cs.length = fbx_children.length ∧
      ∀ i fbx_child, fbx_children.get? i = some fbx_child →
        ∃ c, cs.get? i = some c ∧ (h.node c).parent = some q ∧ Imported ext h fbx_child c := by
  intro fbx_children
  induction fbx_children with
  | nil =>
    intro q cs hI
    rw [Imported_children] at hI
    subst hI
    exact ⟨rfl, fun i s hs => by simp at hs⟩
  | cons s rest ih =>
    intro q cs hI
    rw [Imported_children] at hI
    obtain ⟨c, cs', rfl, _, hpar, hIc, hIrest⟩ := hI
    obtain ⟨hlen, hall⟩ := ih q cs' hIrest
    refine ⟨by simp [hlen], ?_⟩
    intro i s' hs'
    cases i with
    | zero =>
      simp only [List.get?_cons_zero, Option.some.injEq] at hs'
      subst hs'
      exact ⟨c, rfl, hpar, hIc⟩
    | succ i =>
      simp only [List.get?_cons_succ] at hs'
      obtain ⟨c', h1, h2, h3⟩ := hall i s' hs'
      exact ⟨c', by simpa using h1, h2, h3⟩

end PBR
end GPU

namespace GPU
namespace PBR

/-- In the PBR variant: the Node built by `load_node` has no parent yet (the root of the import
keeps `parent` unset), its `child_count` is the source node's child
count, and its `i`-th child pointer leads to the Node imported from the
source's `i`-th child, whose `parent` is that Node; the same holds, level by
level, below each child (`Imported`). -/
theorem pbr_load_node_children {D F : Type} [Zero F] [One F] [DecidableEq F] (ext : Ext D F)
    (fbx_scene : ufbx_scene D) (name : String) (lt gt : ufbx_transform D)
    (mesh : Option (ufbx_mesh D)) (light : Option ufbx_light) (camera : Option ufbx_camera)
    (is_root : Bool) (children : List (ufbx_node D)) (root : Option Nat) (h : Heap F) (p : Nat)
    (h' : Heap F)
    (hr : load_node ext fbx_scene (.mk name lt gt mesh light camera is_root children) root h
      = .ok (p, h')) :
    (h'.node p).parent = none ∧
    (h'.node p).child_count = children.length ∧
    (h'.node p).child_array.length = children.length ∧
    (∀ i fbx_child, children.get? i = some fbx_child →
      ∃ c, (h'.node p).child_array.get? i = some c ∧ (h'.node c).parent = some p ∧
        Imported ext h' fbx_child c) ∧
    Imported ext h' (.mk name lt gt mesh light camera is_root children) p := by
  have hN := load_node_post ext fbx_scene _ root h p h' hr
  have hI := load_node_imported ext fbx_scene _ root h p h' hr
  have hI' := hI
  rw [Imported] at hI'
  obtain ⟨_, _, _, _, _, _, _, _, hcount, hch⟩ := hI'
  obtain ⟨hlen, hall⟩ := Imported_children_get ext h' children p _ hch
  exact ⟨hN.top_parent, hcount, hlen, hall, hI⟩

end PBR
end GPU

namespace GPU

/-- The diagonal matrix of 1 is the identity. -/
theorem M4D_one {F : Type} [CommRing F] : M4D (1 : F) = 1 := by
  simp [M4D]

/-- The identity quaternion gives the identity matrix. -/
theorem exact_math_QToM4_identity {F : Type} [CommRing F] :
    (exact_math : HandmadeMath F).QToM4 ⟨0, 0, 0, 1⟩ = 1 := by
  ext i j
  revert i j
  simp [Fin.forall_fin_succ, exact_math, Matrix.one_apply,
    show (Fin.succ 2 : Fin 4) = 3 from rfl]

/-- The unit scale gives the identity matrix. -/
theorem exact_math_Scale_one {F : Type} [CommRing F] :
    (exact_math : HandmadeMath F).Scale ⟨1, 1, 1⟩ = 1 := by
  ext i j
  revert i j
  simp [Fin.forall_fin_succ, exact_math, Matrix.one_apply,
    show (Fin.succ 2 : Fin 4) = 3 from rfl]

/-- The zero translation gives the identity matrix. -/
theorem exact_math_Translate_zero {F : Type} [CommRing F] :
    (exact_math : HandmadeMath F).Translate ⟨0, 0, 0⟩ = 1 := by
  ext i j
  revert i j
  simp [Fin.forall_fin_succ, exact_math, Matrix.one_apply,
    show (Fin.succ 2 : Fin 4) = 3 from rfl]

/-- The translation by `(0, 0, 10)` times the scale by one half. -/
theorem exact_math_translate_mul_scale :
    (exact_math : HandmadeMath ℚ).Translate ⟨0, 0, 10⟩ *
        (exact_math : HandmadeMath ℚ).Scale ⟨1 / 2, 1 / 2, 1 / 2⟩
      = !![1 / 2, 0, 0, 0; 0, 1 / 2, 0, 0; 0, 0, 1 / 2, 10; 0, 0, 0, 1] := by
  ext i j
  revert i j
  simp [Fin.forall_fin_succ, exact_math, Matrix.mul_apply, Fin.sum_univ_four]

namespace PBR

/-- In the scenario, `node_global_transform_geometry(c)` is the translation by
`(0, 0, 10)` after the scale by one half. -/
theorem pbr_scenario_transform (h : Heap ℚ) (r c : Nat) (hs : Scenario h r c) :
    ∃ M, node_global_transform_geometry exact_math h c = some M ∧
      M = !![1 / 2, 0, 0, 0; 0, 1 / 2, 0, 0; 0, 0, 1 / 2, 10; 0, 0, 0, 1] ∧
      Matrix.mulVec M ![2, 0, 0, 1] = ![1, 0, 10, 1] := by
  obtain ⟨hr, hc, hrp, hr1, hr2, hr3, hcp, hc1, hc2, hc3, hg1, hg2, hg3⟩ := hs
  have hne : r ≠ c := by
    rintro rfl
    rw [hrp] at hcp
    cases hcp
  obtain ⟨k, hk⟩ : ∃ k, h.nodes.length = k + 2 := ⟨h.nodes.length - 2, by omega⟩
  have hG : node_global_transform exact_math h c =
      some (MulM4 (MulM4 (M4D 1) (node_local_transform exact_math (h.node r)))
        (node_local_transform exact_math (h.node c))) := by
    unfold node_global_transform
    rw [hk, node_global_transform_fuel, Heap.get?_eq_node h c hc]
    simp only [hcp]
    rw [node_global_transform_fuel, Heap.get?_eq_node h r hr]
    simp only [hrp]
  have hM : node_global_transform_geometry exact_math h c =
      some (MulM4 (MulM4 (MulM4 (M4D 1) (node_local_transform exact_math (h.node r)))
        (node_local_transform exact_math (h.node c)))
        (node_geometry_transform exact_math (h.node c))) := by
    unfold node_global_transform_geometry
    rw [hG, Heap.get?_eq_node h c hc]
  have hval : MulM4 (MulM4 (MulM4 (M4D 1) (node_local_transform exact_math (h.node r)))
        (node_local_transform exact_math (h.node c)))
        (node_geometry_transform exact_math (h.node c))
      = !![1 / 2, 0, 0, 0; 0, 1 / 2, 0, 0; 0, 0, 1 / 2, 10; 0, 0, 0, 1] := by
    simp only [node_local_transform, node_geometry_transform, hr1, hr2, hr3, hc1, hc2, hc3,
      hg1, hg2, hg3, MulM4, exact_math_QToM4_identity, exact_math_Scale_one,
      exact_math_Translate_zero, M4D_one, one_mul, mul_one]
    exact exact_math_translate_mul_scale
  refine ⟨_, hM, hval, ?_⟩
  rw [hval]
  ext i
  revert i
  simp [Fin.forall_fin_succ, Matrix.mulVec, Matrix.dotProduct, Fin.sum_univ_four]

end PBR

namespace FBX

/-- In the scenario, `node_global_transform_geometry(c)` is the translation by
`(0, 0, 10)` after the scale by one half. -/
theorem fbx_scenario_transform (h : Heap ℚ) (r c : Nat) (hs : Scenario h r c) :
    ∃ M, node_global_transform_geometry exact_math h c = some M ∧
      M = !![1 / 2, 0, 0, 0; 0, 1 / 2, 0, 0; 0, 0, 1 / 2, 10; 0, 0, 0, 1] ∧
      Matrix.mulVec M ![2, 0, 0, 1] = ![1, 0, 10, 1] := by
  obtain ⟨hr, hc, hrp, hr1, hr2, hr3, hcp, hc1, hc2, hc3, hg1, hg2, hg3⟩ := hs
  have hne : r ≠ c := by
    rintro rfl
    rw [hrp] at hcp
    cases hcp
  obtain ⟨k, hk⟩ : ∃ k, h.nodes.length = k + 2 := ⟨h.nodes.length - 2, by omega⟩
  have hG : node_global_transform exact_math h c =
      some (MulM4 (MulM4 (M4D 1) (node_local_transform exact_math (h.node r)))
        (node_local_transform exact_math (h.node c))) := by
    unfold node_global_transform
    rw [hk, node_global_transform_fuel, fbx_heap_get?_eq_node h c hc]
    simp only [hcp]
    rw [node_global_transform_fuel, fbx_heap_get?_eq_node h r hr]
    simp only [hrp]
  have hM : node_global_transform_geometry exact_math h c =
      some (MulM4 (MulM4 (MulM4 (M4D 1) (node_local_transform exact_math (h.node r)))
        (node_local_transform exact_math (h.node c)))
        (node_geometry_transform exact_math (h.node c))) := by
    unfold node_global_transform_geometry
    rw [hG, fbx_heap_get?_eq_node h c hc]
  have hval : MulM4 (MulM4 (MulM4 (M4D 1) (node_local_transform exact_math (h.node r)))
        (node_local_transform exact_math (h.node c)))
        (node_geometry_transform exact_math (h.node c))
      = !![1 / 2, 0, 0, 0; 0, 1 / 2, 0, 0; 0, 0, 1 / 2, 10; 0, 0, 0, 1] := by
    simp only [node_local_transform, node_geometry_transform, hr1, hr2, hr3, hc1, hc2, hc3,
      hg1, hg2, hg3, MulM4, exact_math_QToM4_identity, exact_math_Scale_one,
      exact_math_Translate_zero, M4D_one, one_mul, mul_one]
    exact exact_math_translate_mul_scale
  refine ⟨_, hM, hval, ?_⟩
  rw [hval]
  ext i
  revert i
  simp [Fin.forall_fin_succ, Matrix.mulVec, Matrix.dotProduct, Fin.sum_univ_four]

end FBX

/-- C19: for a parentless root at local position `(0, 0, 10)` with identity
rotation and unit scale, and a child with identity local transform and a
geometry transform of scale one half, `node_global_transform_geometry(child)`
returns the matrix that maps the point `(2, 0, 0)` to `(1, 0, 10)`, in exact
arithmetic, in the PBR variant and in the FBX-loading variant. -/
theorem global_geometry_transform_scenario (h : PBR.Heap ℚ) (r c : Nat)
    (h' : FBX.Heap ℚ) (r' c' : Nat)
    (hs : PBR.Scenario h r c) (hs' : FBX.Scenario h' r' c') :
    (∃ M, PBR.node_global_transform_geometry exact_math h c = some M ∧
      Matrix.mulVec M ![2, 0, 0, 1] = ![1, 0, 10, 1]) ∧
    ∃ M, FBX.node_global_transform_geometry exact_math h' c' = some M ∧
      Matrix.mulVec M ![2, 0, 0, 1] = ![1, 0, 10, 1] := by
  obtain ⟨M, hM, _, hv⟩ := PBR.pbr_scenario_transform h r c hs
  obtain ⟨M', hM', _, hv'⟩ := FBX.fbx_scenario_transform h' r' c' hs'
  exact ⟨⟨M, hM, hv⟩, M', hM', hv'⟩

/-- Witness of C19 on `scenario_heap` and `fbx_scenario_heap`. -/
theorem global_geometry_transform_scenario_witness :
    PBR.Scenario scenario_heap 0 1 ∧ FBX.Scenario fbx_scenario_heap 0 1 ∧
    (∃ M, PBR.node_global_transform_geometry exact_math scenario_heap 1 = some M ∧
      Matrix.mulVec M ![2, 0, 0, 1] = ![1, 0, 10, 1]) ∧
    ∃ M, FBX.node_global_transform_geometry exact_math fbx_scenario_heap 1 = some M ∧
      Matrix.mulVec M ![2, 0, 0, 1] = ![1, 0, 10, 1] :=
  ⟨⟨by decide, by decide, rfl, rfl, rfl, rfl, rfl, rfl, rfl, rfl, rfl, rfl, rfl⟩,
    ⟨by decide, by decide, rfl, rfl, rfl, rfl, rfl, rfl, rfl, rfl, rfl, rfl, rfl⟩,
    global_geometry_transform_scenario scenario_heap 0 1 fbx_scenario_heap 0 1
      ⟨by decide, by decide, rfl, rfl, rfl, rfl, rfl, rfl, rfl, rfl, rfl, rfl, rfl⟩
      ⟨by decide, by decide, rfl, rfl, rfl, rfl, rfl, rfl, rfl, rfl, rfl, rfl, rfl⟩⟩

end GPU

namespace GPU

namespace PBR

/-- A partition without faces leaves no vertex and no index in the mesh part
`load_mesh_part` returns. -/
theorem load_mesh_part_zero_faces {D F : Type} [Zero F] [One F] [DecidableEq F]
    (ext : Ext D F) (mesh : ufbx_mesh D) (part : ufbx_mesh_part) (material_index : Nat)
    (node : Option Nat) (h : Heap F) (r : Mesh_Part F)
    (hfaces : part.face_indices = [])
    (hr : load_mesh_part ext mesh part material_index node h = .ok r) :
    r.vertex_count = 0 ∧ r.index_count = 0 ∧ r.vertex_array = [] ∧ r.index_array = [] := by
  obtain ⟨corners, hc, hlen, hic, hia, hvc, hva⟩ :=
    load_mesh_part_ok ext mesh part material_index node h r hr
  have hnil : corners = [] := by
    have := unwelded_vertices_ok ext mesh part corners hc
    simpa [hfaces] using this
  subst hnil
  have h0 : part.num_triangles * 3 = 0 := by simpa using hlen.symm
  refine ⟨?_, ?_, ?_, ?_⟩
  · simpa [generate_indices_scan] using hvc
  · omega
  · simpa [generate_indices_scan] using hva
  · simpa [generate_indices_scan] using hia

/-- A partition without faces and without triangles makes `load_mesh_part`
return as soon as the node argument is not null and its table is empty. -/
theorem load_mesh_part_zero_faces_empty_table {D F : Type} [Zero F] [One F] [DecidableEq F]
    (ext : Ext D F) (mesh : ufbx_mesh D) (material_index : Nat)
    (p : Nat) (h : Heap F) (htable : (h.node p).texture_count = 0) :
    ∃ r, load_mesh_part ext mesh ⟨0, []⟩ material_index (some p) h = .ok r := by
  simp [load_mesh_part, unwelded_vertices, face_loop, htable, texture_loop]

/-- The mesh-part loop of `upload_node_buffers` passes over a part whose
`vertex_count` or `index_count` is 0 and goes on with the remaining parts. -/
theorem upload_mesh_parts_skip {F : Type} [CommRing F] (hm : HandmadeMath F) (h : Heap F)
    (node : Nat) (n : Node F) (i : Nat) (rest : List Nat) (mesh_part : Mesh_Part F)
    (hget : n.mesh_parts.get? i = some mesh_part)
    (hempty : mesh_part.vertex_count = 0 ∨ mesh_part.index_count = 0) :
    upload_mesh_parts hm h node n (i :: rest) = upload_mesh_parts hm h node n rest := by
  have hget' : n.mesh_parts[i]? = some mesh_part := by simpa using hget
  simp only [upload_mesh_parts, List.get?_eq_getElem?, hget', if_pos hempty]

/-- The mesh-part loop of `draw_node` passes over a part whose `vertex_count`
or `index_count` is 0 and goes on with the remaining parts. -/
theorem draw_mesh_parts_skip {F : Type} (node : Nat) (n : Node F) (i : Nat)
    (rest : List Nat) (mesh_part : Mesh_Part F)
    (hget : n.mesh_parts.get? i = some mesh_part)
    (hempty : mesh_part.vertex_count = 0 ∨ mesh_part.index_count = 0) :
    draw_mesh_parts node n (i :: rest) = draw_mesh_parts node n rest := by
  have hget' : n.mesh_parts[i]? = some mesh_part := by simpa using hget
  simp only [draw_mesh_parts, List.get?_eq_getElem?, hget', if_pos hempty]

end PBR

/-- C18: on a partition with zero faces of a mesh that has no material, in a
scene with one texture, `load_mesh_part` does not return an empty Mesh Part:
the texture loop reads `materials.data[0]` out of range.  Where the material
exists the same partition gives the empty Mesh Part, and `upload_node_buffers`
and `draw_node` pass over it and go on with the next part and the child. -/
theorem load_mesh_part_zero_faces_fails :
    bare_mesh.material_parts = [⟨0, []⟩] ∧
    PBR.load_mesh_part fan_ext bare_mesh ⟨0, []⟩ 0 (some 0) table_heap
      = .error Failure.out_of_range ∧
    PBR.load_mesh_part fan_ext degenerate_mesh ⟨0, []⟩ 0 (some 0) table_heap
      = .ok empty_mesh_part ∧
    ((degenerate_heap.node 1).mesh_parts.map fun p => (p.vertex_count, p.index_count))
      = [(0, 0), (3, 3)] ∧
    (PBR.upload_node_buffers exact_math degenerate_heap 0).map (List.filterMap PBR.Upload.part)
      = some [(1, 1)] ∧
    PBR.draw_node degenerate_heap 0 = some [⟨1, 1, none, 3, 3⟩] := by
  exact ⟨rfl, rfl, rfl, by decide, by decide, by decide⟩

end GPU

namespace GPU
namespace PBR

/-- C21: the welded `vertex_count` returned by `load_mesh_part` is the number
of distinct records of the unwelded corner stream, and `index_count` is the
number of corners of that stream. -/
theorem welded_count_is_distinct_count {D F : Type} [Zero F] [One F] [DecidableEq F]
    (ext : Ext D F) (mesh : ufbx_mesh D) (part : ufbx_mesh_part) (material_index : Nat)
    (node : Option Nat) (h : Heap F) (r : Mesh_Part F)
    (hr : load_mesh_part ext mesh part material_index node h = .ok r) :
    ∃ corners, unwelded_vertices ext mesh part = .ok corners ∧
      r.vertex_count = corners.toFinset.card ∧
      r.index_count = corners.length ∧ r.index_array.length = corners.length := by
  obtain ⟨corners, hc, hlen, hic, hia, hvc, _⟩ :=
    load_mesh_part_ok ext mesh part material_index node h r hr
  refine ⟨corners, hc, ?_, by rw [hic, hlen], ?_⟩
  · rw [hvc, scan_length_eq_dedup, List.card_toFinset]
  · rw [hia]
    exact (scan_inv corners).len

/-- Witness of C21 on the quad: six corners, four distinct records, six
indices. -/
theorem welded_count_is_distinct_count_witness :
    load_mesh_part fan_ext quad_mesh quad_part 0 (some 0) table_heap = .ok quad_mesh_part ∧
    unwelded_vertices fan_ext quad_mesh quad_part = .ok quad_corners ∧
    quad_corners.length = 6 ∧ quad_corners.toFinset.card = 4 ∧
    quad_mesh_part.vertex_count = 4 ∧ quad_mesh_part.index_count = 6 ∧
    ∃ corners, unwelded_vertices fan_ext quad_mesh quad_part = .ok corners ∧
      quad_mesh_part.vertex_count = corners.toFinset.card ∧
      quad_mesh_part.index_count = corners.length ∧
      quad_mesh_part.index_array.length = corners.length :=
  ⟨rfl, rfl, by decide, by decide, rfl, rfl,
    welded_count_is_distinct_count fan_ext quad_mesh quad_part 0 (some 0) table_heap
      quad_mesh_part rfl⟩

end PBR
end GPU

namespace GPU
namespace PNG

theorem png_texture_loop_texture {F : Type} (materials : List ufbx_material)
    (material_index : Nat) (n : Node F) (h : Heap F) (material : ufbx_material)
    (texture : ufbx_texture) (hm : materials.get? material_index = some material)
    (hb : material.base_color_texture = some texture) :
    ∀ (l : List Nat) (acc r : Option (Nat × Nat)),
      texture_loop materials material_index n h l acc = .ok r →
      (r = acc ∧ ∀ i ∈ l, ¬ table_entry_matches h n texture.filename i) ∨
      ∃ arr l1 i l2, l = l1 ++ i :: l2 ∧ r = some (arr, i) ∧ n.texture_array = some arr ∧
        table_entry_matches h n texture.filename i ∧
        ∀ j ∈ l2, ¬ table_entry_matches h n texture.filename j := by
  intro l
  induction l with
  | nil =>
    intro acc r hr
    simp only [texture_loop] at hr
    cases hr
    exact Or.inl ⟨rfl, fun i hi => absurd hi (List.not_mem_nil i)⟩
  | cons i rest ih =>
    intro acc r hr
    rw [texture_loop] at hr
    simp only [hm, hb] at hr
    split at hr
    · cases hr
    · rename_i arr harr
      split at hr
      · cases hr
      · rename_i entry hentry
        split at hr
        · rename_i heq
          have hM : table_entry_matches h n texture.filename i := ⟨arr, entry, harr, hentry, heq⟩
          rcases ih _ r hr with ⟨hacc, hno⟩ | ⟨arr', l1, i', l2, hl, hr', ha', hM', hno⟩
          · exact Or.inr ⟨arr, [], i, rest, rfl, hacc, harr, hM, hno⟩
          · exact Or.inr ⟨arr', i :: l1, i', l2, by rw [hl]; rfl, hr', ha', hM', hno⟩
        · rename_i hne
          have hM : ¬ table_entry_matches h n texture.filename i := by
            rintro ⟨arr', entry', ha', he', heq'⟩
            rw [harr] at ha'
            cases ha'
            rw [hentry] at he'
            cases he'
            exact hne heq'
          rcases ih _ r hr with ⟨hacc, hno⟩ | ⟨arr', l1, i', l2, hl, hr', ha', hM', hno⟩
          · refine Or.inl ⟨hacc, ?_⟩
            intro j hj
            rcases List.mem_cons.mp hj with rfl | hj
            · exact hM
            · exact hno j hj
          · exact Or.inr ⟨arr', i :: l1, i', l2, by rw [hl]; rfl, hr', ha', hM', hno⟩

theorem png_load_mesh_part_color_texture {D F : Type} [Zero F] [One F] [DecidableEq F]
    (ext : Ext D F) (mesh : ufbx_mesh D) (part : ufbx_mesh_part) (material_index : Nat)
    (node : Option Nat) (h : Heap F) (r : Mesh_Part F)
    (hr : load_mesh_part ext mesh part material_index node h = .ok r) :
    ∃ p, node = some p ∧
      texture_loop mesh.materials material_index (h.node p) h
        (List.range (h.node p).texture_count) none = .ok r.color_texture := by
  unfold load_mesh_part at hr
  split at hr
  · cases hr
  · split at hr
    · cases hr
    · rename_i p
      split at hr
      · cases hr
      · rename_i ct hct
        cases hr
        exact ⟨p, rfl, hct⟩

/-- The outcome of the texture loop of the PNG-loading variant for a material
that declares a texture. -/
theorem png_load_mesh_part_color_texture_last {D F : Type} [Zero F] [One F] [DecidableEq F]
    (ext : Ext D F) (mesh : ufbx_mesh D) (part : ufbx_mesh_part) (material_index : Nat)
    (p : Nat) (h : Heap F) (r : Mesh_Part F) (material : ufbx_material) (texture : ufbx_texture)
    (hm : mesh.materials.get? material_index = some material)
    (hb : material.base_color_texture = some texture)
    (hr : load_mesh_part ext mesh part material_index (some p) h = .ok r) :
    (r.color_texture = none ∧
      ∀ k, k < (h.node p).texture_count → ¬ table_entry_matches h (h.node p) texture.filename k) ∨
    ∃ arr k, r.color_texture = some (arr, k) ∧ (h.node p).texture_array = some arr ∧
      k < (h.node p).texture_count ∧ table_entry_matches h (h.node p) texture.filename k ∧
      ∀ k', k < k' → k' < (h.node p).texture_count →
        ¬ table_entry_matches h (h.node p) texture.filename k' := by
  obtain ⟨p', hp', hloop⟩ :=
    png_load_mesh_part_color_texture ext mesh part material_index _ h r hr
  cases hp'
  rcases png_texture_loop_texture _ _ _ _ material texture hm hb _ _ _ hloop with
    ⟨hacc, hno⟩ | ⟨arr, l1, i, l2, hl, hri, harr, hM, hno⟩
  · exact Or.inl ⟨hacc, fun k hk => hno k (List.mem_range.mpr hk)⟩
  · obtain ⟨hi, hafter⟩ := range_split_after _ _ _ _ hl
    exact Or.inr ⟨arr, i, hri, harr, hi, hM, fun k' h1 h2 => hno k' (hafter k' h1 h2)⟩

end PNG

/-- C26: when at least one entry of the table of the node handed to
`load_mesh_part` has a path equal to the file name of the material's
base-color texture, `color_texture` is set to the last such entry in table
order: an entry at or after every matching entry, itself matching, with no
matching entry after it.  This holds in the PBR variant and in the PNG-loading
variant. -/
theorem color_texture_is_last_match {D F : Type} [Zero F] [One F] [DecidableEq F]
    (ext : Ext D F) (mesh : ufbx_mesh D) (part : ufbx_mesh_part) (material_index : Nat)
    (material : ufbx_material) (texture : ufbx_texture)
    (p : Nat) (h : PBR.Heap F) (r : PBR.Mesh_Part F)
    (p' : Nat) (h' : PNG.Heap F) (r' : PNG.Mesh_Part F)
    (hm : mesh.materials.get? material_index = some material)
    (hb : material.base_color_texture = some texture)
    (hr : PBR.load_mesh_part ext mesh part material_index (some p) h = .ok r)
    (hr' : PNG.load_mesh_part ext mesh part material_index (some p') h' = .ok r') :
    (∀ k, k < (h.node p).texture_count →
      PBR.table_entry_matches h (h.node p) texture.filename k →
      ∃ arr last, r.color_texture = some (arr, last) ∧ (h.node p).texture_array = some arr ∧
        k ≤ last ∧ last < (h.node p).texture_count ∧
        PBR.table_entry_matches h (h.node p) texture.filename last ∧
        ∀ k', last < k' → k' < (h.node p).texture_count →
          ¬ PBR.table_entry_matches h (h.node p) texture.filename k') ∧
    ∀ k, k < (h'.node p').texture_count →
      PNG.table_entry_matches h' (h'.node p') texture.filename k →
      ∃ arr last, r'.color_texture = some (arr, last) ∧ (h'.node p').texture_array = some arr ∧
        k ≤ last ∧ last < (h'.node p').texture_count ∧
        PNG.table_entry_matches h' (h'.node p') texture.filename last ∧
        ∀ k', last < k' → k' < (h'.node p').texture_count →
          ¬ PNG.table_entry_matches h' (h'.node p') texture.filename k' := by
  constructor
  · intro k hk hM
    rcases PBR.load_mesh_part_color_texture_last ext mesh part material_index p h r material
      texture hm hb hr with ⟨_, hno⟩ | ⟨arr, last, hct, harr, hlast, hML, hafter⟩
    · exact absurd hM (hno k hk)
    · refine ⟨arr, last, hct, harr, ?_, hlast, hML, hafter⟩
      by_contra hlt
      exact hafter k (by omega) hk hM
  · intro k hk hM
    rcases PNG.png_load_mesh_part_color_texture_last ext mesh part material_index p' h' r'
      material texture hm hb hr' with ⟨_, hno⟩ | ⟨arr, last, hct, harr, hlast, hML, hafter⟩
    · exact absurd hM (hno k hk)
    · refine ⟨arr, last, hct, harr, ?_, hlast, hML, hafter⟩
      by_contra hlt
      exact hafter k (by omega) hk hM

/-- Witness of C26 on `twin_scene`: the table holds `a.png` at positions 0 and
1, and both variants point the part at position 1. -/
theorem color_texture_is_last_match_witness :
    twin_heap.textures.getD 0 [] = [⟨"a.png"⟩, ⟨"a.png"⟩] ∧
    png_twin_heap.textures.getD 0 [] = [⟨"a.png"⟩, ⟨"a.png"⟩] ∧
    twin_mesh_part_0.color_texture = some (0, 1) ∧
    png_twin_mesh_part_0.color_texture = some (0, 1) ∧
    ((∀ k, k < (twin_heap.node 0).texture_count →
      PBR.table_entry_matches twin_heap (twin_heap.node 0) "a.png" k →
      ∃ arr last, twin_mesh_part_0.color_texture = some (arr, last) ∧
        (twin_heap.node 0).texture_array = some arr ∧
        k ≤ last ∧ last < (twin_heap.node 0).texture_count ∧
        PBR.table_entry_matches twin_heap (twin_heap.node 0) "a.png" last ∧
        ∀ k', last < k' → k' < (twin_heap.node 0).texture_count →
          ¬ PBR.table_entry_matches twin_heap (twin_heap.node 0) "a.png" k') ∧
    ∀ k, k < (png_twin_heap.node 0).texture_count →
      PNG.table_entry_matches png_twin_heap (png_twin_heap.node 0) "a.png" k →
      ∃ arr last, png_twin_mesh_part_0.color_texture = some (arr, last) ∧
        (png_twin_heap.node 0).texture_array = some arr ∧
        k ≤ last ∧ last < (png_twin_heap.node 0).texture_count ∧
        PNG.table_entry_matches png_twin_heap (png_twin_heap.node 0) "a.png" last ∧
        ∀ k', last < k' → k' < (png_twin_heap.node 0).texture_count →
          ¬ PNG.table_entry_matches png_twin_heap (png_twin_heap.node 0) "a.png" k') :=
  ⟨by decide, by decide, rfl, by decide,
    color_texture_is_last_match fan_ext twin_mesh ⟨1, [0]⟩ 0 a_png_material ⟨"a.png", "a.png"⟩
      0 twin_heap twin_mesh_part_0 0 png_twin_heap png_twin_mesh_part_0 rfl rfl rfl rfl⟩

end GPU

namespace GPU

theorem to_png_injective {F : Type} : Function.Injective (FBX.Vertex.to_png : FBX.Vertex F → _) := by
  intro a b hab
  cases a
  cases b
  simp only [FBX.Vertex.to_png, PNG.Vertex.mk.injEq] at hab
  obtain ⟨h1, h2, h3, h4⟩ := hab
  subst h1 h2 h3 h4
  rfl

theorem indexOf_map_of_injective {α β : Type} [DecidableEq α] [DecidableEq β] (f : α → β)
    (hf : Function.Injective f) (v : α) :
    ∀ l : List α, (l.map f).indexOf (f v) = l.indexOf v := by
  intro l
  induction l with
  | nil => rfl
  | cons a l ih =>
    by_cases hav : a = v
    · subst hav
      simp
    · have hne : f a ≠ f v := fun h => hav (hf h)
      rw [List.map_cons, List.indexOf_cons_ne _ hne, List.indexOf_cons_ne _ hav, ih]

theorem generate_indices_step_map {α β : Type} [DecidableEq α] [DecidableEq β] (f : α → β)
    (hf : Function.Injective f) (st : List α × List Nat) (v : α) :
    generate_indices_step (st.1.map f, st.2) (f v) =
      ((generate_indices_step st v).1.map f, (generate_indices_step st v).2) := by
  unfold generate_indices_step
  simp only [indexOf_map_of_injective f hf, List.length_map]
  split <;> simp

theorem generate_indices_scan_map {α β : Type} [DecidableEq α] [DecidableEq β] (f : α → β)
    (hf : Function.Injective f) (l : List α) :
    generate_indices_scan (l.map f) =
      ((generate_indices_scan l).1.map f, (generate_indices_scan l).2) := by
  unfold generate_indices_scan
  have key : ∀ (l : List α) (st : List α × List Nat),
      (l.map f).foldl generate_indices_step (st.1.map f, st.2) =
        ((l.foldl generate_indices_step st).1.map f, (l.foldl generate_indices_step st).2) := by
    intro l
    induction l with
    | nil => intro st; rfl
    | cons a l ih =>
      intro st
      rw [List.map_cons, List.foldl_cons, List.foldl_cons, generate_indices_step_map f hf, ih]
  exact key l ([], [])

theorem ufbx_generate_indices_map {α β : Type} [DecidableEq α] [DecidableEq β] (f : α → β)
    (hf : Function.Injective f) (l : List α) :
    ufbx_generate_indices (l.map f) =
      ((ufbx_generate_indices l).1.map f, (ufbx_generate_indices l).2.1,
        (ufbx_generate_indices l).2.2) := by
  simp [ufbx_generate_indices, generate_indices_scan_map f hf, List.map_drop]

theorem png_load_corner_eq {D F : Type} [Zero F] [One F] (ext : Ext D F) (mesh : ufbx_mesh D)
    (index : Nat) :
    (PNG.load_corner ext mesh index : PNG.Vertex F) =
      (FBX.load_corner ext mesh index).to_png := by
  unfold PNG.load_corner FBX.load_corner
  cases mesh.vertex_position.exists_ <;> cases mesh.vertex_color.exists_ <;>
    cases mesh.vertex_normal.exists_ <;> cases mesh.vertex_uv.exists_ <;> rfl

theorem png_corner_loop_eq {D F : Type} [Zero F] [One F] (ext : Ext D F) (mesh : ufbx_mesh D)
    (cap num_tri_indices : Nat) (tri_indices : Nat → Nat) :
    ∀ (l : List Nat) (vertices : List (FBX.Vertex F)),
      PNG.corner_loop ext mesh cap num_tri_indices tri_indices l
          (vertices.map FBX.Vertex.to_png) =
        (FBX.corner_loop ext mesh cap num_tri_indices tri_indices l vertices).map
          (List.map FBX.Vertex.to_png) := by
  intro l
  induction l with
  | nil => intro vertices; rfl
  | cons i rest ih =>
    intro vertices
    rw [PNG.corner_loop, FBX.corner_loop]
    by_cases h1 : num_tri_indices ≤ i
    · simp only [h1, if_true]; rfl
    · simp only [h1, if_false, List.length_map]
      by_cases h2 : cap ≤ vertices.length
      · simp only [h2, if_true]; rfl
      · simp only [h2, if_false]
        rw [← ih, List.map_append, List.map_singleton, png_load_corner_eq]

theorem png_face_loop_eq {D F : Type} [Zero F] [One F] (ext : Ext D F) (mesh : ufbx_mesh D)
    (cap : Nat) :
    ∀ (faces : List Nat) (vertices : List (FBX.Vertex F)),
      PNG.face_loop ext mesh cap faces (vertices.map FBX.Vertex.to_png) =
        (FBX.face_loop ext mesh cap faces vertices).map (List.map FBX.Vertex.to_png) := by
  intro faces
  induction faces with
  | nil => intro vertices; rfl
  | cons face_ix rest ih =>
    intro vertices
    rw [PNG.face_loop, FBX.face_loop]
    cases mesh.faces[face_ix]? with
    | none => rfl
    | some face =>
      simp only [png_corner_loop_eq]
      cases FBX.corner_loop ext mesh cap (mesh.max_face_triangles * 3)
        (ext.ufbx_triangulate_face (mesh.max_face_triangles * 3) mesh face).2
        (List.range ((ext.ufbx_triangulate_face (mesh.max_face_triangles * 3) mesh
          face).1 * 3)) vertices with
      | error e => rfl
      | ok vs => exact ih vs

theorem png_unwelded_vertices_eq {D F : Type} [Zero F] [One F] (ext : Ext D F)
    (mesh : ufbx_mesh D) (part : ufbx_mesh_part) :
    (PNG.unwelded_vertices ext mesh part : Except Failure (List (PNG.Vertex F))) =
      (FBX.unwelded_vertices ext mesh part).map (List.map FBX.Vertex.to_png) := by
  unfold PNG.unwelded_vertices FBX.unwelded_vertices
  have := png_face_loop_eq ext mesh (part.num_triangles * 3) part.face_indices
    ([] : List (FBX.Vertex F))
  rw [List.map_nil] at this
  rw [this]
  cases FBX.face_loop ext mesh (part.num_triangles * 3) part.face_indices
    ([] : List (FBX.Vertex F)) with
  | error e => rfl
  | ok vs =>
    show (if (vs.map FBX.Vertex.to_png).length = _ then _ else _) = _
    rw [List.length_map]
    by_cases h : vs.length = part.num_triangles * 3
    · simp only [h, if_true]; rfl
    · simp only [h, if_false]; rfl

/-- C29: the PNG-loading variant's `load_mesh_part` is the FBX-loading
variant's `load_mesh_part` followed by the resolution of `color_texture`: it
fails where the FBX-loading one fails, and otherwise its vertex array,
`vertex_count`, index array and `index_count` are those of the FBX-loading
variant (the vertex records read in the PNG variant's `struct Vertex`), and the
only further step is the dereference of `node` and the texture loop. -/
theorem png_load_mesh_part_refines_fbx {D F : Type} [Zero F] [One F] [DecidableEq F]
    (ext : Ext D F) (mesh : ufbx_mesh D) (part : ufbx_mesh_part) (material_index : Nat)
    (node : Option Nat) (h : PNG.Heap F) :
    PNG.load_mesh_part ext mesh part material_index node h =
      match FBX.load_mesh_part ext mesh part with
      | .error e => .error e
      | .ok g =>
        match node with
        | none => .error Failure.null_deref
        | some p =>
          match PNG.texture_loop mesh.materials material_index (h.node p) h
              (List.range (h.node p).texture_count) none with
          | .error e => .error e
          | .ok color_texture =>
            .ok { vertex_array := g.vertex_array.map FBX.Vertex.to_png,
                  vertex_count := g.vertex_count,
                  index_array := g.index_array,
                  index_count := g.index_count,
                  color_texture := color_texture } := by
  unfold PNG.load_mesh_part FBX.load_mesh_part
  rw [png_unwelded_vertices_eq]
  cases FBX.unwelded_vertices ext mesh part with
  | error e => rfl
  | ok vs =>
    show (match node with | none => _ | some p => _) = _
    cases node with
    | none => rfl
    | some p =>
      simp only [ufbx_generate_indices_map _ to_png_injective]
      try rfl

end GPU

namespace GPU

theorem size_t_mul_small (a b : Nat) (h : a * b < 2 ^ 64) : size_t_mul a b = a * b := by
  unfold size_t_mul
  exact Nat.mod_eq_of_lt h

/-- The byte sizes of the PBR variant when the pixel count fits an `int` and
there are at most four components: both are `component_count * x * y`. -/
theorem pbr_sizes (x y component_count : Nat) (hrange : x * y < 2 ^ 31)
    (hcc : component_count ≤ 4) :
    PBR.upload_buffer_size (x * y) component_count = component_count * (x * y) ∧
    PBR.memcpy_size x y component_count = component_count * (x * y) := by
  have hb : component_count * (x * y) < 2 ^ 64 := by
    calc component_count * (x * y) ≤ 4 * (x * y) := Nat.mul_le_mul_right _ hcc
      _ < 2 ^ 64 := by omega
  have hx : component_count * x ≤ component_count * (x * y) ∨ y = 0 := by
    rcases Nat.eq_zero_or_pos y with hy | hy
    · exact Or.inr hy
    · exact Or.inl (Nat.mul_le_mul_left _ (Nat.le_mul_of_pos_right x hy))
  constructor
  · unfold PBR.upload_buffer_size
    rw [size_t_mul_small (x * y) 1 (by omega), Nat.mul_one,
      size_t_mul_small _ _ (by rw [Nat.mul_comm]; exact hb), Nat.mul_comm]
  · unfold PBR.memcpy_size
    rw [size_t_mul_small 1 component_count (by omega), Nat.one_mul]
    rcases hx with hx | hy
    · rw [size_t_mul_small component_count x (by omega),
        size_t_mul_small _ _ (by rw [Nat.mul_assoc]; exact hb), Nat.mul_assoc]
    · subst hy
      simp [size_t_mul]

/-- In the PBR variant the bytes copied into the mapped upload buffer never
exceed the byte size the upload buffer was created with. -/
theorem pbr_upload_texture_copy_fits (expected_component_count : Nat)
    (stbi_load : Nat → Option Image) (u : Texture_Upload)
    (hu : PBR.upload_texture expected_component_count stbi_load = .ok u) :
    u.copied.length ≤ u.upload_buffer_size := by
  unfold PBR.upload_texture at hu
  cases hl : stbi_load (PBR.desired_channels expected_component_count) with
  | none => simp only [hl] at hu; cases hu
  | some image =>
    simp only [hl] at hu
    generalize (if expected_component_count = 3 then 4 else image.component_count) = cc at hu
    cases hf : formats.get? cc with
    | none => simp only [hf] at hu; cases hu
    | some format =>
      simp only [hf] at hu
      cases hp : int_mul image.x image.y with
      | error e => simp only [hp] at hu; cases hu
      | ok pixels =>
        simp only [hp] at hu
        by_cases h1 : PBR.upload_buffer_size pixels cc < PBR.memcpy_size image.x image.y cc
        · simp only [h1, if_true] at hu; cases hu
        · simp only [h1, if_false] at hu
          by_cases h2 : image.image_data.length < PBR.memcpy_size image.x image.y cc
          · simp only [h2, if_true] at hu; cases hu
          · simp only [h2, if_false] at hu
            cases hu
            simp only [List.length_take]
            omega

theorem expand_loop_error (image_data : List Nat) :
    ∀ (l acc : List Nat) (e : Failure), PNG.expand_loop image_data l acc = .error e →
      e = Failure.out_of_range := by
  intro l
  induction l with
  | nil => intro acc e h; simp [PNG.expand_loop] at h
  | cons i rest ih =>
    intro acc e h
    rw [PNG.expand_loop] at h
    split at h
    · exact ih _ e h
    · cases h
      rfl

/-- In the PNG-loading variant a three-component image with at least one pixel
has more bytes copied into the mapped upload buffer than the upload buffer was
created with, `4 * x * y` against `3 * x * y`, and the texture step fails. -/
theorem png_three_component_sizes (image : Image) (hcc : image.component_count = 3)
    (hpos : 0 < image.x * image.y) (hrange : image.x * image.y < 2 ^ 31) :
    PNG.upload_buffer_size (image.x * image.y) image.component_count
        = 3 * (image.x * image.y) ∧
    PNG.memcpy_size image = 4 * (image.x * image.y) ∧
    PNG.upload_texture image = .error Failure.out_of_range := by
  have h1 : PNG.upload_buffer_size (image.x * image.y) image.component_count
      = 3 * (image.x * image.y) := by
    have := (pbr_sizes image.x image.y 3 hrange (by omega)).1
    rw [hcc]
    exact this
  have h2 : PNG.memcpy_size image = 4 * (image.x * image.y) := by
    have := (pbr_sizes image.x image.y 4 hrange (by omega)).2
    unfold PNG.memcpy_size
    rw [if_pos hcc]
    exact this
  refine ⟨h1, h2, ?_⟩
  have hmul : int_mul image.x image.y = .ok (image.x * image.y) := by
    unfold int_mul
    rw [if_pos hrange]
  unfold PNG.upload_texture
  cases he : PNG.expand_image image with
  | error e =>
    unfold PNG.expand_image at he
    rw [if_pos hcc, hmul] at he
    rw [expand_loop_error _ _ _ e he]
  | ok data =>
    have hf : formats.get? image.component_count = some FORMAT.FORMAT_R8G8B8A8_UNORM := by
      rw [hcc]
      rfl
    simp only [hf, hmul]
    rw [if_pos (by omega)]

/-- C25: for the 3-component image of one pixel the PNG-loading variant creates
the upload buffer with 3 bytes and copies 4 bytes into it, so the copy runs
past the end of the mapped buffer; the PBR variant creates it with 4 bytes and
copies 4. -/
theorem png_upload_copies_past_upload_buffer :
    PNG.expand_image ⟨1, 1, 3, [10, 20, 30]⟩ = .ok [10, 20, 30, 255] ∧
    PNG.upload_buffer_size (1 * 1) 3 = 3 ∧
    PNG.memcpy_size ⟨1, 1, 3, [10, 20, 30]⟩ = 4 ∧
    PNG.upload_texture ⟨1, 1, 3, [10, 20, 30]⟩ = .error Failure.out_of_range ∧
    PBR.upload_texture 3 (fun _ => some ⟨1, 1, 3, [10, 20, 30, 255]⟩) =
      .ok ⟨1, 1, FORMAT.FORMAT_R8G8B8A8_UNORM, 4, [10, 20, 30, 255]⟩ :=
  ⟨rfl, by decide, by decide, rfl, rfl⟩

end GPU

namespace GPU

theorem pbr_load_fbx_path_cases {D F : Type} [Zero F] [One F] [DecidableEq F]
    (ext : Ext D F) (ufbx_load_file : String → Except String (ufbx_scene D)) (path : String) :
    (∃ description, ufbx_load_file path = .error description ∧
      (PBR.load_fbx_path ext ufbx_load_file path : Outcome (Nat × PBR.Heap F))
        = .exited 1 ("Failed to load: " ++ description ++ "\n")) ∨
    (∃ fbx_scene e, ufbx_load_file path = .ok fbx_scene ∧
      PBR.load_node ext fbx_scene fbx_scene.root_node none PBR.Heap.empty = (.error e : Except Failure (Nat × PBR.Heap F)) ∧
      (PBR.load_fbx_path ext ufbx_load_file path : Outcome (Nat × PBR.Heap F)) = .failed e) ∨
    ∃ fbx_scene scene, ufbx_load_file path = .ok fbx_scene ∧
      PBR.load_node ext fbx_scene fbx_scene.root_node none PBR.Heap.empty = (.ok scene : Except Failure (Nat × PBR.Heap F)) ∧
      (PBR.load_fbx_path ext ufbx_load_file path : Outcome (Nat × PBR.Heap F))
        = .returned scene := by
  unfold PBR.load_fbx_path
  cases hp : ufbx_load_file path with
  | error d => exact Or.inl ⟨d, rfl, rfl⟩
  | ok fbx_scene =>
    cases hl : (PBR.load_node ext fbx_scene fbx_scene.root_node none PBR.Heap.empty : Except Failure (Nat × PBR.Heap F)) with
    | error e => exact Or.inr (Or.inl ⟨fbx_scene, e, rfl, hl, by simp only [hl]⟩)
    | ok r => exact Or.inr (Or.inr ⟨fbx_scene, r, rfl, hl, by simp only [hl]⟩)

theorem pbr_load_fbx_path_spec {D F : Type} [Zero F] [One F] [DecidableEq F]
    (ext : Ext D F) (ufbx_load_file : String → Except String (ufbx_scene D)) (path : String) :
    (∀ scene, PBR.load_fbx_path ext ufbx_load_file path = .returned scene ↔
        ∃ fbx_scene, ufbx_load_file path = .ok fbx_scene ∧
          PBR.load_node ext fbx_scene fbx_scene.root_node none PBR.Heap.empty = (.ok scene : Except Failure (Nat × PBR.Heap F))) ∧
    (∀ status stderr, (PBR.load_fbx_path ext ufbx_load_file path :
          Outcome (Nat × PBR.Heap F)) = .exited status stderr ↔
        ∃ description, ufbx_load_file path = .error description ∧ status = 1 ∧
          stderr = "Failed to load: " ++ description ++ "\n") := by
  rcases pbr_load_fbx_path_cases ext ufbx_load_file path with
    ⟨d, hd, hv⟩ | ⟨s, e, hs, hl, hv⟩ | ⟨s, r, hs, hl, hv⟩
  · constructor
    · intro scene
      constructor
      · intro h; rw [hv] at h; cases h
      · rintro ⟨s, hs, _⟩; rw [hd] at hs; cases hs
    · intro status stderr
      constructor
      · intro h
        rw [hv] at h
        cases h
        exact ⟨d, hd, rfl, rfl⟩
      · rintro ⟨d', hd', h1, h2⟩
        rw [hd] at hd'
        cases hd'
        rw [hv, h1, h2]
  · constructor
    · intro scene
      constructor
      · intro h; rw [hv] at h; cases h
      · rintro ⟨s', hs', hl'⟩
        rw [hs] at hs'
        cases hs'
        rw [hl] at hl'
        cases hl'
    · intro status stderr
      constructor
      · intro h; rw [hv] at h; cases h
      · rintro ⟨d', hd', _⟩; rw [hs] at hd'; cases hd'
  · constructor
    · intro scene
      constructor
      · intro h
        rw [hv] at h
        cases h
        exact ⟨s, hs, hl⟩
      · rintro ⟨s', hs', hl'⟩
        rw [hs] at hs'
        cases hs'
        rw [hl] at hl'
        cases hl'
        exact hv
    · intro status stderr
      constructor
      · intro h; rw [hv] at h; cases h
      · rintro ⟨d', hd', _⟩; rw [hs] at hd'; cases hd'

theorem fbx_load_fbx_path_cases {D F : Type} [Zero F] [One F] [DecidableEq F]
    (ext : Ext D F) (ufbx_load_file : String → Except String (ufbx_scene D)) (path : String) :
    (∃ description, ufbx_load_file path = .error description ∧
      (FBX.load_fbx_path ext ufbx_load_file path : Outcome (Nat × FBX.Heap F))
        = .exited 1 ("Failed to load: " ++ description ++ "\n")) ∨
    (∃ fbx_scene e, ufbx_load_file path = .ok fbx_scene ∧
      FBX.load_node ext fbx_scene.root_node FBX.Heap.empty = (.error e : Except Failure (Nat × FBX.Heap F)) ∧
      (FBX.load_fbx_path ext ufbx_load_file path : Outcome (Nat × FBX.Heap F)) = .failed e) ∨
    ∃ fbx_scene scene, ufbx_load_file path = .ok fbx_scene ∧
      FBX.load_node ext fbx_scene.root_node FBX.Heap.empty = (.ok scene : Except Failure (Nat × FBX.Heap F)) ∧
      (FBX.load_fbx_path ext ufbx_load_file path : Outcome (Nat × FBX.Heap F))
        = .returned scene := by
  unfold FBX.load_fbx_path
  cases hp : ufbx_load_file path with
  | error d => exact Or.inl ⟨d, rfl, rfl⟩
  | ok fbx_scene =>
    cases hl : (FBX.load_node ext fbx_scene.root_node FBX.Heap.empty : Except Failure (Nat × FBX.Heap F)) with
    | error e => exact Or.inr (Or.inl ⟨fbx_scene, e, rfl, hl, by simp only [hl]⟩)
    | ok r => exact Or.inr (Or.inr ⟨fbx_scene, r, rfl, hl, by simp only [hl]⟩)

theorem fbx_load_fbx_path_spec {D F : Type} [Zero F] [One F] [DecidableEq F]
    (ext : Ext D F) (ufbx_load_file : String → Except String (ufbx_scene D)) (path : String) :
    (∀ scene, FBX.load_fbx_path ext ufbx_load_file path = .returned scene ↔
        ∃ fbx_scene, ufbx_load_file path = .ok fbx_scene ∧
          FBX.load_node ext fbx_scene.root_node FBX.Heap.empty = (.ok scene : Except Failure (Nat × FBX.Heap F))) ∧
    (∀ status stderr, (FBX.load_fbx_path ext ufbx_load_file path :
          Outcome (Nat × FBX.Heap F)) = .exited status stderr ↔
        ∃ description, ufbx_load_file path = .error description ∧ status = 1 ∧
          stderr = "Failed to load: " ++ description ++ "\n") := by
  rcases fbx_load_fbx_path_cases ext ufbx_load_file path with
    ⟨d, hd, hv⟩ | ⟨s, e, hs, hl, hv⟩ | ⟨s, r, hs, hl, hv⟩
  · constructor
    · intro scene
      constructor
      · intro h; rw [hv] at h; cases h
      · rintro ⟨s, hs, _⟩; rw [hd] at hs; cases hs
    · intro status stderr
      constructor
      · intro h
        rw [hv] at h
        cases h
        exact ⟨d, hd, rfl, rfl⟩
      · rintro ⟨d', hd', h1, h2⟩
        rw [hd] at hd'
        cases hd'
        rw [hv, h1, h2]
  · constructor
    · intro scene
      constructor
      · intro h; rw [hv] at h; cases h
      · rintro ⟨s', hs', hl'⟩
        rw [hs] at hs'
        cases hs'
        rw [hl] at hl'
        cases hl'
    · intro status stderr
      constructor
      · intro h; rw [hv] at h; cases h
      · rintro ⟨d', hd', _⟩; rw [hs] at hd'; cases hd'
  · constructor
    · intro scene
      constructor
      · intro h
        rw [hv] at h
        cases h
        exact ⟨s, hs, hl⟩
      · rintro ⟨s', hs', hl'⟩
        rw [hs] at hs'
        cases hs'
        rw [hl] at hl'
        cases hl'
        exact hv
    · intro status stderr
      constructor
      · intro h; rw [hv] at h; cases h
      · rintro ⟨d', hd', _⟩; rw [hs] at hd'; cases hd'

/-- C22 (as stated, refuted): when the parser cannot open the file, `load_fbx`
does not hand the failure to its caller: the process ends inside the call with
`exit(1)`, in the PBR variant and in the FBX-loading variant. -/
theorem load_fbx_exits_on_parse_failure :
    chain_file_only "missing.fbx" = .error "File not found" ∧
    (PBR.load_fbx_path fan_ext chain_file_only "missing.fbx" : Outcome (Nat × PBR.Heap Int))
      = .exited 1 "Failed to load: File not found\n" ∧
    (FBX.load_fbx_path fan_ext chain_file_only "missing.fbx" : Outcome (Nat × FBX.Heap Int))
      = .exited 1 "Failed to load: File not found\n" ∧
    (∀ scene, (PBR.load_fbx_path fan_ext chain_file_only "missing.fbx" :
      Outcome (Nat × PBR.Heap Int)) ≠ .returned scene) ∧
    ∀ e, (PBR.load_fbx_path fan_ext chain_file_only "missing.fbx" :
      Outcome (Nat × PBR.Heap Int)) ≠ .failed e := by
  have h0 : (PBR.load_fbx_path fan_ext chain_file_only "missing.fbx" :
      Outcome (Nat × PBR.Heap Int)) = .exited 1 "Failed to load: File not found\n" := rfl
  refine ⟨rfl, h0, rfl, ?_, ?_⟩
  · intro scene h
    rw [h0] at h
    cases h
  · intro e h
    rw [h0] at h
    cases h

/-- C22 (amended): `load_fbx` returns a Node Model exactly when the parser
returns a scene and `load_node` on its root node runs to completion, and what
it returns is the result of that `load_node`; the process ends inside
`load_fbx` with `exit(1)`, after the error description is written to `stderr`,
exactly when the parser returns no scene, so that nothing, partial or not, is
returned then.  This holds in the PBR variant and in the FBX-loading variant. -/
theorem load_fbx_returns_or_exits {D F : Type} [Zero F] [One F] [DecidableEq F]
    (ext : Ext D F) (ufbx_load_file : String → Except String (ufbx_scene D)) (path : String) :
    ((∀ scene, PBR.load_fbx_path ext ufbx_load_file path = .returned scene ↔
        ∃ fbx_scene, ufbx_load_file path = .ok fbx_scene ∧
          PBR.load_node ext fbx_scene fbx_scene.root_node none PBR.Heap.empty
            = (.ok scene : Except Failure (Nat × PBR.Heap F))) ∧
      (∀ status stderr, (PBR.load_fbx_path ext ufbx_load_file path :
          Outcome (Nat × PBR.Heap F)) = .exited status stderr ↔
        ∃ description, ufbx_load_file path = .error description ∧ status = 1 ∧
          stderr = "Failed to load: " ++ description ++ "\n")) ∧
    ((∀ scene, FBX.load_fbx_path ext ufbx_load_file path = .returned scene ↔
        ∃ fbx_scene, ufbx_load_file path = .ok fbx_scene ∧
          FBX.load_node ext fbx_scene.root_node FBX.Heap.empty
            = (.ok scene : Except Failure (Nat × FBX.Heap F))) ∧
      (∀ status stderr, (FBX.load_fbx_path ext ufbx_load_file path :
          Outcome (Nat × FBX.Heap F)) = .exited status stderr ↔
        ∃ description, ufbx_load_file path = .error description ∧ status = 1 ∧
          stderr = "Failed to load: " ++ description ++ "\n")) :=
  ⟨pbr_load_fbx_path_spec ext ufbx_load_file path, fbx_load_fbx_path_spec ext ufbx_load_file path⟩

/-- Witness of C22 (amended): `chain.fbx` parses and `load_fbx` returns the
Node Model of `chain_scene`; `missing.fbx` does not and the process exits. -/
theorem load_fbx_returns_or_exits_witness :
    (PBR.load_fbx_path fan_ext chain_file_only "chain.fbx" : Outcome (Nat × PBR.Heap Int))
      = .returned (0, chain_heap) ∧
    (PBR.load_fbx_path fan_ext chain_file_only "missing.fbx" : Outcome (Nat × PBR.Heap Int))
      = .exited 1 "Failed to load: File not found\n" ∧
    ((PBR.load_fbx_path fan_ext chain_file_only "chain.fbx" : Outcome (Nat × PBR.Heap Int))
        = .returned (0, chain_heap) ↔
      ∃ fbx_scene, chain_file_only "chain.fbx" = .ok fbx_scene ∧
        PBR.load_node fan_ext fbx_scene fbx_scene.root_node none PBR.Heap.empty
          = (.ok (0, chain_heap) : Except Failure (Nat × PBR.Heap Int))) :=
  ⟨rfl, rfl,
    (load_fbx_returns_or_exits fan_ext chain_file_only "chain.fbx").1.1 (0, chain_heap)⟩

end GPU

namespace GPU
namespace PNG

theorem node_search_children_spec {F : Type} [Zero F] (h : Heap F) (type : NODE_TYPE)
    (fuel : Nat) (n : Node F)
    (ih : ∀ c l, preorder_fuel h fuel c = some l →
      node_search_type_fuel h type fuel c
        = some (l.find? fun q => decide ((h.node q).type = type))) :
    ∀ (idxs : List Nat) (subtrees : List (List Nat)),
      idxs.mapM (fun i =>
          match n.child_array.get? i with
          | none => none
          | some child => preorder_fuel h fuel child) = some subtrees →
      node_search_children (node_search_type_fuel h type fuel) n idxs
        = some (subtrees.flatten.find? fun q => decide ((h.node q).type = type)) := by
  intro idxs
  induction idxs with
  | nil =>
    intro subtrees hs
    rw [List.mapM_nil] at hs
    cases hs
    rfl
  | cons i rest ihl =>
    intro subtrees hs
    rw [List.mapM_cons] at hs
    rw [node_search_children]
    cases hc : n.child_array.get? i with
    | none => rw [hc] at hs; simp at hs
    | some child =>
      rw [hc] at hs
      simp only [] at hs
      cases hp : preorder_fuel h fuel child with
      | none => rw [hp] at hs; simp at hs
      | some l =>
        rw [hp] at hs
        cases hr : rest.mapM (fun i =>
            match n.child_array.get? i with
            | none => none
            | some child => preorder_fuel h fuel child) with
        | none => rw [hr] at hs; simp at hs
        | some ls =>
          rw [hr] at hs
          simp at hs
          subst hs
          simp only []
          rw [ih child l hp, List.flatten_cons, List.find?_append]
          cases hf : l.find? fun q => decide ((h.node q).type = type) with
          | some q => rfl
          | none =>
            simp only [Option.none_or]
            exact ihl ls hr

/-- On a subtree that is a tree, `node_search_type_fuel` returns the first
node of the pre-order whose type is the one searched for, or null. -/
theorem node_search_type_fuel_spec {F : Type} [Zero F] (h : Heap F) (type : NODE_TYPE) :
    ∀ (fuel search_node : Nat) (l : List Nat),
      preorder_fuel h fuel search_node = some l →
      node_search_type_fuel h type fuel search_node
        = some (l.find? fun q => decide ((h.node q).type = type)) := by
  intro fuel
  induction fuel with
  | zero => intro p l hl; simp [preorder_fuel] at hl
  | succ k ih =>
    intro p l hl
    rw [preorder_fuel] at hl
    rw [node_search_type_fuel]
    cases hn : h.nodes.get? p with
    | none => rw [hn] at hl; cases hl
    | some n =>
      rw [hn] at hl
      simp only [] at hl ⊢
      have hlt : p < h.nodes.length := by
        by_contra hc
        rw [List.get?_eq_none.mpr (by omega)] at hn
        cases hn
      have hnode : h.node p = n := by
        rw [png_heap_get?_eq_node h p hlt] at hn
        exact Option.some.inj hn
      split at hl
      · cases hl
      · rename_i subtrees hsub
        cases hl
        rw [List.find?_cons]
        by_cases hty : n.type = type
        · rw [if_pos hty]
          simp [hnode, hty]
        · rw [if_neg hty]
          simp only [hnode, hty, decide_False]
          exact node_search_children_spec h type k n ih _ subtrees hsub

/-- C30: on a Node tree (the subtree rooted at `search_node` has the pre-order
`l`), `node_search_type(search_node, type)` returns the first node of `l`
whose type is `type`: every node ahead of it in `l` has another type; and it
returns null if and only if no node of `l` has the type. -/
theorem node_search_type_first_in_preorder {F : Type} [Zero F] (h : Heap F)
    (search_node : Nat) (type : NODE_TYPE) (l : List Nat)
    (hl : preorder h search_node = some l) :
    ∃ r, node_search_type h search_node type = some r ∧
      r = l.find? (fun q => decide ((h.node q).type = type)) ∧
      (r = none ↔ ∀ q ∈ l, (h.node q).type ≠ type) ∧
      ∀ q, r = some q → (h.node q).type = type ∧
        ∃ before after, l = before ++ q :: after ∧ ∀ q' ∈ before, (h.node q').type ≠ type := by
  refine ⟨_, node_search_type_fuel_spec h type _ search_node l hl, rfl, ?_, ?_⟩
  · rw [List.find?_eq_none]
    simp
  · intro q hq
    rw [List.find?_eq_some] at hq
    obtain ⟨hp, before, after, hsplit, hbefore⟩ := hq
    refine ⟨by simpa using hp, before, after, hsplit, ?_⟩
    intro q' hq'
    simpa using hbefore q' hq'

/-- Witness of C30 on the Node tree of `chain_scene`: the pre-order is
`[0, 1, 2]`, the first mesh node is 1 and there is no camera node. -/
theorem node_search_type_first_in_preorder_witness :
    preorder png_chain_heap 0 = some [0, 1, 2] ∧
    node_search_type png_chain_heap 0 NODE_TYPE.NODE_TYPE_MESH = some (some 1) ∧
    node_search_type png_chain_heap 0 NODE_TYPE.NODE_TYPE_CAMERA = some none ∧
    node_search_type png_chain_heap 0 NODE_TYPE.NODE_TYPE_EMPTY = some (some 0) ∧
    ∃ r, node_search_type png_chain_heap 0 NODE_TYPE.NODE_TYPE_MESH = some r ∧
      r = [0, 1, 2].find?
        (fun q => decide ((png_chain_heap.node q).type = NODE_TYPE.NODE_TYPE_MESH)) ∧
      (r = none ↔ ∀ q ∈ [0, 1, 2], (png_chain_heap.node q).type ≠ NODE_TYPE.NODE_TYPE_MESH) ∧
      ∀ q, r = some q → (png_chain_heap.node q).type = NODE_TYPE.NODE_TYPE_MESH ∧
        ∃ before after, [0, 1, 2] = before ++ q :: after ∧
          ∀ q' ∈ before, (png_chain_heap.node q').type ≠ NODE_TYPE.NODE_TYPE_MESH :=
  ⟨by decide, by decide, by decide, by decide,
    node_search_type_first_in_preorder png_chain_heap 0 NODE_TYPE.NODE_TYPE_MESH [0, 1, 2]
      (by decide)⟩

end PNG
end GPU

namespace GPU
namespace PBR

/-- The node and part number of a draw call. -/
theorem upload_mesh_parts_draw {F : Type} [CommRing F] (hm : HandmadeMath F) (h : Heap F)
    (node : Nat) (n : Node F) :
    ∀ (idxs : List Nat) (uploads : List (Upload F)),
      upload_mesh_parts hm h node n idxs = some uploads →
      ∃ draws, draw_mesh_parts node n idxs = some draws ∧
        draws.map (fun d => (d.node, d.i)) = uploads.filterMap Upload.part := by
  intro idxs
  induction idxs with
  | nil =>
    intro uploads hu
    simp only [upload_mesh_parts] at hu
    cases hu
    exact ⟨[], rfl, rfl⟩
  | cons i rest ih =>
    intro uploads hu
    rw [upload_mesh_parts] at hu
    rw [draw_mesh_parts]
    cases hp : n.mesh_parts.get? i with
    | none => rw [hp] at hu; cases hu
    | some mesh_part =>
      rw [hp] at hu
      simp only [] at hu ⊢
      by_cases hz : mesh_part.vertex_count = 0 ∨ mesh_part.index_count = 0
      · rw [if_pos hz] at hu ⊢
        exact ih uploads hu
      · rw [if_neg hz] at hu ⊢
        cases hg : node_global_transform_geometry hm h node with
        | none => rw [hg] at hu; cases hu
        | some M =>
          rw [hg] at hu
          simp only [] at hu
          cases hr : upload_mesh_parts hm h node n rest with
          | none => rw [hr] at hu; cases hu
          | some us =>
            rw [hr] at hu
            cases hu
            obtain ⟨ds, hds, hkeys⟩ := ih us hr
            rw [hds]
            refine ⟨_, rfl, ?_⟩
            simp only [List.map_cons, List.filterMap_cons, Upload.part, hkeys]

theorem upload_textures_no_part {F : Type} (h : Heap F) (n : Node F) :
    ∀ (idxs : List Nat) (uploads : List (Upload F)),
      upload_textures h n idxs = some uploads → uploads.filterMap Upload.part = [] := by
  intro idxs
  induction idxs with
  | nil =>
    intro uploads hu
    simp only [upload_textures] at hu
    cases hu
    rfl
  | cons i rest ih =>
    intro uploads hu
    rw [upload_textures] at hu
    split at hu
    · cases hu
    · split at hu
      · cases hu
      · split at hu
        · cases hu
        · rename_i us hus
          cases hu
          simp only [List.filterMap_cons, Upload.part]
          exact ih us hus

theorem upload_children_draw {F : Type} [CommRing F] (hm : HandmadeMath F) (h : Heap F)
    (fuel : Nat) (n : Node F)
    (ih : ∀ (node : Nat) (uploads : List (Upload F)),
      upload_node_buffers_fuel hm h fuel node = some uploads →
      ∃ draws, draw_node_fuel h fuel node = some draws ∧
        draws.map (fun d => (d.node, d.i)) = uploads.filterMap Upload.part) :
    ∀ (idxs : List Nat) (children : List (List (Upload F))),
      idxs.mapM (fun i =>
          match n.child_array.get? i with
          | none => none
          | some child => upload_node_buffers_fuel hm h fuel child) = some children →
      ∃ draws, idxs.mapM (fun i =>
          match n.child_array.get? i with
          | none => none
          | some child => draw_node_fuel h fuel child) = some draws ∧
        draws.flatten.map (fun d => (d.node, d.i)) = children.flatten.filterMap Upload.part := by
  intro idxs
  induction idxs with
  | nil =>
    intro children hc
    rw [List.mapM_nil] at hc
    cases hc
    exact ⟨[], rfl, rfl⟩
  | cons i rest ihl =>
    intro children hc
    rw [List.mapM_cons] at hc
    rw [List.mapM_cons]
    cases hg : n.child_array.get? i with
    | none => rw [hg] at hc; simp at hc
    | some child =>
      rw [hg] at hc
      simp only [] at hc ⊢
      cases hu : upload_node_buffers_fuel hm h fuel child with
      | none => rw [hu] at hc; simp at hc
      | some us =>
        rw [hu] at hc
        cases hr : rest.mapM (fun i =>
            match n.child_array.get? i with
            | none => none
            | some child => upload_node_buffers_fuel hm h fuel child) with
        | none => rw [hr] at hc; simp at hc
        | some cs =>
          rw [hr] at hc
          simp at hc
          subst hc
          obtain ⟨ds, hds, hk⟩ := ih child us hu
          obtain ⟨dss, hdss, hks⟩ := ihl cs hr
          rw [hds, hdss]
          refine ⟨ds :: dss, by simp, ?_⟩
          simp only [List.flatten_cons, List.map_append, List.filterMap_append, hk, hks]

theorem upload_node_buffers_fuel_draw {F : Type} [CommRing F] (hm : HandmadeMath F)
    (h : Heap F) :
    ∀ (fuel node : Nat) (uploads : List (Upload F)),
      upload_node_buffers_fuel hm h fuel node = some uploads →
      ∃ draws, draw_node_fuel h fuel node = some draws ∧
        draws.map (fun d => (d.node, d.i)) = uploads.filterMap Upload.part := by
  intro fuel
  induction fuel with
  | zero => intro node uploads hu; simp [upload_node_buffers_fuel] at hu
  | succ k ih =>
    intro node uploads hu
    rw [upload_node_buffers_fuel] at hu
    rw [draw_node_fuel]
    cases hn : h.nodes.get? node with
    | none => rw [hn] at hu; cases hu
    | some n =>
      rw [hn] at hu
      simp only [] at hu ⊢
      split at hu
      · cases hu
      · rename_i parts hparts
        split at hu
        · cases hu
        · rename_i children hchildren
          split at hu
          · cases hu
          · rename_i textures htextures
            cases hu
            have hparts' : ∃ draws, (if n.type = NODE_TYPE.NODE_TYPE_MESH then
                  draw_mesh_parts node n (List.range n.mesh_parts_count) else some []) = some draws ∧
                draws.map (fun d => (d.node, d.i)) = parts.filterMap Upload.part := by
              by_cases hty : n.type = NODE_TYPE.NODE_TYPE_MESH
              · rw [if_pos hty] at hparts ⊢
                exact upload_mesh_parts_draw hm h node n _ parts hparts
              · rw [if_neg hty] at hparts ⊢
                cases hparts
                exact ⟨[], rfl, rfl⟩
            obtain ⟨dparts, hdp, hkp⟩ := hparts'
            obtain ⟨dchildren, hdc, hkc⟩ := upload_children_draw hm h k n ih _ children hchildren
            have htex : textures.filterMap Upload.part = [] := by
              by_cases hroot : n.parent = none
              · rw [if_pos hroot] at htextures
                exact upload_textures_no_part h n _ textures htextures
              · rw [if_neg hroot] at htextures
                cases htextures
                rfl
            simp only [hdp]
            refine ⟨dparts ++ dchildren.flatten, ?_, ?_⟩
            · split
              · rename_i hnone
                exact absurd (hdc.symm.trans hnone) (by simp)
              · rename_i ch hch
                have hce : ch = dchildren := Option.some.inj (hch.symm.trans hdc)
                rw [hce]
            · simp only [List.map_append, List.filterMap_append, hkp, hkc, htex,
                List.append_nil]

theorem draw_mesh_parts_keys {F : Type} (node : Nat) (n : Node F) :
    ∀ (idxs : List Nat) (draws : List Draw), draw_mesh_parts node n idxs = some draws →
      draws.map (fun d => (d.node, d.i)) =
        (idxs.filter (part_is_drawable n)).map fun i => (node, i) := by
  intro idxs
  induction idxs with
  | nil =>
    intro draws hd
    simp only [draw_mesh_parts] at hd
    cases hd
    rfl
  | cons i rest ih =>
    intro draws hd
    rw [draw_mesh_parts] at hd
    cases hp : n.mesh_parts.get? i with
    | none => rw [hp] at hd; cases hd
    | some mesh_part =>
      rw [hp] at hd
      simp only [] at hd
      by_cases hz : mesh_part.vertex_count = 0 ∨ mesh_part.index_count = 0
      · rw [if_pos hz] at hd
        have hf : part_is_drawable n i = false := by
          simp only [part_is_drawable, hp]
          exact decide_eq_false (fun hc => hc hz)
        rw [List.filter_cons_of_neg (by simp [hf])]
        exact ih draws hd
      · rw [if_neg hz] at hd
        cases hr : draw_mesh_parts node n rest with
        | none => rw [hr] at hd; cases hd
        | some ds =>
          rw [hr] at hd
          cases hd
          have hf : part_is_drawable n i = true := by
            simp only [part_is_drawable, hp]
            exact decide_eq_true hz
          rw [List.filter_cons_of_pos hf, List.map_cons, List.map_cons, ih ds hr]

theorem draw_children_preorder {F : Type} [Zero F] (h : Heap F) (fuel : Nat) (n : Node F)
    (ih : ∀ (node : Nat) (draws : List Draw), draw_node_fuel h fuel node = some draws →
      ∃ l, preorder_fuel h fuel node = some l ∧
        draws.map (fun d => (d.node, d.i)) = l.flatMap (drawable_parts h)) :
    ∀ (idxs : List Nat) (children : List (List Draw)),
      idxs.mapM (fun i =>
          match n.child_array.get? i with
          | none => none
          | some child => draw_node_fuel h fuel child) = some children →
      ∃ subtrees, idxs.mapM (fun i =>
          match n.child_array.get? i with
          | none => none
          | some child => preorder_fuel h fuel child) = some subtrees ∧
        children.flatten.map (fun d => (d.node, d.i))
          = subtrees.flatten.flatMap (drawable_parts h) := by
  intro idxs
  induction idxs with
  | nil =>
    intro children hc
    rw [List.mapM_nil] at hc
    cases hc
    exact ⟨[], rfl, rfl⟩
  | cons i rest ihl =>
    intro children hc
    rw [List.mapM_cons] at hc
    rw [List.mapM_cons]
    cases hg : n.child_array.get? i with
    | none => rw [hg] at hc; simp at hc
    | some child =>
      rw [hg] at hc
      simp only [] at hc ⊢
      cases hu : draw_node_fuel h fuel child with
      | none => rw [hu] at hc; simp at hc
      | some ds =>
        rw [hu] at hc
        cases hr : rest.mapM (fun i =>
            match n.child_array.get? i with
            | none => none
            | some child => draw_node_fuel h fuel child) with
        | none => rw [hr] at hc; simp at hc
        | some dss =>
          rw [hr] at hc
          simp at hc
          subst hc
          obtain ⟨l, hl, hk⟩ := ih child ds hu
          obtain ⟨ls, hls, hks⟩ := ihl dss hr
          rw [hl, hls]
          refine ⟨l :: ls, by simp, ?_⟩
          simp only [List.flatten_cons, List.map_append, List.flatMap_append, hk, hks]

theorem draw_node_fuel_preorder {F : Type} [Zero F] (h : Heap F) :
    ∀ (fuel node : Nat) (draws : List Draw), draw_node_fuel h fuel node = some draws →
      ∃ l, preorder_fuel h fuel node = some l ∧
        draws.map (fun d => (d.node, d.i)) = l.flatMap (drawable_parts h) := by
  intro fuel
  induction fuel with
  | zero => intro node draws hd; simp [draw_node_fuel] at hd
  | succ k ih =>
    intro node draws hd
    rw [draw_node_fuel] at hd
    rw [preorder_fuel]
    cases hn : h.nodes.get? node with
    | none => rw [hn] at hd; cases hd
    | some n =>
      rw [hn] at hd
      simp only [] at hd ⊢
      have hlt : node < h.nodes.length := by
        by_contra hc
        rw [List.get?_eq_none.mpr (by omega)] at hn
        cases hn
      have hnode : h.node node = n := by
        rw [Heap.get?_eq_node h node hlt] at hn
        exact Option.some.inj hn
      split at hd
      · cases hd
      · rename_i parts hparts
        split at hd
        · cases hd
        · rename_i children hchildren
          cases hd
          obtain ⟨subtrees, hsub, hks⟩ := draw_children_preorder h k n ih _ children hchildren
          have hkp : parts.map (fun d => (d.node, d.i)) = drawable_parts h node := by
            unfold drawable_parts
            rw [hnode]
            by_cases hty : n.type = NODE_TYPE.NODE_TYPE_MESH
            · rw [if_pos hty] at hparts ⊢
              exact draw_mesh_parts_keys node n _ parts hparts
            · rw [if_neg hty] at hparts ⊢
              cases hparts
              rfl
          refine ⟨node :: subtrees.flatten, ?_, ?_⟩
          · split
            · rename_i hnone
              exact absurd (hsub.symm.trans hnone) (by simp)
            · rename_i st hst
              have hce : st = subtrees := Option.some.inj (hst.symm.trans hsub)
              rw [hce]
          · simp only [List.map_append, List.flatMap_cons, hkp, hks]

/-- The draw calls of the PBR variant follow the uploads. -/
theorem pbr_draw_sequence {F : Type} [CommRing F] (hm : HandmadeMath F)
    (h : Heap F) (node : Nat) (uploads : List (Upload F))
    (hu : upload_node_buffers hm h node = some uploads) :
    ∃ draws, draw_node h node = some draws ∧
      draws.map (fun d => (d.node, d.i)) = uploads.filterMap Upload.part ∧
      (∀ d ∈ draws, ∃ model_to_world,
        Upload.mesh_part d.node d.i model_to_world ∈ uploads) ∧
      ∃ l, preorder h node = some l ∧
        draws.map (fun d => (d.node, d.i)) = l.flatMap (drawable_parts h) := by
  obtain ⟨draws, hd, hk⟩ := upload_node_buffers_fuel_draw hm h _ node uploads hu
  refine ⟨draws, hd, hk, ?_, draw_node_fuel_preorder h _ node draws hd⟩
  intro d hdm
  have hmem : (d.node, d.i) ∈ uploads.filterMap Upload.part := by
    rw [← hk]
    exact List.mem_map.mpr ⟨d, hdm, rfl⟩
  obtain ⟨u, hu', hpart⟩ := List.mem_filterMap.mp hmem
  cases u with
  | mesh_part node' i M =>
    simp only [Upload.part, Option.some.injEq, Prod.mk.injEq] at hpart
    obtain ⟨h1, h2⟩ := hpart
    subst h1 h2
    exact ⟨M, hu'⟩
  | texture arr i => simp [Upload.part] at hpart

end PBR

namespace FBX

theorem fbx_upload_mesh_parts_draw {F : Type} [CommRing F] (hm : HandmadeMath F) (h : Heap F)
    (node : Nat) (n : Node F) :
    ∀ (idxs : List Nat) (uploads : List (Upload F)),
      upload_mesh_parts hm h node n idxs = some uploads →
      ∃ draws, draw_mesh_parts node n idxs = some draws ∧
        draws.map (fun d => (d.node, d.i)) = uploads.map Upload.part := by
  intro idxs
  induction idxs with
  | nil =>
    intro uploads hu
    simp only [upload_mesh_parts] at hu
    cases hu
    exact ⟨[], rfl, rfl⟩
  | cons i rest ih =>
    intro uploads hu
    rw [upload_mesh_parts] at hu
    rw [draw_mesh_parts]
    cases hp : n.mesh_parts.get? i with
    | none => rw [hp] at hu; cases hu
    | some mesh_part =>
      rw [hp] at hu
      simp only [] at hu ⊢
      by_cases hz : mesh_part.vertex_count = 0 ∨ mesh_part.index_count = 0
      · rw [if_pos hz] at hu ⊢
        exact ih uploads hu
      · rw [if_neg hz] at hu ⊢
        cases hg : node_global_transform_geometry hm h node with
        | none => rw [hg] at hu; cases hu
        | some M =>
          rw [hg] at hu
          simp only [] at hu
          cases hr : upload_mesh_parts hm h node n rest with
          | none => rw [hr] at hu; cases hu
          | some us =>
            rw [hr] at hu
            cases hu
            obtain ⟨ds, hds, hkeys⟩ := ih us hr
            rw [hds]
            refine ⟨_, rfl, ?_⟩
            simp only [List.map_cons, Upload.part, hkeys]

theorem fbx_upload_children_draw {F : Type} [CommRing F] (hm : HandmadeMath F) (h : Heap F)
    (fuel : Nat) (n : Node F)
    (ih : ∀ (node : Nat) (uploads : List (Upload F)),
      upload_node_buffers_fuel hm h fuel node = some uploads →
      ∃ draws, draw_node_fuel h fuel node = some draws ∧
        draws.map (fun d => (d.node, d.i)) = uploads.map Upload.part) :
    ∀ (idxs : List Nat) (children : List (List (Upload F))),
      idxs.mapM (fun i =>
          match n.child_array.get? i with
          | none => none
          | some child => upload_node_buffers_fuel hm h fuel child) = some children →
      ∃ draws, idxs.mapM (fun i =>
          match n.child_array.get? i with
          | none => none
          | some child => draw_node_fuel h fuel child) = some draws ∧
        draws.flatten.map (fun d => (d.node, d.i)) = children.flatten.map Upload.part := by
  intro idxs
  induction idxs with
  | nil =>
    intro children hc
    rw [List.mapM_nil] at hc
    cases hc
    exact ⟨[], rfl, rfl⟩
  | cons i rest ihl =>
    intro children hc
    rw [List.mapM_cons] at hc
    rw [List.mapM_cons]
    cases hg : n.child_array.get? i with
    | none => rw [hg] at hc; simp at hc
    | some child =>
      rw [hg] at hc
      simp only [] at hc ⊢
      cases hu : upload_node_buffers_fuel hm h fuel child with
      | none => rw [hu] at hc; simp at hc
      | some us =>
        rw [hu] at hc
        cases hr : rest.mapM (fun i =>
            match n.child_array.get? i with
            | none => none
            | some child => upload_node_buffers_fuel hm h fuel child) with
        | none => rw [hr] at hc; simp at hc
        | some cs =>
          rw [hr] at hc
          simp at hc
          subst hc
          obtain ⟨ds, hds, hk⟩ := ih child us hu
          obtain ⟨dss, hdss, hks⟩ := ihl cs hr
          rw [hds, hdss]
          refine ⟨ds :: dss, by simp, ?_⟩
          simp only [List.flatten_cons, List.map_append, hk, hks]

theorem fbx_upload_node_buffers_fuel_draw {F : Type} [CommRing F] (hm : HandmadeMath F)
    (h : Heap F) :
    ∀ (fuel node : Nat) (uploads : List (Upload F)),
      upload_node_buffers_fuel hm h fuel node = some uploads →
      ∃ draws, draw_node_fuel h fuel node = some draws ∧
        draws.map (fun d => (d.node, d.i)) = uploads.map Upload.part := by
  intro fuel
  induction fuel with
  | zero => intro node uploads hu; simp [upload_node_buffers_fuel] at hu
  | succ k ih =>
    intro node uploads hu
    rw [upload_node_buffers_fuel] at hu
    rw [draw_node_fuel]
    cases hn : h.nodes.get? node with
    | none => rw [hn] at hu; cases hu
    | some n =>
      rw [hn] at hu
      simp only [] at hu ⊢
      split at hu
      · cases hu
      · rename_i parts hparts
        split at hu
        · cases hu
        · rename_i children hchildren
          cases hu
          have hparts' : ∃ draws, (if n.type = NODE_TYPE.NODE_TYPE_MESH then
                draw_mesh_parts node n (List.range n.mesh_parts_count) else some []) = some draws ∧
              draws.map (fun d => (d.node, d.i)) = parts.map Upload.part := by
            by_cases hty : n.type = NODE_TYPE.NODE_TYPE_MESH
            · rw [if_pos hty] at hparts ⊢
              exact fbx_upload_mesh_parts_draw hm h node n _ parts hparts
            · rw [if_neg hty] at hparts ⊢
              cases hparts
              exact ⟨[], rfl, rfl⟩
          obtain ⟨dparts, hdp, hkp⟩ := hparts'
          obtain ⟨dchildren, hdc, hkc⟩ :=
            fbx_upload_children_draw hm h k n ih _ children hchildren
          simp only [hdp]
          refine ⟨dparts ++ dchildren.flatten, ?_, ?_⟩
          · split
            · rename_i hnone
              exact absurd (hdc.symm.trans hnone) (by simp)
            · rename_i ch hch
              have hce : ch = dchildren := Option.some.inj (hch.symm.trans hdc)
              rw [hce]
          · simp only [List.map_append, hkp, hkc]

end FBX

/-- C28: when `upload_node_buffers` has run over a Node Model, `draw_node`
runs over it too, and the sequence of (node, part) for which it issues a draw
call is exactly the sequence of (node, part) for which `upload_node_buffers`
created the buffers, so that every part drawn was uploaded; this holds in the
PBR variant and in the FBX-loading variant.  In the PBR variant that sequence
is spelled out: the nodes in depth-first pre-order and, in each mesh node, the
parts in array order without those whose `vertex_count` or `index_count` is
0. -/
theorem draw_sequence_is_upload_sequence {F : Type} [CommRing F] (hm : HandmadeMath F)
    (h : PBR.Heap F) (node : Nat) (uploads : List (PBR.Upload F))
    (h' : FBX.Heap F) (node' : Nat) (uploads' : List (FBX.Upload F))
    (hu : PBR.upload_node_buffers hm h node = some uploads)
    (hu' : FBX.upload_node_buffers hm h' node' = some uploads') :
    (∃ draws, PBR.draw_node h node = some draws ∧
      draws.map (fun d => (d.node, d.i)) = uploads.filterMap PBR.Upload.part ∧
      (∀ d ∈ draws, ∃ model_to_world,
        PBR.Upload.mesh_part d.node d.i model_to_world ∈ uploads) ∧
      ∃ l, PBR.preorder h node = some l ∧
        draws.map (fun d => (d.node, d.i)) = l.flatMap (PBR.drawable_parts h)) ∧
    ∃ draws, FBX.draw_node h' node' = some draws ∧
      draws.map (fun d => (d.node, d.i)) = uploads'.map FBX.Upload.part ∧
      ∀ d ∈ draws, ∃ model_to_world,
        FBX.Upload.mesh_part d.node d.i model_to_world ∈ uploads' := by
  refine ⟨PBR.pbr_draw_sequence hm h node uploads hu, ?_⟩
  obtain ⟨draws, hd, hk⟩ := FBX.fbx_upload_node_buffers_fuel_draw hm h' _ node' uploads' hu'
  refine ⟨draws, hd, hk, ?_⟩
  intro d hdm
  have hmem : (d.node, d.i) ∈ uploads'.map FBX.Upload.part := by
    rw [← hk]
    exact List.mem_map.mpr ⟨d, hdm, rfl⟩
  obtain ⟨u, hu'', hpart⟩ := List.mem_map.mp hmem
  cases u with
  | mesh_part node'' i M =>
    simp only [FBX.Upload.part, Prod.mk.injEq] at hpart
    obtain ⟨h1, h2⟩ := hpart
    subst h1 h2
    exact ⟨M, hu''⟩

/-- Witness of C28 on the Node Model of `degenerate_scene` (the mesh node 1 has
an empty part 0 and a part 1 of one triangle; both steps handle part 1 only)
and on the FBX-loading Node Model of `chain_scene`. -/
theorem draw_sequence_is_upload_sequence_witness :
    (PBR.upload_node_buffers exact_math degenerate_heap 0).isSome = true ∧
    PBR.draw_node degenerate_heap 0 = some [⟨1, 1, none, 3, 3⟩] ∧
    PBR.preorder degenerate_heap 0 = some [0, 1, 2] ∧
    FBX.upload_node_buffers exact_math fbx_chain_heap 0 = some fbx_chain_uploads ∧
    FBX.draw_node fbx_chain_heap 0 = some [⟨1, 0, 4, 6⟩] ∧
    (∃ draws, PBR.draw_node degenerate_heap 0 = some draws ∧
      draws.map (fun d => (d.node, d.i))
        = ((PBR.upload_node_buffers exact_math degenerate_heap 0).getD []).filterMap
          PBR.Upload.part ∧
      (∀ d ∈ draws, ∃ model_to_world, PBR.Upload.mesh_part d.node d.i model_to_world
        ∈ (PBR.upload_node_buffers exact_math degenerate_heap 0).getD []) ∧
      ∃ l, PBR.preorder degenerate_heap 0 = some l ∧
        draws.map (fun d => (d.node, d.i)) = l.flatMap (PBR.drawable_parts degenerate_heap)) ∧
    ∃ draws, FBX.draw_node fbx_chain_heap 0 = some draws ∧
      draws.map (fun d => (d.node, d.i)) = fbx_chain_uploads.map FBX.Upload.part ∧
      ∀ d ∈ draws, ∃ model_to_world,
        FBX.Upload.mesh_part d.node d.i model_to_world ∈ fbx_chain_uploads :=
  ⟨by decide, by decide, by decide, rfl, by decide,
    draw_sequence_is_upload_sequence exact_math degenerate_heap 0
      ((PBR.upload_node_buffers exact_math degenerate_heap 0).getD []) fbx_chain_heap 0
      fbx_chain_uploads rfl rfl⟩

end GPU

namespace GPU
namespace PBR

section safety
variable {D F : Type} [Zero F] [One F]

theorem corner_loop_total (ext : Ext D F) (mesh : ufbx_mesh D)
    (cap num_tri_indices : Nat) (tri_indices : Nat → Nat) :
    ∀ (l : List Nat) (vertices : List (Vertex F)), (∀ i ∈ l, i < num_tri_indices) →
      vertices.length + l.length ≤ cap →
      ∃ r, corner_loop ext mesh cap num_tri_indices tri_indices l vertices = .ok r ∧
        r.length = vertices.length + l.length := by
  intro l
  induction l with
  | nil => intro vertices _ _; exact ⟨vertices, rfl, rfl⟩
  | cons i rest ih =>
    intro vertices hl hcap
    rw [corner_loop]
    have hi := hl i (List.mem_cons_self _ _)
    rw [List.length_cons] at hcap
    rw [if_neg (by omega), if_neg (by omega)]
    obtain ⟨r, hr, hlen⟩ := ih (vertices ++ [load_corner ext mesh (tri_indices i)])
      (fun j hj => hl j (List.mem_cons_of_mem _ hj))
      (by rw [List.length_append, List.length_singleton]; omega)
    refine ⟨r, hr, ?_⟩
    rw [hlen, List.length_append, List.length_singleton, List.length_cons]
    omega

theorem face_loop_total (ext : Ext D F) (mesh : ufbx_mesh D) (cap : Nat) :
    ∀ (faces : List Nat) (vertices : List (Vertex F)),
      (∀ face_ix ∈ faces, face_ix < mesh.faces.length) →
      (∀ face_ix ∈ faces, face_triangles ext mesh face_ix ≤ mesh.max_face_triangles) →
      vertices.length + 3 * (faces.map (face_triangles ext mesh)).sum ≤ cap →
      ∃ r, face_loop ext mesh cap faces vertices = .ok r ∧
        r.length = vertices.length + 3 * (faces.map (face_triangles ext mesh)).sum := by
  intro faces
  induction faces with
  | nil => intro vertices _ _ _; exact ⟨vertices, rfl, by simp⟩
  | cons face_ix rest ih =>
    intro vertices hin hf hcap
    rw [face_loop]
    have hlt := hin face_ix (List.mem_cons_self _ _)
    have hget : mesh.faces[face_ix]? = some (mesh.faces.getD face_ix ⟨0, 0⟩) := by
      rw [List.getD_eq_getElem?_getD, List.getElem?_eq_getElem hlt]; rfl
    rw [hget]
    simp only []
    have hface := hf face_ix (List.mem_cons_self _ _)
    rw [List.map_cons, List.sum_cons] at hcap
    obtain ⟨r1, hr1, hlen1⟩ := corner_loop_total ext mesh cap (mesh.max_face_triangles * 3)
      (face_tri_indices ext mesh face_ix) (List.range (face_triangles ext mesh face_ix * 3))
      vertices
      (fun i hi => by have := List.mem_range.mp hi; omega)
      (by rw [List.length_range]; omega)
    rw [List.length_range] at hlen1
    have hr1' : corner_loop ext mesh cap (mesh.max_face_triangles * 3)
        (ext.ufbx_triangulate_face (mesh.max_face_triangles * 3) mesh
          (mesh.faces.getD face_ix ⟨0, 0⟩)).2
        (List.range ((ext.ufbx_triangulate_face (mesh.max_face_triangles * 3) mesh
          (mesh.faces.getD face_ix ⟨0, 0⟩)).1 * 3)) vertices = .ok r1 := hr1
    simp only [hr1']
    obtain ⟨r, hr, hlen⟩ := ih r1 (fun j hj => hin j (List.mem_cons_of_mem _ hj))
      (fun j hj => hf j (List.mem_cons_of_mem _ hj)) (by rw [hlen1]; omega)
    refine ⟨r, hr, ?_⟩
    rw [hlen, hlen1, List.map_cons, List.sum_cons]
    omega

theorem unwelded_vertices_total (ext : Ext D F) (mesh : ufbx_mesh D) (part : ufbx_mesh_part)
    (hin : ∀ face_ix ∈ part.face_indices, face_ix < mesh.faces.length)
    (hsum : part.num_triangles = (part.face_indices.map (face_triangles ext mesh)).sum)
    (hmax : ∀ face_ix ∈ part.face_indices,
      face_triangles ext mesh face_ix ≤ mesh.max_face_triangles) :
    ∃ vertices : List (Vertex F), unwelded_vertices ext mesh part = .ok vertices := by
  obtain ⟨r, hr, hlen⟩ := face_loop_total ext mesh (part.num_triangles * 3) part.face_indices
    ([] : List (Vertex F)) hin hmax (by rw [List.length_nil, hsum]; omega)
  unfold unwelded_vertices
  rw [hr]
  simp only []
  rw [if_pos (by rw [hlen, List.length_nil, hsum]; omega)]
  exact ⟨r, rfl⟩

omit [Zero F] [One F] in
theorem texture_loop_total (materials : List ufbx_material) (material_index : Nat)
    (n : Node F) (h : Heap F) (material : ufbx_material) (arr : Nat)
    (hm : materials.get? material_index = some material)
    (harr : n.texture_array = some arr) :
    ∀ (idxs : List Nat) (acc : Option (Nat × Nat)),
      (∀ i ∈ idxs, i < (h.textures.getD arr []).length) →
      ∃ r, texture_loop materials material_index n h idxs acc = .ok r := by
  intro idxs
  induction idxs with
  | nil => intro acc _; exact ⟨acc, rfl⟩
  | cons i rest ih =>
    intro acc hl
    rw [texture_loop]
    simp only [hm, harr]
    have hrest : ∀ j ∈ rest, j < (h.textures.getD arr []).length :=
      fun j hj => hl j (List.mem_cons_of_mem _ hj)
    cases hb : material.base_color_texture with
    | none => exact ih acc hrest
    | some texture =>
      simp only []
      have hi := hl i (List.mem_cons_self _ _)
      have hget : (h.textures.getD arr []).get? i = some ((h.textures.getD arr []).get ⟨i, hi⟩) :=
        List.get?_eq_get hi
      rw [hget]
      simp only []
      split
      · exact ih _ hrest
      · exact ih _ hrest

variable [DecidableEq F]

theorem load_mesh_part_total (ext : Ext D F) (mesh : ufbx_mesh D) (part : ufbx_mesh_part)
    (material_index : Nat) (root : Option Nat) (h : Heap F)
    (hin : ∀ face_ix ∈ part.face_indices, face_ix < mesh.faces.length)
    (hsum : part.num_triangles = (part.face_indices.map (face_triangles ext mesh)).sum)
    (hmax : ∀ face_ix ∈ part.face_indices,
      face_triangles ext mesh face_ix ≤ mesh.max_face_triangles)
    (hmat : material_index < mesh.materials.length)
    (htable : Table_OK h root) :
    ∃ mesh_part, load_mesh_part ext mesh part material_index root h = .ok mesh_part := by
  obtain ⟨vertices, hv⟩ := unwelded_vertices_total ext mesh part hin hsum hmax
  obtain ⟨r, arr, hroot, _, harr, hcount⟩ := htable
  subst hroot
  obtain ⟨ct, hct⟩ := texture_loop_total mesh.materials material_index (h.node r) h
    (mesh.materials.get ⟨material_index, hmat⟩) arr (List.get?_eq_get hmat) harr
    (List.range (h.node r).texture_count) none
    (fun i hi => by have := List.mem_range.mp hi; omega)
  unfold load_mesh_part
  rw [hv]
  simp only [hct]
  exact ⟨_, rfl⟩

theorem mesh_parts_loop_total (ext : Ext D F) (mesh : ufbx_mesh D) (root : Option Nat)
    (h : Heap F) (htable : Table_OK h root) :
    ∀ (parts : List ufbx_mesh_part) (i : Nat),
      (∀ part ∈ parts, ∀ face_ix ∈ part.face_indices, face_ix < mesh.faces.length) →
      (∀ part ∈ parts,
        part.num_triangles = (part.face_indices.map (face_triangles ext mesh)).sum) →
      (∀ part ∈ parts, ∀ face_ix ∈ part.face_indices,
        face_triangles ext mesh face_ix ≤ mesh.max_face_triangles) →
      i + parts.length ≤ mesh.materials.length →
      ∃ mesh_parts, mesh_parts_loop ext mesh root h parts i = .ok mesh_parts := by
  intro parts
  induction parts with
  | nil => intro i _ _ _ _; exact ⟨[], rfl⟩
  | cons part rest ih =>
    intro i hin hsum hmax hlen
    rw [List.length_cons] at hlen
    obtain ⟨mp, hmp⟩ := load_mesh_part_total ext mesh part i root h
      (hin part (List.mem_cons_self _ _))
      (hsum part (List.mem_cons_self _ _)) (hmax part (List.mem_cons_self _ _))
      (by omega) htable
    obtain ⟨mps, hmps⟩ := ih (i + 1) (fun p hp => hin p (List.mem_cons_of_mem _ hp))
      (fun p hp => hsum p (List.mem_cons_of_mem _ hp))
      (fun p hp => hmax p (List.mem_cons_of_mem _ hp)) (by omega)
    rw [mesh_parts_loop, hmp]
    simp only [hmps]
    exact ⟨_, rfl⟩


omit [One F] [DecidableEq F] in
theorem table_ok_frame (h h' : Heap F) (root : Option Nat) (ht : Table_OK h root)
    (hgrow : h.nodes.length ≤ h'.nodes.length)
    (hframe : ∀ q, q < h.nodes.length → h'.node q = h.node q)
    (htex : ∃ t, h'.textures = h.textures ++ t) : Table_OK h' root := by
  obtain ⟨r, arr, hroot, hr, harr, hcount⟩ := ht
  obtain ⟨t, ht⟩ := htex
  refine ⟨r, arr, hroot, by omega, by rw [hframe r hr]; exact harr, ?_⟩
  rw [hframe r hr, ht]
  by_cases ha : arr < h.textures.length
  · have : (h.textures ++ t).getD arr [] = h.textures.getD arr [] := by
      rw [List.getD_eq_getElem?_getD, List.getD_eq_getElem?_getD,
        List.getElem?_append_left ha]
    rw [this]
    exact hcount
  · have h0 : h.textures.getD arr [] = [] := by
      rw [List.getD_eq_getElem?_getD, List.getElem?_eq_none (by omega)]
      rfl
    rw [h0] at hcount
    simp only [List.length_nil, Nat.le_zero] at hcount
    rw [hcount]
    exact Nat.zero_le _

omit [One F] [DecidableEq F] in
theorem table_ok_update_fields (h : Heap F) (root : Option Nat) (p : Nat)
    (f : Node F → Node F) (ht : Table_OK h root)
    (hf : ∀ n, (f n).texture_array = n.texture_array ∧ (f n).texture_count = n.texture_count) :
    Table_OK (h.update p f) root := by
  obtain ⟨r, arr, hroot, hr, harr, hcount⟩ := ht
  have hnode : ((h.update p f).node r).texture_array = (h.node r).texture_array ∧
      ((h.update p f).node r).texture_count = (h.node r).texture_count := by
    by_cases hrp : r = p
    · subst hrp
      rw [Heap.update_node_eq _ _ _ hr]
      exact hf _
    · rw [Heap.update_node_ne _ _ _ _ hrp]
      exact ⟨rfl, rfl⟩
  refine ⟨r, arr, hroot, by rw [Heap.update_length]; exact hr, by rw [hnode.1]; exact harr, ?_⟩
  rw [hnode.2, Heap.update_textures]
  exact hcount

omit [One F] [DecidableEq F] in
theorem table_ok_update_other (h : Heap F) (r p : Nat) (f : Node F → Node F)
    (ht : Table_OK h (some r)) (hne : r ≠ p) : Table_OK (h.update p f) (some r) := by
  obtain ⟨r', arr, hroot, hr, harr, hcount⟩ := ht
  cases hroot
  refine ⟨r, arr, rfl, by rw [Heap.update_length]; exact hr, ?_, ?_⟩
  · rw [Heap.update_node_ne _ _ _ _ hne]
    exact harr
  · rw [Heap.update_node_ne _ _ _ _ hne, Heap.update_textures]
    exact hcount

theorem load_payload_total (ext : Ext D F) (fbx_scene : ufbx_scene D)
    (mesh : Option (ufbx_mesh D)) (light : Option ufbx_light) (camera : Option ufbx_camera)
    (is_root : Bool) (node : Nat) (root : Option Nat) (h : Heap F)
    (hmesh : ∀ m, mesh = some m → mesh_is_safe ext m ∧ Table_OK h root) :
    ∃ root' h', load_payload ext fbx_scene mesh light camera is_root node root h
      = .ok (root', h') := by
  unfold load_payload
  cases mesh with
  | some m =>
    obtain ⟨⟨hin, hsum, hmax, hmat⟩, ht⟩ := hmesh m rfl
    obtain ⟨mps, hmps⟩ := mesh_parts_loop_total ext m root h ht m.material_parts 0 hin hsum
      hmax (by omega)
    simp only [hmps]
    exact ⟨_, _, rfl⟩
  | none =>
    simp only []
    split
    · exact ⟨_, _, rfl⟩
    · split
      · exact ⟨_, _, rfl⟩
      · split
        · exact ⟨_, _, rfl⟩
        · split
          · exact ⟨_, _, rfl⟩
          · split
            · exact ⟨_, _, rfl⟩
            · exact ⟨_, _, rfl⟩

theorem load_payload_table_ok (ext : Ext D F) (fbx_scene : ufbx_scene D)
    (mesh : Option (ufbx_mesh D)) (light : Option ufbx_light) (camera : Option ufbx_camera)
    (is_root : Bool) (node : Nat) (root root' : Option Nat) (h h' : Heap F)
    (hn : node < h.nodes.length)
    (hr : load_payload ext fbx_scene mesh light camera is_root node root h = .ok (root', h'))
    (ht : Table_OK h root) : Table_OK h' root' := by
  unfold load_payload at hr
  split at hr
  · split at hr
    · cases hr
    · cases hr
      exact table_ok_update_fields _ _ _ _ ht (fun _ => ⟨rfl, rfl⟩)
  · split at hr
    · cases hr; exact ht
    · split at hr
      · cases hr; exact ht
      · split at hr
        · cases hr; exact ht
        · split at hr
          · cases hr
            exact table_ok_update_fields _ _ _ _ ht (fun _ => ⟨rfl, rfl⟩)
          · split at hr
            · cases hr
              refine ⟨node, h.textures.length, rfl, ?_, ?_, ?_⟩
              · simpa [Heap.update] using hn
              · have hupd := Heap.update_node_eq
                  ({ (h.update node fun n => { n with type := NODE_TYPE.NODE_TYPE_EMPTY }) with
                    textures := (h.update node fun n =>
                      { n with type := NODE_TYPE.NODE_TYPE_EMPTY }).textures
                        ++ [texture_table ext fbx_scene] } : Heap F) node
                  (fun n => { n with texture_count := fbx_scene.textures.length,
                                     texture_array := some h.textures.length })
                  (by simpa [Heap.update] using hn)
                exact (congrArg Node.texture_array hupd).trans rfl
              · have hupd := Heap.update_node_eq
                  ({ (h.update node fun n => { n with type := NODE_TYPE.NODE_TYPE_EMPTY }) with
                    textures := (h.update node fun n =>
                      { n with type := NODE_TYPE.NODE_TYPE_EMPTY }).textures
                        ++ [texture_table ext fbx_scene] } : Heap F) node
                  (fun n => { n with texture_count := fbx_scene.textures.length,
                                     texture_array := some h.textures.length })
                  (by simpa [Heap.update] using hn)
                have hc := (congrArg Node.texture_count hupd).trans rfl
                have htab : (h.textures ++ [texture_table ext fbx_scene]).getD
                    h.textures.length [] = texture_table ext fbx_scene :=
                  getD_append_length _ _ _ _
                show (Heap.node _ node).texture_count ≤
                  ((h.textures ++ [texture_table ext fbx_scene]).getD h.textures.length []).length
                rw [htab]
                exact le_of_eq (hc.trans (by simp [texture_table]))
            · cases hr
              exact table_ok_update_fields _ _ _ _ ht (fun _ => ⟨rfl, rfl⟩)

theorem load_node_of_parts (ext : Ext D F) (fbx_scene : ufbx_scene D) (name : String)
    (lt gt : ufbx_transform D) (mesh : Option (ufbx_mesh D)) (light : Option ufbx_light)
    (camera : Option ufbx_camera) (is_root : Bool) (children : List (ufbx_node D))
    (root : Option Nat) (h : Heap F) (root1 : Option Nat) (h1 h' : Heap F)
    (hpay : load_payload ext fbx_scene mesh light camera is_root h.nodes.length root
        (load_header ext name lt gt h).2 = .ok (root1, h1))
    (hch : load_children ext fbx_scene children h.nodes.length root1
        (h1.update h.nodes.length fun n =>
          { n with child_array := [], child_count := children.length }) = .ok h') :
    load_node ext fbx_scene (.mk name lt gt mesh light camera is_root children) root h
      = .ok (h.nodes.length, h') := by
  rw [load_node]
  simp only [load_header_ptr, hpay, hch]


mutual
theorem load_node_total (ext : Ext D F) (fbx_scene : ufbx_scene D) :
    (fbx_node : ufbx_node D) → (root : Option Nat) → (h : Heap F) →
    Table_OK h root → meshes_are_safe ext fbx_node →
    ∃ p h', load_node ext fbx_scene fbx_node root h = .ok (p, h')
  | .mk name lt gt mesh light camera is_root children, root, h, ht, hsafe => by
    rw [meshes_are_safe] at hsafe
    obtain ⟨hmesh, hchildren⟩ := hsafe
    have hlen0 := load_header_length ext name lt gt h
    have ht1 : Table_OK (load_header ext name lt gt h).2 root :=
      table_ok_frame h _ root ht (by omega)
        (fun q hq => load_header_node_lt ext name lt gt h q hq)
        ⟨[], by rw [load_header_textures, List.append_nil]⟩
    obtain ⟨root1, h1, hpay⟩ := load_payload_total ext fbx_scene mesh light camera is_root
      h.nodes.length root (load_header ext name lt gt h).2 (fun m hm => ⟨hmesh m hm, ht1⟩)
    have hP := load_payload_post ext fbx_scene mesh light camera is_root _ root root1 _ h1
      (by omega) hpay
    have ht2 := load_payload_table_ok ext fbx_scene mesh light camera is_root _ root root1 _ h1
      (by omega) hpay ht1
    have ht3 : Table_OK (h1.update h.nodes.length fun n =>
        { n with child_array := [], child_count := children.length }) root1 :=
      table_ok_update_fields _ _ _ _ ht2 (fun _ => ⟨rfl, rfl⟩)
    obtain ⟨h', hch⟩ := load_children_total ext fbx_scene children h.nodes.length root1 _ ht3
      (by rw [Heap.update_length, hP.length]; omega) hchildren
    exact ⟨_, _, load_node_of_parts ext fbx_scene name lt gt mesh light camera is_root children
      root h root1 h1 h' hpay hch⟩
termination_by structural fbx_node => fbx_node
theorem load_children_total (ext : Ext D F) (fbx_scene : ufbx_scene D) :
    (fbx_children : List (ufbx_node D)) → (node : Nat) → (root : Option Nat) → (h : Heap F) →
    Table_OK h root → node < h.nodes.length → children_meshes_are_safe ext fbx_children →
    ∃ h', load_children ext fbx_scene fbx_children node root h = .ok h'
  | [], node, root, h, _, _, _ => ⟨h, by rw [load_children]⟩
  | fbx_child :: rest, node, root, h, ht, hn, hsafe => by
    rw [children_meshes_are_safe] at hsafe
    obtain ⟨hc, hrest⟩ := hsafe
    obtain ⟨child, h1, hl⟩ := load_node_total ext fbx_scene fbx_child root h ht hc
    have hN := load_node_post ext fbx_scene fbx_child root h child h1 hl
    have ht1 : Table_OK h1 root := table_ok_frame h h1 root ht (le_of_lt hN.grow) hN.frame hN.tex
    have hptr := hN.ptr
    have hgrow := hN.grow
    obtain ⟨r, arr, hroot, hr, _, _⟩ := ht
    subst hroot
    have hne : r ≠ child := by omega
    have ht2 := table_ok_update_fields h1 (some r) node
      (fun n => { n with child_array := n.child_array ++ [child] }) ht1 (fun _ => ⟨rfl, rfl⟩)
    have ht3 := table_ok_update_other _ r child
      (fun n => { n with parent := some node }) ht2 hne
    have ht4 := table_ok_update_other _ r child
      (fun n => { n with texture_array :=
        (((h1.update node fun n => { n with child_array := n.child_array ++ [child] }).update
          child fun n => { n with parent := some node }).node node).texture_array }) ht3 hne
    have ht5 := table_ok_update_other _ r child
      (fun n => { n with texture_count :=
        ((((h1.update node fun n => { n with child_array := n.child_array ++ [child] }).update
          child fun n => { n with parent := some node }).update child fun n =>
            { n with texture_array :=
              (((h1.update node fun n => { n with child_array := n.child_array ++ [child] }).update
                child fun n => { n with parent := some node }).node node).texture_array }).node
          node).texture_count }) ht4 hne
    obtain ⟨h', hch⟩ := load_children_total ext fbx_scene rest node (some r) _ ht5
      (by simp only [Heap.update_length]; omega) hrest
    refine ⟨h', ?_⟩
    rw [load_children, hl]
    exact hch
termination_by structural fbx_children => fbx_children
end

end safety

end PBR
end GPU

namespace GPU
namespace PBR

theorem texture_loop_same {F : Type} (materials : List ufbx_material) (material_index : Nat)
    (n1 n2 : Node F) (h1 h2 : Heap F)
    (htable : n1.texture_array.map (fun a => h1.textures.getD a []) =
      n2.texture_array.map (fun a => h2.textures.getD a [])) :
    ∀ (idxs : List Nat) (acc1 acc2 : Option (Nat × Nat)),
      acc1.map Prod.snd = acc2.map Prod.snd →
      (texture_loop materials material_index n1 h1 idxs acc1).map (Option.map Prod.snd) =
        (texture_loop materials material_index n2 h2 idxs acc2).map (Option.map Prod.snd) := by
  intro idxs
  induction idxs with
  | nil =>
    intro acc1 acc2 hacc
    simp only [texture_loop]
    show Except.ok (acc1.map Prod.snd) = Except.ok (acc2.map Prod.snd)
    rw [hacc]
  | cons i rest ih =>
    intro acc1 acc2 hacc
    rw [texture_loop, texture_loop]
    cases hm : materials.get? material_index with
    | none => rfl
    | some material =>
      simp only []
      cases hb : material.base_color_texture with
      | none => exact ih acc1 acc2 hacc
      | some texture =>
        simp only []
        cases ha1 : n1.texture_array with
        | none =>
          cases ha2 : n2.texture_array with
          | none => rfl
          | some a2 => rw [ha1, ha2] at htable; cases htable
        | some a1 =>
          cases ha2 : n2.texture_array with
          | none => rw [ha1, ha2] at htable; cases htable
          | some a2 =>
            rw [ha1, ha2] at htable
            have hl : h1.textures.getD a1 [] = h2.textures.getD a2 [] := Option.some.inj htable
            simp only [hl]
            cases he : (h2.textures.getD a2 []).get? i with
            | none => rfl
            | some entry =>
              simp only []
              by_cases hf : texture.filename = entry.path
              · rw [if_pos hf, if_pos hf]
                exact ih _ _ rfl
              · rw [if_neg hf, if_neg hf]
                exact ih _ _ hacc

/-- Two nodes handed to `load_mesh_part` with the same texture table give Mesh
Parts with the same content, or the same failure. -/
theorem load_mesh_part_same {D F : Type} [Zero F] [One F] [DecidableEq F] (ext : Ext D F)
    (mesh : ufbx_mesh D) (part : ufbx_mesh_part) (material_index : Nat)
    (root1 root2 : Option Nat) (h1 h2 : Heap F) (hR : Same_Root h1 root1 h2 root2) :
    (load_mesh_part ext mesh part material_index root1 h1).map Mesh_Part.content =
      (load_mesh_part ext mesh part material_index root2 h2).map Mesh_Part.content := by
  unfold load_mesh_part
  cases hv : unwelded_vertices ext mesh part with
  | error e => rfl
  | ok vertices =>
    simp only []
    rcases hR with ⟨hr1, hr2⟩ | ⟨r1, r2, hr1, hr2, _, _, hT⟩
    · subst hr1 hr2
      rfl
    · subst hr1 hr2
      simp only []
      have hloop := texture_loop_same mesh.materials material_index (h1.node r1) (h2.node r2)
        h1 h2 hT.table (List.range (h1.node r1).texture_count) none none rfl
      rw [hT.count] at hloop ⊢
      cases ht1 : texture_loop mesh.materials material_index (h1.node r1) h1
          (List.range (h2.node r2).texture_count) none with
      | error e1 =>
        cases ht2 : texture_loop mesh.materials material_index (h2.node r2) h2
            (List.range (h2.node r2).texture_count) none with
        | error e2 =>
          rw [ht1, ht2] at hloop
          have : e1 = e2 := by injection hloop
          subst this
          rfl
        | ok c2 => rw [ht1, ht2] at hloop; cases hloop
      | ok c1 =>
        cases ht2 : texture_loop mesh.materials material_index (h2.node r2) h2
            (List.range (h2.node r2).texture_count) none with
        | error e2 => rw [ht1, ht2] at hloop; cases hloop
        | ok c2 =>
          rw [ht1, ht2] at hloop
          have hc : c1.map Prod.snd = c2.map Prod.snd := by injection hloop
          show Except.ok (Mesh_Part.content _) = Except.ok (Mesh_Part.content _)
          simp only [Mesh_Part.content, hc]

theorem mesh_parts_loop_same {D F : Type} [Zero F] [One F] [DecidableEq F] (ext : Ext D F)
    (mesh : ufbx_mesh D) (root1 root2 : Option Nat) (h1 h2 : Heap F)
    (hR : Same_Root h1 root1 h2 root2) :
    ∀ (parts : List ufbx_mesh_part) (i : Nat),
      (mesh_parts_loop ext mesh root1 h1 parts i).map (List.map Mesh_Part.content) =
        (mesh_parts_loop ext mesh root2 h2 parts i).map (List.map Mesh_Part.content) := by
  intro parts
  induction parts with
  | nil => intro i; rfl
  | cons part rest ih =>
    intro i
    rw [mesh_parts_loop, mesh_parts_loop]
    have hp := load_mesh_part_same ext mesh part i root1 root2 h1 h2 hR
    have hrest := ih (i + 1)
    cases hp1 : load_mesh_part ext mesh part i root1 h1 with
    | error e1 =>
      cases hp2 : load_mesh_part ext mesh part i root2 h2 with
      | error e2 =>
        rw [hp1, hp2] at hp
        have : e1 = e2 := by injection hp
        subst this
        rfl
      | ok m2 => rw [hp1, hp2] at hp; cases hp
    | ok m1 =>
      cases hp2 : load_mesh_part ext mesh part i root2 h2 with
      | error e2 => rw [hp1, hp2] at hp; cases hp
      | ok m2 =>
        rw [hp1, hp2] at hp
        have hm : m1.content = m2.content := by injection hp
        simp only []
        cases hr1 : mesh_parts_loop ext mesh root1 h1 rest (i + 1) with
        | error e1 =>
          cases hr2 : mesh_parts_loop ext mesh root2 h2 rest (i + 1) with
          | error e2 =>
            rw [hr1, hr2] at hrest
            have : e1 = e2 := by injection hrest
            subst this
            rfl
          | ok l2 => rw [hr1, hr2] at hrest; cases hrest
        | ok l1 =>
          cases hr2 : mesh_parts_loop ext mesh root2 h2 rest (i + 1) with
          | error e2 => rw [hr1, hr2] at hrest; cases hrest
          | ok l2 =>
            rw [hr1, hr2] at hrest
            have hl : l1.map Mesh_Part.content = l2.map Mesh_Part.content := by
              injection hrest
            show Except.ok (List.map Mesh_Part.content (m1 :: l1)) =
              Except.ok (List.map Mesh_Part.content (m2 :: l2))
            rw [List.map_cons, List.map_cons, hm, hl]

end PBR
end GPU

namespace GPU
namespace PBR

section same
variable {F : Type} [Zero F]

omit [Zero F] in
theorem same_node_refl (n : Node F) : Same_Node n n :=
  ⟨rfl, rfl, rfl, rfl, rfl, rfl, rfl, rfl, rfl, rfl, rfl, rfl, rfl, rfl⟩

theorem getD_append_of_lt {α : Type} (l t : List α) (a : Nat) (d : α) (ha : a < l.length) :
    (l ++ t).getD a d = l.getD a d := by
  rw [List.getD_eq_getElem?_getD, List.getD_eq_getElem?_getD, List.getElem?_append_left ha]

/-- The table relation survives heap changes that keep the texture fields of
the two nodes and only add texture arrays. -/
theorem same_table_kept (h1 k1 h2 k2 : Heap F) (q1 q2 : Nat) (hT : Same_Table h1 q1 h2 q2)
    (ha1 : (k1.node q1).texture_array = (h1.node q1).texture_array)
    (hc1 : (k1.node q1).texture_count = (h1.node q1).texture_count)
    (ht1 : ∃ t, k1.textures = h1.textures ++ t)
    (ha2 : (k2.node q2).texture_array = (h2.node q2).texture_array)
    (hc2 : (k2.node q2).texture_count = (h2.node q2).texture_count)
    (ht2 : ∃ t, k2.textures = h2.textures ++ t) : Same_Table k1 q1 k2 q2 := by
  obtain ⟨t1, ht1⟩ := ht1
  obtain ⟨t2, ht2⟩ := ht2
  have e1 : (k1.node q1).texture_array.map (fun a => k1.textures.getD a []) =
      (h1.node q1).texture_array.map (fun a => h1.textures.getD a []) := by
    rw [ha1]
    cases hx : (h1.node q1).texture_array with
    | none => rfl
    | some a =>
      show some (k1.textures.getD a []) = some (h1.textures.getD a [])
      rw [ht1, getD_append_of_lt _ _ _ _ (hT.in_range1 a hx)]
  have e2 : (k2.node q2).texture_array.map (fun a => k2.textures.getD a []) =
      (h2.node q2).texture_array.map (fun a => h2.textures.getD a []) := by
    rw [ha2]
    cases hx : (h2.node q2).texture_array with
    | none => rfl
    | some a =>
      show some (k2.textures.getD a []) = some (h2.textures.getD a [])
      rw [ht2, getD_append_of_lt _ _ _ _ (hT.in_range2 a hx)]
  refine ⟨?_, ?_, by rw [e1, e2]; exact hT.table, by rw [hc1, hc2]; exact hT.count⟩
  · intro a hx
    rw [ha1] at hx
    have := hT.in_range1 a hx
    rw [ht1, List.length_append]
    omega
  · intro a hx
    rw [ha2] at hx
    have := hT.in_range2 a hx
    rw [ht2, List.length_append]
    omega

/-- The relation on the `root` arguments survives heap changes that keep the
nodes allocated so far and only add texture arrays. -/
theorem same_root_kept (h1 k1 h2 k2 : Heap F) (root1 root2 : Option Nat)
    (hR : Same_Root h1 root1 h2 root2)
    (hl1 : h1.nodes.length ≤ k1.nodes.length) (hl2 : h2.nodes.length ≤ k2.nodes.length)
    (hf1 : ∀ r, r < h1.nodes.length →
      (k1.node r).texture_array = (h1.node r).texture_array ∧
      (k1.node r).texture_count = (h1.node r).texture_count)
    (hf2 : ∀ r, r < h2.nodes.length →
      (k2.node r).texture_array = (h2.node r).texture_array ∧
      (k2.node r).texture_count = (h2.node r).texture_count)
    (ht1 : ∃ t, k1.textures = h1.textures ++ t)
    (ht2 : ∃ t, k2.textures = h2.textures ++ t) : Same_Root k1 root1 k2 root2 := by
  rcases hR with ⟨hr1, hr2⟩ | ⟨r1, r2, hr1, hr2, hlt1, hlt2, hT⟩
  · exact Or.inl ⟨hr1, hr2⟩
  · refine Or.inr ⟨r1, r2, hr1, hr2, by omega, by omega, ?_⟩
    exact same_table_kept h1 k1 h2 k2 r1 r2 hT (hf1 r1 hlt1).1 (hf1 r1 hlt1).2 ht1
      (hf2 r2 hlt2).1 (hf2 r2 hlt2).2 ht2

/-- An update that keeps the texture fields of every record keeps them at every
address. -/
theorem update_keeps_texture_fields (h : Heap F) (p q : Nat) (f : Node F → Node F)
    (hf : ∀ n, (f n).texture_array = n.texture_array ∧ (f n).texture_count = n.texture_count) :
    ((h.update p f).node q).texture_array = (h.node q).texture_array ∧
    ((h.update p f).node q).texture_count = (h.node q).texture_count := by
  by_cases hqp : q = p
  · subst hqp
    by_cases hq : q < h.nodes.length
    · rw [Heap.update_node_eq _ _ _ hq]
      exact hf _
    · have e1 : (h.update q f).node q = Node.zero := by
        simp [Heap.node, Heap.update, List.getD_eq_getElem?_getD,
          List.getElem?_eq_none (show h.nodes.length ≤ q by omega)]
      have e2 : h.node q = Node.zero := by
        simp [Heap.node, List.getD_eq_getElem?_getD,
          List.getElem?_eq_none (show h.nodes.length ≤ q by omega)]
      rw [e1, e2]
      exact ⟨rfl, rfl⟩
  · rw [Heap.update_node_ne _ _ _ _ hqp]
    exact ⟨rfl, rfl⟩

theorem child_step_length (h : Heap F) (node child : Nat) :
    (child_step h node child).nodes.length = h.nodes.length := by
  simp [child_step, Heap.update_length]

theorem child_step_textures (h : Heap F) (node child : Nat) :
    (child_step h node child).textures = h.textures := rfl

theorem child_step_other (h : Heap F) (node child q : Nat) (h1 : q ≠ node) (h2 : q ≠ child) :
    (child_step h node child).node q = h.node q := by
  simp only [child_step]
  rw [Heap.update_node_ne _ _ _ _ h2, Heap.update_node_ne _ _ _ _ h2,
    Heap.update_node_ne _ _ _ _ h2, Heap.update_node_ne _ _ _ _ h1]

theorem child_step_node (h : Heap F) (node child : Nat) (hne : node ≠ child)
    (hn : node < h.nodes.length) :
    (child_step h node child).node node =
      { h.node node with child_array := (h.node node).child_array ++ [child] } := by
  simp only [child_step]
  rw [Heap.update_node_ne _ _ _ _ hne, Heap.update_node_ne _ _ _ _ hne,
    Heap.update_node_ne _ _ _ _ hne, Heap.update_node_eq _ _ _ hn]

theorem child_step_child (h : Heap F) (node child : Nat) (hne : node ≠ child)
    (hc : child < h.nodes.length) :
    (child_step h node child).node child =
      { h.node child with
        parent := some node,
        texture_array := (h.node node).texture_array,
        texture_count := (h.node node).texture_count } := by
  simp only [child_step]
  rw [Heap.update_node_eq _ _ _ (by simp only [Heap.update_length]; exact hc),
    Heap.update_node_eq _ _ _ (by simp only [Heap.update_length]; exact hc),
    Heap.update_node_eq _ _ _ (by simp only [Heap.update_length]; exact hc),
    Heap.update_node_ne _ _ _ _ (Ne.symm hne)]
  simp only [Heap.update_node_ne _ _ _ _ hne, Heap.update_node_ne _ _ _ _ (Ne.symm hne)]
  by_cases hn : node < h.nodes.length
  · rw [Heap.update_node_eq _ _ _ hn]
  · have e1 : ∀ f, (h.update node f).node node = h.node node := by
      intro f
      simp [Heap.node, Heap.update, List.getD_eq_getElem?_getD,
        List.getElem?_eq_none (show h.nodes.length ≤ node by omega)]
    rw [e1]

end same

theorem load_children_cons {D F : Type} [Zero F] [One F] [DecidableEq F] (ext : Ext D F)
    (fbx_scene : ufbx_scene D) (fbx_child : ufbx_node D) (rest : List (ufbx_node D))
    (node : Nat) (root : Option Nat) (h : Heap F) :
    load_children ext fbx_scene (fbx_child :: rest) node root h =
      match load_node ext fbx_scene fbx_child root h with
      | .error e => .error e
      | .ok (child, h1) => load_children ext fbx_scene rest node root (child_step h1 node child) := by
  rw [load_children]
  rfl

end PBR
end GPU

namespace GPU
namespace PBR

section same_payload
variable {F : Type} [Zero F]

theorem same_update (h1 h2 : Heap F) (node1 node2 : Nat) (root1 root2 : Option Nat)
    (f1 f2 : Node F → Node F)
    (hn1 : node1 < h1.nodes.length) (hn2 : node2 < h2.nodes.length)
    (hT : Same_Table h1 node1 h2 node2) (hR : Same_Root h1 root1 h2 root2)
    (hf1 : ∀ n, (f1 n).texture_array = n.texture_array ∧ (f1 n).texture_count = n.texture_count)
    (hf2 : ∀ n, (f2 n).texture_array = n.texture_array ∧ (f2 n).texture_count = n.texture_count)
    (hS : Same_Node (f1 (h1.node node1)) (f2 (h2.node node2))) :
    Same_Node ((h1.update node1 f1).node node1) ((h2.update node2 f2).node node2) ∧
    Same_Table (h1.update node1 f1) node1 (h2.update node2 f2) node2 ∧
    Same_Root (h1.update node1 f1) root1 (h2.update node2 f2) root2 := by
  refine ⟨?_, ?_, ?_⟩
  · rw [Heap.update_node_eq _ _ _ hn1, Heap.update_node_eq _ _ _ hn2]
    exact hS
  · exact same_table_kept h1 _ h2 _ node1 node2 hT
      (update_keeps_texture_fields h1 node1 node1 f1 hf1).1
      (update_keeps_texture_fields h1 node1 node1 f1 hf1).2 ⟨[], by simp [Heap.update]⟩
      (update_keeps_texture_fields h2 node2 node2 f2 hf2).1
      (update_keeps_texture_fields h2 node2 node2 f2 hf2).2 ⟨[], by simp [Heap.update]⟩
  · exact same_root_kept h1 _ h2 _ root1 root2 hR
      (by rw [Heap.update_length]) (by rw [Heap.update_length])
      (fun r _ => update_keeps_texture_fields h1 node1 r f1 hf1)
      (fun r _ => update_keeps_texture_fields h2 node2 r f2 hf2)
      ⟨[], by simp [Heap.update]⟩ ⟨[], by simp [Heap.update]⟩

end same_payload

/-- What the branch of `load_node` for a root without payload writes. -/
theorem load_payload_root_node {D F : Type} [Zero F] (ext : Ext D F)
    (fbx_scene : ufbx_scene D) (node : Nat) (root' : Option Nat) (h h' : Heap F)
    (hn : node < h.nodes.length)
    (hr : (Except.ok (some node,
        Heap.update
          { (h.update node fun n => { n with type := NODE_TYPE.NODE_TYPE_EMPTY }) with
            textures := (h.update node fun n =>
              { n with type := NODE_TYPE.NODE_TYPE_EMPTY }).textures
                ++ [texture_table ext fbx_scene] } node
          fun n => { n with texture_count := fbx_scene.textures.length,
                            texture_array := some (h.update node fun n =>
                              { n with type := NODE_TYPE.NODE_TYPE_EMPTY }).textures.length }) :
        Except Failure (Option Nat × Heap F)) = .ok (root', h')) :
    root' = some node ∧
    h'.node node = { h.node node with
      type := NODE_TYPE.NODE_TYPE_EMPTY,
      texture_count := fbx_scene.textures.length,
      texture_array := some h.textures.length } ∧
    h'.textures = h.textures ++ [texture_table ext fbx_scene] ∧
    h'.nodes.length = h.nodes.length := by
  cases hr
  refine ⟨rfl, ?_, rfl, by simp [Heap.update]⟩
  rw [Heap.update_node_eq _ _ _ (by simpa [Heap.update] using hn)]
  have hb : (Heap.node ({ (h.update node fun n =>
        { n with type := NODE_TYPE.NODE_TYPE_EMPTY }) with
      textures := (h.update node fun n =>
        { n with type := NODE_TYPE.NODE_TYPE_EMPTY }).textures
          ++ [texture_table ext fbx_scene] } : Heap F) node) =
      { h.node node with type := NODE_TYPE.NODE_TYPE_EMPTY } :=
    Heap.update_node_eq h node _ hn
  rw [hb]
  rfl

theorem load_payload_same {D F : Type} [Zero F] [One F] [DecidableEq F] (ext : Ext D F)
    (fbx_scene : ufbx_scene D) (mesh : Option (ufbx_mesh D)) (light : Option ufbx_light)
    (camera : Option ufbx_camera) (is_root : Bool) (node1 node2 : Nat)
    (root1 root2 root1' root2' : Option Nat) (h1 h2 h1' h2' : Heap F)
    (hn1 : node1 < h1.nodes.length) (hn2 : node2 < h2.nodes.length)
    (hS : Same_Node (h1.node node1) (h2.node node2))
    (hT : Same_Table h1 node1 h2 node2) (hR : Same_Root h1 root1 h2 root2)
    (hr1 : load_payload ext fbx_scene mesh light camera is_root node1 root1 h1
      = .ok (root1', h1'))
    (hr2 : load_payload ext fbx_scene mesh light camera is_root node2 root2 h2
      = .ok (root2', h2')) :
    Same_Node (h1'.node node1) (h2'.node node2) ∧ Same_Table h1' node1 h2' node2 ∧
    Same_Root h1' root1' h2' root2' := by
  unfold load_payload at hr1 hr2
  cases mesh with
  | some m =>
    simp only [] at hr1 hr2
    have hloop := mesh_parts_loop_same ext m root1 root2 h1 h2 hR m.material_parts 0
    cases hm1 : mesh_parts_loop ext m root1 h1 m.material_parts 0 with
    | error e => rw [hm1] at hr1; cases hr1
    | ok mps1 =>
      cases hm2 : mesh_parts_loop ext m root2 h2 m.material_parts 0 with
      | error e => rw [hm2] at hr2; cases hr2
      | ok mps2 =>
        rw [hm1] at hr1
        rw [hm2] at hr2
        rw [hm1, hm2] at hloop
        have hmps : mps1.map Mesh_Part.content = mps2.map Mesh_Part.content := by
          injection hloop
        cases hr1
        cases hr2
        exact same_update h1 h2 node1 node2 root1 root2 _ _ hn1 hn2 hT hR
          (fun _ => ⟨rfl, rfl⟩) (fun _ => ⟨rfl, rfl⟩)
          ⟨rfl, hS.name, hS.local_position, hS.local_rotation, hS.local_scale,
            hS.geometry_position, hS.geometry_rotation, hS.geometry_scale, rfl, hmps,
            hS.child_count, hS.parent, hS.texture_count, hS.texture_array⟩
  | none =>
    simp only [] at hr1 hr2
    by_cases c1 : light.any (fun l => l.type = ufbx_light_type.UFBX_LIGHT_POINT) = true
    · rw [if_pos c1] at hr1 hr2
      cases hr1
      cases hr2
      exact ⟨hS, hT, hR⟩
    · rw [if_neg c1] at hr1 hr2
      by_cases c2 : light.any (fun l => l.type = ufbx_light_type.UFBX_LIGHT_SPOT) = true
      · rw [if_pos c2] at hr1 hr2
        cases hr1
        cases hr2
        exact ⟨hS, hT, hR⟩
      · rw [if_neg c2] at hr1 hr2
        by_cases c3 : light.any
            (fun l => l.type = ufbx_light_type.UFBX_LIGHT_DIRECTIONAL) = true
        · rw [if_pos c3] at hr1 hr2
          cases hr1
          cases hr2
          exact ⟨hS, hT, hR⟩
        · rw [if_neg c3] at hr1 hr2
          by_cases c4 : camera.isSome = true
          · rw [if_pos c4] at hr1 hr2
            cases hr1
            cases hr2
            exact same_update h1 h2 node1 node2 root1 root2 _ _ hn1 hn2 hT hR
              (fun _ => ⟨rfl, rfl⟩) (fun _ => ⟨rfl, rfl⟩)
              ⟨rfl, hS.name, hS.local_position, hS.local_rotation, hS.local_scale,
                hS.geometry_position, hS.geometry_rotation, hS.geometry_scale,
                hS.mesh_parts_count, hS.mesh_parts, hS.child_count, hS.parent,
                hS.texture_count, hS.texture_array⟩
          · rw [if_neg c4] at hr1 hr2
            by_cases c5 : is_root = true
            · rw [if_pos c5] at hr1 hr2
              obtain ⟨hro1, hu1, htx1, hlen1⟩ :=
                load_payload_root_node ext fbx_scene node1 root1' h1 h1' hn1 hr1
              obtain ⟨hro2, hu2, htx2, hlen2⟩ :=
                load_payload_root_node ext fbx_scene node2 root2' h2 h2' hn2 hr2
              have hT' : Same_Table h1' node1 h2' node2 := by
                refine ⟨?_, ?_, ?_, ?_⟩
                · intro a ha
                  rw [hu1] at ha
                  have : h1.textures.length = a := Option.some.inj ha
                  subst this
                  rw [htx1]
                  simp
                · intro a ha
                  rw [hu2] at ha
                  have : h2.textures.length = a := Option.some.inj ha
                  subst this
                  rw [htx2]
                  simp
                · rw [hu1, hu2, htx1, htx2]
                  show some ((h1.textures ++ [texture_table ext fbx_scene]).getD
                      h1.textures.length []) =
                    some ((h2.textures ++ [texture_table ext fbx_scene]).getD
                      h2.textures.length [])
                  rw [getD_append_length, getD_append_length]
                · rw [hu1, hu2]
              refine ⟨?_, hT', Or.inr ⟨node1, node2, hro1, hro2, by omega, by omega, hT'⟩⟩
              rw [hu1, hu2]
              exact ⟨rfl, hS.name, hS.local_position, hS.local_rotation, hS.local_scale,
                hS.geometry_position, hS.geometry_rotation, hS.geometry_scale,
                hS.mesh_parts_count, hS.mesh_parts, hS.child_count, hS.parent, rfl, rfl⟩
            · rw [if_neg c5] at hr1 hr2
              cases hr1
              cases hr2
              exact same_update h1 h2 node1 node2 root1 root2 _ _ hn1 hn2 hT hR
                (fun _ => ⟨rfl, rfl⟩) (fun _ => ⟨rfl, rfl⟩)
                ⟨rfl, hS.name, hS.local_position, hS.local_rotation, hS.local_scale,
                  hS.geometry_position, hS.geometry_rotation, hS.geometry_scale,
                  hS.mesh_parts_count, hS.mesh_parts, hS.child_count, hS.parent,
                  hS.texture_count, hS.texture_array⟩

end PBR
end GPU

namespace GPU
namespace PBR

section same_model
variable {D F : Type} [Zero F]

theorem same_model_node (h1 h2 : Heap F) (fbx_node : ufbx_node D) (q1 q2 : Nat)
    (hM : Same_Model h1 h2 fbx_node q1 q2) :
    q1 < h1.nodes.length ∧ q2 < h2.nodes.length ∧ Same_Node (h1.node q1) (h2.node q2) := by
  cases fbx_node with
  | mk name lt gt mesh light camera is_root children =>
    rw [Same_Model] at hM
    exact ⟨hM.1, hM.2.1, hM.2.2.1⟩

mutual
theorem Same_Model_congr (h1 k1 h2 k2 : Heap F)
    (hl1 : h1.nodes.length ≤ k1.nodes.length) (hl2 : h2.nodes.length ≤ k2.nodes.length) :
    (fbx_node : ufbx_node D) → (q1 q2 : Nat) → Same_Model h1 h2 fbx_node q1 q2 →
    (∀ r, q1 < r → r < h1.nodes.length → k1.node r = h1.node r) →
    (∀ r, q2 < r → r < h2.nodes.length → k2.node r = h2.node r) →
    Same_Node (k1.node q1) (k2.node q2) →
    (k1.node q1).child_array = (h1.node q1).child_array →
    (k2.node q2).child_array = (h2.node q2).child_array →
    Same_Model k1 k2 fbx_node q1 q2
  | .mk name lt gt mesh light camera is_root children, q1, q2, hM, hf1, hf2, hS, hc1, hc2 => by
    rw [Same_Model] at hM ⊢
    obtain ⟨hq1, hq2, _, hC⟩ := hM
    refine ⟨by omega, by omega, hS, ?_⟩
    rw [hc1, hc2]
    exact Same_Children_congr h1 k1 h2 k2 hl1 hl2 children q1 q2 _ _ hC hf1 hf2
termination_by structural fbx_node => fbx_node
theorem Same_Children_congr (h1 k1 h2 k2 : Heap F)
    (hl1 : h1.nodes.length ≤ k1.nodes.length) (hl2 : h2.nodes.length ≤ k2.nodes.length) :
    (fbx_children : List (ufbx_node D)) → (q1 q2 : Nat) → (cs1 cs2 : List Nat) →
    Same_Children h1 h2 fbx_children q1 q2 cs1 cs2 →
    (∀ r, q1 < r → r < h1.nodes.length → k1.node r = h1.node r) →
    (∀ r, q2 < r → r < h2.nodes.length → k2.node r = h2.node r) →
    Same_Children k1 k2 fbx_children q1 q2 cs1 cs2
  | [], q1, q2, cs1, cs2, hC, _, _ => by
    rw [Same_Children] at hC ⊢
    exact hC
  | fbx_child :: rest, q1, q2, cs1, cs2, hC, hf1, hf2 => by
    rw [Same_Children] at hC ⊢
    obtain ⟨c1, cs1', c2, cs2', e1, e2, hqc1, hqc2, hp1, hp2, hM, hrest⟩ := hC
    obtain ⟨hc1, hc2, _⟩ := same_model_node h1 h2 fbx_child c1 c2 hM
    have hn1 := hf1 c1 hqc1 hc1
    have hn2 := hf2 c2 hqc2 hc2
    refine ⟨c1, cs1', c2, cs2', e1, e2, hqc1, hqc2, by rw [hn1]; exact hp1,
      by rw [hn2]; exact hp2, ?_, ?_⟩
    · exact Same_Model_congr h1 k1 h2 k2 hl1 hl2 fbx_child c1 c2 hM
        (fun r hr1 hr2 => hf1 r (by omega) hr2) (fun r hr1 hr2 => hf2 r (by omega) hr2)
        (by rw [hn1, hn2]; exact (same_model_node h1 h2 fbx_child c1 c2 hM).2.2)
        (by rw [hn1]) (by rw [hn2])
    · exact Same_Children_congr h1 k1 h2 k2 hl1 hl2 rest q1 q2 cs1' cs2' hrest hf1 hf2
termination_by structural fbx_children => fbx_children
end

end same_model

end PBR
end GPU

namespace GPU
namespace PBR

section determinism
variable {D F : Type} [Zero F] [One F] [DecidableEq F]

mutual
theorem load_node_same (ext : Ext D F) (fbx_scene : ufbx_scene D) :
    (fbx_node : ufbx_node D) → (root1 : Option Nat) → (h1 : Heap F) → (p1 : Nat) →
    (h1' : Heap F) → (root2 : Option Nat) → (h2 : Heap F) → (p2 : Nat) → (h2' : Heap F) →
    Same_Root h1 root1 h2 root2 →
    load_node ext fbx_scene fbx_node root1 h1 = .ok (p1, h1') →
    load_node ext fbx_scene fbx_node root2 h2 = .ok (p2, h2') →
    Same_Model h1' h2' fbx_node p1 p2 ∧ Same_Table h1' p1 h2' p2
  | .mk name lt gt mesh light camera is_root children, root1, h1, p1, h1', root2, h2, p2, h2',
      hR, hr1, hr2 => by
    obtain ⟨rfl, ra1, ha1, hpay1, hch1⟩ :=
      load_node_ok ext fbx_scene name lt gt mesh light camera is_root children root1 h1 p1 h1' hr1
    obtain ⟨rfl, ra2, ha2, hpay2, hch2⟩ :=
      load_node_ok ext fbx_scene name lt gt mesh light camera is_root children root2 h2 p2 h2' hr2
    have hlen1 := load_header_length ext name lt gt h1
    have hlen2 := load_header_length ext name lt gt h2
    have hnew1 := load_header_node_new ext name lt gt h1
    have hnew2 := load_header_node_new ext name lt gt h2
    have hS0 : Same_Node ((load_header ext name lt gt h1).2.node h1.nodes.length)
        ((load_header ext name lt gt h2).2.node h2.nodes.length) := by
      rw [hnew1, hnew2]
      exact same_node_refl _
    have hT0 : Same_Table (load_header ext name lt gt h1).2 h1.nodes.length
        (load_header ext name lt gt h2).2 h2.nodes.length := by
      refine ⟨?_, ?_, ?_, ?_⟩
      · intro a ha
        rw [hnew1] at ha
        cases ha
      · intro a ha
        rw [hnew2] at ha
        cases ha
      · rw [hnew1, hnew2]
        rfl
      · rw [hnew1, hnew2]
    have hR0 : Same_Root (load_header ext name lt gt h1).2 root1
        (load_header ext name lt gt h2).2 root2 :=
      same_root_kept h1 _ h2 _ root1 root2 hR (by omega) (by omega)
        (fun r hr => by rw [load_header_node_lt ext name lt gt h1 r hr]; exact ⟨rfl, rfl⟩)
        (fun r hr => by rw [load_header_node_lt ext name lt gt h2 r hr]; exact ⟨rfl, rfl⟩)
        ⟨[], by rw [load_header_textures, List.append_nil]⟩
        ⟨[], by rw [load_header_textures, List.append_nil]⟩
    obtain ⟨hSa, hTa, hRa⟩ := load_payload_same ext fbx_scene mesh light camera is_root
      h1.nodes.length h2.nodes.length root1 root2 ra1 ra2 _ _ ha1 ha2 (by omega) (by omega)
      hS0 hT0 hR0 hpay1 hpay2
    have hP1 := load_payload_post ext fbx_scene mesh light camera is_root _ root1 ra1 _ ha1
      (by omega) hpay1
    have hP2 := load_payload_post ext fbx_scene mesh light camera is_root _ root2 ra2 _ ha2
      (by omega) hpay2
    have hla1 : h1.nodes.length < ha1.nodes.length := by rw [hP1.length]; omega
    have hla2 : h2.nodes.length < ha2.nodes.length := by rw [hP2.length]; omega
    obtain ⟨hSb, hTb, hRb⟩ := same_update ha1 ha2 h1.nodes.length h2.nodes.length ra1 ra2
      (fun n => { n with child_array := [], child_count := children.length })
      (fun n => { n with child_array := [], child_count := children.length })
      hla1 hla2 hTa hRa (fun _ => ⟨rfl, rfl⟩) (fun _ => ⟨rfl, rfl⟩)
      ⟨hSa.type, hSa.name, hSa.local_position, hSa.local_rotation, hSa.local_scale,
        hSa.geometry_position, hSa.geometry_rotation, hSa.geometry_scale,
        hSa.mesh_parts_count, hSa.mesh_parts, rfl, hSa.parent, hSa.texture_count,
        hSa.texture_array⟩
    have hlb1 : h1.nodes.length < (ha1.update h1.nodes.length fun n =>
        { n with child_array := [], child_count := children.length }).nodes.length := by
      rw [Heap.update_length]; exact hla1
    have hlb2 : h2.nodes.length < (ha2.update h2.nodes.length fun n =>
        { n with child_array := [], child_count := children.length }).nodes.length := by
      rw [Heap.update_length]; exact hla2
    obtain ⟨cs1, cs2, hca1, hca2, hC⟩ := load_children_same ext fbx_scene children
      h1.nodes.length ra1 _ h1' h2.nodes.length ra2 _ h2' hlb1 hlb2 hRb hSb hch1 hch2
    have hC1 := load_children_post ext fbx_scene children h1.nodes.length ra1 _ h1' hlb1 hch1
    have hC2 := load_children_post ext fbx_scene children h2.nodes.length ra2 _ h2' hlb2 hch2
    obtain ⟨ds1, hd1, _⟩ := hC1.node_eq
    obtain ⟨ds2, hd2, _⟩ := hC2.node_eq
    have hg1 := hC1.grow
    have hg2 := hC2.grow
    have hSf : Same_Node (h1'.node h1.nodes.length) (h2'.node h2.nodes.length) := by
      rw [hd1, hd2]
      exact ⟨hSb.type, hSb.name, hSb.local_position, hSb.local_rotation, hSb.local_scale,
        hSb.geometry_position, hSb.geometry_rotation, hSb.geometry_scale,
        hSb.mesh_parts_count, hSb.mesh_parts, hSb.child_count, hSb.parent, hSb.texture_count,
        hSb.texture_array⟩
    have hTf : Same_Table h1' h1.nodes.length h2' h2.nodes.length :=
      same_table_kept _ h1' _ h2' _ _ hTb (by rw [hd1]) (by rw [hd1]) hC1.tex
        (by rw [hd2]) (by rw [hd2]) hC2.tex
    refine ⟨?_, hTf⟩
    rw [Same_Model]
    refine ⟨by omega, by omega, hSf, ?_⟩
    rw [hca1, hca2, Heap.update_node_eq _ _ _ hla1, Heap.update_node_eq _ _ _ hla2]
    exact hC
termination_by structural fbx_node => fbx_node
theorem load_children_same (ext : Ext D F) (fbx_scene : ufbx_scene D) :
    (fbx_children : List (ufbx_node D)) → (node1 : Nat) → (root1 : Option Nat) →
    (h1 h1' : Heap F) → (node2 : Nat) → (root2 : Option Nat) → (h2 h2' : Heap F) →
    node1 < h1.nodes.length → node2 < h2.nodes.length →
    Same_Root h1 root1 h2 root2 → Same_Node (h1.node node1) (h2.node node2) →
    load_children ext fbx_scene fbx_children node1 root1 h1 = .ok h1' →
    load_children ext fbx_scene fbx_children node2 root2 h2 = .ok h2' →
    ∃ cs1 cs2, (h1'.node node1).child_array = (h1.node node1).child_array ++ cs1 ∧
      (h2'.node node2).child_array = (h2.node node2).child_array ++ cs2 ∧
      Same_Children h1' h2' fbx_children node1 node2 cs1 cs2
  | [], node1, root1, h1, h1', node2, root2, h2, h2', _, _, _, _, hr1, hr2 => by
    rw [load_children] at hr1 hr2
    cases hr1
    cases hr2
    refine ⟨[], [], by simp, by simp, ?_⟩
    rw [Same_Children]
    exact ⟨rfl, rfl⟩
  | fbx_child :: rest, node1, root1, h1, h1', node2, root2, h2, h2', hn1, hn2, hR, hS,
      hr1, hr2 => by
    rw [load_children_cons] at hr1 hr2
    cases hl1 : load_node ext fbx_scene fbx_child root1 h1 with
    | error e => rw [hl1] at hr1; cases hr1
    | ok r1 =>
      cases hl2 : load_node ext fbx_scene fbx_child root2 h2 with
      | error e => rw [hl2] at hr2; cases hr2
      | ok r2 =>
        obtain ⟨c1, ha1⟩ := r1
        obtain ⟨c2, ha2⟩ := r2
        rw [hl1] at hr1
        rw [hl2] at hr2
        simp only [] at hr1 hr2
        have hN1 := load_node_post ext fbx_scene fbx_child root1 h1 c1 ha1 hl1
        have hN2 := load_node_post ext fbx_scene fbx_child root2 h2 c2 ha2 hl2
        have hp1 := hN1.ptr
        have hp2 := hN2.ptr
        have hg1 := hN1.grow
        have hg2 := hN2.grow
        have hne1 : node1 ≠ c1 := by omega
        have hne2 : node2 ≠ c2 := by omega
        obtain ⟨hM, _⟩ := load_node_same ext fbx_scene fbx_child root1 h1 c1 ha1 root2 h2 c2
          ha2 hR hl1 hl2
        obtain ⟨_, _, hSc⟩ := same_model_node ha1 ha2 fbx_child c1 c2 hM
        have hsc1 := child_step_child ha1 node1 c1 hne1 (by omega)
        have hsc2 := child_step_child ha2 node2 c2 hne2 (by omega)
        have hsn1 := child_step_node ha1 node1 c1 hne1 (by omega)
        have hsn2 := child_step_node ha2 node2 c2 hne2 (by omega)
        have hfn1 := hN1.frame node1 hn1
        have hfn2 := hN2.frame node2 hn2
        -- the child subtree in the heaps after the writes of the iteration
        have hMs : Same_Model (child_step ha1 node1 c1) (child_step ha2 node2 c2)
            fbx_child c1 c2 :=
          Same_Model_congr ha1 _ ha2 _ (by rw [child_step_length]) (by rw [child_step_length])
            fbx_child c1 c2 hM
            (fun r hr1 _ => child_step_other ha1 node1 c1 r (by omega) (by omega))
            (fun r hr1 _ => child_step_other ha2 node2 c2 r (by omega) (by omega))
            (by
              rw [hsc1, hsc2, hfn1, hfn2]
              exact ⟨hSc.type, hSc.name, hSc.local_position, hSc.local_rotation,
                hSc.local_scale, hSc.geometry_position, hSc.geometry_rotation,
                hSc.geometry_scale, hSc.mesh_parts_count, hSc.mesh_parts, hSc.child_count,
                rfl, hS.texture_count, hS.texture_array⟩)
            (by rw [hsc1]) (by rw [hsc2])
        -- what the rest of the loop starts from
        have hkeep1 : ∀ r, r < h1.nodes.length →
            ((child_step ha1 node1 c1).node r).texture_array = (h1.node r).texture_array ∧
            ((child_step ha1 node1 c1).node r).texture_count = (h1.node r).texture_count := by
          intro r hr
          by_cases hrn : r = node1
          · subst hrn
            rw [hsn1, hfn1]
            exact ⟨rfl, rfl⟩
          · rw [child_step_other ha1 node1 c1 r hrn (by omega), hN1.frame r hr]
            exact ⟨rfl, rfl⟩
        have hkeep2 : ∀ r, r < h2.nodes.length →
            ((child_step ha2 node2 c2).node r).texture_array = (h2.node r).texture_array ∧
            ((child_step ha2 node2 c2).node r).texture_count = (h2.node r).texture_count := by
          intro r hr
          by_cases hrn : r = node2
          · subst hrn
            rw [hsn2, hfn2]
            exact ⟨rfl, rfl⟩
          · rw [child_step_other ha2 node2 c2 r hrn (by omega), hN2.frame r hr]
            exact ⟨rfl, rfl⟩
        have hRs : Same_Root (child_step ha1 node1 c1) root1 (child_step ha2 node2 c2) root2 :=
          same_root_kept h1 _ h2 _ root1 root2 hR
            (by rw [child_step_length]; omega) (by rw [child_step_length]; omega)
            hkeep1 hkeep2
            (by rw [child_step_textures]; exact hN1.tex)
            (by rw [child_step_textures]; exact hN2.tex)
        have hSs : Same_Node ((child_step ha1 node1 c1).node node1)
            ((child_step ha2 node2 c2).node node2) := by
          rw [hsn1, hsn2, hfn1, hfn2]
          exact ⟨hS.type, hS.name, hS.local_position, hS.local_rotation, hS.local_scale,
            hS.geometry_position, hS.geometry_rotation, hS.geometry_scale,
            hS.mesh_parts_count, hS.mesh_parts, hS.child_count, hS.parent, hS.texture_count,
            hS.texture_array⟩
        have hls1 : node1 < (child_step ha1 node1 c1).nodes.length := by
          rw [child_step_length]; omega
        have hls2 : node2 < (child_step ha2 node2 c2).nodes.length := by
          rw [child_step_length]; omega
        obtain ⟨cs1, cs2, hca1, hca2, hCrest⟩ := load_children_same ext fbx_scene rest
          node1 root1 _ h1' node2 root2 _ h2' hls1 hls2 hRs hSs hr1 hr2
        have hC1 := load_children_post ext fbx_scene rest node1 root1 _ h1' hls1 hr1
        have hC2 := load_children_post ext fbx_scene rest node2 root2 _ h2' hls2 hr2
        have hcg1 := hC1.grow
        have hcg2 := hC2.grow
        rw [child_step_length] at hcg1 hcg2
        have hfr1 : ∀ r, c1 ≤ r → r < ha1.nodes.length →
            h1'.node r = (child_step ha1 node1 c1).node r :=
          fun r hr1 hr2 => hC1.frame r (by rw [child_step_length]; exact hr2) (by omega)
        have hfr2 : ∀ r, c2 ≤ r → r < ha2.nodes.length →
            h2'.node r = (child_step ha2 node2 c2).node r :=
          fun r hr1 hr2 => hC2.frame r (by rw [child_step_length]; exact hr2) (by omega)
        have hMf : Same_Model h1' h2' fbx_child c1 c2 :=
          Same_Model_congr _ h1' _ h2' (by rw [child_step_length]; exact hcg1)
            (by rw [child_step_length]; exact hcg2) fbx_child c1 c2 hMs
            (fun r hr1 hr2 => hfr1 r (by omega) (by rw [child_step_length] at hr2; exact hr2))
            (fun r hr1 hr2 => hfr2 r (by omega) (by rw [child_step_length] at hr2; exact hr2))
            (by
              rw [hfr1 c1 (le_refl _) (by omega), hfr2 c2 (le_refl _) (by omega)]
              exact (same_model_node _ _ fbx_child c1 c2 hMs).2.2)
            (by rw [hfr1 c1 (le_refl _) (by omega)])
            (by rw [hfr2 c2 (le_refl _) (by omega)])
        refine ⟨c1 :: cs1, c2 :: cs2, ?_, ?_, ?_⟩
        · rw [hca1, hsn1, hfn1]
          simp
        · rw [hca2, hsn2, hfn2]
          simp
        · rw [Same_Children]
          refine ⟨c1, cs1, c2, cs2, rfl, rfl, by omega, by omega, ?_, ?_, hMf, hCrest⟩
          · rw [hfr1 c1 (le_refl _) (by omega), hsc1]
          · rw [hfr2 c2 (le_refl _) (by omega), hsc2]
termination_by structural fbx_children => fbx_children
end

end determinism

end PBR
end GPU

namespace GPU
namespace PBR

section transfer
variable {D F : Type} [Zero F] [One F] [DecidableEq F]

/-- When the classification of `load_node` returns in one run it returns in
any run whose `root` has the same texture table. -/
theorem load_payload_transfer (ext : Ext D F) (fbx_scene : ufbx_scene D)
    (mesh : Option (ufbx_mesh D)) (light : Option ufbx_light) (camera : Option ufbx_camera)
    (is_root : Bool) (node1 node2 : Nat) (root1 root2 root1' : Option Nat)
    (h1 h2 h1' : Heap F) (hR : Same_Root h1 root1 h2 root2)
    (hr1 : load_payload ext fbx_scene mesh light camera is_root node1 root1 h1
      = .ok (root1', h1')) :
    ∃ root2' h2', load_payload ext fbx_scene mesh light camera is_root node2 root2 h2
      = .ok (root2', h2') := by
  cases mesh with
  | none =>
    exact load_payload_total ext fbx_scene none light camera is_root node2 root2 h2
      (fun m hm => nomatch hm)
  | some m =>
    unfold load_payload at hr1 ⊢
    simp only [] at hr1 ⊢
    have hloop := mesh_parts_loop_same ext m root1 root2 h1 h2 hR m.material_parts 0
    cases hm1 : mesh_parts_loop ext m root1 h1 m.material_parts 0 with
    | error e => rw [hm1] at hr1; cases hr1
    | ok mps1 =>
      cases hm2 : mesh_parts_loop ext m root2 h2 m.material_parts 0 with
      | error e => rw [hm1, hm2] at hloop; cases hloop
      | ok mps2 => exact ⟨_, _, rfl⟩

/-- The state the child loop continues from after one iteration is related in
the two runs as it was before the iteration. -/
theorem child_step_same (ext : Ext D F) (fbx_scene : ufbx_scene D) (fbx_child : ufbx_node D)
    (node1 node2 : Nat) (root1 root2 : Option Nat) (h1 h2 : Heap F) (c1 c2 : Nat)
    (ha1 ha2 : Heap F) (hn1 : node1 < h1.nodes.length) (hn2 : node2 < h2.nodes.length)
    (hR : Same_Root h1 root1 h2 root2) (hS : Same_Node (h1.node node1) (h2.node node2))
    (hl1 : load_node ext fbx_scene fbx_child root1 h1 = .ok (c1, ha1))
    (hl2 : load_node ext fbx_scene fbx_child root2 h2 = .ok (c2, ha2)) :
    node1 < (child_step ha1 node1 c1).nodes.length ∧
    node2 < (child_step ha2 node2 c2).nodes.length ∧
    Same_Root (child_step ha1 node1 c1) root1 (child_step ha2 node2 c2) root2 ∧
    Same_Node ((child_step ha1 node1 c1).node node1) ((child_step ha2 node2 c2).node node2) := by
  have hN1 := load_node_post ext fbx_scene fbx_child root1 h1 c1 ha1 hl1
  have hN2 := load_node_post ext fbx_scene fbx_child root2 h2 c2 ha2 hl2
  have hp1 := hN1.ptr
  have hp2 := hN2.ptr
  have hg1 := hN1.grow
  have hg2 := hN2.grow
  have hne1 : node1 ≠ c1 := by omega
  have hne2 : node2 ≠ c2 := by omega
  have hsn1 := child_step_node ha1 node1 c1 hne1 (by omega)
  have hsn2 := child_step_node ha2 node2 c2 hne2 (by omega)
  have hfn1 := hN1.frame node1 hn1
  have hfn2 := hN2.frame node2 hn2
  have hkeep1 : ∀ r, r < h1.nodes.length →
      ((child_step ha1 node1 c1).node r).texture_array = (h1.node r).texture_array ∧
      ((child_step ha1 node1 c1).node r).texture_count = (h1.node r).texture_count := by
    intro r hr
    by_cases hrn : r = node1
    · subst hrn
      rw [hsn1, hfn1]
      exact ⟨rfl, rfl⟩
    · rw [child_step_other ha1 node1 c1 r hrn (by omega), hN1.frame r hr]
      exact ⟨rfl, rfl⟩
  have hkeep2 : ∀ r, r < h2.nodes.length →
      ((child_step ha2 node2 c2).node r).texture_array = (h2.node r).texture_array ∧
      ((child_step ha2 node2 c2).node r).texture_count = (h2.node r).texture_count := by
    intro r hr
    by_cases hrn : r = node2
    · subst hrn
      rw [hsn2, hfn2]
      exact ⟨rfl, rfl⟩
    · rw [child_step_other ha2 node2 c2 r hrn (by omega), hN2.frame r hr]
      exact ⟨rfl, rfl⟩
  refine ⟨by rw [child_step_length]; omega, by rw [child_step_length]; omega, ?_, ?_⟩
  · exact same_root_kept h1 _ h2 _ root1 root2 hR
      (by rw [child_step_length]; omega) (by rw [child_step_length]; omega)
      hkeep1 hkeep2
      (by rw [child_step_textures]; exact hN1.tex)
      (by rw [child_step_textures]; exact hN2.tex)
  · rw [hsn1, hsn2, hfn1, hfn2]
    exact ⟨hS.type, hS.name, hS.local_position, hS.local_rotation, hS.local_scale,
      hS.geometry_position, hS.geometry_rotation, hS.geometry_scale,
      hS.mesh_parts_count, hS.mesh_parts, hS.child_count, hS.parent, hS.texture_count,
      hS.texture_array⟩

mutual
theorem load_node_transfer (ext : Ext D F) (fbx_scene : ufbx_scene D) :
    (fbx_node : ufbx_node D) → (root1 : Option Nat) → (h1 : Heap F) → (p1 : Nat) →
    (h1' : Heap F) → (root2 : Option Nat) → (h2 : Heap F) →
    Same_Root h1 root1 h2 root2 →
    load_node ext fbx_scene fbx_node root1 h1 = .ok (p1, h1') →
    ∃ p2 h2', load_node ext fbx_scene fbx_node root2 h2 = .ok (p2, h2')
  | .mk name lt gt mesh light camera is_root children, root1, h1, p1, h1', root2, h2,
      hR, hr1 => by
    obtain ⟨rfl, ra1, ha1, hpay1, hch1⟩ :=
      load_node_ok ext fbx_scene name lt gt mesh light camera is_root children root1 h1 p1 h1' hr1
    have hlen1 := load_header_length ext name lt gt h1
    have hlen2 := load_header_length ext name lt gt h2
    have hnew1 := load_header_node_new ext name lt gt h1
    have hnew2 := load_header_node_new ext name lt gt h2
    have hS0 : Same_Node ((load_header ext name lt gt h1).2.node h1.nodes.length)
        ((load_header ext name lt gt h2).2.node h2.nodes.length) := by
      rw [hnew1, hnew2]
      exact same_node_refl _
    have hT0 : Same_Table (load_header ext name lt gt h1).2 h1.nodes.length
        (load_header ext name lt gt h2).2 h2.nodes.length := by
      refine ⟨?_, ?_, ?_, ?_⟩
      · intro a ha
        rw [hnew1] at ha
        cases ha
      · intro a ha
        rw [hnew2] at ha
        cases ha
      · rw [hnew1, hnew2]
        rfl
      · rw [hnew1, hnew2]
    have hR0 : Same_Root (load_header ext name lt gt h1).2 root1
        (load_header ext name lt gt h2).2 root2 :=
      same_root_kept h1 _ h2 _ root1 root2 hR (by omega) (by omega)
        (fun r hr => by rw [load_header_node_lt ext name lt gt h1 r hr]; exact ⟨rfl, rfl⟩)
        (fun r hr => by rw [load_header_node_lt ext name lt gt h2 r hr]; exact ⟨rfl, rfl⟩)
        ⟨[], by rw [load_header_textures, List.append_nil]⟩
        ⟨[], by rw [load_header_textures, List.append_nil]⟩
    obtain ⟨ra2, ha2, hpay2⟩ := load_payload_transfer ext fbx_scene mesh light camera is_root
      h1.nodes.length h2.nodes.length root1 root2 ra1 _ (load_header ext name lt gt h2).2 ha1
      hR0 hpay1
    obtain ⟨hSa, hTa, hRa⟩ := load_payload_same ext fbx_scene mesh light camera is_root
      h1.nodes.length h2.nodes.length root1 root2 ra1 ra2 _ _ ha1 ha2 (by omega) (by omega)
      hS0 hT0 hR0 hpay1 hpay2
    have hP1 := load_payload_post ext fbx_scene mesh light camera is_root _ root1 ra1 _ ha1
      (by omega) hpay1
    have hP2 := load_payload_post ext fbx_scene mesh light camera is_root _ root2 ra2 _ ha2
      (by omega) hpay2
    have hla1 : h1.nodes.length < ha1.nodes.length := by rw [hP1.length]; omega
    have hla2 : h2.nodes.length < ha2.nodes.length := by rw [hP2.length]; omega
    obtain ⟨hSb, _, hRb⟩ := same_update ha1 ha2 h1.nodes.length h2.nodes.length ra1 ra2
      (fun n => { n with child_array := [], child_count := children.length })
      (fun n => { n with child_array := [], child_count := children.length })
      hla1 hla2 hTa hRa (fun _ => ⟨rfl, rfl⟩) (fun _ => ⟨rfl, rfl⟩)
      ⟨hSa.type, hSa.name, hSa.local_position, hSa.local_rotation, hSa.local_scale,
        hSa.geometry_position, hSa.geometry_rotation, hSa.geometry_scale,
        hSa.mesh_parts_count, hSa.mesh_parts, rfl, hSa.parent, hSa.texture_count,
        hSa.texture_array⟩
    obtain ⟨h2', hch2⟩ := load_children_transfer ext fbx_scene children h1.nodes.length ra1 _
      h1' h2.nodes.length ra2 _ (by rw [Heap.update_length]; exact hla1)
      (by rw [Heap.update_length]; exact hla2) hRb hSb hch1
    exact ⟨_, _, load_node_of_parts ext fbx_scene name lt gt mesh light camera is_root children
      root2 h2 ra2 ha2 h2' hpay2 hch2⟩
termination_by structural fbx_node => fbx_node
theorem load_children_transfer (ext : Ext D F) (fbx_scene : ufbx_scene D) :
    (fbx_children : List (ufbx_node D)) → (node1 : Nat) → (root1 : Option Nat) →
    (h1 h1' : Heap F) → (node2 : Nat) → (root2 : Option Nat) → (h2 : Heap F) →
    node1 < h1.nodes.length → node2 < h2.nodes.length →
    Same_Root h1 root1 h2 root2 → Same_Node (h1.node node1) (h2.node node2) →
    load_children ext fbx_scene fbx_children node1 root1 h1 = .ok h1' →
    ∃ h2', load_children ext fbx_scene fbx_children node2 root2 h2 = .ok h2'
  | [], _, _, _, _, node2, root2, h2, _, _, _, _, _ => ⟨h2, by rw [load_children]⟩
  | fbx_child :: rest, node1, root1, h1, h1', node2, root2, h2, hn1, hn2, hR, hS, hr1 => by
    rw [load_children_cons] at hr1
    cases hl1 : load_node ext fbx_scene fbx_child root1 h1 with
    | error e => rw [hl1] at hr1; cases hr1
    | ok r1 =>
      obtain ⟨c1, ha1⟩ := r1
      rw [hl1] at hr1
      simp only [] at hr1
      obtain ⟨c2, ha2, hl2⟩ := load_node_transfer ext fbx_scene fbx_child root1 h1 c1 ha1
        root2 h2 hR hl1
      obtain ⟨hls1, hls2, hRs, hSs⟩ := child_step_same ext fbx_scene fbx_child node1 node2
        root1 root2 h1 h2 c1 c2 ha1 ha2 hn1 hn2 hR hS hl1 hl2
      obtain ⟨h2', hrest⟩ := load_children_transfer ext fbx_scene rest node1 root1 _ h1'
        node2 root2 _ hls1 hls2 hRs hSs hr1
      refine ⟨h2', ?_⟩
      rw [load_children_cons, hl2]
      exact hrest
termination_by structural fbx_children => fbx_children
end

end transfer

end PBR
end GPU

namespace GPU
namespace PBR

/-- C24: when `load_node` on the root node of a source scene, called with a
null `root` as `load_fbx` does, returns from one heap, it returns from any
other heap too, and the two Node Models agree up to the addresses of the nodes
and of the texture arrays: the same tree shape with children in the same order
and `parent` pointing back (`Same_Model`), node by node the same type, name,
transforms and counts and the same vertex and index content and texture-table
position of every Mesh Part (`Same_Node`), and at the root the same texture
table, entry by entry in order (`Same_Table`). -/
theorem load_node_is_deterministic {D F : Type} [Zero F] [One F] [DecidableEq F]
    (ext : Ext D F) (fbx_scene : ufbx_scene D) (h1 h2 : Heap F) (p1 : Nat) (h1' : Heap F)
    (hr1 : load_node ext fbx_scene fbx_scene.root_node none h1 = .ok (p1, h1')) :
    ∃ p2 h2', load_node ext fbx_scene fbx_scene.root_node none h2 = .ok (p2, h2') ∧
      Same_Model h1' h2' fbx_scene.root_node p1 p2 ∧
      Same_Node (h1'.node p1) (h2'.node p2) ∧
      Same_Table h1' p1 h2' p2 := by
  obtain ⟨p2, h2', hr2⟩ := load_node_transfer ext fbx_scene fbx_scene.root_node none h1 p1 h1'
    none h2 (Or.inl ⟨rfl, rfl⟩) hr1
  obtain ⟨hM, hT⟩ := load_node_same ext fbx_scene fbx_scene.root_node none h1 p1 h1' none h2
    p2 h2' (Or.inl ⟨rfl, rfl⟩) hr1 hr2
  exact ⟨p2, h2', hr2, hM, (same_model_node h1' h2' _ p1 p2 hM).2.2, hT⟩

/-- Witness of C24: `chain_scene` loaded into the empty heap and loaded again
into the heap that the first run has left.  The second model sits at the
addresses 3, 4, 5 and its table is texture array 1, and it agrees with the
first up to those addresses. -/
theorem load_node_is_deterministic_witness :
    load_node fan_ext chain_scene chain_scene.root_node none Heap.empty = .ok (0, chain_heap) ∧
    load_node fan_ext chain_scene chain_scene.root_node none chain_heap
      = .ok (3, chain_heap_again) ∧
    (chain_heap.node 0).child_array = [1] ∧ (chain_heap_again.node 3).child_array = [4] ∧
    (chain_heap.node 1).mesh_parts.map Mesh_Part.color_texture = [some (0, 0)] ∧
    (chain_heap_again.node 4).mesh_parts.map Mesh_Part.color_texture = [some (1, 0)] ∧
    (chain_heap.node 1).mesh_parts.map Mesh_Part.content
      = (chain_heap_again.node 4).mesh_parts.map Mesh_Part.content ∧
    chain_heap.textures.getD 0 [] = chain_heap_again.textures.getD 1 [] ∧
    ∃ p2 h2', load_node fan_ext chain_scene chain_scene.root_node none chain_heap
        = .ok (p2, h2') ∧
      Same_Model chain_heap h2' chain_scene.root_node 0 p2 ∧
      Same_Node (chain_heap.node 0) (h2'.node p2) ∧
      Same_Table chain_heap 0 h2' p2 :=
  ⟨rfl, rfl, by decide, by decide, by decide, by decide, by decide, by decide,
    load_node_is_deterministic fan_ext chain_scene Heap.empty chain_heap 0 chain_heap rfl⟩

end PBR
end GPU

namespace GPU

theorem mapM_option_some {α β : Type} (f : α → Option β) :
    ∀ l : List α, (∀ x ∈ l, ∃ y, f x = some y) → ∃ ys, l.mapM f = some ys := by
  intro l
  induction l with
  | nil => intro _; exact ⟨[], rfl⟩
  | cons a l ih =>
    intro hl
    obtain ⟨b, hb⟩ := hl a (List.mem_cons_self _ _)
    obtain ⟨bs, hbs⟩ := ih (fun x hx => hl x (List.mem_cons_of_mem _ hx))
    refine ⟨b :: bs, ?_⟩
    rw [List.mapM_cons, hb, hbs]
    rfl

namespace PNG

/-- A heap in which every node has `child_count` child pointers and every
child pointer leads to a node allocated later is a forest: the pre-order of
every subtree exists within the depth bound of `preorder`. -/
theorem preorder_of_later_children {F : Type} [Zero F] (h : Heap F)
    (hcount : ∀ q, q < h.nodes.length → (h.node q).child_count = (h.node q).child_array.length)
    (hlater : ∀ q, q < h.nodes.length → ∀ c ∈ (h.node q).child_array,
      q < c ∧ c < h.nodes.length) :
    ∀ q, q < h.nodes.length → ∃ l, preorder h q = some l := by
  have key : ∀ fuel q, q < h.nodes.length → h.nodes.length - q ≤ fuel →
      ∃ l, preorder_fuel h fuel q = some l := by
    intro fuel
    induction fuel with
    | zero => intro q hq hf; omega
    | succ k ih =>
      intro q hq hf
      rw [preorder_fuel, png_heap_get?_eq_node h q hq]
      simp only []
      obtain ⟨subtrees, hs⟩ := mapM_option_some (fun i =>
          match (h.node q).child_array.get? i with
          | none => none
          | some child => preorder_fuel h k child) (List.range (h.node q).child_count)
        (by
          intro i hi
          have hi' : i < (h.node q).child_array.length := by
            rw [← hcount q hq]
            exact List.mem_range.mp hi
          have hget : (h.node q).child_array.get? i
              = some ((h.node q).child_array.get ⟨i, hi'⟩) := List.get?_eq_get hi'
          obtain ⟨hc1, hc2⟩ := hlater q hq _ (List.get_mem _ i hi')
          obtain ⟨l, hl⟩ := ih _ hc2 (by omega)
          exact ⟨l, by simp only [hget, hl]⟩)
      refine ⟨q :: subtrees.flatten, ?_⟩
      split
      · rename_i hnone
        exact absurd (hs.symm.trans hnone) (by simp)
      · rename_i st hst
        have : st = subtrees := Option.some.inj (hst.symm.trans hs)
        rw [this]
  intro q hq
  exact key _ q hq (by omega)

end PNG
end GPU

namespace GPU
namespace PNG

section heap
variable {F : Type}

theorem png_update_length (h : Heap F) (p : Nat) (f : Node F → Node F) :
    (h.update p f).nodes.length = h.nodes.length := by
  simp [Heap.update]

theorem png_update_textures (h : Heap F) (p : Nat) (f : Node F → Node F) :
    (h.update p f).textures = h.textures := rfl

theorem png_update_node_ne [Zero F] (h : Heap F) (p q : Nat) (f : Node F → Node F)
    (hq : q ≠ p) : (h.update p f).node q = h.node q := by
  simp [Heap.update, Heap.node, List.getD_eq_getElem?_getD, List.getElem?_modify, Ne.symm hq]

theorem png_update_node_eq [Zero F] (h : Heap F) (p : Nat) (f : Node F → Node F)
    (hp : p < h.nodes.length) : (h.update p f).node p = f (h.node p) := by
  simp [Heap.update, Heap.node, List.getD_eq_getElem?_getD, List.getElem?_modify,
    List.getElem?_eq_getElem hp]

theorem png_node_create_length [Zero F] (h : Heap F) :
    (node_create h).2.nodes.length = h.nodes.length + 1 := by
  simp [node_create]

theorem png_node_create_node_lt [Zero F] (h : Heap F) (q : Nat) (hq : q < h.nodes.length) :
    (node_create h).2.node q = h.node q := by
  simp [node_create, Heap.node, List.getD_eq_getElem?_getD, List.getElem?_append_left hq]

theorem png_node_create_node_new [Zero F] (h : Heap F) :
    (node_create h).2.node h.nodes.length = Node.zero := by
  simp [node_create, Heap.node, List.getD_eq_getElem?_getD]

end heap

section load_payload_frame
variable {D F : Type} [Zero F] [One F] [DecidableEq F]

theorem png_load_payload_post (ext : Ext D F) (fbx_scene : ufbx_scene D)
    (mesh : Option (ufbx_mesh D)) (light : Option ufbx_light) (camera : Option ufbx_camera)
    (is_root : Bool) (node : Nat) (root root' : Option Nat) (h h' : Heap F)
    (hn : node < h.nodes.length)
    (hr : load_payload ext fbx_scene mesh light camera is_root node root h = .ok (root', h')) :
    Payload_Post node h h' := by
  unfold load_payload at hr
  split at hr
  · split at hr
    · cases hr
    · cases hr
      exact ⟨png_update_length _ _ _, fun q hq => png_update_node_ne _ _ _ _ hq,
        by rw [png_update_node_eq _ _ _ hn], by rw [png_update_node_eq _ _ _ hn], ⟨[], by simp [png_update_textures]⟩⟩
  · split at hr
    · cases hr; exact ⟨rfl, fun _ _ => rfl, rfl, rfl, ⟨[], by simp⟩⟩
    · split at hr
      · cases hr; exact ⟨rfl, fun _ _ => rfl, rfl, rfl, ⟨[], by simp⟩⟩
      · split at hr
        · cases hr; exact ⟨rfl, fun _ _ => rfl, rfl, rfl, ⟨[], by simp⟩⟩
        · split at hr
          · cases hr
            exact ⟨png_update_length _ _ _, fun q hq => png_update_node_ne _ _ _ _ hq,
              by rw [png_update_node_eq _ _ _ hn], by rw [png_update_node_eq _ _ _ hn], ⟨[], by simp [png_update_textures]⟩⟩
          · split at hr
            · cases hr
              refine ⟨?_, ?_, ?_, ?_, ?_⟩
              · simp [Heap.update]
              · intro q hq
                rw [png_update_node_ne _ _ _ _ hq]
                show Heap.node (Heap.update h node _) q = _
                exact png_update_node_ne _ _ _ _ hq
              · rw [png_update_node_eq _ _ _ (by simpa [Heap.update] using hn)]
                show (Heap.node (Heap.update h node _) node).parent = _
                rw [png_update_node_eq _ _ _ hn]
              · rw [png_update_node_eq _ _ _ (by simpa [Heap.update] using hn)]
                show (Heap.node (Heap.update h node _) node).child_array = _
                rw [png_update_node_eq _ _ _ hn]
              · exact ⟨_, rfl⟩
            · cases hr
              exact ⟨png_update_length _ _ _, fun q hq => png_update_node_ne _ _ _ _ hq,
                by rw [png_update_node_eq _ _ _ hn], by rw [png_update_node_eq _ _ _ hn], ⟨[], by simp [png_update_textures]⟩⟩

end load_payload_frame
section load_node_invariants
variable {D F : Type} [Zero F]

theorem png_load_header_ptr (ext : Ext D F) (name : String) (lt : ufbx_transform D)
    (h : Heap F) : (load_header ext name lt h).1 = h.nodes.length := rfl

theorem png_load_header_length (ext : Ext D F) (name : String) (lt : ufbx_transform D)
    (h : Heap F) : (load_header ext name lt h).2.nodes.length = h.nodes.length + 1 := by
  simp [load_header, node_create, Heap.update]

theorem png_load_header_textures (ext : Ext D F) (name : String) (lt : ufbx_transform D)
    (h : Heap F) : (load_header ext name lt h).2.textures = h.textures := rfl

theorem png_load_header_node_lt (ext : Ext D F) (name : String) (lt : ufbx_transform D)
    (h : Heap F) (q : Nat) (hq : q < h.nodes.length) :
    (load_header ext name lt h).2.node q = h.node q := by
  show Heap.node (Heap.update (node_create h).2 _ _) q = _
  rw [png_update_node_ne _ _ _ _ (by show q ≠ h.nodes.length; omega), png_node_create_node_lt h q hq]

theorem png_load_header_node_new (ext : Ext D F) (name : String) (lt : ufbx_transform D)
    (h : Heap F) :
    (load_header ext name lt h).2.node h.nodes.length =
      { (Node.zero : Node F) with
        name := name,
        position := lt.translation.conv_float ext.conv,
        rotation := lt.rotation.conv_float ext.conv,
        scale := lt.scale.conv_float ext.conv } := by
  show Heap.node (Heap.update (node_create h).2 h.nodes.length _) h.nodes.length = _
  rw [png_update_node_eq _ _ _ (by rw [png_node_create_length]; omega), png_node_create_node_new]

variable [One F] [DecidableEq F]

/-- The anatomy of a successful `load_node`: the header, the classification and
the child loop, and what the new node holds at the end. -/
theorem png_load_node_ok (ext : Ext D F) (fbx_scene : ufbx_scene D) (name : String)
    (lt gt : ufbx_transform D) (mesh : Option (ufbx_mesh D)) (light : Option ufbx_light)
    (camera : Option ufbx_camera) (is_root : Bool) (children : List (ufbx_node D))
    (root : Option Nat) (h : Heap F) (p : Nat) (h' : Heap F)
    (hr : load_node ext fbx_scene (.mk name lt gt mesh light camera is_root children) root h
      = .ok (p, h')) :
    p = h.nodes.length ∧ ∃ root1 h1,
      load_payload ext fbx_scene mesh light camera is_root p root
        (load_header ext name lt h).2 = .ok (root1, h1) ∧
      load_children ext fbx_scene children p root1
        (h1.update p fun n => { n with child_array := [], child_count := children.length })
        = .ok h' := by
  rw [load_node] at hr
  simp only [png_load_header_ptr] at hr
  split at hr
  · cases hr
  · rename_i root1 h1 hpay
    split at hr
    · cases hr
    · rename_i h2 hch
      cases hr
      exact ⟨rfl, root1, h1, hpay, hch⟩

mutual
theorem png_load_node_post (ext : Ext D F) (fbx_scene : ufbx_scene D) :
    (fbx_node : ufbx_node D) → (root : Option Nat) → (h : Heap F) → (p : Nat) → (h' : Heap F) →
    load_node ext fbx_scene fbx_node root h = .ok (p, h') → Node_Post h h' p
  | .mk name lt gt mesh light camera is_root children, root, h, p, h', hr => by
    obtain ⟨rfl, root1, h1, hpay, hch⟩ :=
      png_load_node_ok ext fbx_scene name lt gt mesh light camera is_root children root h p h' hr
    have hlen0 := png_load_header_length ext name lt h
    have hP := png_load_payload_post ext fbx_scene mesh light camera is_root _ root root1 _ h1
      (by omega) hpay
    have hlen1 : h1.nodes.length = h.nodes.length + 1 := by rw [hP.length, hlen0]
    have hC := png_load_children_post ext fbx_scene children h.nodes.length root1 _ h'
      (by rw [png_update_length]; omega) hch
    have hCg := hC.grow
    rw [png_update_length] at hCg
    obtain ⟨cs, hcs, hcsr⟩ := hC.node_eq
    rw [png_update_length] at hcsr
    have hpar : (h'.node h.nodes.length).parent = none := by
      rw [hcs, png_update_node_eq _ _ _ (by omega)]
      show (h1.node h.nodes.length).parent = none
      rw [hP.parent, png_load_header_node_new]
      rfl
    refine ⟨rfl, by omega, ?_, ?_, hpar, ?_, ?_⟩
    · intro q hq
      rw [hC.frame q (by rw [png_update_length]; omega) (by omega),
        png_update_node_ne _ _ _ _ (by omega), hP.frame q (by omega),
        png_load_header_node_lt _ _ _ _ _ hq]
    · obtain ⟨t1, ht1⟩ := hP.tex
      obtain ⟨t2, ht2⟩ := hC.tex
      refine ⟨t1 ++ t2, ?_⟩
      rw [ht2, png_update_textures, ht1, png_load_header_textures, List.append_assoc]
    · intro q hq1 hq2
      exact hC.parents q (by rw [png_update_length]; omega) hq2
    · intro q hq1 hq2 c hc
      rcases Nat.eq_or_lt_of_le hq1 with hq | hq
      · subst hq
        rw [hcs, png_update_node_eq _ _ _ (by omega)] at hc
        simp only [List.nil_append] at hc
        have := hcsr c hc
        omega
      · exact hC.children q (by rw [png_update_length]; omega) hq2 c hc
termination_by structural fbx_node => fbx_node
theorem png_load_children_post (ext : Ext D F) (fbx_scene : ufbx_scene D) :
    (fbx_children : List (ufbx_node D)) → (node : Nat) → (root : Option Nat) → (h : Heap F) →
    (h' : Heap F) → node < h.nodes.length →
    load_children ext fbx_scene fbx_children node root h = .ok h' → Children_Post node h h'
  | [], node, root, h, h', hn, hr => by
    rw [load_children] at hr
    cases hr
    exact ⟨le_refl _, fun _ _ _ => rfl, ⟨[], by simp⟩, ⟨[], by simp⟩,
      fun q h1 h2 => absurd h1 (by omega), fun q h1 h2 => absurd h1 (by omega)⟩
  | fbx_child :: rest, node, root, h, h', hn, hr => by
    rw [load_children] at hr
    split at hr
    · cases hr
    · rename_i c h1 hc
      have hN := png_load_node_post ext fbx_scene fbx_child root h c h1 hc
      have hcptr := hN.ptr
      have hgrow := hN.grow
      have hC := png_load_children_post ext fbx_scene rest node root _ h'
        (by simp only [png_update_length]; omega) hr
      have hCg := hC.grow
      simp only [png_update_length] at hCg
      have hne : node ≠ c := by omega
      refine ⟨by omega, ?_, ?_, ?_, ?_, ?_⟩
      · intro q hq hqn
        rw [hC.frame q (by simp only [png_update_length]; omega) hqn,
          png_update_node_ne _ _ _ _ (by omega), png_update_node_ne _ _ _ _ (by omega),
          png_update_node_ne _ _ _ _ (by omega), png_update_node_ne _ _ _ _ hqn,
          hN.frame q hq]
      · obtain ⟨t1, ht1⟩ := hN.tex
        obtain ⟨t2, ht2⟩ := hC.tex
        refine ⟨t1 ++ t2, ?_⟩
        rw [ht2]
        simp only [png_update_textures]
        rw [ht1, List.append_assoc]
      · obtain ⟨cs, hcs, hcsr⟩ := hC.node_eq
        simp only [png_update_length] at hcsr
        refine ⟨c :: cs, ?_, ?_⟩
        · rw [hcs, png_update_node_ne _ _ _ _ hne, png_update_node_ne _ _ _ _ hne,
            png_update_node_ne _ _ _ _ hne, png_update_node_eq _ _ _ (by omega),
            hN.frame node hn]
          simp
        · intro c' hc'
          rcases List.mem_cons.mp hc' with hc' | hc'
          · omega
          · have := hcsr c' hc'
            omega
      · intro q hq1 hq2
        by_cases hq : q < h1.nodes.length
        · rw [hC.frame q (by simp only [png_update_length]; exact hq) (by omega)]
          by_cases hqc : q = c
          · subst hqc
            refine ⟨node, ?_, le_refl _, by omega⟩
            rw [png_update_node_eq _ _ _ (by simp only [png_update_length]; omega),
              png_update_node_eq _ _ _ (by simp only [png_update_length]; omega),
              png_update_node_eq _ _ _ (by simp only [png_update_length]; omega)]
          · rw [png_update_node_ne _ _ _ _ hqc, png_update_node_ne _ _ _ _ hqc,
              png_update_node_ne _ _ _ _ hqc, png_update_node_ne _ _ _ _ (by omega)]
            obtain ⟨r, hr1, hr2, hr3⟩ := hN.parents q (by omega) hq
            exact ⟨r, hr1, by omega, hr3⟩
        · exact hC.parents q (by simp only [png_update_length]; omega) hq2
      · intro q hq1 hq2 c' hc'
        by_cases hq : q < h1.nodes.length
        · rw [hC.frame q (by simp only [png_update_length]; exact hq) (by omega)] at hc'
          have hc'' : c' ∈ (h1.node q).child_array := by
            by_cases hqc : q = c
            · subst hqc
              rw [png_update_node_eq _ _ _ (by simp only [png_update_length]; omega),
                png_update_node_eq _ _ _ (by simp only [png_update_length]; omega),
                png_update_node_eq _ _ _ (by simp only [png_update_length]; omega),
                png_update_node_ne _ _ _ _ (by omega)] at hc'
              exact hc'
            · rw [png_update_node_ne _ _ _ _ hqc, png_update_node_ne _ _ _ _ hqc,
                png_update_node_ne _ _ _ _ hqc, png_update_node_ne _ _ _ _ (by omega)] at hc'
              exact hc'
          have := hN.children q (by omega) hq c' hc''
          omega
        · exact hC.children q (by simp only [png_update_length]; omega) hq2 c' hc'
termination_by structural fbx_children => fbx_children
end

end load_node_invariants
section transforms
variable {F : Type} [CommRing F]

theorem png_node_global_transform_fuel_succ (hm : HandmadeMath F) (h : Heap F) :
    ∀ (fuel : Nat) (q : Nat) (M : Mat4 F),
      node_global_transform_fuel hm h fuel q = some M →
      node_global_transform_fuel hm h (fuel + 1) q = some M := by
  intro fuel
  induction fuel with
  | zero => intro q M hq; simp [node_global_transform_fuel] at hq
  | succ k ih =>
    intro q M hq
    rw [node_global_transform_fuel] at hq ⊢
    split at hq
    · cases hq
    · rename_i n hn
      split at hq
      · exact hq
      · rename_i r hpar
        split at hq
        · cases hq
        · rename_i Mr hMr
          rw [ih r Mr hMr]
          exact hq

theorem png_node_global_transform_fuel_mono (hm : HandmadeMath F) (h : Heap F)
    (fuel fuel' : Nat) (hle : fuel ≤ fuel') (q : Nat) (M : Mat4 F)
    (hq : node_global_transform_fuel hm h fuel q = some M) :
    node_global_transform_fuel hm h fuel' q = some M := by
  induction hle with
  | refl => exact hq
  | step _ ih => exact png_node_global_transform_fuel_succ hm h _ q M ih

/-- On a heap whose parent pointers lead strictly downwards to `p`, the walk of
`node_global_transform` from `q` returns within `q - p + 1` steps. -/
theorem png_node_global_transform_fuel_total (hm : HandmadeMath F) (h : Heap F) (p : Nat)
    (htop : (h.node p).parent = none)
    (hpar : ∀ q, p < q → q < h.nodes.length → ∃ r, (h.node q).parent = some r ∧ p ≤ r ∧ r < q) :
    ∀ q, p ≤ q → q < h.nodes.length →
      ∃ M, node_global_transform_fuel hm h (q - p + 1) q = some M := by
  intro q
  induction q using Nat.strong_induction_on with
  | _ q ih =>
    intro hq1 hq2
    rw [node_global_transform_fuel, png_heap_get?_eq_node h q hq2]
    simp only []
    rcases Nat.eq_or_lt_of_le hq1 with hq | hq
    · subst hq
      simp [htop]
    · obtain ⟨r, hr, hr1, hr2⟩ := hpar q hq hq2
      obtain ⟨Mr, hMr⟩ := ih r hr2 hr1 (by omega)
      have := png_node_global_transform_fuel_mono hm h (r - p + 1) (q - p) (by omega) r Mr hMr
      simp [hr, this]

/-- The defining step of `node_global_transform`, for any heap. -/
theorem png_node_global_transform_step (hm : HandmadeMath F) (h : Heap F) (q : Nat) (M : Mat4 F)
    (hM : node_global_transform hm h q = some M) :
    ((h.node q).parent = none → M = node_local_transform hm (h.node q)) ∧
    ∀ r, (h.node q).parent = some r →
      ∃ Mr, node_global_transform hm h r = some Mr ∧
        M = MulM4 Mr (node_local_transform hm (h.node q)) := by
  unfold node_global_transform at hM
  rcases hlen : h.nodes.length with _ | k
  · rw [hlen] at hM; simp [node_global_transform_fuel] at hM
  · rw [hlen, node_global_transform_fuel] at hM
    split at hM
    · cases hM
    · rename_i n hn
      have hnq : h.node q = n := by
        have hq : q < h.nodes.length := by
          by_contra hc
          rw [List.get?_eq_none.mpr (by omega)] at hn
          cases hn
        rw [png_heap_get?_eq_node h q hq] at hn
        exact Option.some.inj hn
      rw [hnq]
      constructor
      · intro hnone
        rw [hnone] at hM
        simp only [Option.some.injEq] at hM
        rw [← hM]
        simp [MulM4, M4D]
      · intro r hr
        rw [hr] at hM
        simp only [] at hM
        split at hM
        · cases hM
        · rename_i Mr hMr
          refine ⟨Mr, ?_, (Option.some.inj hM).symm⟩
          unfold node_global_transform
          rw [hlen]
          exact png_node_global_transform_fuel_succ hm h k r Mr hMr

end transforms

end PNG
end GPU

namespace GPU

theorem png_load_payload_root_table {D F : Type} [Zero F] [One F] [DecidableEq F]
    (ext : Ext D F) (fbx_scene : ufbx_scene D) (light : Option ufbx_light) (node : Nat)
    (root root' : Option Nat) (h h' : PNG.Heap F) (hn : node < h.nodes.length)
    (hl : light_is_point_spot_or_directional light = false)
    (hr : PNG.load_payload ext fbx_scene none light none true node root h = .ok (root', h')) :
    root' = some node ∧
    (h'.node node).texture_count = fbx_scene.textures.length ∧
    (h'.node node).texture_array = some h.textures.length ∧
    h'.textures = h.textures ++ [PNG.texture_table fbx_scene] := by
  simp only [light_is_point_spot_or_directional, Bool.or_eq_false_iff] at hl
  obtain ⟨⟨hl1, hl2⟩, hl3⟩ := hl
  simp only [PNG.load_payload, hl1, hl2, hl3, Option.isSome_none, Bool.false_eq_true,
    if_false, if_true] at hr
  cases hr
  refine ⟨rfl, ?_, ?_, rfl⟩
  · rw [PNG.png_update_node_eq _ _ _ (by simpa [PNG.Heap.update] using hn)]
  · rw [PNG.png_update_node_eq _ _ _ (by simpa [PNG.Heap.update] using hn)]
    rfl

theorem png_load_payload_root_kept {D F : Type} [Zero F] [One F] [DecidableEq F]
    (ext : Ext D F) (fbx_scene : ufbx_scene D) (mesh : Option (ufbx_mesh D))
    (light : Option ufbx_light) (camera : Option ufbx_camera) (node : Nat)
    (root root' : Option Nat) (h h' : PNG.Heap F)
    (hr : PNG.load_payload ext fbx_scene mesh light camera false node root h = .ok (root', h')) :
    root' = root := by
  unfold PNG.load_payload at hr
  split at hr
  · split at hr
    · cases hr
    · cases hr; rfl
  · split at hr
    · cases hr; rfl
    · split at hr
      · cases hr; rfl
      · split at hr
        · cases hr; rfl
        · split at hr
          · cases hr; rfl
          · simp at hr
            exact hr.1.symm

theorem png_load_node_root_texture_table {D F : Type} [Zero F] [One F] [DecidableEq F]
    (ext : Ext D F) (fbx_scene : ufbx_scene D) (name : String) (lt gt : ufbx_transform D)
    (light : Option ufbx_light) (children : List (ufbx_node D)) (root : Option Nat)
    (h : PNG.Heap F) (p : Nat) (h' : PNG.Heap F)
    (hl : light_is_point_spot_or_directional light = false)
    (hr : PNG.load_node ext fbx_scene (.mk name lt gt none light none true children) root h
      = .ok (p, h')) :
    (h'.node p).texture_count = fbx_scene.textures.length ∧
    (PNG.texture_table fbx_scene).length = fbx_scene.textures.length ∧
    (∃ a, (h'.node p).texture_array = some a ∧
      h'.textures.getD a [] = PNG.texture_table fbx_scene ∧
      ∃ h1, PNG.load_children ext fbx_scene children p (some p) h1 = .ok h' ∧
        (h1.node p).texture_count = fbx_scene.textures.length ∧
        (h1.node p).texture_array = some a ∧
        h1.textures.getD a [] = PNG.texture_table fbx_scene) ∧
    (∀ name' lt' gt' mesh' light' camera' children' root' (h0 : PNG.Heap F) p' h0',
      PNG.load_node ext fbx_scene (.mk name' lt' gt' mesh' light' camera' false children') root'
        h0 = .ok (p', h0') →
      ∃ h2, PNG.load_payload ext fbx_scene mesh' light' camera' false p' root'
          (PNG.load_header ext name' lt' h0).2 = .ok (root', h2) ∧
        (∀ m, mesh' = some m → ∃ mesh_parts,
          PNG.mesh_parts_loop ext m root' (PNG.load_header ext name' lt' h0).2
            m.material_parts 0 = .ok mesh_parts) ∧
        PNG.load_children ext fbx_scene children' p' root'
          (h2.update p' fun n => { n with child_array := [], child_count := children'.length })
          = .ok h0') := by
  obtain ⟨rfl, root1, h1, hpay, hch⟩ :=
    PNG.png_load_node_ok ext fbx_scene name lt gt none light none true children root h p h' hr
  have hlen0 := PNG.png_load_header_length ext name lt h
  have hP := PNG.png_load_payload_post ext fbx_scene none light none true _ root root1 _ h1
    (by omega) hpay
  obtain ⟨hroot, htc, hta, htex⟩ := png_load_payload_root_table ext fbx_scene light _ root root1
    _ h1 (by omega) hl hpay
  subst hroot
  rw [PNG.png_load_header_textures] at hta htex
  have hC := PNG.png_load_children_post ext fbx_scene children h.nodes.length _ _ h'
    (by rw [PNG.png_update_length, hP.length]; omega) hch
  obtain ⟨cs, hcs, _⟩ := hC.node_eq
  obtain ⟨t2, ht2⟩ := hC.tex
  rw [PNG.png_update_textures, htex] at ht2
  have hupd : ∀ g : PNG.Node F → PNG.Node F,
      (h1.update h.nodes.length g).node h.nodes.length = g (h1.node h.nodes.length) :=
    fun g => PNG.png_update_node_eq _ _ _ (by rw [hP.length]; omega)
  refine ⟨?_, by simp [PNG.texture_table], ⟨h.textures.length, ?_, ?_, _, hch, ?_, ?_, ?_⟩, ?_⟩
  · rw [hcs, hupd]; exact htc
  · rw [hcs, hupd]; exact hta
  · rw [ht2, List.append_assoc]
    exact getD_append_length _ _ _ _
  · rw [hupd]; exact htc
  · rw [hupd]; exact hta
  · rw [PNG.png_update_textures, htex]
    exact getD_append_length _ _ _ _
  · intro name' lt' gt' mesh' light' camera' children' root' h0 p' h0' hr'
    obtain ⟨rfl, root1', h1', hpay', hch'⟩ :=
      PNG.png_load_node_ok ext fbx_scene name' lt' gt' mesh' light' camera' false children' root' h0
        p' h0' hr'
    have := png_load_payload_root_kept ext fbx_scene mesh' light' camera' _ root' root1' _ h1'
      hpay'
    subst this
    refine ⟨h1', hpay', ?_, hch'⟩
    intro m hm
    subst hm
    simp only [PNG.load_payload] at hpay'
    split at hpay'
    · cases hpay'
    · rename_i mesh_parts hparts
      exact ⟨mesh_parts, hparts⟩

/-- The table a root without payload ends up with: the array `texture_array`
points at is `texture_table`, and `texture_count` is the number of scene
textures. -/
theorem png_root_table {D F : Type} [Zero F] [One F] [DecidableEq F]
    (ext : Ext D F) (fbx_scene : ufbx_scene D) (name : String) (lt gt : ufbx_transform D)
    (light : Option ufbx_light) (children : List (ufbx_node D)) (root : Option Nat)
    (h : PNG.Heap F) (p : Nat) (h' : PNG.Heap F)
    (hl : light_is_point_spot_or_directional light = false)
    (hr : PNG.load_node ext fbx_scene (.mk name lt gt none light none true children) root h
      = .ok (p, h')) :
    (h'.node p).texture_count = fbx_scene.textures.length ∧
    ∃ a, (h'.node p).texture_array = some a ∧
      h'.textures.getD a [] = PNG.texture_table fbx_scene := by
  obtain ⟨rfl, root1, h1, hpay, hch⟩ :=
    PNG.png_load_node_ok ext fbx_scene name lt gt none light none true children root h p h' hr
  have hlen0 := PNG.png_load_header_length ext name lt h
  have hP := PNG.png_load_payload_post ext fbx_scene none light none true _ root root1 _ h1
    (by omega) hpay
  obtain ⟨_, htc, hta, htex⟩ := png_load_payload_root_table ext fbx_scene light _ root root1
    _ h1 (by omega) hl hpay
  rw [PNG.png_load_header_textures] at hta htex
  have hC := PNG.png_load_children_post ext fbx_scene children h.nodes.length _ _ h'
    (by rw [PNG.png_update_length, hP.length]; omega) hch
  obtain ⟨cs, hcs, _⟩ := hC.node_eq
  obtain ⟨t2, ht2⟩ := hC.tex
  rw [PNG.png_update_textures, htex] at ht2
  have hupd : ∀ g : PNG.Node F → PNG.Node F,
      (h1.update h.nodes.length g).node h.nodes.length = g (h1.node h.nodes.length) :=
    fun g => PNG.png_update_node_eq _ _ _ (by rw [hP.length]; omega)
  refine ⟨?_, h.textures.length, ?_, ?_⟩
  · rw [hcs, hupd]; exact htc
  · rw [hcs, hupd]; exact hta
  · rw [ht2, List.append_assoc]
    exact getD_append_length _ _ _ _

theorem png_texture_table_entries {D F : Type} [Zero F] [One F] [DecidableEq F]
    (ext : Ext D F) (fbx_scene : ufbx_scene D) (name : String) (lt gt : ufbx_transform D)
    (light : Option ufbx_light) (children : List (ufbx_node D)) (root : Option Nat)
    (h : PNG.Heap F) (p : Nat) (h' : PNG.Heap F)
    (hl : light_is_point_spot_or_directional light = false)
    (hr : PNG.load_node ext fbx_scene (.mk name lt gt none light none true children) root h
      = .ok (p, h')) :
    ∃ a table, (h'.node p).texture_array = some a ∧ h'.textures.getD a [] = table ∧
      table.length = fbx_scene.textures.length ∧
      (h'.node p).texture_count = table.length ∧
      (∀ i, table.get? i = (fbx_scene.textures.get? i).map fun fbx_texture =>
        ⟨fbx_texture.relative_filename⟩) ∧
      ((table.map Texture.path).Nodup ↔
        (fbx_scene.textures.map fun fbx_texture =>
          fbx_texture.relative_filename).Nodup) := by
  obtain ⟨htc, a, hta, htab⟩ :=
    png_root_table ext fbx_scene name lt gt light children root h p h' hl hr
  refine ⟨a, PNG.texture_table fbx_scene, hta, htab, ?_, ?_, ?_, ?_⟩
  · simp [PNG.texture_table]
  · rw [htc]; simp [PNG.texture_table]
  · intro i
    simp [PNG.texture_table, List.getElem?_map]
  · simp [PNG.texture_table, List.map_map, Function.comp_def]


end GPU

namespace GPU
namespace PNG

theorem png_texture_loop_no_texture {F : Type} (materials : List ufbx_material)
    (material_index : Nat) (n : Node F) (h : Heap F) (material : ufbx_material)
    (hm : materials.get? material_index = some material)
    (hb : material.base_color_texture = none) :
    ∀ (l : List Nat) (acc r : Option (Nat × Nat)),
      texture_loop materials material_index n h l acc = .ok r → r = acc := by
  intro l
  induction l with
  | nil => intro acc r hr; simp only [texture_loop] at hr; cases hr; rfl
  | cons i rest ih =>
    intro acc r hr
    rw [texture_loop] at hr
    simp only [hm, hb] at hr
    exact ih acc r hr

theorem png_texture_loop_material {F : Type} (materials : List ufbx_material)
    (material_index : Nat) (n : Node F) (h : Heap F) (i : Nat) (rest : List Nat)
    (acc r : Option (Nat × Nat))
    (hr : texture_loop materials material_index n h (i :: rest) acc = .ok r) :
    ∃ material, materials.get? material_index = some material := by
  rw [texture_loop] at hr
  split at hr
  · cases hr
  · rename_i material hm
    exact ⟨material, hm⟩

theorem png_color_texture_resolution {D F : Type} [Zero F] [One F] [DecidableEq F]
    (ext : Ext D F) (mesh : ufbx_mesh D) (part : ufbx_mesh_part) (material_index : Nat)
    (p : Nat) (h : Heap F) (r : Mesh_Part F)
    (hr : load_mesh_part ext mesh part material_index (some p) h = .ok r) :
    (r.color_texture.isSome ↔
      ∃ material texture i, mesh.materials.get? material_index = some material ∧
        material.base_color_texture = some texture ∧ i < (h.node p).texture_count ∧
        table_entry_matches h (h.node p) texture.filename i) ∧
    ∀ arr i, r.color_texture = some (arr, i) →
      (h.node p).texture_array = some arr ∧ i < (h.node p).texture_count ∧
      ∃ material texture entry, mesh.materials.get? material_index = some material ∧
        material.base_color_texture = some texture ∧
        (h.textures.getD arr []).get? i = some entry ∧ entry.path = texture.filename := by
  obtain ⟨p', hp', hloop⟩ := png_load_mesh_part_color_texture ext mesh part material_index _ h r hr
  cases hp'
  rcases hcount : (h.node p).texture_count with _ | k
  · rw [hcount] at hloop
    simp only [List.range_zero, texture_loop] at hloop
    have hct : r.color_texture = none := (Except.ok.inj hloop).symm
    rw [hct]
    constructor
    · constructor
      · intro hs; simp at hs
      · rintro ⟨_, _, i, _, _, hi, _⟩; omega
    · intro arr i hsome
      cases hsome
  · obtain ⟨material, hm⟩ : ∃ material, mesh.materials.get? material_index = some material := by
      rw [hcount, List.range_succ_eq_map] at hloop
      exact png_texture_loop_material _ _ _ _ _ _ _ _ hloop
    rw [← hcount]
    rcases hb : material.base_color_texture with _ | texture
    · have := png_texture_loop_no_texture _ _ _ _ material hm hb _ _ _ hloop
      rw [this]
      constructor
      · constructor
        · intro hs; simp at hs
        · rintro ⟨material', texture', i, hm', hb', _, _⟩
          rw [hm] at hm'
          cases hm'
          rw [hb] at hb'
          cases hb'
      · intro arr i hsome
        cases hsome
    · rcases png_texture_loop_texture _ _ _ _ material texture hm hb _ _ _ hloop with
        ⟨hacc, hno⟩ | ⟨arr, l1, i, l2, hl, hri, harr, hM, _⟩
      · rw [hacc]
        constructor
        · constructor
          · intro hs; simp at hs
          · rintro ⟨material', texture', i, hm', hb', hi, hM⟩
            rw [hm] at hm'
            cases hm'
            rw [hb] at hb'
            cases hb'
            exact absurd hM (hno i (List.mem_range.mpr hi))
        · intro arr i hsome
          cases hsome
      · have hi : i < (h.node p).texture_count := (range_split_after _ _ _ _ hl).1
        rw [hri]
        constructor
        · constructor
          · intro _
            exact ⟨material, texture, i, hm, hb, hi, hM⟩
          · intro _; rfl
        · intro arr' i' hsome
          cases hsome
          obtain ⟨arr'', entry, ha, he, heq⟩ := hM
          rw [harr] at ha
          cases ha
          exact ⟨harr, hi, material, texture, entry, hm, hb, he, heq.symm⟩

theorem png_global_transform_of_loaded {D F : Type} [CommRing F] [DecidableEq F]
    (hm : HandmadeMath F) (ext : Ext D F) (fbx_scene : ufbx_scene D) (fbx_node : ufbx_node D)
    (root : Option Nat) (h : Heap F) (p : Nat) (h' : Heap F)
    (hr : load_node ext fbx_scene fbx_node root h = .ok (p, h'))
    (q : Nat) (hq1 : p ≤ q) (hq2 : q < h'.nodes.length) :
    ∃ M, node_global_transform hm h' q = some M ∧
      ((h'.node q).parent = none ↔ q = p) ∧
      ((h'.node q).parent = none → M = node_local_transform hm (h'.node q)) ∧
      ∀ r, (h'.node q).parent = some r →
        ∃ Mr, node_global_transform hm h' r = some Mr ∧
          M = MulM4 Mr (node_local_transform hm (h'.node q)) := by
  have hN := png_load_node_post ext fbx_scene fbx_node root h p h' hr
  obtain ⟨M, hM⟩ := png_node_global_transform_fuel_total hm h' p hN.top_parent hN.parents q hq1 hq2
  have hM' : node_global_transform hm h' q = some M :=
    png_node_global_transform_fuel_mono hm h' _ _ (by omega) q M hM
  have hstep := png_node_global_transform_step hm h' q M hM'
  refine ⟨M, hM', ?_, hstep.1, hstep.2⟩
  constructor
  · intro hnone
    by_contra hne
    obtain ⟨r, hr', _, _⟩ := hN.parents q (by omega) hq2
    rw [hr'] at hnone
    cases hnone
  · rintro rfl
    exact hN.top_parent


end PNG
end GPU

namespace GPU
namespace FBX

theorem fbx_unwelded_vertices_length {D F : Type} [Zero F] [One F] (ext : Ext D F) (mesh : ufbx_mesh D) (part : ufbx_mesh_part)
    (corners : List (Vertex F)) (h : unwelded_vertices ext mesh part = .ok corners) :
    corners.length = part.num_triangles * 3 := by
  unfold unwelded_vertices at h
  split at h
  · cases h
  · split at h
    · cases h; assumption
    · cases h

theorem fbx_load_mesh_part_ok {D F : Type} [Zero F] [One F] [DecidableEq F] (ext : Ext D F) (mesh : ufbx_mesh D) (part : ufbx_mesh_part)
    (r : Mesh_Part F)
    (hr : load_mesh_part ext mesh part = .ok r) :
    ∃ corners, unwelded_vertices ext mesh part = .ok corners ∧
      corners.length = part.num_triangles * 3 ∧
      r.index_count = part.num_triangles * 3 ∧
      r.index_array = (generate_indices_scan corners).2 ∧
      r.vertex_count = (generate_indices_scan corners).1.length ∧
      r.vertex_array = (generate_indices_scan corners).1 ++
        corners.drop (generate_indices_scan corners).1.length := by
  unfold load_mesh_part at hr
  split at hr
  · cases hr
  · rename_i corners hc
    refine ⟨corners, hc, fbx_unwelded_vertices_length ext mesh part corners hc, ?_⟩
    cases hr
    simp [ufbx_generate_indices]

theorem fbx_reproduces_corner_stream {D F : Type} [Zero F] [One F] [DecidableEq F]
    (ext : Ext D F) (mesh : ufbx_mesh D) (part : ufbx_mesh_part) (r : Mesh_Part F)
    (hr : load_mesh_part ext mesh part = .ok r) :
    ∃ corners, unwelded_vertices ext mesh part = .ok corners ∧
      r.index_count = corners.length ∧ r.index_array.length = corners.length ∧
      ∀ k, k < corners.length →
        ∃ i, r.index_array[k]? = some i ∧ r.vertex_array[i]? = corners[k]? := by
  obtain ⟨corners, hc, hlen, hic, hia, _, hva⟩ := fbx_load_mesh_part_ok ext mesh part r hr
  have hI := scan_inv corners
  refine ⟨corners, hc, by rw [hic, hlen], by rw [hia, hI.len], ?_⟩
  intro k hk
  obtain ⟨i, hi, hi'⟩ := hI.pos k hk
  refine ⟨i, by rw [hia]; exact hi, ?_⟩
  have hil : i < (generate_indices_scan corners).1.length := by
    by_contra hcon
    rw [List.getElem?_eq_none (by omega), List.getElem?_eq_getElem hk] at hi'
    exact absurd hi' (by simp)
  rw [hva, List.getElem?_append_left hil]
  exact hi'

theorem fbx_corner_loop_ok {D F : Type} [Zero F] [One F] (ext : Ext D F) (mesh : ufbx_mesh D)
    (cap num_tri_indices : Nat) (tri_indices : Nat → Nat) :
    ∀ (l : List Nat) (vertices r : List (Vertex F)),
      corner_loop ext mesh cap num_tri_indices tri_indices l vertices = .ok r →
      r = vertices ++ l.map fun i => load_corner ext mesh (tri_indices i) := by
  intro l
  induction l with
  | nil =>
    intro vertices r h
    simp only [corner_loop] at h
    cases h
    simp
  | cons i rest ih =>
    intro vertices r h
    rw [corner_loop] at h
    split at h
    · cases h
    · split at h
      · cases h
      · rw [ih _ r h]
        simp

theorem fbx_face_loop_ok {D F : Type} [Zero F] [One F] (ext : Ext D F) (mesh : ufbx_mesh D)
    (cap : Nat) :
    ∀ (faces : List Nat) (vertices r : List (Vertex F)),
      face_loop ext mesh cap faces vertices = .ok r →
      r = vertices ++ faces.flatMap (face_corners ext mesh) := by
  intro faces
  induction faces with
  | nil =>
    intro vertices r h
    simp only [face_loop] at h
    cases h
    simp
  | cons face_ix rest ih =>
    intro vertices r h
    rw [face_loop] at h
    cases hf : mesh.faces[face_ix]? with
    | none => rw [hf] at h; cases h
    | some face =>
      rw [hf] at h
      simp only [] at h
      split at h
      · cases h
      · rename_i vs hvs
        rw [ih _ r h, fbx_corner_loop_ok ext mesh _ _ _ _ _ _ hvs]
        simp [face_corners, PBR.face_triangles, PBR.face_tri_indices, hf]

theorem fbx_unwelded_vertices_ok {D F : Type} [Zero F] [One F] (ext : Ext D F)
    (mesh : ufbx_mesh D) (part : ufbx_mesh_part) (corners : List (Vertex F))
    (h : unwelded_vertices ext mesh part = .ok corners) :
    corners = part.face_indices.flatMap (face_corners ext mesh) := by
  unfold unwelded_vertices at h
  split at h
  · cases h
  · rename_i vs hvs
    split at h
    · cases h
      simpa using fbx_face_loop_ok ext mesh _ _ _ _ hvs
    · cases h

theorem fbx_load_corner_fields {D F : Type} [Zero F] [One F] (ext : Ext D F) (mesh : ufbx_mesh D)
    (index : Nat) :
    (load_corner ext mesh index : Vertex F).pos =
      (if mesh.vertex_position.exists_ then
        (mesh.vertex_position.get index).conv_float ext.conv else ⟨0, 0, 0⟩) ∧
    (load_corner ext mesh index : Vertex F).color =
      (if mesh.vertex_color.exists_ then
        (mesh.vertex_color.get index).conv_float ext.conv else ⟨1, 1, 1, 1⟩) ∧
    (load_corner ext mesh index : Vertex F).normal =
      (if mesh.vertex_normal.exists_ then
        (mesh.vertex_normal.get index).conv_float ext.conv else ⟨0, 0, 0⟩) ∧
    (load_corner ext mesh index : Vertex F).uv =
      (if mesh.vertex_uv.exists_ then
        (mesh.vertex_uv.get index).conv_float ext.conv else ⟨0, 0⟩) := by
  unfold load_corner
  cases mesh.vertex_position.exists_ <;> cases mesh.vertex_color.exists_ <;>
    cases mesh.vertex_normal.exists_ <;> cases mesh.vertex_uv.exists_ <;>
    simp [Vertex.zero, V4]

theorem fbx_unwelded_vertex_fields {D F : Type} [Zero F] [One F] (ext : Ext D F)
    (mesh : ufbx_mesh D) (part : ufbx_mesh_part) (corners : List (Vertex F))
    (hc : unwelded_vertices ext mesh part = .ok corners) :
    corners = part.face_indices.flatMap (face_corners ext mesh) ∧
    (∀ v ∈ corners, ∃ face_ix i, face_ix ∈ part.face_indices ∧
      i < PBR.face_triangles ext mesh face_ix * 3 ∧
      v = load_corner ext mesh (PBR.face_tri_indices ext mesh face_ix i)) ∧
    ∀ index : Nat,
      (load_corner ext mesh index : Vertex F).pos =
        (if mesh.vertex_position.exists_ then
          (mesh.vertex_position.get index).conv_float ext.conv else ⟨0, 0, 0⟩) ∧
      (load_corner ext mesh index : Vertex F).color =
        (if mesh.vertex_color.exists_ then
          (mesh.vertex_color.get index).conv_float ext.conv else ⟨1, 1, 1, 1⟩) ∧
      (load_corner ext mesh index : Vertex F).normal =
        (if mesh.vertex_normal.exists_ then
          (mesh.vertex_normal.get index).conv_float ext.conv else ⟨0, 0, 0⟩) ∧
      (load_corner ext mesh index : Vertex F).uv =
        (if mesh.vertex_uv.exists_ then
          (mesh.vertex_uv.get index).conv_float ext.conv else ⟨0, 0⟩) := by
  have heq := fbx_unwelded_vertices_ok ext mesh part corners hc
  refine ⟨heq, ?_, fun index => fbx_load_corner_fields ext mesh index⟩
  intro v hv
  rw [heq, List.mem_flatMap] at hv
  obtain ⟨face_ix, hf, hv⟩ := hv
  simp only [face_corners, List.mem_map, List.mem_range] at hv
  obtain ⟨i, hi, rfl⟩ := hv
  exact ⟨face_ix, i, hf, hi, rfl⟩


end FBX
end GPU

namespace GPU
namespace FBX

section fbx_load_node_invariants
variable {D F : Type} [Zero F]

theorem fbx_load_header_ptr (ext : Ext D F) (name : String) (lt gt : ufbx_transform D)
    (h : Heap F) : (load_header ext name lt gt h).1 = h.nodes.length := rfl

theorem fbx_load_header_node_full (ext : Ext D F) (name : String) (lt gt : ufbx_transform D)
    (h : Heap F) :
    (load_header ext name lt gt h).2.node h.nodes.length =
      { (Node.zero : Node F) with
        name := name,
        local_position := lt.translation.conv_float ext.conv,
        local_rotation := lt.rotation.conv_float ext.conv,
        local_scale := lt.scale.conv_float ext.conv,
        geometry_position := gt.translation.conv_float ext.conv,
        geometry_rotation := gt.rotation.conv_float ext.conv,
        geometry_scale := gt.scale.conv_float ext.conv } := by
  show Heap.node (Heap.update (node_create h).2 h.nodes.length _) h.nodes.length = _
  rw [fbx_update_node_eq _ _ _ (by simp [node_create])]
  simp [node_create, Heap.node, List.getD_eq_getElem?_getD]

variable [One F] [DecidableEq F]

theorem fbx_load_payload_frame (ext : Ext D F) (mesh : Option (ufbx_mesh D))
    (light : Option ufbx_light) (node : Nat) (h h' : Heap F) (hn : node < h.nodes.length)
    (hr : load_payload ext mesh light node h = .ok h') : Payload_Post node h h' := by
  unfold load_payload at hr
  split at hr
  · split at hr
    · cases hr
    · cases hr
      exact ⟨fbx_update_length _ _ _, fun q hq => fbx_update_node_ne _ _ _ _ hq,
        by rw [fbx_update_node_eq _ _ _ hn], by rw [fbx_update_node_eq _ _ _ hn]⟩
  · split at hr
    · cases hr; exact ⟨rfl, fun _ _ => rfl, rfl, rfl⟩
    · split at hr
      · cases hr; exact ⟨rfl, fun _ _ => rfl, rfl, rfl⟩
      · split at hr
        · cases hr; exact ⟨rfl, fun _ _ => rfl, rfl, rfl⟩
        · cases hr
          exact ⟨fbx_update_length _ _ _, fun q hq => fbx_update_node_ne _ _ _ _ hq,
            by rw [fbx_update_node_eq _ _ _ hn], by rw [fbx_update_node_eq _ _ _ hn]⟩

mutual
theorem fbx_load_node_post (ext : Ext D F) :
    (fbx_node : ufbx_node D) → (h : Heap F) → (p : Nat) → (h' : Heap F) →
    load_node ext fbx_node h = .ok (p, h') → Node_Post h h' p
  | .mk name lt gt mesh light camera is_root children, h, p, h', hr => by
    obtain ⟨rfl, h1, hpay, hch⟩ :=
      fbx_load_node_ok ext name lt gt mesh light camera is_root children h p h' hr
    have hlen0 := fbx_load_header_length ext name lt gt h
    have hP := fbx_load_payload_frame ext mesh light _ _ h1 (by omega) hpay
    have hlen1 : h1.nodes.length = h.nodes.length + 1 := by rw [hP.length, hlen0]
    have hC := fbx_load_children_post ext children h.nodes.length _ h'
      (by rw [fbx_update_length]; omega) hch
    have hCg := hC.grow
    rw [fbx_update_length] at hCg
    obtain ⟨cs, hcs, hcsr⟩ := hC.node_eq
    rw [fbx_update_length] at hcsr
    have hpar : (h'.node h.nodes.length).parent = none := by
      rw [hcs, fbx_update_node_eq _ _ _ (by omega)]
      show (h1.node h.nodes.length).parent = none
      rw [hP.parent, fbx_load_header_node_full]
      rfl
    refine ⟨rfl, by omega, ?_, hpar, ?_, ?_⟩
    · intro q hq
      rw [hC.frame q (by rw [fbx_update_length]; omega) (by omega),
        fbx_update_node_ne _ _ _ _ (by omega), hP.frame q (by omega),
        fbx_load_header_node_lt _ _ _ _ _ _ hq]
    · intro q hq1 hq2
      exact hC.parents q (by rw [fbx_update_length]; omega) hq2
    · intro q hq1 hq2 c hc
      rcases Nat.eq_or_lt_of_le hq1 with hq | hq
      · subst hq
        rw [hcs, fbx_update_node_eq _ _ _ (by omega)] at hc
        simp only [List.nil_append] at hc
        have := hcsr c hc
        omega
      · exact hC.children q (by rw [fbx_update_length]; omega) hq2 c hc
termination_by structural fbx_node => fbx_node
theorem fbx_load_children_post (ext : Ext D F) :
    (fbx_children : List (ufbx_node D)) → (node : Nat) → (h : Heap F) →
    (h' : Heap F) → node < h.nodes.length →
    load_children ext fbx_children node h = .ok h' → Children_Post node h h'
  | [], node, h, h', hn, hr => by
    rw [load_children] at hr
    cases hr
    exact ⟨le_refl _, fun _ _ _ => rfl, ⟨[], by simp⟩,
      fun q h1 h2 => absurd h1 (by omega), fun q h1 h2 => absurd h1 (by omega)⟩
  | fbx_child :: rest, node, h, h', hn, hr => by
    rw [load_children] at hr
    split at hr
    · cases hr
    · rename_i c h1 hc
      have hN := fbx_load_node_post ext fbx_child h c h1 hc
      have hcptr := hN.ptr
      have hgrow := hN.grow
      have hC := fbx_load_children_post ext rest node _ h'
        (by simp only [fbx_update_length]; omega) hr
      have hCg := hC.grow
      simp only [fbx_update_length] at hCg
      have hne : node ≠ c := by omega
      refine ⟨by omega, ?_, ?_, ?_, ?_⟩
      · intro q hq hqn
        rw [hC.frame q (by simp only [fbx_update_length]; omega) hqn,
          fbx_update_node_ne _ _ _ _ (by omega), fbx_update_node_ne _ _ _ _ hqn,
          hN.frame q hq]
      · obtain ⟨cs, hcs, hcsr⟩ := hC.node_eq
        simp only [fbx_update_length] at hcsr
        refine ⟨c :: cs, ?_, ?_⟩
        · rw [hcs, fbx_update_node_ne _ _ _ _ hne, fbx_update_node_eq _ _ _ (by omega),
            hN.frame node hn]
          simp
        · intro c' hc'
          rcases List.mem_cons.mp hc' with hc' | hc'
          · omega
          · have := hcsr c' hc'
            omega
      · intro q hq1 hq2
        by_cases hq : q < h1.nodes.length
        · rw [hC.frame q (by simp only [fbx_update_length]; exact hq) (by omega)]
          by_cases hqc : q = c
          · subst hqc
            refine ⟨node, ?_, le_refl _, by omega⟩
            rw [fbx_update_node_eq _ _ _ (by simp only [fbx_update_length]; omega)]
          · rw [fbx_update_node_ne _ _ _ _ hqc, fbx_update_node_ne _ _ _ _ (by omega)]
            obtain ⟨r, hr1, hr2, hr3⟩ := hN.parents q (by omega) hq
            exact ⟨r, hr1, by omega, hr3⟩
        · exact hC.parents q (by simp only [fbx_update_length]; omega) hq2
      · intro q hq1 hq2 c' hc'
        by_cases hq : q < h1.nodes.length
        · rw [hC.frame q (by simp only [fbx_update_length]; exact hq) (by omega)] at hc'
          have hc'' : c' ∈ (h1.node q).child_array := by
            by_cases hqc : q = c
            · subst hqc
              rw [fbx_update_node_eq _ _ _ (by simp only [fbx_update_length]; omega),
                fbx_update_node_ne _ _ _ _ (by omega)] at hc'
              exact hc'
            · rw [fbx_update_node_ne _ _ _ _ hqc, fbx_update_node_ne _ _ _ _ (by omega)] at hc'
              exact hc'
          have := hN.children q (by omega) hq c' hc''
          omega
        · exact hC.children q (by simp only [fbx_update_length]; omega) hq2 c' hc'
termination_by structural fbx_children => fbx_children
end

end fbx_load_node_invariants

end FBX
end GPU

namespace GPU
namespace FBX

mutual
theorem fbx_Imported_congr {D F : Type} [Zero F] (ext : Ext D F) (h h2 : Heap F)
    (hlen : h.nodes.length ≤ h2.nodes.length) :
    (fbx_node : ufbx_node D) → (q : Nat) → Imported ext h fbx_node q →
    (∀ r, q < r → r < h.nodes.length → h2.node r = h.node r) →
    (h2.node q).name = (h.node q).name →
    (h2.node q).local_position = (h.node q).local_position →
    (h2.node q).local_rotation = (h.node q).local_rotation →
    (h2.node q).local_scale = (h.node q).local_scale →
    (h2.node q).geometry_position = (h.node q).geometry_position →
    (h2.node q).geometry_rotation = (h.node q).geometry_rotation →
    (h2.node q).geometry_scale = (h.node q).geometry_scale →
    (h2.node q).child_count = (h.node q).child_count →
    (h2.node q).child_array = (h.node q).child_array →
    Imported ext h2 fbx_node q
  | .mk name lt gt mesh light camera is_root children, q, hI, hfr, e1, e2, e3, e4, e5, e6, e7,
      e8, e9 => by
    rw [Imported] at hI ⊢
    obtain ⟨hq, i1, i2, i3, i4, i5, i6, i7, i8, i9⟩ := hI
    refine ⟨by omega, by rw [e1, i1], by rw [e2, i2], by rw [e3, i3], by rw [e4, i4],
      by rw [e5, i5], by rw [e6, i6], by rw [e7, i7], by rw [e8, i8], ?_⟩
    rw [e9]
    exact fbx_Imported_children_congr ext h h2 hlen children q _ i9 hfr
termination_by structural fbx_node => fbx_node
theorem fbx_Imported_children_congr {D F : Type} [Zero F] (ext : Ext D F) (h h2 : Heap F)
    (hlen : h.nodes.length ≤ h2.nodes.length) :
    (fbx_children : List (ufbx_node D)) → (q : Nat) → (cs : List Nat) →
    Imported_children ext h fbx_children q cs →
    (∀ r, q < r → r < h.nodes.length → h2.node r = h.node r) →
    Imported_children ext h2 fbx_children q cs
  | [], q, cs, hI, _ => by
    rw [Imported_children] at hI ⊢
    exact hI
  | fbx_child :: rest, q, cs, hI, hfr => by
    rw [Imported_children] at hI ⊢
    obtain ⟨c, cs', hcs, hqc, hpar, hIc, hIrest⟩ := hI
    have hc : c < h.nodes.length := by
      cases fbx_child with
      | mk name lt gt mesh light camera is_root children =>
        rw [Imported] at hIc
        exact hIc.1
    have hnode := hfr c hqc hc
    refine ⟨c, cs', hcs, hqc, by rw [hnode]; exact hpar, ?_, ?_⟩
    · exact fbx_Imported_congr ext h h2 hlen fbx_child c hIc
        (fun r hr1 hr2 => hfr r (by omega) hr2)
        (by rw [hnode]) (by rw [hnode]) (by rw [hnode]) (by rw [hnode]) (by rw [hnode])
        (by rw [hnode]) (by rw [hnode]) (by rw [hnode]) (by rw [hnode])
    · exact fbx_Imported_children_congr ext h h2 hlen rest q cs' hIrest hfr
termination_by structural fbx_children => fbx_children
end

theorem fbx_load_payload_header_fields {D F : Type} [Zero F] [One F] [DecidableEq F]
    (ext : Ext D F) (mesh : Option (ufbx_mesh D)) (light : Option ufbx_light) (node : Nat)
    (h h' : Heap F) (hn : node < h.nodes.length)
    (hr : load_payload ext mesh light node h = .ok h') :
    (h'.node node).name = (h.node node).name ∧
    (h'.node node).local_position = (h.node node).local_position ∧
    (h'.node node).local_rotation = (h.node node).local_rotation ∧
    (h'.node node).local_scale = (h.node node).local_scale ∧
    (h'.node node).geometry_position = (h.node node).geometry_position ∧
    (h'.node node).geometry_rotation = (h.node node).geometry_rotation ∧
    (h'.node node).geometry_scale = (h.node node).geometry_scale := by
  unfold load_payload at hr
  split at hr
  · split at hr
    · cases hr
    · cases hr
      rw [fbx_update_node_eq _ _ _ hn]
      simp
  · split at hr
    · cases hr; simp
    · split at hr
      · cases hr; simp
      · split at hr
        · cases hr; simp
        · cases hr
          rw [fbx_update_node_eq _ _ _ hn]
          simp

mutual
theorem fbx_load_node_imported {D F : Type} [Zero F] [One F] [DecidableEq F] (ext : Ext D F) :
    (fbx_node : ufbx_node D) → (h : Heap F) → (p : Nat) → (h' : Heap F) →
    load_node ext fbx_node h = .ok (p, h') → Imported ext h' fbx_node p
  | .mk name lt gt mesh light camera is_root children, h, p, h', hr => by
    obtain ⟨rfl, h1, hpay, hch⟩ :=
      fbx_load_node_ok ext name lt gt mesh light camera is_root children h p h' hr
    have hlen0 := fbx_load_header_length ext name lt gt h
    have hP := fbx_load_payload_frame ext mesh light _ _ h1 (by omega) hpay
    have hF := fbx_load_payload_header_fields ext mesh light _ _ h1 (by omega) hpay
    rw [fbx_load_header_node_full] at hF
    simp only [] at hF
    obtain ⟨f1, f2, f3, f4, f5, f6, f7⟩ := hF
    have hlt : h.nodes.length < h1.nodes.length := by rw [hP.length]; omega
    have hC := fbx_load_children_post ext children h.nodes.length _ h'
      (by rw [fbx_update_length]; exact hlt) hch
    have hCg := hC.grow
    rw [fbx_update_length] at hCg
    obtain ⟨cs, hcs, hI⟩ := fbx_load_children_imported ext children h.nodes.length
      _ h' (by rw [fbx_update_length]; exact hlt) hch
    obtain ⟨cs', hnode, _⟩ := hC.node_eq
    rw [fbx_update_node_eq _ _ _ hlt] at hcs hnode
    simp only [List.nil_append] at hcs hnode
    rw [Imported]
    rw [hcs]
    rw [hnode]
    exact ⟨by omega, f1, f2, f3, f4, f5, f6, f7, rfl, hI⟩
termination_by structural fbx_node => fbx_node
theorem fbx_load_children_imported {D F : Type} [Zero F] [One F] [DecidableEq F]
    (ext : Ext D F) :
    (fbx_children : List (ufbx_node D)) → (node : Nat) → (h : Heap F) →
    (h' : Heap F) → node < h.nodes.length →
    load_children ext fbx_children node h = .ok h' →
    ∃ cs, (h'.node node).child_array = (h.node node).child_array ++ cs ∧
      Imported_children ext h' fbx_children node cs
  | [], node, h, h', hn, hr => by
    rw [load_children] at hr
    cases hr
    refine ⟨[], by simp, ?_⟩
    rw [Imported_children]
  | fbx_child :: rest, node, h, h', hn, hr => by
    rw [load_children] at hr
    split at hr
    · cases hr
    · rename_i c h1 hc
      have hN := fbx_load_node_post ext fbx_child h c h1 hc
      have hIc := fbx_load_node_imported ext fbx_child h c h1 hc
      have hcptr := hN.ptr
      have hgrow := hN.grow
      have hne : node ≠ c := by omega
      have hC := fbx_load_children_post ext rest node _ h'
        (by simp only [fbx_update_length]; omega) hr
      have hCg := hC.grow
      simp only [fbx_update_length] at hCg
      obtain ⟨cs', hcs', hIrest⟩ := fbx_load_children_imported ext rest node _ h'
        (by simp only [fbx_update_length]; omega) hr
      rw [fbx_update_node_ne _ _ _ _ hne, fbx_update_node_eq _ _ _ (by omega),
        hN.frame node hn] at hcs'
      have hframe : ∀ r, c < r → r < h1.nodes.length → h'.node r = h1.node r := by
        intro r hr1 hr2
        rw [hC.frame r (by simp only [fbx_update_length]; exact hr2) (by omega),
          fbx_update_node_ne _ _ _ _ (by omega), fbx_update_node_ne _ _ _ _ (by omega)]
      have hcnode : h'.node c = { h1.node c with parent := some node } := by
        rw [hC.frame c (by simp only [fbx_update_length]; omega) (by omega),
          fbx_update_node_eq _ _ _ (by simp only [fbx_update_length]; omega),
          fbx_update_node_ne _ _ _ _ (by omega)]
      refine ⟨c :: cs', by rw [hcs']; simp, ?_⟩
      rw [Imported_children]
      refine ⟨c, cs', rfl, by omega, by rw [hcnode], ?_, hIrest⟩
      exact fbx_Imported_congr ext h1 h' hCg fbx_child c hIc hframe
        (by rw [hcnode]) (by rw [hcnode]) (by rw [hcnode]) (by rw [hcnode]) (by rw [hcnode])
        (by rw [hcnode]) (by rw [hcnode]) (by rw [hcnode]) (by rw [hcnode])
termination_by structural fbx_children => fbx_children
end

theorem fbx_Imported_children_get {D F : Type} [Zero F] (ext : Ext D F) (h : Heap F) :
    ∀ (fbx_children : List (ufbx_node D)) (q : Nat) (cs : List Nat),
      Imported_children ext h fbx_children q cs →
      cs.length = fbx_children.length ∧
      ∀ i fbx_child, fbx_children.get? i = some fbx_child →
        ∃ c, cs.get? i = some c ∧ (h.node c).parent = some q ∧ Imported ext h fbx_child c := by
  intro fbx_children
  induction fbx_children with
  | nil =>
    intro q cs hI
    rw [Imported_children] at hI
    subst hI
    exact ⟨rfl, fun i s hs => by simp at hs⟩
  | cons s rest ih =>
    intro q cs hI
    rw [Imported_children] at hI
    obtain ⟨c, cs', rfl, _, hpar, hIc, hIrest⟩ := hI
    obtain ⟨hlen, hall⟩ := ih q cs' hIrest
    refine ⟨by simp [hlen], ?_⟩
    intro i s' hs'
    cases i with
    | zero =>
      simp only [List.get?_cons_zero, Option.some.injEq] at hs'
      subst hs'
      exact ⟨c, rfl, hpar, hIc⟩
    | succ i =>
      simp only [List.get?_cons_succ] at hs'
      obtain ⟨c', h1, h2, h3⟩ := hall i s' hs'
      exact ⟨c', by simpa using h1, h2, h3⟩

theorem fbx_load_node_children {D F : Type} [Zero F] [One F] [DecidableEq F] (ext : Ext D F)
    (name : String) (lt gt : ufbx_transform D)
    (mesh : Option (ufbx_mesh D)) (light : Option ufbx_light) (camera : Option ufbx_camera)
    (is_root : Bool) (children : List (ufbx_node D)) (h : Heap F) (p : Nat)
    (h' : Heap F)
    (hr : load_node ext (.mk name lt gt mesh light camera is_root children) h
      = .ok (p, h')) :
    (h'.node p).parent = none ∧
    (h'.node p).child_count = children.length ∧
    (h'.node p).child_array.length = children.length ∧
    (∀ i fbx_child, children.get? i = some fbx_child →
      ∃ c, (h'.node p).child_array.get? i = some c ∧ (h'.node c).parent = some p ∧
        Imported ext h' fbx_child c) ∧
    Imported ext h' (.mk name lt gt mesh light camera is_root children) p := by
  have hN := fbx_load_node_post ext _ h p h' hr
  have hI := fbx_load_node_imported ext _ h p h' hr
  have hI' := hI
  rw [Imported] at hI'
  obtain ⟨_, _, _, _, _, _, _, _, hcount, hch⟩ := hI'
  obtain ⟨hlen, hall⟩ := fbx_Imported_children_get ext h' children p _ hch
  exact ⟨hN.top_parent, hcount, hlen, hall, hI⟩


end FBX
end GPU

namespace GPU

/-- C1: in the PBR variant and in the FBX-loading variant, the Mesh Part
returned by `load_mesh_part` reproduces the unwelded corner stream:
`index_count` is the number of unwelded corners, the index array has one entry
per corner, and for every corner `k` the vertex `vertex_array[index_array[k]]`
is the `k`-th unwelded corner record. -/
theorem load_mesh_part_reproduces_corner_stream {D F : Type} [Zero F] [One F] [DecidableEq F]
    (ext : Ext D F) (mesh : ufbx_mesh D) (part : ufbx_mesh_part) :
    (∀ (material_index : Nat) (node : Option Nat) (h : PBR.Heap F) (r : PBR.Mesh_Part F),
      PBR.load_mesh_part ext mesh part material_index node h = .ok r →
      ∃ corners, PBR.unwelded_vertices ext mesh part = .ok corners ∧
        r.index_count = corners.length ∧ r.index_array.length = corners.length ∧
        ∀ k, k < corners.length →
          ∃ i, r.index_array[k]? = some i ∧ r.vertex_array[i]? = corners[k]?) ∧
    (∀ r : FBX.Mesh_Part F, FBX.load_mesh_part ext mesh part = .ok r →
      ∃ corners, FBX.unwelded_vertices ext mesh part = .ok corners ∧
        r.index_count = corners.length ∧ r.index_array.length = corners.length ∧
        ∀ k, k < corners.length →
          ∃ i, r.index_array[k]? = some i ∧ r.vertex_array[i]? = corners[k]?) :=
  ⟨fun material_index node h r hr =>
      PBR.pbr_reproduces_corner_stream ext mesh part material_index node h r hr,
    fun r hr => FBX.fbx_reproduces_corner_stream ext mesh part r hr⟩

/-- Witness of C1 on the quad, in both variants: six corners, four welded
vertices. -/
theorem load_mesh_part_reproduces_corner_stream_witness :
    PBR.load_mesh_part fan_ext quad_mesh quad_part 0 (some 0) table_heap = .ok quad_mesh_part ∧
    FBX.load_mesh_part fan_ext quad_mesh quad_part = .ok fbx_quad_mesh_part ∧
    (∃ corners, PBR.unwelded_vertices fan_ext quad_mesh quad_part = .ok corners ∧
      quad_mesh_part.index_count = corners.length ∧
      quad_mesh_part.index_array.length = corners.length ∧
      ∀ k, k < corners.length →
        ∃ i, quad_mesh_part.index_array[k]? = some i ∧
          quad_mesh_part.vertex_array[i]? = corners[k]?) ∧
    ∃ corners, FBX.unwelded_vertices fan_ext quad_mesh quad_part = .ok corners ∧
      fbx_quad_mesh_part.index_count = corners.length ∧
      fbx_quad_mesh_part.index_array.length = corners.length ∧
      ∀ k, k < corners.length →
        ∃ i, fbx_quad_mesh_part.index_array[k]? = some i ∧
          fbx_quad_mesh_part.vertex_array[i]? = corners[k]? :=
  ⟨rfl, rfl,
    (load_mesh_part_reproduces_corner_stream fan_ext quad_mesh quad_part).1 0 (some 0)
      table_heap quad_mesh_part rfl,
    (load_mesh_part_reproduces_corner_stream fan_ext quad_mesh quad_part).2
      fbx_quad_mesh_part rfl⟩

/-- C16: in the PBR variant and in the FBX-loading variant, the unwelded
stream is, face after face and corner after corner, the record `load_corner`
builds for the corner index returned by triangulation, and each field of that
record is the source attribute at that index narrowed by `conv_float` when the
stream exists, and otherwise the default: color `(1, 1, 1, 1)`, and zero for
position, normal and uv, and in the PBR variant, whose `struct Vertex` has
them, for tangent and bitangent. -/
theorem unwelded_vertex_fields {D F : Type} [Zero F] [One F] (ext : Ext D F)
    (mesh : ufbx_mesh D) (part : ufbx_mesh_part) :
    (∀ corners : List (PBR.Vertex F), PBR.unwelded_vertices ext mesh part = .ok corners →
      corners = part.face_indices.flatMap (PBR.face_corners ext mesh) ∧
      (∀ v ∈ corners, ∃ face_ix i, face_ix ∈ part.face_indices ∧
        i < PBR.face_triangles ext mesh face_ix * 3 ∧
        v = PBR.load_corner ext mesh (PBR.face_tri_indices ext mesh face_ix i)) ∧
      ∀ index : Nat,
        (PBR.load_corner ext mesh index : PBR.Vertex F).pos =
          (if mesh.vertex_position.exists_ then
            (mesh.vertex_position.get index).conv_float ext.conv else ⟨0, 0, 0⟩) ∧
        (PBR.load_corner ext mesh index : PBR.Vertex F).color =
          (if mesh.vertex_color.exists_ then
            (mesh.vertex_color.get index).conv_float ext.conv else ⟨1, 1, 1, 1⟩) ∧
        (PBR.load_corner ext mesh index : PBR.Vertex F).normal =
          (if mesh.vertex_normal.exists_ then
            (mesh.vertex_normal.get index).conv_float ext.conv else ⟨0, 0, 0⟩) ∧
        (PBR.load_corner ext mesh index : PBR.Vertex F).tangent =
          (if mesh.vertex_tangent.exists_ then
            (mesh.vertex_tangent.get index).conv_float ext.conv else ⟨0, 0, 0⟩) ∧
        (PBR.load_corner ext mesh index : PBR.Vertex F).bitangent =
          (if mesh.vertex_bitangent.exists_ then
            (mesh.vertex_bitangent.get index).conv_float ext.conv else ⟨0, 0, 0⟩) ∧
        (PBR.load_corner ext mesh index : PBR.Vertex F).uv =
          (if mesh.vertex_uv.exists_ then
            (mesh.vertex_uv.get index).conv_float ext.conv else ⟨0, 0⟩)) ∧
    (∀ corners : List (FBX.Vertex F), FBX.unwelded_vertices ext mesh part = .ok corners →
      corners = part.face_indices.flatMap (FBX.face_corners ext mesh) ∧
      (∀ v ∈ corners, ∃ face_ix i, face_ix ∈ part.face_indices ∧
        i < PBR.face_triangles ext mesh face_ix * 3 ∧
        v = FBX.load_corner ext mesh (PBR.face_tri_indices ext mesh face_ix i)) ∧
      ∀ index : Nat,
        (FBX.load_corner ext mesh index : FBX.Vertex F).pos =
          (if mesh.vertex_position.exists_ then
            (mesh.vertex_position.get index).conv_float ext.conv else ⟨0, 0, 0⟩) ∧
        (FBX.load_corner ext mesh index : FBX.Vertex F).color =
          (if mesh.vertex_color.exists_ then
            (mesh.vertex_color.get index).conv_float ext.conv else ⟨1, 1, 1, 1⟩) ∧
        (FBX.load_corner ext mesh index : FBX.Vertex F).normal =
          (if mesh.vertex_normal.exists_ then
            (mesh.vertex_normal.get index).conv_float ext.conv else ⟨0, 0, 0⟩) ∧
        (FBX.load_corner ext mesh index : FBX.Vertex F).uv =
          (if mesh.vertex_uv.exists_ then
            (mesh.vertex_uv.get index).conv_float ext.conv else ⟨0, 0⟩)) :=
  ⟨fun corners hc => PBR.pbr_unwelded_vertex_fields ext mesh part corners hc,
    fun corners hc => FBX.fbx_unwelded_vertex_fields ext mesh part corners hc⟩

/-- Witness of C16 on the quad, which has a position stream only: the first
corner of either variant is at `(0, 0, 0)`, white, with every other field
zero. -/
theorem unwelded_vertex_fields_witness :
    PBR.unwelded_vertices fan_ext quad_mesh quad_part = .ok quad_corners ∧
    FBX.unwelded_vertices fan_ext quad_mesh quad_part = .ok fbx_quad_corners ∧
    quad_corners = quad_part.face_indices.flatMap (PBR.face_corners fan_ext quad_mesh) ∧
    fbx_quad_corners = quad_part.face_indices.flatMap (FBX.face_corners fan_ext quad_mesh) ∧
    (PBR.load_corner fan_ext quad_mesh 3 : PBR.Vertex Int).pos = ⟨3, 0, 0⟩ ∧
    (PBR.load_corner fan_ext quad_mesh 3 : PBR.Vertex Int).color = ⟨1, 1, 1, 1⟩ ∧
    (PBR.load_corner fan_ext quad_mesh 3 : PBR.Vertex Int).tangent = ⟨0, 0, 0⟩ ∧
    (FBX.load_corner fan_ext quad_mesh 3 : FBX.Vertex Int).pos = ⟨3, 0, 0⟩ ∧
    (FBX.load_corner fan_ext quad_mesh 3 : FBX.Vertex Int).color = ⟨1, 1, 1, 1⟩ ∧
    (FBX.load_corner fan_ext quad_mesh 3 : FBX.Vertex Int).uv = ⟨0, 0⟩ :=
  ⟨rfl, rfl,
    ((unwelded_vertex_fields fan_ext quad_mesh quad_part).1 quad_corners rfl).1,
    ((unwelded_vertex_fields fan_ext quad_mesh quad_part).2 fbx_quad_corners rfl).1,
    (((unwelded_vertex_fields fan_ext quad_mesh quad_part).1 quad_corners rfl).2.2 3).1,
    (((unwelded_vertex_fields fan_ext quad_mesh quad_part).1 quad_corners rfl).2.2 3).2.1,
    (((unwelded_vertex_fields fan_ext quad_mesh quad_part).1 quad_corners rfl).2.2 3).2.2.2.1,
    (((unwelded_vertex_fields fan_ext quad_mesh quad_part).2 fbx_quad_corners rfl).2.2 3).1,
    (((unwelded_vertex_fields fan_ext quad_mesh quad_part).2 fbx_quad_corners rfl).2.2 3).2.1,
    (((unwelded_vertex_fields fan_ext quad_mesh quad_part).2 fbx_quad_corners rfl).2.2 3).2.2.2⟩

end GPU

namespace GPU

/-- C5: in a tree built by `load_node`, in the PBR variant and in the
PNG-loading variant, `node_global_transform` returns for every node; the only
node without a parent is the root of the tree, where the result is
`node_local_transform(node)`; for any other node it is
`node_global_transform(parent)` multiplied on the right by
`node_local_transform(node)`. -/
theorem node_global_transform_of_loaded {D F : Type} [CommRing F] [DecidableEq F]
    (hm : HandmadeMath F) (ext : Ext D F) (fbx_scene : ufbx_scene D) (fbx_node : ufbx_node D)
    (root : Option Nat) :
    (∀ (h : PBR.Heap F) (p : Nat) (h' : PBR.Heap F),
      PBR.load_node ext fbx_scene fbx_node root h = .ok (p, h') →
      ∀ q, p ≤ q → q < h'.nodes.length →
      ∃ M, PBR.node_global_transform hm h' q = some M ∧
        ((h'.node q).parent = none ↔ q = p) ∧
        ((h'.node q).parent = none → M = PBR.node_local_transform hm (h'.node q)) ∧
        ∀ r, (h'.node q).parent = some r →
          ∃ Mr, PBR.node_global_transform hm h' r = some Mr ∧
            M = MulM4 Mr (PBR.node_local_transform hm (h'.node q))) ∧
    (∀ (h : PNG.Heap F) (p : Nat) (h' : PNG.Heap F),
      PNG.load_node ext fbx_scene fbx_node root h = .ok (p, h') →
      ∀ q, p ≤ q → q < h'.nodes.length →
      ∃ M, PNG.node_global_transform hm h' q = some M ∧
        ((h'.node q).parent = none ↔ q = p) ∧
        ((h'.node q).parent = none → M = PNG.node_local_transform hm (h'.node q)) ∧
        ∀ r, (h'.node q).parent = some r →
          ∃ Mr, PNG.node_global_transform hm h' r = some Mr ∧
            M = MulM4 Mr (PNG.node_local_transform hm (h'.node q))) :=
  ⟨fun h p h' hr q hq1 hq2 =>
      PBR.pbr_global_transform_of_loaded hm ext fbx_scene fbx_node root h p h' hr q hq1 hq2,
    fun h p h' hr q hq1 hq2 =>
      PNG.png_global_transform_of_loaded hm ext fbx_scene fbx_node root h p h' hr q hq1 hq2⟩

/-- Witness of C5 on the three-node chain, at the innermost node, in both
variants. -/
theorem node_global_transform_of_loaded_witness :
    PBR.load_node fan_ext chain_scene chain_scene.root_node none PBR.Heap.empty
      = .ok (0, chain_heap) ∧
    PNG.load_node fan_ext chain_scene chain_scene.root_node none PNG.Heap.empty
      = .ok (0, png_chain_heap) ∧
    (chain_heap.node 2).parent = some 1 ∧ (png_chain_heap.node 2).parent = some 1 ∧
    (∃ M, PBR.node_global_transform exact_math chain_heap 2 = some M ∧
      ((chain_heap.node 2).parent = none ↔ 2 = 0) ∧
      ((chain_heap.node 2).parent = none →
        M = PBR.node_local_transform exact_math (chain_heap.node 2)) ∧
      ∀ r, (chain_heap.node 2).parent = some r →
        ∃ Mr, PBR.node_global_transform exact_math chain_heap r = some Mr ∧
          M = MulM4 Mr (PBR.node_local_transform exact_math (chain_heap.node 2))) ∧
    ∃ M, PNG.node_global_transform exact_math png_chain_heap 2 = some M ∧
      ((png_chain_heap.node 2).parent = none ↔ 2 = 0) ∧
      ((png_chain_heap.node 2).parent = none →
        M = PNG.node_local_transform exact_math (png_chain_heap.node 2)) ∧
      ∀ r, (png_chain_heap.node 2).parent = some r →
        ∃ Mr, PNG.node_global_transform exact_math png_chain_heap r = some Mr ∧
          M = MulM4 Mr (PNG.node_local_transform exact_math (png_chain_heap.node 2)) :=
  ⟨rfl, rfl, by decide, by decide,
    (node_global_transform_of_loaded exact_math fan_ext chain_scene chain_scene.root_node
      none).1 PBR.Heap.empty 0 chain_heap rfl 2 (by decide) (by decide),
    (node_global_transform_of_loaded exact_math fan_ext chain_scene chain_scene.root_node
      none).2 PNG.Heap.empty 0 png_chain_heap rfl 2 (by decide) (by decide)⟩

end GPU

namespace GPU

/-- C9 (amended): in the PBR variant and in the PNG-loading variant, when the
root source node is flagged `is_root` and has no mesh, no point, spot or
directional light and no camera, `load_node` builds the scene's texture table
on the resulting root Node (`texture_count` is the number of textures of the
scene, `texture_array` points at the table); the child loop of the root is run
with this Node as `root`; and every node that is not flagged `is_root` hands
the `root` it received to its own classification, to the loop that calls
`load_mesh_part`, and to its own child loop. -/
theorem load_node_root_texture_table {D F : Type} [Zero F] [One F] [DecidableEq F]
    (ext : Ext D F) (fbx_scene : ufbx_scene D) (name : String) (lt gt : ufbx_transform D)
    (light : Option ufbx_light) (children : List (ufbx_node D)) (root : Option Nat)
    (hl : light_is_point_spot_or_directional light = false) :
    (∀ (h : PBR.Heap F) (p : Nat) (h' : PBR.Heap F),
      PBR.load_node ext fbx_scene (.mk name lt gt none light none true children) root h
        = .ok (p, h') →
      (h'.node p).texture_count = fbx_scene.textures.length ∧
      (PBR.texture_table ext fbx_scene).length = fbx_scene.textures.length ∧
      (∃ a, (h'.node p).texture_array = some a ∧
        h'.textures.getD a [] = PBR.texture_table ext fbx_scene ∧
        ∃ h1, PBR.load_children ext fbx_scene children p (some p) h1 = .ok h' ∧
          (h1.node p).texture_count = fbx_scene.textures.length ∧
          (h1.node p).texture_array = some a ∧
          h1.textures.getD a [] = PBR.texture_table ext fbx_scene) ∧
      (∀ name' lt' gt' mesh' light' camera' children' root' (h0 : PBR.Heap F) p' h0',
        PBR.load_node ext fbx_scene (.mk name' lt' gt' mesh' light' camera' false children')
          root' h0 = .ok (p', h0') →
        ∃ h2, PBR.load_payload ext fbx_scene mesh' light' camera' false p' root'
            (PBR.load_header ext name' lt' gt' h0).2 = .ok (root', h2) ∧
          (∀ m, mesh' = some m → ∃ mesh_parts,
            PBR.mesh_parts_loop ext m root' (PBR.load_header ext name' lt' gt' h0).2
              m.material_parts 0 = .ok mesh_parts) ∧
          PBR.load_children ext fbx_scene children' p' root'
            (h2.update p' fun n =>
              { n with child_array := [], child_count := children'.length })
            = .ok h0')) ∧
    (∀ (h : PNG.Heap F) (p : Nat) (h' : PNG.Heap F),
      PNG.load_node ext fbx_scene (.mk name lt gt none light none true children) root h
        = .ok (p, h') →
      (h'.node p).texture_count = fbx_scene.textures.length ∧
      (PNG.texture_table fbx_scene).length = fbx_scene.textures.length ∧
      (∃ a, (h'.node p).texture_array = some a ∧
        h'.textures.getD a [] = PNG.texture_table fbx_scene ∧
        ∃ h1, PNG.load_children ext fbx_scene children p (some p) h1 = .ok h' ∧
          (h1.node p).texture_count = fbx_scene.textures.length ∧
          (h1.node p).texture_array = some a ∧
          h1.textures.getD a [] = PNG.texture_table fbx_scene) ∧
      (∀ name' lt' gt' mesh' light' camera' children' root' (h0 : PNG.Heap F) p' h0',
        PNG.load_node ext fbx_scene (.mk name' lt' gt' mesh' light' camera' false children')
          root' h0 = .ok (p', h0') →
        ∃ h2, PNG.load_payload ext fbx_scene mesh' light' camera' false p' root'
            (PNG.load_header ext name' lt' h0).2 = .ok (root', h2) ∧
          (∀ m, mesh' = some m → ∃ mesh_parts,
            PNG.mesh_parts_loop ext m root' (PNG.load_header ext name' lt' h0).2
              m.material_parts 0 = .ok mesh_parts) ∧
          PNG.load_children ext fbx_scene children' p' root'
            (h2.update p' fun n =>
              { n with child_array := [], child_count := children'.length })
            = .ok h0')) :=
  ⟨fun h p h' hr =>
      pbr_load_node_root_texture_table ext fbx_scene name lt gt light children root h p h' hl hr,
    fun h p h' hr =>
      png_load_node_root_texture_table ext fbx_scene name lt gt light children root h p h' hl hr⟩

/-- Witness of C9 on the root of `chain_scene`, in both variants. -/
theorem load_node_root_texture_table_witness :
    light_is_point_spot_or_directional none = false ∧
    PBR.load_node fan_ext chain_scene
      (.mk "root" (transform_of ⟨0, 0, 10⟩ ⟨1, 1, 1⟩) identity_transform none none none true
        [.mk "a" identity_transform (transform_of ⟨0, 0, 0⟩ ⟨2, 2, 2⟩) (some quad_mesh) none
          none false
          [.mk "b" (transform_of ⟨1, 0, 0⟩ ⟨1, 1, 1⟩) identity_transform none none none false
            []]])
      none PBR.Heap.empty = .ok (0, chain_heap) ∧
    PNG.load_node fan_ext chain_scene
      (.mk "root" (transform_of ⟨0, 0, 10⟩ ⟨1, 1, 1⟩) identity_transform none none none true
        [.mk "a" identity_transform (transform_of ⟨0, 0, 0⟩ ⟨2, 2, 2⟩) (some quad_mesh) none
          none false
          [.mk "b" (transform_of ⟨1, 0, 0⟩ ⟨1, 1, 1⟩) identity_transform none none none false
            []]])
      none PNG.Heap.empty = .ok (0, png_chain_heap) ∧
    (chain_heap.node 0).texture_count = chain_scene.textures.length ∧
    (PBR.texture_table fan_ext chain_scene).length = chain_scene.textures.length ∧
    (png_chain_heap.node 0).texture_count = chain_scene.textures.length ∧
    (PNG.texture_table chain_scene).length = chain_scene.textures.length :=
  ⟨rfl, rfl, rfl,
    ((load_node_root_texture_table fan_ext chain_scene "root"
      (transform_of ⟨0, 0, 10⟩ ⟨1, 1, 1⟩) identity_transform none
      [.mk "a" identity_transform (transform_of ⟨0, 0, 0⟩ ⟨2, 2, 2⟩) (some quad_mesh) none
        none false
        [.mk "b" (transform_of ⟨1, 0, 0⟩ ⟨1, 1, 1⟩) identity_transform none none none false
          []]]
      none rfl).1 PBR.Heap.empty 0 chain_heap rfl).1,
    ((load_node_root_texture_table fan_ext chain_scene "root"
      (transform_of ⟨0, 0, 10⟩ ⟨1, 1, 1⟩) identity_transform none
      [.mk "a" identity_transform (transform_of ⟨0, 0, 0⟩ ⟨2, 2, 2⟩) (some quad_mesh) none
        none false
        [.mk "b" (transform_of ⟨1, 0, 0⟩ ⟨1, 1, 1⟩) identity_transform none none none false
          []]]
      none rfl).1 PBR.Heap.empty 0 chain_heap rfl).2.1,
    ((load_node_root_texture_table fan_ext chain_scene "root"
      (transform_of ⟨0, 0, 10⟩ ⟨1, 1, 1⟩) identity_transform none
      [.mk "a" identity_transform (transform_of ⟨0, 0, 0⟩ ⟨2, 2, 2⟩) (some quad_mesh) none
        none false
        [.mk "b" (transform_of ⟨1, 0, 0⟩ ⟨1, 1, 1⟩) identity_transform none none none false
          []]]
      none rfl).2 PNG.Heap.empty 0 png_chain_heap rfl).1,
    ((load_node_root_texture_table fan_ext chain_scene "root"
      (transform_of ⟨0, 0, 10⟩ ⟨1, 1, 1⟩) identity_transform none
      [.mk "a" identity_transform (transform_of ⟨0, 0, 0⟩ ⟨2, 2, 2⟩) (some quad_mesh) none
        none false
        [.mk "b" (transform_of ⟨1, 0, 0⟩ ⟨1, 1, 1⟩) identity_transform none none none false
          []]]
      none rfl).2 PNG.Heap.empty 0 png_chain_heap rfl).2.1⟩

end GPU

namespace GPU

/-- C11: in the PBR variant and in the PNG-loading variant, the Mesh Part built
for material partition `material_index` has `color_texture` set if and only if
that material declares a base-color texture whose file name equals the path of
some entry of the texture table of the node handed to `load_mesh_part`; when
set, it points at an entry of that table whose path equals the file name; and
it is unset when the material declares no base-color texture or no entry of
the table has the file name as its path. -/
theorem color_texture_resolution {D F : Type} [Zero F] [One F] [DecidableEq F]
    (ext : Ext D F) (mesh : ufbx_mesh D) (part : ufbx_mesh_part) (material_index : Nat)
    (p : Nat) :
    (∀ (h : PBR.Heap F) (r : PBR.Mesh_Part F),
      PBR.load_mesh_part ext mesh part material_index (some p) h = .ok r →
      (r.color_texture.isSome ↔
        ∃ material texture i, mesh.materials.get? material_index = some material ∧
          material.base_color_texture = some texture ∧ i < (h.node p).texture_count ∧
          PBR.table_entry_matches h (h.node p) texture.filename i) ∧
      (∀ arr i, r.color_texture = some (arr, i) →
        (h.node p).texture_array = some arr ∧ i < (h.node p).texture_count ∧
        ∃ material texture entry, mesh.materials.get? material_index = some material ∧
          material.base_color_texture = some texture ∧
          (h.textures.getD arr []).get? i = some entry ∧ entry.path = texture.filename) ∧
      (∀ material, mesh.materials.get? material_index = some material →
        material.base_color_texture = none → r.color_texture = none) ∧
      (∀ material texture, mesh.materials.get? material_index = some material →
        material.base_color_texture = some texture →
        (∀ i, i < (h.node p).texture_count →
          ¬ PBR.table_entry_matches h (h.node p) texture.filename i) →
        r.color_texture = none)) ∧
    (∀ (h : PNG.Heap F) (r : PNG.Mesh_Part F),
      PNG.load_mesh_part ext mesh part material_index (some p) h = .ok r →
      (r.color_texture.isSome ↔
        ∃ material texture i, mesh.materials.get? material_index = some material ∧
          material.base_color_texture = some texture ∧ i < (h.node p).texture_count ∧
          PNG.table_entry_matches h (h.node p) texture.filename i) ∧
      (∀ arr i, r.color_texture = some (arr, i) →
        (h.node p).texture_array = some arr ∧ i < (h.node p).texture_count ∧
        ∃ material texture entry, mesh.materials.get? material_index = some material ∧
          material.base_color_texture = some texture ∧
          (h.textures.getD arr []).get? i = some entry ∧ entry.path = texture.filename) ∧
      (∀ material, mesh.materials.get? material_index = some material →
        material.base_color_texture = none → r.color_texture = none) ∧
      (∀ material texture, mesh.materials.get? material_index = some material →
        material.base_color_texture = some texture →
        (∀ i, i < (h.node p).texture_count →
          ¬ PNG.table_entry_matches h (h.node p) texture.filename i) →
        r.color_texture = none)) := by
  constructor
  · intro h r hr
    obtain ⟨hiff, hset⟩ := PBR.pbr_color_texture_resolution ext mesh part material_index p h r hr
    refine ⟨hiff, hset, ?_, ?_⟩
    · intro material hm hb
      cases hct : r.color_texture with
      | none => rfl
      | some ct =>
        obtain ⟨material', texture, i, hm', hb', _, _⟩ := hiff.mp (by rw [hct]; rfl)
        rw [hm] at hm'
        cases hm'
        rw [hb] at hb'
        cases hb'
    · intro material texture hm hb hno
      cases hct : r.color_texture with
      | none => rfl
      | some ct =>
        obtain ⟨material', texture', i, hm', hb', hi, hM⟩ := hiff.mp (by rw [hct]; rfl)
        rw [hm] at hm'
        cases hm'
        rw [hb] at hb'
        cases hb'
        exact absurd hM (hno i hi)
  · intro h r hr
    obtain ⟨hiff, hset⟩ := PNG.png_color_texture_resolution ext mesh part material_index p h r hr
    refine ⟨hiff, hset, ?_, ?_⟩
    · intro material hm hb
      cases hct : r.color_texture with
      | none => rfl
      | some ct =>
        obtain ⟨material', texture, i, hm', hb', _, _⟩ := hiff.mp (by rw [hct]; rfl)
        rw [hm] at hm'
        cases hm'
        rw [hb] at hb'
        cases hb'
    · intro material texture hm hb hno
      cases hct : r.color_texture with
      | none => rfl
      | some ct =>
        obtain ⟨material', texture', i, hm', hb', hi, hM⟩ := hiff.mp (by rw [hct]; rfl)
        rw [hm] at hm'
        cases hm'
        rw [hb] at hb'
        cases hb'
        exact absurd hM (hno i hi)

/-- Witness of C11: in the PBR variant on the quad, whose material names
`a.png` while the table holds `a.png` at position 0, and in the PNG-loading
variant on the first partition of `twin_mesh`, whose table holds `a.png` at
positions 0 and 1. -/
theorem color_texture_resolution_witness :
    PBR.load_mesh_part fan_ext quad_mesh quad_part 0 (some 0) table_heap = .ok quad_mesh_part ∧
    PNG.load_mesh_part fan_ext twin_mesh ⟨1, [0]⟩ 0 (some 0) png_twin_heap
      = .ok png_twin_mesh_part_0 ∧
    quad_mesh_part.color_texture = some (0, 0) ∧
    png_twin_mesh_part_0.color_texture = some (0, 1) ∧
    (quad_mesh_part.color_texture.isSome ↔
      ∃ material texture i, quad_mesh.materials.get? 0 = some material ∧
        material.base_color_texture = some texture ∧ i < (table_heap.node 0).texture_count ∧
        PBR.table_entry_matches table_heap (table_heap.node 0) texture.filename i) ∧
    (png_twin_mesh_part_0.color_texture.isSome ↔
      ∃ material texture i, twin_mesh.materials.get? 0 = some material ∧
        material.base_color_texture = some texture ∧
        i < (png_twin_heap.node 0).texture_count ∧
        PNG.table_entry_matches png_twin_heap (png_twin_heap.node 0) texture.filename i) :=
  ⟨rfl, rfl, rfl, by decide,
    ((color_texture_resolution fan_ext quad_mesh quad_part 0 0).1 table_heap quad_mesh_part
      rfl).1,
    ((color_texture_resolution fan_ext twin_mesh ⟨1, [0]⟩ 0 0).2 png_twin_heap
      png_twin_mesh_part_0 rfl).1⟩

end GPU

namespace GPU

/-- C12 (amended): the texture table built by `load_node` at a root without
payload has one entry per texture of the source scene, in scene order; the
path of the entry is `get_asset_path(relative_filename)` in the PBR variant and
a copy of `relative_filename` in the PNG-loading variant; no two entries have
equal paths exactly when no two textures of the scene have equal such
paths. -/
theorem texture_table_entries {D F : Type} [Zero F] [One F] [DecidableEq F]
    (ext : Ext D F) (fbx_scene : ufbx_scene D) (name : String) (lt gt : ufbx_transform D)
    (light : Option ufbx_light) (children : List (ufbx_node D)) (root : Option Nat)
    (hl : light_is_point_spot_or_directional light = false) :
    (∀ (h : PBR.Heap F) (p : Nat) (h' : PBR.Heap F),
      PBR.load_node ext fbx_scene (.mk name lt gt none light none true children) root h
        = .ok (p, h') →
      ∃ a table, (h'.node p).texture_array = some a ∧ h'.textures.getD a [] = table ∧
        table.length = fbx_scene.textures.length ∧
        (h'.node p).texture_count = table.length ∧
        (∀ i, table.get? i = (fbx_scene.textures.get? i).map fun fbx_texture =>
          ⟨ext.get_asset_path fbx_texture.relative_filename⟩) ∧
        ((table.map Texture.path).Nodup ↔
          (fbx_scene.textures.map fun fbx_texture =>
            ext.get_asset_path fbx_texture.relative_filename).Nodup)) ∧
    (∀ (h : PNG.Heap F) (p : Nat) (h' : PNG.Heap F),
      PNG.load_node ext fbx_scene (.mk name lt gt none light none true children) root h
        = .ok (p, h') →
      ∃ a table, (h'.node p).texture_array = some a ∧ h'.textures.getD a [] = table ∧
        table.length = fbx_scene.textures.length ∧
        (h'.node p).texture_count = table.length ∧
        (∀ i, table.get? i = (fbx_scene.textures.get? i).map fun fbx_texture =>
          ⟨fbx_texture.relative_filename⟩) ∧
        ((table.map Texture.path).Nodup ↔
          (fbx_scene.textures.map fun fbx_texture =>
            fbx_texture.relative_filename).Nodup)) :=
  ⟨fun h p h' hr =>
      pbr_texture_table_entries ext fbx_scene name lt gt light children root h p h' hl hr,
    fun h p h' hr =>
      png_texture_table_entries ext fbx_scene name lt gt light children root h p h' hl hr⟩

/-- Witness of C12 on the root of `twin_scene`, with asset paths resolved
below `assets/`: the table of the PBR variant holds `assets/a.png` twice, that
of the PNG-loading variant `a.png` twice. -/
theorem texture_table_entries_witness :
    light_is_point_spot_or_directional none = false ∧
    PBR.load_node asset_ext twin_scene
      (.mk "root" identity_transform identity_transform none none none true
        [.mk "m" identity_transform identity_transform (some twin_mesh) none none false []])
      none PBR.Heap.empty = .ok (0, asset_twin_heap) ∧
    PNG.load_node asset_ext twin_scene
      (.mk "root" identity_transform identity_transform none none none true
        [.mk "m" identity_transform identity_transform (some twin_mesh) none none false []])
      none PNG.Heap.empty = .ok (0, png_asset_twin_heap) ∧
    asset_twin_heap.textures.getD 0 [] = [⟨"assets/a.png"⟩, ⟨"assets/a.png"⟩] ∧
    png_asset_twin_heap.textures.getD 0 [] = [⟨"a.png"⟩, ⟨"a.png"⟩] ∧
    (∃ a table, (asset_twin_heap.node 0).texture_array = some a ∧
      asset_twin_heap.textures.getD a [] = table ∧
      table.length = twin_scene.textures.length ∧
      (asset_twin_heap.node 0).texture_count = table.length ∧
      (∀ i, table.get? i = (twin_scene.textures.get? i).map fun fbx_texture =>
        ⟨asset_ext.get_asset_path fbx_texture.relative_filename⟩) ∧
      ((table.map Texture.path).Nodup ↔
        (twin_scene.textures.map fun fbx_texture =>
          asset_ext.get_asset_path fbx_texture.relative_filename).Nodup)) ∧
    ∃ a table, (png_asset_twin_heap.node 0).texture_array = some a ∧
      png_asset_twin_heap.textures.getD a [] = table ∧
      table.length = twin_scene.textures.length ∧
      (png_asset_twin_heap.node 0).texture_count = table.length ∧
      (∀ i, table.get? i = (twin_scene.textures.get? i).map fun fbx_texture =>
        ⟨fbx_texture.relative_filename⟩) ∧
      ((table.map Texture.path).Nodup ↔
        (twin_scene.textures.map fun fbx_texture => fbx_texture.relative_filename).Nodup) :=
  ⟨rfl, rfl, rfl, by decide, by decide,
    (texture_table_entries asset_ext twin_scene "root" identity_transform identity_transform
      none
      [.mk "m" identity_transform identity_transform (some twin_mesh) none none false []]
      none rfl).1 PBR.Heap.empty 0 asset_twin_heap rfl,
    (texture_table_entries asset_ext twin_scene "root" identity_transform identity_transform
      none
      [.mk "m" identity_transform identity_transform (some twin_mesh) none none false []]
      none rfl).2 PNG.Heap.empty 0 png_asset_twin_heap rfl⟩

end GPU

namespace GPU

/-- The table a root without payload ends up with holds, for every path, as
many entries with that path as the scene has textures whose asset path it
is. -/
theorem pbr_root_table_count {D F : Type} [Zero F] [One F] [DecidableEq F]
    (ext : Ext D F) (fbx_scene : ufbx_scene D) (name : String) (lt gt : ufbx_transform D)
    (light : Option ufbx_light) (children : List (ufbx_node D)) (root : Option Nat)
    (h : PBR.Heap F) (p : Nat) (h' : PBR.Heap F)
    (hl : light_is_point_spot_or_directional light = false)
    (hr : PBR.load_node ext fbx_scene (.mk name lt gt none light none true children) root h
      = .ok (p, h')) :
    ∃ a, (h'.node p).texture_array = some a ∧
      (h'.node p).texture_count = (h'.textures.getD a []).length ∧
      ∀ path : String,
        ((h'.textures.getD a []).filter fun entry => entry.path = path).length =
          (fbx_scene.textures.filter fun fbx_texture =>
            ext.get_asset_path fbx_texture.relative_filename = path).length := by
  obtain ⟨htc, a, hta, htab⟩ :=
    pbr_root_table ext fbx_scene name lt gt light children root h p h' hl hr
  refine ⟨a, hta, ?_, ?_⟩
  · rw [htc, htab]
    simp [PBR.texture_table]
  · intro path
    rw [htab]
    simp [PBR.texture_table, List.filter_map, Function.comp_def]

/-- C13 (amended): when two materials of a mesh declare base-color textures
with the same file name, the Mesh Parts built for them against the same table
have the same `color_texture`: unset exactly when no table entry has that
path, and otherwise pointing at the last table entry that has it.  The table
built by `load_node` at a root without payload holds, for every path, as many
entries with that path as the source scene has textures whose asset path
`get_asset_path(relative_filename)` is that path. -/
theorem same_filename_same_color_texture {D F : Type} [Zero F] [One F] [DecidableEq F]
    (ext : Ext D F) (mesh : ufbx_mesh D) (part1 part2 : ufbx_mesh_part) (i j : Nat)
    (m1 m2 : ufbx_material) (t1 t2 : ufbx_texture)
    (hm1 : mesh.materials.get? i = some m1) (hm2 : mesh.materials.get? j = some m2)
    (hb1 : m1.base_color_texture = some t1) (hb2 : m2.base_color_texture = some t2)
    (hf : t1.filename = t2.filename) :
    (∀ (p : Nat) (h : PBR.Heap F) (r1 r2 : PBR.Mesh_Part F),
      PBR.load_mesh_part ext mesh part1 i (some p) h = .ok r1 →
      PBR.load_mesh_part ext mesh part2 j (some p) h = .ok r2 →
      r1.color_texture = r2.color_texture ∧
      (r1.color_texture = none ↔ ∀ k, k < (h.node p).texture_count →
        ¬ PBR.table_entry_matches h (h.node p) t1.filename k) ∧
      ∀ arr k, r1.color_texture = some (arr, k) →
        (h.node p).texture_array = some arr ∧ k < (h.node p).texture_count ∧
        PBR.table_entry_matches h (h.node p) t1.filename k ∧
        ∀ k', k < k' → k' < (h.node p).texture_count →
          ¬ PBR.table_entry_matches h (h.node p) t1.filename k') ∧
    (∀ (fbx_scene : ufbx_scene D) (name : String) (lt gt : ufbx_transform D)
        (light : Option ufbx_light) (children : List (ufbx_node D)) (root : Option Nat)
        (h : PBR.Heap F) (p : Nat) (h' : PBR.Heap F),
      light_is_point_spot_or_directional light = false →
      PBR.load_node ext fbx_scene (.mk name lt gt none light none true children) root h
        = .ok (p, h') →
      ∃ a, (h'.node p).texture_array = some a ∧
        (h'.node p).texture_count = (h'.textures.getD a []).length ∧
        ∀ path : String,
          ((h'.textures.getD a []).filter fun entry => entry.path = path).length =
            (fbx_scene.textures.filter fun fbx_texture =>
              ext.get_asset_path fbx_texture.relative_filename = path).length) :=
  ⟨fun p h r1 r2 hr1 hr2 =>
      pbr_same_filename_same_color_texture ext mesh part1 part2 i j p h r1 r2 m1 m2 t1 t2
        hm1 hm2 hb1 hb2 hf hr1 hr2,
    fun fbx_scene name lt gt light children root h p h' hl hr =>
      pbr_root_table_count ext fbx_scene name lt gt light children root h p h' hl hr⟩

/-- Witness of C13 on the two partitions of `twin_mesh` and the table of
`twin_scene`, which holds two entries for `a.png`, one per scene texture. -/
theorem same_filename_same_color_texture_witness :
    twin_mesh.materials.get? 0 = some a_png_material ∧
    twin_mesh.materials.get? 1 = some a_png_material ∧
    a_png_material.base_color_texture = some ⟨"a.png", "a.png"⟩ ∧
    PBR.load_mesh_part fan_ext twin_mesh ⟨1, [0]⟩ 0 (some 0) twin_heap = .ok twin_mesh_part_0 ∧
    PBR.load_mesh_part fan_ext twin_mesh ⟨1, [1]⟩ 1 (some 0) twin_heap = .ok twin_mesh_part_1 ∧
    PBR.load_node fan_ext twin_scene
      (.mk "root" identity_transform identity_transform none none none true
        [.mk "m" identity_transform identity_transform (some twin_mesh) none none false []])
      none PBR.Heap.empty = .ok (0, twin_heap) ∧
    (twin_scene.textures.filter fun fbx_texture =>
      fan_ext.get_asset_path fbx_texture.relative_filename = "a.png").length = 2 ∧
    (twin_mesh_part_0.color_texture = twin_mesh_part_1.color_texture ∧
      (twin_mesh_part_0.color_texture = none ↔ ∀ k, k < (twin_heap.node 0).texture_count →
        ¬ PBR.table_entry_matches twin_heap (twin_heap.node 0) "a.png" k) ∧
      ∀ arr k, twin_mesh_part_0.color_texture = some (arr, k) →
        (twin_heap.node 0).texture_array = some arr ∧ k < (twin_heap.node 0).texture_count ∧
        PBR.table_entry_matches twin_heap (twin_heap.node 0) "a.png" k ∧
        ∀ k', k < k' → k' < (twin_heap.node 0).texture_count →
          ¬ PBR.table_entry_matches twin_heap (twin_heap.node 0) "a.png" k') ∧
    ∃ a, (twin_heap.node 0).texture_array = some a ∧
      (twin_heap.node 0).texture_count = (twin_heap.textures.getD a []).length ∧
      ∀ path : String,
        ((twin_heap.textures.getD a []).filter fun entry => entry.path = path).length =
          (twin_scene.textures.filter fun fbx_texture =>
            fan_ext.get_asset_path fbx_texture.relative_filename = path).length :=
  ⟨rfl, rfl, rfl, rfl, rfl, rfl, by decide,
    (same_filename_same_color_texture fan_ext twin_mesh ⟨1, [0]⟩ ⟨1, [1]⟩ 0 1
      a_png_material a_png_material ⟨"a.png", "a.png"⟩ ⟨"a.png", "a.png"⟩ rfl rfl rfl rfl
      rfl).1 0 twin_heap twin_mesh_part_0 twin_mesh_part_1 rfl rfl,
    (same_filename_same_color_texture fan_ext twin_mesh ⟨1, [0]⟩ ⟨1, [1]⟩ 0 1
      a_png_material a_png_material ⟨"a.png", "a.png"⟩ ⟨"a.png", "a.png"⟩ rfl rfl rfl rfl
      rfl).2 twin_scene "root" identity_transform identity_transform none
      [.mk "m" identity_transform identity_transform (some twin_mesh) none none false []]
      none PBR.Heap.empty 0 twin_heap rfl rfl⟩

end GPU

namespace GPU

/-- C14: in the PBR variant and in the FBX-loading variant, the Node built by
`load_node` has no parent yet (the root of the import keeps `parent` unset),
its `child_count` is the source node's child count, and its `i`-th child
pointer leads to the Node imported from the source's `i`-th child, whose
`parent` is that Node; the same holds, level by level, below each child
(`Imported`). -/
theorem load_node_children {D F : Type} [Zero F] [One F] [DecidableEq F] (ext : Ext D F)
    (name : String) (lt gt : ufbx_transform D) (mesh : Option (ufbx_mesh D))
    (light : Option ufbx_light) (camera : Option ufbx_camera) (is_root : Bool)
    (children : List (ufbx_node D)) :
    (∀ (fbx_scene : ufbx_scene D) (root : Option Nat) (h : PBR.Heap F) (p : Nat)
        (h' : PBR.Heap F),
      PBR.load_node ext fbx_scene (.mk name lt gt mesh light camera is_root children) root h
        = .ok (p, h') →
      (h'.node p).parent = none ∧
      (h'.node p).child_count = children.length ∧
      (h'.node p).child_array.length = children.length ∧
      (∀ i fbx_child, children.get? i = some fbx_child →
        ∃ c, (h'.node p).child_array.get? i = some c ∧ (h'.node c).parent = some p ∧
          PBR.Imported ext h' fbx_child c) ∧
      PBR.Imported ext h' (.mk name lt gt mesh light camera is_root children) p) ∧
    (∀ (h : FBX.Heap F) (p : Nat) (h' : FBX.Heap F),
      FBX.load_node ext (.mk name lt gt mesh light camera is_root children) h = .ok (p, h') →
      (h'.node p).parent = none ∧
      (h'.node p).child_count = children.length ∧
      (h'.node p).child_array.length = children.length ∧
      (∀ i fbx_child, children.get? i = some fbx_child →
        ∃ c, (h'.node p).child_array.get? i = some c ∧ (h'.node c).parent = some p ∧
          FBX.Imported ext h' fbx_child c) ∧
      FBX.Imported ext h' (.mk name lt gt mesh light camera is_root children) p) :=
  ⟨fun fbx_scene root h p h' hr =>
      PBR.pbr_load_node_children ext fbx_scene name lt gt mesh light camera is_root children
        root h p h' hr,
    fun h p h' hr =>
      FBX.fbx_load_node_children ext name lt gt mesh light camera is_root children h p h' hr⟩

/-- Witness of C14 on the root of `chain_scene`, in both variants. -/
theorem load_node_children_witness :
    PBR.load_node fan_ext chain_scene
      (.mk "root" (transform_of ⟨0, 0, 10⟩ ⟨1, 1, 1⟩) identity_transform none none none true
        [.mk "a" identity_transform (transform_of ⟨0, 0, 0⟩ ⟨2, 2, 2⟩) (some quad_mesh) none
          none false
          [.mk "b" (transform_of ⟨1, 0, 0⟩ ⟨1, 1, 1⟩) identity_transform none none none false
            []]])
      none PBR.Heap.empty = .ok (0, chain_heap) ∧
    FBX.load_node fan_ext
      (.mk "root" (transform_of ⟨0, 0, 10⟩ ⟨1, 1, 1⟩) identity_transform none none none true
        [.mk "a" identity_transform (transform_of ⟨0, 0, 0⟩ ⟨2, 2, 2⟩) (some quad_mesh) none
          none false
          [.mk "b" (transform_of ⟨1, 0, 0⟩ ⟨1, 1, 1⟩) identity_transform none none none false
            []]])
      FBX.Heap.empty = .ok (0, fbx_chain_heap) ∧
    (chain_heap.node 0).child_array = [1] ∧ (chain_heap.node 1).child_array = [2] ∧
    (chain_heap.node 1).parent = some 0 ∧ (chain_heap.node 2).parent = some 1 ∧
    (fbx_chain_heap.node 0).child_array = [1] ∧ (fbx_chain_heap.node 1).child_array = [2] ∧
    (fbx_chain_heap.node 1).parent = some 0 ∧ (fbx_chain_heap.node 2).parent = some 1 ∧
    ((chain_heap.node 0).parent = none ∧
      (chain_heap.node 0).child_count = 1 ∧
      (chain_heap.node 0).child_array.length = 1) ∧
    (fbx_chain_heap.node 0).parent = none ∧
      (fbx_chain_heap.node 0).child_count = 1 ∧
      (fbx_chain_heap.node 0).child_array.length = 1 :=
  ⟨rfl, rfl, by decide, by decide, by decide, by decide, by decide, by decide, by decide,
    by decide,
    (fun hp => ⟨hp.1, hp.2.1, hp.2.2.1⟩)
      ((load_node_children fan_ext "root" (transform_of ⟨0, 0, 10⟩ ⟨1, 1, 1⟩)
        identity_transform none none none true
        [.mk "a" identity_transform (transform_of ⟨0, 0, 0⟩ ⟨2, 2, 2⟩) (some quad_mesh) none
          none false
          [.mk "b" (transform_of ⟨1, 0, 0⟩ ⟨1, 1, 1⟩) identity_transform none none none false
            []]]).1 chain_scene none PBR.Heap.empty 0 chain_heap rfl),
    (fun hf => ⟨hf.1, hf.2.1, hf.2.2.1⟩)
      ((load_node_children fan_ext "root" (transform_of ⟨0, 0, 10⟩ ⟨1, 1, 1⟩)
        identity_transform none none none true
        [.mk "a" identity_transform (transform_of ⟨0, 0, 0⟩ ⟨2, 2, 2⟩) (some quad_mesh) none
          none false
          [.mk "b" (transform_of ⟨1, 0, 0⟩ ⟨1, 1, 1⟩) identity_transform none none none false
            []]]).2 FBX.Heap.empty 0 fbx_chain_heap rfl)⟩

end GPU
